import Mathlib

/-!
# deal.II `AlignedVector<T>` and `SparsityPattern`: embedding and verified properties

Sources: `include/deal.II/base/aligned_vector.h` and `source/lac/sparsity_pattern.cc`.

## How the C++ is represented

* A `T *` is a natural number, the address; `0` is `nullptr`.
* The three pointers of the class (`elements.get()`, `used_elements_end`,
  `allocated_elements_end`) are only ever subtracted from and compared with each
  other, so an `AlignedVector` stores `elements` (the address of the block), the
  list `live` of the objects in `[elements.get(), used_elements_end)` and the number
  `allocated_size = allocated_elements_end - elements.get()`.
* A slot of memory is an `Option T`: `none` is a slot whose value is
  indeterminate (raw storage that has been claimed but never written).
* Element counts are natural numbers (`std::size_t` arithmetic on counts that fit
  the address space).
* A member function is a function from the object before the call to an
  `Outcome`: the exception that left the function (if any), the object after the
  call, and the destructor/deallocation calls made, in order.
* `Assert(cond, exc)` is active in debug builds only; `running_in_debug_mode()` is
  a field of `Platform`.
* What is not in the header (the allocation wrapper `posix_memalign`, the
  parallel-for driver behind `apply_parallel`) is a field of `Platform`, together
  with the contract the header relies on.
* Moving or copying an object produces, in the destination slot, the value held
  by the source slot.
* The argument of copy assignment is a `Reference`: another object, or the object
  the function is called on. Move assignment and `swap` take the other object and
  return both objects.
* An archive is the list of the items written to it: an element count, or an array
  of slots.
* `replicate_across_communicator` is collective: the embedding takes the objects of
  all processes, `world r` being the object of the process with rank `r`, and gives
  the outcome on one process. What MPI returns is a `Communicator`; a process reads
  in the shared window what the rank 0 of its shared-memory group has stored there.
  Every MPI call returns `MPI_SUCCESS`, so `AssertThrowMPI` does not throw; the
  release of a shared window (`MPI_Win_free`, a collective call that returns only
  when every process of the group makes it) is recorded as an event, and what is
  stated about a function that releases a window is what the call leaves once the
  release has returned.
* `operator==` compares with the `operator!=` of `T`, a field of `ElementType`: it
  need not be the negation of equality (a NaN differs from itself).
* `resize(new_size, init)` takes `init` by reference: `resize_value` is the call
  with an object outside the vector, `resize_value_of_element` the call with a
  reference to an element of the vector.
* The byte count that `replicate_across_communicator` passes to `MPI_Bcast` is an
  `int`: `int_from_size_t` is the conversion from `std::size_t`.
* Where a release build runs past a condition that a debug build asserts, the C++
  behaviour is undefined; the embedding simply continues there, and every
  property below that depends on such a condition states it as a hypothesis.
* The arrays `rowstart` and `colnums` of a `SparsityPattern` are lists of natural
  numbers (`none` for `nullptr`); `a[i]` reads `a.getD i 0` and `a[i] = x` is
  `a.set i x`, and a newly allocated array holds zeros. What `sparsity_pattern.cc`
  takes from its header and from the standard library (`invalid_entry`, `std::sort`,
  the two binary searches, `n_nonzero_elements()`) is a `Declarations`, together with
  the contract the file relies on.
-/

namespace dealii

/-- Exceptions that can leave the member functions modelled here;
`archive_exception` is `boost::archive::archive_exception`, raised by an archive
that does not hold what is read from it, and the ones after it are those of
`SparsityPattern` (`ExcIndexRange index lower upper` is what `AssertIndexRange`
raises, `ExcDimensionMismatch` what `AssertDimension` raises). -/
inductive Exc where
  | ExcAlignedVectorChangeAfterReplication
  | ExcInternalError
  | ExcMessage
  | ExcOutOfMemory (size : Nat)
  | archive_exception
  | ExcEmptyObject
  | ExcNotCompressed
  | ExcMatrixIsCompressed
  | ExcNotEnoughSpace (row : Nat) (length : Nat)
  | ExcIndexRange (index : Nat) (lower : Nat) (upper : Nat)
  | ExcDimensionMismatch (dim1 : Nat) (dim2 : Nat)
  deriving DecidableEq

/-- Observable calls made while storage is released: `p->~T()` on the element with
the given index of the block at address `block`, `std::free(ptr)`, `MPI_Win_free`
and `Utilities::MPI::free_communicator`. -/
inductive Event where
  | destructor (block : Nat) (index : Nat)
  | free (ptr : Nat)
  | MPI_Win_free (shmem_window : Nat)
  | free_communicator (shmem_group_communicator : Nat)
  deriving DecidableEq

/-- What the header asks of the element type `T`: `sizeof(T)`, the type traits it
branches on, the value `T()`, the object all of whose bytes are zero (what
`std::memset(.., 0, ..)` leaves in a slot), the test
`std::memcmp(zero, &element, sizeof(T)) == 0`,
`MemoryConsumption::memory_consumption`, and `operator!=` of `T`, which
`operator==` of two vectors applies to their elements (nothing is asked of it: an
object need not compare equal to itself, as a floating-point NaN does not). An
object is determined by its bytes, so an element that passes the `memcmp` test is
the all-zero object. -/
structure ElementType (T : Type) where
  sizeof : Nat
  sizeof_pos : 0 < sizeof
  is_trivially_copyable : Bool
  is_trivially_default_constructible : Bool
  is_trivially_destructible : Bool
  is_long_double : Bool
  value_initialized : T
  zero_bytes : T
  memcmp_zero : T → Bool
  memcmp_zero_eq : ∀ e, memcmp_zero e = true → e = zero_bytes
  memory_consumption : T → Nat
  operator_ne : T → T → Bool

/-- The environment of the header.

* `running_in_debug_mode`: whether `Assert` is active.
* `posix_memalign alignment size`: the outcome of
  `Utilities::System::posix_memalign`: `none` when it throws `ExcOutOfMemory`,
  `some p` when it returns the address `p`; a block of positive size is not at
  `nullptr`.
* `subranges begin end grain`: the subranges `[lo, hi)` on which the parallel-for
  driver behind `ParallelForInteger::apply_parallel` calls `apply_to_subrange`, in
  the order in which the calls take effect. Modelled from the spec: the driver
  "executes body on a partition of [first,last)" and "returns after all subranges
  complete"; only that the subranges lie inside the range and cover it is used.
* `temporary_object`: the address of the local object `temporary` of `insert`.

The outcome of an allocation is a function of the request. Nothing proved below
compares the addresses of two blocks, and every statement holds for every such
function. -/
structure Platform where
  running_in_debug_mode : Bool
  posix_memalign : Nat → Nat → Option Nat
  posix_memalign_ne_null :
    ∀ alignment size p, 0 < size → posix_memalign alignment size = some p → p ≠ 0
  subranges : Nat → Nat → Nat → List (Nat × Nat)
  subranges_within :
    ∀ begin_ end_ grain r, begin_ ≤ end_ → r ∈ subranges begin_ end_ grain →
      begin_ ≤ r.1 ∧ r.1 ≤ r.2 ∧ r.2 ≤ end_
  subranges_cover :
    ∀ begin_ end_ grain i, begin_ ≤ i → i < end_ →
      ∃ r ∈ subranges begin_ end_ grain, r.1 ≤ i ∧ i < r.2
  temporary_object : Nat

/-- The macro `Assert(cond, exc)`: in a debug build a false condition raises `exc`;
in a release build the macro expands to nothing. -/
def Assert (P : Platform) (cond : Bool) (exc : Exc) : Option Exc :=
  if P.running_in_debug_mode && !cond then some exc else none

/-- The loop `for (std::size_t i = begin; i < end; ++i) body(i)`. -/
def for_loop {σ : Type} (begin_ end_ : Nat) (body : Nat → σ → σ) (s : σ) : σ :=
  (List.range' begin_ (end_ - begin_)).foldl (fun acc i => body i acc) s

/-- The call `apply_parallel(begin, end, minimum_parallel_grain_size)` of
`ParallelForInteger`: `apply_to_subrange` runs on each subrange chosen by the
driver. -/
def ParallelForInteger.apply_parallel {σ : Type} (P : Platform)
    (apply_to_subrange : Nat → Nat → σ → σ) (begin_ end_ grain : Nat) (s : σ) : σ :=
  (P.subranges begin_ end_ grain).foldl (fun acc r => apply_to_subrange r.1 r.2 acc) s

namespace internal

/-- The constant `minimum_parallel_grain_size = 160000 / sizeof(T) + 1` of the four
bulk-operation classes. -/
def minimum_parallel_grain_size {T : Type} (E : ElementType T) : Nat :=
  160000 / E.sizeof + 1

/-- The call `std::memcpy(destination + begin, source + begin, count * sizeof(T))`, on
whole objects: slot `begin + k` of the destination receives the bytes, hence the
value, of slot `begin + k` of the source, for `k < count`. -/
def memcpy {T : Type} (source : List (Option T)) (begin_ count : Nat)
    (destination : List (Option T)) : List (Option T) :=
  for_loop begin_ (begin_ + count) (fun i d => d.set i (source.getD i none)) destination

/-- The call `std::memset(destination + begin, 0, count * sizeof(T))`, on whole
objects: every byte of the slots `begin + k`, `k < count`, becomes zero. -/
def memset {T : Type} (E : ElementType T) (begin_ count : Nat)
    (destination : List (Option T)) : List (Option T) :=
  for_loop begin_ (begin_ + count) (fun i d => d.set i (some E.zero_bytes)) destination

/-- The member `AlignedVectorCopyConstruct::apply_to_subrange`: `std::memcpy` when `T`
is trivially copyable and the iterator type is `T *` or `const T *`
(`raw_pointers`), otherwise placement copy construction of each element from the
source element with the same index. -/
def AlignedVectorCopyConstruct.apply_to_subrange {T : Type} (E : ElementType T)
    (raw_pointers : Bool) (source : List (Option T)) (begin_ end_ : Nat)
    (destination : List (Option T)) : List (Option T) :=
  if end_ = begin_ then destination
  else if E.is_trivially_copyable && raw_pointers then
    memcpy source begin_ (end_ - begin_) destination
  else for_loop begin_ end_ (fun i d => d.set i (source.getD i none)) destination

/-- The constructor `AlignedVectorCopyConstruct(source_begin, source_end, destination)`.
The source range is the list `source`, so `source_end >= source_begin` holds;
`destination` is the memory that starts at the address `destination_ptr`;
`raw_pointers` tells whether the template argument `RandomAccessIterator` is `T *`
or `const T *`. -/
def AlignedVectorCopyConstruct {T : Type} (P : Platform) (E : ElementType T)
    (raw_pointers : Bool) (source : List (Option T)) (destination_ptr : Nat)
    (destination : List (Option T)) : Except Exc (List (Option T)) :=
  match Assert P (source.length == 0 || destination_ptr != 0) Exc.ExcInternalError with
  | some e => Except.error e
  | none =>
    let size := source.length
    if size < minimum_parallel_grain_size E then
      Except.ok (AlignedVectorCopyConstruct.apply_to_subrange E raw_pointers source
        0 size destination)
    else
      Except.ok (ParallelForInteger.apply_parallel P
        (AlignedVectorCopyConstruct.apply_to_subrange E raw_pointers source) 0 size
        (minimum_parallel_grain_size E) destination)

/-- The member `AlignedVectorMoveConstruct::apply_to_subrange`: `std::memcpy` under the
same condition as for copying, otherwise placement move construction of each
element (the source object stays alive and is destroyed elsewhere). -/
def AlignedVectorMoveConstruct.apply_to_subrange {T : Type} (E : ElementType T)
    (raw_pointers : Bool) (source : List (Option T)) (begin_ end_ : Nat)
    (destination : List (Option T)) : List (Option T) :=
  if end_ = begin_ then destination
  else if E.is_trivially_copyable && raw_pointers then
    memcpy source begin_ (end_ - begin_) destination
  else for_loop begin_ end_ (fun i d => d.set i (source.getD i none)) destination

/-- The constructor `AlignedVectorMoveConstruct(source_begin, source_end, destination)`. -/
def AlignedVectorMoveConstruct {T : Type} (P : Platform) (E : ElementType T)
    (raw_pointers : Bool) (source : List (Option T)) (destination_ptr : Nat)
    (destination : List (Option T)) : Except Exc (List (Option T)) :=
  match Assert P (source.length == 0 || destination_ptr != 0) Exc.ExcInternalError with
  | some e => Except.error e
  | none =>
    let size := source.length
    if size < minimum_parallel_grain_size E then
      Except.ok (AlignedVectorMoveConstruct.apply_to_subrange E raw_pointers source
        0 size destination)
    else
      Except.ok (ParallelForInteger.apply_parallel P
        (AlignedVectorMoveConstruct.apply_to_subrange E raw_pointers source) 0 size
        (minimum_parallel_grain_size E) destination)

/-- The member `AlignedVectorInitialize::apply_to_subrange`: `std::memset` to zero
when `T` is trivially default constructible and `trivial_element` is set,
otherwise `copy_construct_or_assign`, which stores `element_` in every slot (by
placement copy construction when `initialize_memory`, by copy assignment
otherwise). -/
def AlignedVectorInitialize.apply_to_subrange {T : Type} (E : ElementType T)
    (initialize_memory : Bool) (element : T) (trivial_element : Bool)
    (begin_ end_ : Nat) (destination : List (Option T)) : List (Option T) :=
  if E.is_trivially_default_constructible && trivial_element then
    memset E begin_ (end_ - begin_) destination
  else if initialize_memory then
    for_loop begin_ end_ (fun i d => d.set i (some element)) destination
  else
    for_loop begin_ end_ (fun i d => d.set i (some element)) destination

/-- The constructor `AlignedVectorInitialize(size, element, destination)`. -/
def AlignedVectorInitialize {T : Type} (P : Platform) (E : ElementType T)
    (initialize_memory : Bool) (size : Nat) (element : T)
    (destination_ptr : Nat) (destination : List (Option T)) :
    Except Exc (List (Option T)) :=
  if size = 0 then Except.ok destination
  else
    match Assert P (destination_ptr != 0) Exc.ExcInternalError with
    | some e => Except.error e
    | none =>
      let trivial_element : Bool :=
        if E.is_trivially_default_constructible && !E.is_long_double then
          E.memcmp_zero element
        else false
      if size < minimum_parallel_grain_size E then
        Except.ok (AlignedVectorInitialize.apply_to_subrange E initialize_memory element
          trivial_element 0 size destination)
      else
        Except.ok (ParallelForInteger.apply_parallel P
          (AlignedVectorInitialize.apply_to_subrange E initialize_memory element
            trivial_element) 0 size (minimum_parallel_grain_size E) destination)

/-- The member `AlignedVectorDefaultInitialize::apply_to_subrange`: `std::memset` to
zero when `T` is trivially default constructible, otherwise
`default_construct_or_assign` (`new (&destination_[i]) T` when
`initialize_memory`, `destination_[i] = std::move(T())` otherwise). -/
def AlignedVectorDefaultInitialize.apply_to_subrange {T : Type} (E : ElementType T)
    (initialize_memory : Bool) (begin_ end_ : Nat) (destination : List (Option T)) :
    List (Option T) :=
  if E.is_trivially_default_constructible then
    memset E begin_ (end_ - begin_) destination
  else if initialize_memory then
    for_loop begin_ end_ (fun i d => d.set i (some E.value_initialized)) destination
  else
    for_loop begin_ end_ (fun i d => d.set i (some E.value_initialized)) destination

/-- The constructor `AlignedVectorDefaultInitialize(size, destination)`. -/
def AlignedVectorDefaultInitialize {T : Type} (P : Platform) (E : ElementType T)
    (initialize_memory : Bool) (size : Nat)
    (destination_ptr : Nat) (destination : List (Option T)) :
    Except Exc (List (Option T)) :=
  if size = 0 then Except.ok destination
  else
    match Assert P (destination_ptr != 0) Exc.ExcInternalError with
    | some e => Except.error e
    | none =>
      if size < minimum_parallel_grain_size E then
        Except.ok (AlignedVectorDefaultInitialize.apply_to_subrange E initialize_memory
          0 size destination)
      else
        Except.ok (ParallelForInteger.apply_parallel P
          (AlignedVectorDefaultInitialize.apply_to_subrange E initialize_memory)
          0 size (minimum_parallel_grain_size E) destination)

end internal

/-- The class `Deleter::MPISharedMemDeleterAction`. -/
structure MPISharedMemDeleterAction where
  is_shmem_root : Bool
  aligned_shmem_pointer : Nat
  shmem_group_communicator : Nat
  shmem_window : Nat
  deriving DecidableEq

/-- The class `AlignedVector<T>::Deleter`: `deleter_action_object` is `none` for the
default action (the `nullptr` of the source) and `owning_aligned_vector` is the
address of the owning object. -/
structure Deleter where
  deleter_action_object : Option MPISharedMemDeleterAction
  owning_aligned_vector : Nat
  deriving DecidableEq

/-- The class `AlignedVector<T>`. `this_ptr` is the address of the object itself
(what `this` denotes in its member functions), `elements` is `elements.get()`,
`deleter` is `elements.get_deleter()`, `live` holds the slots of
`[elements.get(), used_elements_end)` and `allocated_size` is
`allocated_elements_end - elements.get()`. -/
structure AlignedVector (T : Type) where
  this_ptr : Nat
  elements : Nat
  deleter : Deleter
  live : List (Option T)
  allocated_size : Nat
  replicated_across_communicator : Bool
  deriving DecidableEq

/-- The result of a member function: the exception that left it (`none` for a
normal return), the object afterwards, and the release calls made. -/
structure Outcome (T : Type) where
  thrown : Option Exc
  vec : AlignedVector T
  events : List Event
  deriving DecidableEq

/-- Normal return. -/
def Outcome.ok {T : Type} (v : AlignedVector T) (events : List Event) : Outcome T :=
  { thrown := none, vec := v, events := events }

/-- An exception leaves the function with the object in state `v`. -/
def Outcome.throw {T : Type} (e : Exc) (v : AlignedVector T) (events : List Event) :
    Outcome T :=
  { thrown := some e, vec := v, events := events }

/-- Sequencing of two statements: the second runs only if the first returned. -/
def Outcome.andThen {T : Type} (o : Outcome T) (next : AlignedVector T → Outcome T) :
    Outcome T :=
  match o.thrown with
  | some _ => o
  | none =>
    let r := next o.vec
    { thrown := r.thrown, vec := r.vec, events := o.events ++ r.events }

/-- Slots `[lower, used_end)` of a block visited downwards, as in
`for (T *p = used_elements_end - 1; p >= lower; --p) p->~T();`. -/
def destroy_backward (block used_end lower : Nat) : List Event :=
  ((List.range' lower (used_end - lower)).reverse).map (Event.destructor block)

/-- The member `Deleter::MPISharedMemDeleterAction::delete_array`; `used` is
`aligned_vector->used_elements_end - ptr`. The calls it makes are recorded in
order. `MPI_Win_free` is collective (it returns only when every process of the
shared-memory group calls it) and its return value goes through `AssertThrowMPI`;
neither is represented: the list is what a call that gets past `MPI_Win_free`
with `MPI_SUCCESS` has done. -/
def MPISharedMemDeleterAction.delete_array {T : Type} (E : ElementType T)
    (a : MPISharedMemDeleterAction) (used : Nat) (ptr : Nat) : List Event :=
  (if a.is_shmem_root then
    (if E.is_trivially_destructible = false then destroy_backward ptr used 0 else [])
   else [])
  ++ [Event.MPI_Win_free a.shmem_window, Event.free_communicator a.shmem_group_communicator]

/-- The call operator `Deleter::operator()(T *ptr)`; `used` is
`owning_aligned_vector->used_elements_end - ptr`. (For a non-null `ptr` the
assertion `used_elements_end != nullptr` holds.) -/
def Deleter.call {T : Type} (E : ElementType T) (d : Deleter) (used : Nat) (ptr : Nat) :
    List Event :=
  match d.deleter_action_object with
  | none =>
    if ptr ≠ 0 then
      (if E.is_trivially_destructible = false then destroy_backward ptr used 0 else [])
      ++ [Event.free ptr]
    else []
  | some a => a.delete_array E used ptr

/-- The slots `[p, p + k)` of a region whose first slots are `l`: the first `k`
slots of `l`, followed by raw slots if `l` is shorter than `k`. -/
def resize_slots {T : Type} (l : List (Option T)) (k : Nat) : List (Option T) :=
  (l ++ List.replicate (k - l.length) none).take k

namespace AlignedVector

variable {T : Type}

/-- The member `size()`: `used_elements_end - elements.get()`. -/
def size (v : AlignedVector T) : Nat := v.live.length

/-- The member `capacity()`: `allocated_elements_end - elements.get()`. -/
def capacity (v : AlignedVector T) : Nat := v.allocated_size

/-- The member `data()`. -/
def data (v : AlignedVector T) : Nat := v.elements

/-- The member `empty()`. -/
def empty (v : AlignedVector T) : Bool := v.live.length == 0

/-- Release of the block a `std::unique_ptr` holds (`reset`, assignment,
destruction): the deleter is called on a non-null pointer only. The deleter reads
`used_elements_end` of its owning object, which is the object that holds the
pointer (every constructor and every move sets `owning_aligned_vector` so). -/
def release_events (E : ElementType T) (v : AlignedVector T) : List Event :=
  if v.elements ≠ 0 then v.deleter.call E v.live.length v.elements else []

/-- The assignment `used_elements_end = elements.get() + k`. -/
def set_used_elements_end (v : AlignedVector T) (k : Nat) : AlignedVector T :=
  { v with live := resize_slots v.live k }

/-- The default constructor `AlignedVector()`, for the object at address `this_ptr`. -/
def default_constructor (this_ptr : Nat) : AlignedVector T :=
  { this_ptr := this_ptr
    elements := 0
    deleter := { deleter_action_object := none, owning_aligned_vector := this_ptr }
    live := []
    allocated_size := 0
    replicated_across_communicator := false }

/-- The member `clear()`: `elements.reset()`, then both end pointers become
`nullptr`. -/
def clear (E : ElementType T) (v : AlignedVector T) : Outcome T :=
  Outcome.ok { v with elements := 0, live := [], allocated_size := 0 } (release_events E v)

/-- The private member `allocate_and_move(old_size, new_size, new_allocated_size)`. -/
def allocate_and_move (P : Platform) (E : ElementType T)
    (old_size new_size new_allocated_size : Nat) (v : AlignedVector T) : Outcome T :=
  match P.posix_memalign 64 (new_size * E.sizeof) with
  | none => Outcome.throw (Exc.ExcOutOfMemory (new_size * E.sizeof)) v []
  | some new_data_ptr =>
    let deleter : Deleter :=
      { deleter_action_object := none, owning_aligned_vector := v.this_ptr }
    let moved : Except Exc (List (Option T)) :=
      if new_allocated_size > 0 then
        internal.AlignedVectorMoveConstruct P E true (resize_slots v.live old_size)
          new_data_ptr (List.replicate new_size none)
      else Except.ok (List.replicate new_size none)
    match moved with
    | Except.error e => Outcome.throw e v []
    | Except.ok block =>
      Outcome.ok
        { v with
          elements := new_data_ptr
          deleter := deleter
          live := resize_slots block old_size
          allocated_size := new_size }
        (release_events E v)

/-- The member `reserve(new_allocated_size)`. -/
def reserve (P : Platform) (E : ElementType T) (new_allocated_size : Nat)
    (v : AlignedVector T) : Outcome T :=
  let old_size := v.size
  let old_allocated_size := v.capacity
  if new_allocated_size > old_allocated_size then
    let new_size := max new_allocated_size (2 * old_allocated_size)
    allocate_and_move P E old_size new_size new_allocated_size v
  else if new_allocated_size = 0 then
    clear E v
  else
    Outcome.ok v []

/-- The member `shrink_to_fit()`. -/
def shrink_to_fit (P : Platform) (E : ElementType T) (v : AlignedVector T) : Outcome T :=
  match Assert P (v.replicated_across_communicator == false)
      Exc.ExcAlignedVectorChangeAfterReplication with
  | some e => Outcome.throw e v []
  | none =>
    let used_size := v.size
    let allocated_size := v.capacity
    if allocated_size > used_size then
      allocate_and_move P E used_size used_size used_size v
    else
      Outcome.ok v []

/-- The member `push_back(in_data)`. -/
def push_back (P : Platform) (E : ElementType T) (in_data : T) (v : AlignedVector T) :
    Outcome T :=
  match Assert P (decide (v.size ≤ v.capacity)) Exc.ExcInternalError with
  | some e => Outcome.throw e v []
  | none =>
    (if v.size = v.capacity then reserve P E (max (2 * v.capacity) 16) v
     else Outcome.ok v []).andThen fun v1 =>
      Outcome.ok { v1 with live := v1.live ++ [some in_data] } []

/-- The branch `new_size < old_size` shared by the three resize functions: the
destructors of the released elements run backwards (unless `T` is trivially
destructible), then `used_elements_end = elements.get() + new_size`. -/
def resize_shrink (E : ElementType T) (new_size : Nat) (v : AlignedVector T) : Outcome T :=
  Outcome.ok (v.set_used_elements_end new_size)
    (if E.is_trivially_destructible = false then
      destroy_backward v.elements v.size new_size
     else [])

/-- The member `resize_fast(new_size)`. -/
def resize_fast (P : Platform) (E : ElementType T) (new_size : Nat)
    (v : AlignedVector T) : Outcome T :=
  let old_size := v.size
  if new_size = 0 then clear E v
  else if new_size = old_size then Outcome.ok v []
  else if new_size < old_size then resize_shrink E new_size v
  else
    (reserve P E new_size v).andThen fun v1 =>
      let v2 := v1.set_used_elements_end new_size
      if E.is_trivially_default_constructible = false then
        match internal.AlignedVectorDefaultInitialize P E true (new_size - old_size)
            (v2.elements + old_size * E.sizeof) (v2.live.drop old_size) with
        | Except.error e => Outcome.throw e v2 []
        | Except.ok region => Outcome.ok { v2 with live := v2.live.take old_size ++ region } []
      else Outcome.ok v2 []

/-- The member `resize(new_size)`. -/
def resize (P : Platform) (E : ElementType T) (new_size : Nat)
    (v : AlignedVector T) : Outcome T :=
  let old_size := v.size
  if new_size = 0 then clear E v
  else if new_size = old_size then Outcome.ok v []
  else if new_size < old_size then resize_shrink E new_size v
  else
    (reserve P E new_size v).andThen fun v1 =>
      let v2 := v1.set_used_elements_end new_size
      match internal.AlignedVectorDefaultInitialize P E true (new_size - old_size)
          (v2.elements + old_size * E.sizeof) (v2.live.drop old_size) with
      | Except.error e => Outcome.throw e v2 []
      | Except.ok region => Outcome.ok { v2 with live := v2.live.take old_size ++ region } []

/-- The member `resize(new_size, init)`, called with an `init` that is not an element
of the vector: the object `init` refers to has the value `init` whenever it is
read. (For a reference to an element of the vector see `resize_value_of_element`.) -/
def resize_value (P : Platform) (E : ElementType T) (new_size : Nat) (init : T)
    (v : AlignedVector T) : Outcome T :=
  let old_size := v.size
  if new_size = 0 then clear E v
  else if new_size = old_size then Outcome.ok v []
  else if new_size < old_size then resize_shrink E new_size v
  else
    (reserve P E new_size v).andThen fun v1 =>
      let v2 := v1.set_used_elements_end new_size
      match internal.AlignedVectorInitialize P E true (new_size - old_size) init
          (v2.elements + old_size * E.sizeof) (v2.live.drop old_size) with
      | Except.error e => Outcome.throw e v2 []
      | Except.ok region => Outcome.ok { v2 with live := v2.live.take old_size ++ region } []

/-- The member `resize(new_size, init)`, called with `init` a reference to an element
of the vector itself, `(*this)[index]`. The parameter is a `const T &`, and the
function reads it after `reserve(new_size)`. When that call has moved the elements
to a new block and released the old one (`new_size > capacity()`), `init` refers to
a destroyed object in released memory, and the new elements are copies of an
indeterminate value; otherwise `init` is the element, whose slot has not changed. -/
def resize_value_of_element (P : Platform) (E : ElementType T) (new_size : Nat)
    (index : Nat) (v : AlignedVector T) : Outcome T :=
  let old_size := v.size
  if new_size = 0 then clear E v
  else if new_size = old_size then Outcome.ok v []
  else if new_size < old_size then resize_shrink E new_size v
  else
    (reserve P E new_size v).andThen fun v1 =>
      let v2 := v1.set_used_elements_end new_size
      match (if v.capacity < new_size then none else v.live.getD index none) with
      | some init =>
        match internal.AlignedVectorInitialize P E true (new_size - old_size) init
            (v2.elements + old_size * E.sizeof) (v2.live.drop old_size) with
        | Except.error e => Outcome.throw e v2 []
        | Except.ok region => Outcome.ok { v2 with live := v2.live.take old_size ++ region } []
      | none =>
        Outcome.ok
          { v2 with
            live := v2.live.take old_size ++ List.replicate (new_size - old_size) none }
          []

/-- The constructor `AlignedVector(size, init)`, for the object at address `this_ptr`;
`init` cannot be an element of the object under construction. -/
def size_constructor (P : Platform) (E : ElementType T) (this_ptr : Nat) (size : Nat)
    (init : T) : Outcome T :=
  if size > 0 then resize_value P E size init (default_constructor this_ptr)
  else Outcome.ok (default_constructor this_ptr) []

/-- The member `insert_back(begin, end)`; `range` is the sequence `*begin, ...` of
a range that does not lie in the vector itself. -/
def insert_back (P : Platform) (E : ElementType T) (range : List T)
    (v : AlignedVector T) : Outcome T :=
  let old_size := v.size
  (reserve P E (old_size + range.length) v).andThen fun v1 =>
    Outcome.ok (range.foldl (fun w x => { w with live := w.live ++ [some x] }) v1) []

/-- The range constructor `AlignedVector(begin, end)`, for the object at address
`this_ptr`; `raw_pointers` tells whether the iterators are `T *` or `const T *`.
If the copy throws, the members of the half-built object are released. -/
def range_constructor (P : Platform) (E : ElementType T) (this_ptr : Nat)
    (raw_pointers : Bool) (range : List (Option T)) : Outcome T :=
  (allocate_and_move P E 0 range.length range.length (default_constructor this_ptr)).andThen
    fun v1 =>
      let v2 := v1.set_used_elements_end v1.allocated_size
      match internal.AlignedVectorCopyConstruct P E raw_pointers range v2.elements
          v2.live with
      | Except.error e => Outcome.throw e v2 (release_events E v2)
      | Except.ok region => Outcome.ok { v2 with live := region } []

/-- The three `AlignedVectorMoveConstruct` calls of `insert`: the elements before
the position, the temporary, and the elements from the position on, into the new
block at `new_data_ptr`. -/
def insert_moves (P : Platform) (E : ElementType T) (offset range_size : Nat)
    (temporary : AlignedVector T) (new_data_ptr : Nat) (block : List (Option T))
    (v : AlignedVector T) : Except Exc (List (Option T)) := do
  let block1 ← internal.AlignedVectorMoveConstruct P E true (v.live.take offset)
    new_data_ptr block
  let region2 ← internal.AlignedVectorMoveConstruct P E true temporary.live
    (new_data_ptr + offset * E.sizeof) (block1.drop offset)
  let block2 := block1.take offset ++ region2
  let region3 ← internal.AlignedVectorMoveConstruct P E true (v.live.drop offset)
    (new_data_ptr + (offset + range_size) * E.sizeof) (block2.drop (offset + range_size))
  pure (block2.take (offset + range_size) ++ region3)

/-- The member `insert(position, begin, end)`. The position is `begin() + offset`
(so `this->begin() <= position` holds), `range` is the sequence `*begin, ...` as
it stands when the function is entered, `raw_pointers` tells whether the
iterators of the range are `T *` or `const T *`; the second component is the
returned iterator. -/
def insert (P : Platform) (E : ElementType T) (offset : Nat) (raw_pointers : Bool)
    (range : List T) (v : AlignedVector T) : Outcome T × Option Nat :=
  match Assert P (v.replicated_across_communicator == false)
      Exc.ExcAlignedVectorChangeAfterReplication with
  | some e => (Outcome.throw e v [], none)
  | none =>
    match Assert P (decide (offset ≤ v.size)) Exc.ExcMessage with
    | some e => (Outcome.throw e v [], none)
    | none =>
      let old_size := v.size
      let range_size := range.length
      let new_size := old_size + range_size
      if range_size ≠ 0 then
        match P.posix_memalign 64 (new_size * E.sizeof) with
        | none => (Outcome.throw (Exc.ExcOutOfMemory (new_size * E.sizeof)) v [], none)
        | some new_data_ptr =>
          let built := range_constructor P E P.temporary_object raw_pointers
            (range.map some)
          match built.thrown with
          | some e => (Outcome.throw e v built.events, none)
          | none =>
            let temporary := built.vec
            match insert_moves P E offset range_size temporary new_data_ptr
                (List.replicate new_size none) v with
            | Except.error e =>
              (Outcome.throw e v (built.events ++ release_events E temporary), none)
            | Except.ok block =>
              let deleter : Deleter :=
                { deleter_action_object := none, owning_aligned_vector := v.this_ptr }
              (Outcome.ok
                { v with
                  elements := new_data_ptr
                  deleter := deleter
                  live := resize_slots block new_size
                  allocated_size := new_size }
                (built.events ++ release_events E v ++ release_events E temporary),
               some (new_data_ptr + offset * E.sizeof))
      else
        (Outcome.ok v [], some (v.elements + offset * E.sizeof))

/-- The member `fill()`. -/
def fill (P : Platform) (E : ElementType T) (v : AlignedVector T) : Outcome T :=
  match internal.AlignedVectorDefaultInitialize P E false v.size v.elements v.live with
  | Except.error e => Outcome.throw e v []
  | Except.ok region => Outcome.ok { v with live := region } []

/-- The member `fill(value)`. -/
def fill_value (P : Platform) (E : ElementType T) (value : T) (v : AlignedVector T) :
    Outcome T :=
  match internal.AlignedVectorInitialize P E false v.size value v.elements v.live with
  | Except.error e => Outcome.throw e v []
  | Except.ok region => Outcome.ok { v with live := region } []

end AlignedVector

/-! ## Construction from, assignment from and exchange with another vector -/

/-- An argument of type `const AlignedVector<T> &`: another object, given by its
state (which a `const` reference cannot change), or the very object the member
function is called on. -/
inductive Reference (T : Type) where
  | other (vec : AlignedVector T)
  | self

/-- The object a reference denotes while the object the member function was called
on is in state `this_now`. -/
def Reference.read {T : Type} (r : Reference T) (this_now : AlignedVector T) :
    AlignedVector T :=
  match r with
  | Reference.other vec => vec
  | Reference.self => this_now

/-- What `ar & x` writes to, or reads from, an archive: a count (`ar & vec_size`) or
the objects of an array (`ar & boost::serialization::make_array(p, n)`). -/
inductive ArchiveItem (T : Type) where
  | size (n : Nat)
  | array (slots : List (Option T))

/-- The comparison `*lit != *rit` of two elements, which is `operator!=` of `T`; a
slot whose value is indeterminate is never known to be equal to anything. -/
def slot_ne {T : Type} (E : ElementType T) (a b : Option T) : Bool :=
  match a, b with
  | some x, some y => E.operator_ne x y
  | _, _ => true

/-- What `MemoryConsumption::memory_consumption(*t)` returns for the object in a
slot; only an object of a type whose footprint is `sizeof(T)` is ever left
indeterminate. -/
def slot_memory_consumption {T : Type} (E : ElementType T) (slot : Option T) : Nat :=
  match slot with
  | some t => E.memory_consumption t
  | none => E.sizeof

namespace AlignedVector

variable {T : Type}

/-- The copy constructor `AlignedVector(const AlignedVector<T> &vec)`, for the object
at address `this_ptr`. If the copy throws, the members of the half-built object
are released. -/
def copy_constructor (P : Platform) (E : ElementType T) (this_ptr : Nat)
    (vec : AlignedVector T) : Outcome T :=
  (reserve P E vec.size (default_constructor this_ptr)).andThen fun v1 =>
    let v2 := v1.set_used_elements_end v1.allocated_size
    match internal.AlignedVectorCopyConstruct P E true vec.live v2.elements v2.live with
    | Except.error e => Outcome.throw e v2 (release_events E v2)
    | Except.ok region => Outcome.ok { v2 with live := region } []

/-- The copy assignment operator `operator=(const AlignedVector<T> &vec)`. The
destination of the copy is the memory at `elements.get()`, all `capacity()` slots
of it; the last statement is `used_elements_end = elements.get() + new_size`. -/
def copy_assignment (P : Platform) (E : ElementType T) (vec : Reference T)
    (v : AlignedVector T) : Outcome T :=
  let new_size := (vec.read v).size
  (resize P E 0 v).andThen fun v1 =>
    (reserve P E new_size v1).andThen fun v2 =>
      match internal.AlignedVectorCopyConstruct P E true (vec.read v2).live v2.elements
          (resize_slots v2.live v2.allocated_size) with
      | Except.error e => Outcome.throw e v2 []
      | Except.ok region => Outcome.ok { v2 with live := resize_slots region new_size } []

/-- The move assignment operator `operator=(AlignedVector<T> &&vec)` for an object
`vec` other than `*this`: the object assigned to, and `vec` afterwards.
`elements = std::move(vec.elements)` finds `elements` empty after `clear()`, takes
the pointer and leaves `nullptr` in `vec`, and move-assigns the deleter, which
takes the action object and leaves `nullptr` (the default action) in `vec`. The
flag `replicated_across_communicator` is not mentioned in the function. -/
def move_assignment (E : ElementType T) (vec : AlignedVector T) (v : AlignedVector T) :
    Outcome T × AlignedVector T :=
  let cleared := clear E v
  let this1 : AlignedVector T :=
    { cleared.vec with
      elements := vec.elements
      deleter := vec.deleter }
  let vec1 : AlignedVector T :=
    { vec with
      elements := 0
      deleter := { vec.deleter with deleter_action_object := none } }
  let this2 : AlignedVector T :=
    { this1 with deleter := { this1.deleter with owning_aligned_vector := v.this_ptr } }
  let this3 : AlignedVector T :=
    { this2 with live := vec.live, allocated_size := vec.allocated_size }
  let vec2 : AlignedVector T := { vec1 with live := [], allocated_size := 0 }
  (Outcome.ok this3 (cleared.events ++ release_events E cleared.vec), vec2)

/-- The move constructor `AlignedVector(AlignedVector<T> &&vec)`, for the object at
address `this_ptr`: the default constructor, then `*this = std::move(vec)`. -/
def move_constructor (E : ElementType T) (this_ptr : Nat) (vec : AlignedVector T) :
    Outcome T × AlignedVector T :=
  move_assignment E vec (default_constructor this_ptr)

/-- The member `swap(vec)` for an object `vec` other than `*this`: the object the
function is called on, and `vec`, afterwards. `std::swap` exchanges the pointers
together with their deleters, both deleters are told their new owner, and the
two end pointers are exchanged. -/
def swap (vec : AlignedVector T) (v : AlignedVector T) :
    AlignedVector T × AlignedVector T :=
  ({ v with
      elements := vec.elements
      deleter := { vec.deleter with owning_aligned_vector := v.this_ptr }
      live := vec.live
      allocated_size := vec.allocated_size },
   { vec with
      elements := v.elements
      deleter := { v.deleter with owning_aligned_vector := vec.this_ptr }
      live := v.live
      allocated_size := v.allocated_size })

/-- The member `save(ar, version)`: the archive after the call. -/
def save (v : AlignedVector T) (ar : List (ArchiveItem T)) : List (ArchiveItem T) :=
  let vec_size := v.size
  let ar1 := ar ++ [ArchiveItem.size vec_size]
  if vec_size > 0 then ar1 ++ [ArchiveItem.array v.live] else ar1

/-- The member `load(ar, version)`: the outcome and the rest of the archive. The
array read stores `vec_size` objects at `elements.get()`, then
`used_elements_end = elements.get() + vec_size`. -/
def load (P : Platform) (E : ElementType T) (ar : List (ArchiveItem T))
    (v : AlignedVector T) : Outcome T × List (ArchiveItem T) :=
  match ar with
  | ArchiveItem.size vec_size :: ar1 =>
    if vec_size > 0 then
      let reserved := reserve P E vec_size v
      match reserved.thrown with
      | some _ => (reserved, ar1)
      | none =>
        match ar1 with
        | ArchiveItem.array slots :: ar2 =>
          if slots.length = vec_size then
            (Outcome.ok
              { reserved.vec with
                live := resize_slots
                  (slots ++ (resize_slots reserved.vec.live
                    reserved.vec.allocated_size).drop vec_size) vec_size }
              reserved.events, ar2)
          else (Outcome.throw Exc.archive_exception reserved.vec reserved.events, ar1)
        | _ => (Outcome.throw Exc.archive_exception reserved.vec reserved.events, ar1)
    else (Outcome.ok v [], ar1)
  | _ => (Outcome.throw Exc.archive_exception v [], ar)

/-- The member `memory_consumption()`; `sizeof_this` is `sizeof(*this)`. -/
def memory_consumption (E : ElementType T) (sizeof_this : Nat) (v : AlignedVector T) :
    Nat :=
  let memory := sizeof_this
  let memory := v.live.foldl (fun m t => m + slot_memory_consumption E t) memory
  memory + E.sizeof * (v.allocated_size - v.live.length)

/-- The relational operator `operator==(lhs, rhs)`. -/
def operator_eq (E : ElementType T) (lhs rhs : AlignedVector T) : Bool :=
  if lhs.size != rhs.size then false
  else (List.zip lhs.live rhs.live).all (fun p => !slot_ne E p.1 p.2)

end AlignedVector

/-! ## Replication across the processes of a communicator -/

/-- Modelled from the spec: the standard library call
`std::align(alignment, size, ptr, space)` of step 5, which is to "compute the first
address ≥ base that is a multiple of align within the returned region". The result
is the returned pointer (`0` for `nullptr`) together with `ptr` and `space` after
the call: when `size` bytes fit behind the first multiple of `alignment` that is not
below `ptr`, that address is returned and stored in `ptr`, and `space` shrinks by
the bytes skipped; otherwise `nullptr` is returned and neither argument changes. -/
def std.align (alignment size ptr space : Nat) : Nat × Nat × Nat :=
  if space < size then (0, ptr, space)
  else
    let aligned := (ptr + alignment - 1) / alignment * alignment
    let diff := aligned - ptr
    if diff > space - size then (0, ptr, space)
    else (aligned, aligned, space - diff)

/-- Modelled from the spec: `Utilities::MPI::min(value, comm)` ("`min` of `available`
on `node_comm`"): the least of the values passed by the processes of the
communicator; `own` is the value of the calling process and `values` are the values
of all processes of the communicator. -/
def Utilities.MPI.min {α : Type} [Min α] (own : α) (values : List α) : α :=
  values.foldl Min.min own

/-- Modelled from the spec: `Utilities::MPI::max(value, comm)`, the greatest of the
values passed by the processes of the communicator. -/
def Utilities.MPI.max {α : Type} [Max α] (own : α) (values : List α) : α :=
  values.foldl Max.max own

/-- Modelled from the spec: the MPI facade behind `replicate_across_communicator`
(`communicator` and what the MPI calls made on it return; every MPI call succeeds,
so `AssertThrowMPI` never throws). A process is named by its rank in
`communicator`.

* `n_mpi_processes`: the number of processes of `communicator`.
* `shmem_root root_process r`: the process that has rank 0 in the
  `shmem_group_communicator` of process `r` ("split `comm` by shared-memory node,
  producing `node_comm`"). The key passed to `MPI_Comm_split` makes `root_process`
  rank 0 of its own group ("ensure `root` is rank 0 within its own `node_comm`"), one
  process has rank 0 in every group, and it is a process of `communicator`. The
  processes with rank 0 form `shmem_roots_communicator`, in which the same key
  makes `root_process` rank 0.
* `shmem_group_communicator r`, `shmem_window r`: the handles process `r` receives
  from `MPI_Comm_split` and from `MPI_Win_allocate_shared`.
* `base_ptr r alloc_size`: the address at which the segment of `alloc_size` bytes
  allocated by the rank 0 of the group appears in process `r` (`base_ptr` after
  step 4); the `disp_unit` queried there is the `1` the window was created with. -/
structure Communicator where
  n_mpi_processes : Nat
  shmem_root : Nat → Nat → Nat
  shmem_root_of_root : ∀ root_process, shmem_root root_process root_process = root_process
  shmem_root_idem :
    ∀ root_process r,
      shmem_root root_process (shmem_root root_process r) = shmem_root root_process r
  shmem_root_lt :
    ∀ root_process r, root_process < n_mpi_processes → r < n_mpi_processes →
      shmem_root root_process r < n_mpi_processes
  shmem_group_communicator : Nat → Nat
  shmem_window : Nat → Nat
  base_ptr : Nat → Nat → Nat

/-- Modelled from the spec: `Utilities::MPI::broadcast(comm, object, root)` applied to a
vector whose elements are not trivially copyable, on a receiving process: "a
pack/unpack round-trip through the byte-archive interface", that is, the vector
`load` builds in a default constructed temporary from what `save` wrote on the
sending process. -/
def Utilities.MPI.broadcast {T : Type} (P : Platform) (E : ElementType T)
    (sent : AlignedVector T) : Outcome T :=
  (AlignedVector.load P E (AlignedVector.save sent [])
    (AlignedVector.default_constructor P.temporary_object)).1

/-- The conversion of a `std::size_t` to `int`, as when `sizeof(T) * new_size` is
passed for the parameter `int count` of `MPI_Bcast`: the value modulo `2^32`, read
as a two's complement number of 32 bits. -/
def int_from_size_t (n : Nat) : Int :=
  if n % 2 ^ 32 < 2 ^ 31 then ((n % 2 ^ 32 : Nat) : Int)
  else ((n % 2 ^ 32 : Nat) : Int) - 2 ^ 32

/-- Modelled from the spec: the call `MPI_Bcast(buffer, count, MPI_CHAR, root, comm)` of
step 2 on a receiving process ("a raw byte broadcast"): afterwards the first `count`
bytes of `buffer` are the first `count` bytes of the buffer of the sender. In
objects of `sizeof(T)` bytes: the slots that lie in these bytes hold what the slots
of the sender hold, a slot that lies only partly in them is indeterminate, and the
other slots are as they were. As every MPI call of the facade the call returns
`MPI_SUCCESS`, and a `count` that is not positive transfers nothing. -/
def MPI_Bcast {T : Type} (E : ElementType T) (sent : List (Option T)) (count : Int)
    (buffer : List (Option T)) : List (Option T) :=
  let whole := count.toNat / E.sizeof
  let received := internal.memcpy sent 0 whole buffer
  if count.toNat % E.sizeof = 0 then received else received.set whole none

/-- Modelled from the spec: what a process reads in the shared window after the
barrier ("node-local ranks share pages", "so non-root ranks observe the populated
data"). The rank 0 of the group has stored the slots `stored` at
`offset_of_shmem_root` bytes behind the start of the segment; a process whose
pointer lies `offset` bytes behind the start of the segment finds these slots when
the two offsets agree, and indeterminate values otherwise. -/
def shared_window_read {T : Type} (stored : List (Option T))
    (offset_of_shmem_root offset new_size : Nat) : List (Option T) :=
  if offset = offset_of_shmem_root then resize_slots stored new_size
  else List.replicate new_size none

namespace AlignedVector

variable {T : Type}

/-- Steps 0 to 2 of `replicate_across_communicator` on process `q`, entered when the
size broadcast by `root_process` is not zero; `world p` is the object of process
`p` when the function is called. Every process but the root releases its block;
then each process with rank 0 in its shared-memory group receives the elements of
the root: for a trivially copyable `T` by `resize(new_size)` and an `MPI_Bcast`
of `sizeof(T) * new_size` bytes, a `std::size_t` passed as `int`, into
`elements.get()`, otherwise by move assignment of the vector that
`Utilities::MPI::broadcast` returns. -/
def replicate_across_communicator.distribute (C : Communicator) (P : Platform)
    (E : ElementType T) (root_process : Nat) (world : Nat → AlignedVector T) (q : Nat) :
    Outcome T :=
  let is_shmem_root : Bool := C.shmem_root root_process q == q
  let is_shmem_roots_root : Bool := is_shmem_root && q == root_process
  let sent := world root_process
  let step0 : Outcome T :=
    if q ≠ root_process then
      Outcome.ok { world q with elements := 0, live := [], allocated_size := 0 }
        (release_events E (world q))
    else Outcome.ok (world q) []
  step0.andThen fun v0 =>
    if is_shmem_root then
      if E.is_trivially_copyable then
        let new_size := sent.size
        (if is_shmem_roots_root = false then resize P E new_size v0
         else Outcome.ok v0 []).andThen fun v1 =>
          if is_shmem_roots_root then Outcome.ok v1 []
          else
            Outcome.ok
              { v1 with
                live := MPI_Bcast E sent.live (int_from_size_t (E.sizeof * new_size))
                  v1.live }
              []
      else
        if is_shmem_roots_root then Outcome.ok v0 []
        else
          let received := Utilities.MPI.broadcast P E sent
          match received.thrown with
          | some e => Outcome.throw e v0 received.events
          | none =>
            let moved := (move_assignment E received.vec v0).1
            { moved with events := received.events ++ moved.events }
    else Outcome.ok v0 []

/-- Steps 3 to 5 of `replicate_across_communicator` on process `q`: the value of
`aligned_shmem_pointer` after step 5. The window has
`size() * sizeof(T) + (align_by - 1)` bytes, `size()` taken on the rank 0 of the
group after step 2; `std::align` is applied to `base_ptr`, and when the remaining
`available_space` is not the same on all processes of the group, the pointer falls
back to `base_ptr_backup`. -/
def replicate_across_communicator.align (C : Communicator) (P : Platform)
    (E : ElementType T) (root_process : Nat) (world : Nat → AlignedVector T) (q : Nat) :
    Nat :=
  let new_size := (world root_process).size
  let shmem_root := C.shmem_root root_process q
  let alloc_size :=
    (replicate_across_communicator.distribute C P E root_process world shmem_root).vec.size
      * E.sizeof + (64 - 1)
  let base_ptr := C.base_ptr q alloc_size
  let aligned := std.align 64 (new_size * E.sizeof) base_ptr alloc_size
  let available_space := aligned.2.2
  let shmem_group :=
    (List.range C.n_mpi_processes).filter
      (fun p => C.shmem_root root_process p == shmem_root)
  let values :=
    shmem_group.map
      (fun p => (std.align 64 (new_size * E.sizeof) (C.base_ptr p alloc_size) alloc_size).2.2)
  if Utilities.MPI.min available_space values ≠ Utilities.MPI.max available_space values then
    base_ptr
  else aligned.1

/-- Steps 0 to 7 of `replicate_across_communicator` on process `q`. After the two
assertions of steps 4 and 5, the rank 0 of the group stores its elements at its
`aligned_shmem_pointer` (step 6), and every process installs its own
`aligned_shmem_pointer` with the shared-memory deleter, which releases the block
held before (step 7); its elements are what it reads in the window at that
pointer. -/
def replicate_across_communicator.install (C : Communicator) (P : Platform)
    (E : ElementType T) (root_process : Nat) (world : Nat → AlignedVector T) (q : Nat) :
    Outcome T :=
  (replicate_across_communicator.distribute C P E root_process world q).andThen fun v2 =>
    let new_size := (world root_process).size
    let is_shmem_root : Bool := C.shmem_root root_process q == q
    let shmem_root := C.shmem_root root_process q
    let stored :=
      (replicate_across_communicator.distribute C P E root_process world shmem_root).vec
    let alloc_size := stored.size * E.sizeof + (64 - 1)
    let base_ptr := C.base_ptr q alloc_size
    match (if is_shmem_root = false then Assert P (base_ptr != 0) Exc.ExcInternalError
           else none) with
    | some e => Outcome.throw e v2 []
    | none =>
      match Assert P ((std.align 64 (new_size * E.sizeof) base_ptr alloc_size).1 != 0)
          Exc.ExcInternalError with
      | some e => Outcome.throw e v2 []
      | none =>
        let aligned_shmem_pointer :=
          replicate_across_communicator.align C P E root_process world q
        let offset := aligned_shmem_pointer - base_ptr
        let offset_of_shmem_root :=
          replicate_across_communicator.align C P E root_process world shmem_root
            - C.base_ptr shmem_root alloc_size
        Outcome.ok
          { v2 with
            elements := aligned_shmem_pointer
            deleter :=
              { deleter_action_object := some
                  { is_shmem_root := is_shmem_root
                    aligned_shmem_pointer := aligned_shmem_pointer
                    shmem_group_communicator := C.shmem_group_communicator q
                    shmem_window := C.shmem_window q }
                owning_aligned_vector := v2.this_ptr }
            live := shared_window_read stored.live offset_of_shmem_root offset new_size
            allocated_size := new_size }
          (release_events E v2)

/-- The member `replicate_across_communicator(communicator, root_process)` on process
`r` of the communicator `C`, built with MPI. `hash` is the sum of the bytes of
`Utilities::pack(*this)`, as a function of what `save` writes. -/
def replicate_across_communicator (C : Communicator) (P : Platform) (E : ElementType T)
    (hash : List (ArchiveItem T) → Int) (root_process : Nat)
    (world : Nat → AlignedVector T) (r : Nat) : Outcome T :=
  let new_size := (world root_process).size
  if new_size = 0 then clear E (world r)
  else
    (replicate_across_communicator.install C P E root_process world r).andThen fun v =>
      if P.running_in_debug_mode then
        let v1 := { v with replicated_across_communicator := true }
        let hashes :=
          (List.range C.n_mpi_processes).map fun q =>
            hash (save (replicate_across_communicator.install C P E root_process world q).vec [])
        match Assert P (Utilities.MPI.max (hash (save v1 [])) hashes == hash (save v1 []))
            Exc.ExcInternalError with
        | some e => Outcome.throw e v1 []
        | none => Outcome.ok v1 []
      else Outcome.ok v []

end AlignedVector

/-! ## `SparsityPattern` (`source/lac/sparsity_pattern.cc`) -/

/-- The class `SparsityPattern`, with the members `rows` and `cols` of its base class
`SparsityPatternBase`. The arrays `rowstart` and `colnums` are lists, `none` for
`nullptr`; an index of either array is a natural number. -/
structure SparsityPattern where
  rows : Nat
  cols : Nat
  store_diagonal_first_in_row : Bool
  max_dim : Nat
  max_vec_len : Nat
  max_row_length : Nat
  compressed : Bool
  rowstart : Option (List Nat)
  colnums : Option (List Nat)
  deriving DecidableEq

namespace SparsityPattern

/-- What `sparsity_pattern.cc` takes from headers and libraries that are not among
the sources.

* `invalid_entry`: the constant `SparsityPattern::invalid_entry`.
* `sort l`: the range `l` after `std::sort`: the same values in ascending order.
* `lower_bound a first last val`: the index `p - a` of the pointer `p` that
  `Utilities::lower_bound(&a[first], &a[last], val)` returns; on an ascending range
  it separates the values below `val` from the others.
* `upper_bound a first last val`: the same for `std::upper_bound`; on an ascending
  range it separates the values that are not above `val` from the others.
* `n_nonzero_elements rowstart rows`: what the member `n_nonzero_elements()` returns
  for a compressed pattern with these members, `rowstart[rows] - rowstart[0]`. -/
structure Declarations where
  invalid_entry : Nat
  sort : List Nat → List Nat
  sort_perm : ∀ l, (sort l).Perm l
  sort_sorted : ∀ l, (sort l).Pairwise (fun x y => x ≤ y)
  lower_bound : List Nat → Nat → Nat → Nat → Nat
  lower_bound_spec :
    ∀ a first last val, first ≤ last →
      (∀ k l, first ≤ k → k ≤ l → l < last → a.getD k 0 ≤ a.getD l 0) →
      first ≤ lower_bound a first last val ∧ lower_bound a first last val ≤ last ∧
      (∀ k, first ≤ k → k < lower_bound a first last val → a.getD k 0 < val) ∧
      (∀ k, lower_bound a first last val ≤ k → k < last → val ≤ a.getD k 0)
  upper_bound : List Nat → Nat → Nat → Nat → Nat
  upper_bound_spec :
    ∀ a first last val, first ≤ last →
      (∀ k l, first ≤ k → k ≤ l → l < last → a.getD k 0 ≤ a.getD l 0) →
      first ≤ upper_bound a first last val ∧ upper_bound a first last val ≤ last ∧
      (∀ k, first ≤ k → k < upper_bound a first last val → a.getD k 0 ≤ val) ∧
      (∀ k, upper_bound a first last val ≤ k → k < last → val < a.getD k 0)
  n_nonzero_elements : List Nat → Nat → Nat
  n_nonzero_elements_eq :
    ∀ rowstart rows, n_nonzero_elements rowstart rows = rowstart.getD rows 0 - rowstart.getD 0 0

/-- The result of a member function that changes the pattern: the exception that
left it (`none` for a normal return), the object afterwards, and the indices `k` of
the statements `colnums[k] = ...` that `add` and `add_entries` have executed, in
order. -/
structure Outcome where
  thrown : Option Exc
  pattern : SparsityPattern
  stored : List Nat
  deriving DecidableEq

/-- The default constructor before its call of `reinit(0, 0, 0)`: the member
initializers. -/
def initial : SparsityPattern :=
  { rows := 0
    cols := 0
    store_diagonal_first_in_row := false
    max_dim := 0
    max_vec_len := 0
    max_row_length := 0
    compressed := false
    rowstart := none
    colnums := none }

/-- The number of slots `reinit` gives row `i`: `std::clamp(row_lengths[i], 1, n)` when
the diagonal is stored first, `std::min(row_lengths[i], n)` otherwise. -/
def reinit.slots (store_diagonal_first_in_row : Bool) (n : Nat) (row_length : Nat) : Nat :=
  if store_diagonal_first_in_row then
    (if row_length < 1 then 1 else if n < row_length then n else row_length)
  else min row_length n

/-- The member `reinit(m, n, row_lengths)`. -/
def reinit (P : Platform) (H : Declarations) (m n : Nat) (row_lengths : List Nat)
    (sp : SparsityPattern) : Outcome :=
  match Assert P (row_lengths.length == m)
      (Exc.ExcDimensionMismatch row_lengths.length m) with
  | some e => { thrown := some e, pattern := sp, stored := [] }
  | none =>
    let sp1 := { sp with rows := m, cols := n }
    if m = 0 ∨ n = 0 then
      { thrown := none
        pattern :=
          { sp1 with
            rowstart := none
            colnums := none
            max_vec_len := 0
            max_dim := 0
            max_row_length := 0
            compressed := false }
        stored := [] }
    else
      let store_diagonal_first_in_row : Bool := decide (m = n)
      let vec_len0 :=
        for_loop 0 m (fun i vec_len =>
          vec_len +
            min (if store_diagonal_first_in_row then max (row_lengths.getD i 0) 1
                 else row_lengths.getD i 0) n) 0
      let vec_len := if vec_len0 = 0 then 1 else vec_len0
      let max_vec_len1 := if vec_len0 = 0 then 1 else sp1.max_vec_len
      let colnums1 := if vec_len0 = 0 then some (List.replicate 1 0) else sp1.colnums
      let max_row_length0 :=
        if row_lengths.isEmpty then 0 else min (row_lengths.foldl max 0) n
      let max_row_length :=
        if store_diagonal_first_in_row && max_row_length0 == 0 && m != 0 then 1
        else max_row_length0
      let max_dim := if sp1.rows > sp1.max_dim then sp1.rows else sp1.max_dim
      let rowstart1 :=
        if sp1.rows > sp1.max_dim then List.replicate (sp1.rows + 1) 0
        else sp1.rowstart.getD []
      let max_vec_len := if vec_len > max_vec_len1 then vec_len else max_vec_len1
      let colnums2 :=
        if vec_len > max_vec_len1 then List.replicate vec_len 0 else colnums1.getD []
      let rowstart :=
        for_loop 1 (sp1.rows + 1) (fun i rowstart =>
          rowstart.set i
            (rowstart.getD (i - 1) 0 +
              reinit.slots store_diagonal_first_in_row n (row_lengths.getD (i - 1) 0)))
          (rowstart1.set 0 0)
      let sp2 :=
        { sp1 with
          store_diagonal_first_in_row := store_diagonal_first_in_row
          max_vec_len := max_vec_len
          max_row_length := max_row_length
          max_dim := max_dim
          rowstart := some rowstart }
      match Assert P (rowstart.getD sp1.rows 0 == vec_len ||
          (vec_len == 1 && rowstart.getD sp1.rows 0 == 0)) Exc.ExcInternalError with
      | some e => { thrown := some e, pattern := { sp2 with colnums := some colnums2 },
                    stored := [] }
      | none =>
        let colnums3 :=
          for_loop 0 vec_len (fun k colnums => colnums.set k H.invalid_entry) colnums2
        let colnums :=
          if store_diagonal_first_in_row then
            for_loop 0 sp1.rows (fun i colnums => colnums.set (rowstart.getD i 0) i) colnums3
          else colnums3
        { thrown := none
          pattern := { sp2 with colnums := some colnums, compressed := false }
          stored := [] }

/-- The constructor `SparsityPattern(m, n, row_lengths)`: the default constructor,
which ends with `reinit(0, 0, 0)`, then `reinit(m, n, row_lengths)`. -/
def constructor (P : Platform) (H : Declarations) (m n : Nat) (row_lengths : List Nat) :
    Outcome :=
  reinit P H m n row_lengths (reinit P H 0 0 [] initial).pattern

/-- The constructor `SparsityPattern(m, n, max_per_row)`: the default constructor, then
`reinit(m, n, max_per_row)`, which calls `reinit(m, n, row_lengths)` with the vector
`row_lengths(m, max_per_row)`. -/
def constructor_max_per_row (P : Platform) (H : Declarations) (m n max_per_row : Nat) :
    Outcome :=
  reinit P H m n (List.replicate m max_per_row) (reinit P H 0 0 [] initial).pattern

/-- The loop of `add` over the slots `k` of the row, `count` of them left: the pattern
is left as it is when `j` is found, `j` is stored in the first slot that holds
`invalid_entry`, and `Assert(false, ExcNotEnoughSpace(...))` is reached when the
slots run out. -/
def add.loop (P : Platform) (H : Declarations) (i j : Nat) (rowstart : List Nat)
    (sp : SparsityPattern) : (count k : Nat) → (colnums : List Nat) → Outcome
  | 0, _, colnums =>
    { thrown := Assert P false
        (Exc.ExcNotEnoughSpace i (rowstart.getD (i + 1) 0 - rowstart.getD i 0))
      pattern := { sp with colnums := some colnums }
      stored := [] }
  | count + 1, k, colnums =>
    if colnums.getD k 0 = j then
      { thrown := none, pattern := { sp with colnums := some colnums }, stored := [] }
    else if colnums.getD k 0 = H.invalid_entry then
      { thrown := none, pattern := { sp with colnums := some (colnums.set k j) },
        stored := [k] }
    else add.loop P H i j rowstart sp count (k + 1) colnums

/-- The member `add(i, j)`. -/
def add (P : Platform) (H : Declarations) (i j : Nat) (sp : SparsityPattern) : Outcome :=
  match Assert P (sp.rowstart.isSome && sp.colnums.isSome) Exc.ExcEmptyObject with
  | some e => { thrown := some e, pattern := sp, stored := [] }
  | none =>
    match Assert P (decide (i < sp.rows)) (Exc.ExcIndexRange i 0 sp.rows) with
    | some e => { thrown := some e, pattern := sp, stored := [] }
    | none =>
      match Assert P (decide (j < sp.cols)) (Exc.ExcIndexRange j 0 sp.cols) with
      | some e => { thrown := some e, pattern := sp, stored := [] }
      | none =>
        match Assert P (sp.compressed == false) Exc.ExcMatrixIsCompressed with
        | some e => { thrown := some e, pattern := sp, stored := [] }
        | none =>
          let rowstart := sp.rowstart.getD []
          add.loop P H i j rowstart sp (rowstart.getD (i + 1) 0 - rowstart.getD i 0)
            (rowstart.getD i 0) (sp.colnums.getD [])

/-- The calls `add(row, *p)` for the elements `*p` of a range, one after the other. -/
def add_each (P : Platform) (H : Declarations) (row : Nat) (range : List Nat)
    (sp : SparsityPattern) : Outcome :=
  range.foldl (fun o p =>
    match o.thrown with
    | some _ => o
    | none =>
      let r := add P H row p o.pattern
      { thrown := r.thrown, pattern := r.pattern, stored := o.stored ++ r.stored })
    { thrown := none, pattern := sp, stored := [] }

/-- The first loop of the sorted branch of `add_entries`: from slot `k`, `count` slots
of the row left, to the first slot that holds `invalid_entry` or a column that is
not below `*it`; the result is `k` and `has_larger_entries`. -/
def add_entries.skip (H : Declarations) (colnums : List Nat) (first : Nat) :
    (count k : Nat) → Nat × Bool
  | 0, k => (k, false)
  | count + 1, k =>
    if colnums.getD k 0 = H.invalid_entry then (k, false)
    else if colnums.getD k 0 ≥ first then (k, true)
    else add_entries.skip H colnums first count (k + 1)

/-- The second loop of the sorted branch of `add_entries`, which appends the range
from slot `k` on. -/
def add_entries.append (P : Platform) (row : Nat) (rowstart : List Nat)
    (sp : SparsityPattern) : (range : List Nat) → (k : Nat) → (colnums : List Nat) →
    (stored : List Nat) → Outcome
  | [], _, colnums, stored =>
    { thrown := none, pattern := { sp with colnums := some colnums }, stored := stored }
  | it :: rest, k, colnums, stored =>
    match Assert P (decide (it < sp.cols)) (Exc.ExcIndexRange it 0 sp.cols) with
    | some e =>
      { thrown := some e, pattern := { sp with colnums := some colnums }, stored := stored }
    | none =>
      if sp.store_diagonal_first_in_row && it == row then
        add_entries.append P row rowstart sp rest k colnums stored
      else
        match Assert P (decide (k ≤ rowstart.getD (row + 1) 0))
            (Exc.ExcNotEnoughSpace row
              (rowstart.getD (row + 1) 0 - rowstart.getD row 0)) with
        | some e =>
          { thrown := some e, pattern := { sp with colnums := some colnums },
            stored := stored }
        | none =>
          add_entries.append P row rowstart sp rest (k + 1) (colnums.set k it)
            (stored ++ [k])

/-- The member template `add_entries(row, begin, end, indices_are_sorted)`; `range` is
the sequence `*begin, ...`. -/
def add_entries (P : Platform) (H : Declarations) (row : Nat) (range : List Nat)
    (indices_are_sorted : Bool) (sp : SparsityPattern) : Outcome :=
  match Assert P (decide (row < sp.rows)) (Exc.ExcIndexRange row 0 sp.rows) with
  | some e => { thrown := some e, pattern := sp, stored := [] }
  | none =>
    if indices_are_sorted = true then
      match range with
      | [] => { thrown := none, pattern := sp, stored := [] }
      | first :: _ =>
        let rowstart := sp.rowstart.getD []
        let colnums := sp.colnums.getD []
        let k0 := rowstart.getD row 0 + (if sp.store_diagonal_first_in_row then 1 else 0)
        let found := add_entries.skip H colnums first (rowstart.getD (row + 1) 0 - k0) k0
        if found.2 = false then
          add_entries.append P row rowstart sp range found.1 colnums []
        else add_each P H row range sp
    else add_each P H row range sp

/-- The variables of the loop over the rows in `compress`. -/
structure compress.State where
  rowstart : List Nat
  new_colnums : List Nat
  tmp_entries : List Nat
  next_free_entry : Nat
  next_row_start : Nat
  thrown : Option Exc
  deriving DecidableEq

/-- The loop "copy used entries, break if first unused entry is reached" of
`compress`, at slot `j` with `count` slots of the row left: the result is
`row_length` and `tmp_entries`. -/
def compress.copy_used (H : Declarations) (colnums : List Nat) :
    (count j row_length : Nat) → (tmp_entries : List Nat) → Nat × List Nat
  | 0, _, row_length, tmp_entries => (row_length, tmp_entries)
  | count + 1, j, row_length, tmp_entries =>
    if colnums.getD j 0 ≠ H.invalid_entry then
      compress.copy_used H colnums count (j + 1) (row_length + 1)
        (tmp_entries.set row_length (colnums.getD j 0))
    else (row_length, tmp_entries)

/-- The test `std::adjacent_find(first, last) == last` on the range `l`: no two
neighbours are equal. -/
def compress.no_adjacent_equal : List Nat → Bool
  | [] => true
  | [_] => true
  | x :: y :: rest => x != y && compress.no_adjacent_equal (y :: rest)

/-- The body of the loop over the rows in `compress`, for the row `line`. -/
def compress.row (P : Platform) (H : Declarations) (store_diagonal_first_in_row : Bool)
    (colnums : List Nat) (line : Nat) (s : compress.State) : compress.State :=
  match s.thrown with
  | some _ => s
  | none =>
    let copied := compress.copy_used H colnums
      (s.rowstart.getD (line + 1) 0 - s.rowstart.getD line 0) (s.rowstart.getD line 0) 0
      s.tmp_entries
    let row_length := copied.1
    let first := if store_diagonal_first_in_row then 1 else 0
    let tmp_entries :=
      if row_length > 1 then
        copied.2.take first ++ H.sort ((copied.2.drop first).take (row_length - first)) ++
          copied.2.drop row_length
      else copied.2
    let written :=
      for_loop 0 row_length
        (fun j (w : List Nat × Nat) => (w.1.set w.2 (tmp_entries.getD j 0), w.2 + 1))
        (s.new_colnums, s.next_free_entry)
    let new_colnums := written.1
    let next_free_entry := written.2
    let rowstart := s.rowstart.set line s.next_row_start
    let next_row_start := next_free_entry
    let s1 : compress.State :=
      { rowstart := rowstart
        new_colnums := new_colnums
        tmp_entries := tmp_entries
        next_free_entry := next_free_entry
        next_row_start := next_row_start
        thrown := none }
    match Assert P (!store_diagonal_first_in_row ||
        (row_length != 0 && new_colnums.getD (rowstart.getD line 0) 0 == line))
        Exc.ExcInternalError with
    | some e => { s1 with thrown := some e }
    | none =>
      match Assert P (rowstart.getD line 0 == next_row_start ||
          !((new_colnums.drop (rowstart.getD line 0 + 1)).take
              (next_row_start - (rowstart.getD line 0 + 1))).contains
            (new_colnums.getD (rowstart.getD line 0) 0))
          Exc.ExcInternalError with
      | some e => { s1 with thrown := some e }
      | none =>
        match Assert P (rowstart.getD line 0 == next_row_start ||
            compress.no_adjacent_equal
              ((new_colnums.drop (rowstart.getD line 0 + 1)).take
                (next_row_start - (rowstart.getD line 0 + 1))))
            Exc.ExcInternalError with
        | some e => { s1 with thrown := some e }
        | none => s1

/-- The member `compress()`. -/
def compress (P : Platform) (H : Declarations) (sp : SparsityPattern) : Outcome :=
  if sp.rowstart = none ∧ sp.colnums = none then
    { thrown := none, pattern := { sp with compressed := true }, stored := [] }
  else if sp.compressed then { thrown := none, pattern := sp, stored := [] }
  else
    let rowstart := sp.rowstart.getD []
    let colnums := sp.colnums.getD []
    let nonzero_elements :=
      ((colnums.drop (rowstart.getD 0 0)).take
        (rowstart.getD sp.rows 0 - rowstart.getD 0 0)).countP
        (fun col => col != H.invalid_entry)
    let s0 : compress.State :=
      { rowstart := rowstart
        new_colnums := List.replicate nonzero_elements 0
        tmp_entries := List.replicate sp.max_row_length 0
        next_free_entry := 0
        next_row_start := 0
        thrown := none }
    let s := for_loop 0 sp.rows
      (compress.row P H sp.store_diagonal_first_in_row colnums) s0
    match s.thrown with
    | some e =>
      { thrown := some e, pattern := { sp with rowstart := some s.rowstart }, stored := [] }
    | none =>
      match Assert P (s.next_free_entry == nonzero_elements) Exc.ExcInternalError with
      | some e =>
        { thrown := some e, pattern := { sp with rowstart := some s.rowstart },
          stored := [] }
      | none =>
        { thrown := none
          pattern :=
            { sp with
              rowstart := some (s.rowstart.set sp.rows s.next_row_start)
              colnums := some s.new_colnums
              max_vec_len := nonzero_elements
              compressed := true }
          stored := [] }

/-- The member `operator()(i, j)`. -/
def operator_call (P : Platform) (H : Declarations) (i j : Nat) (sp : SparsityPattern) :
    Except Exc Nat :=
  match Assert P (sp.rowstart.isSome && sp.colnums.isSome) Exc.ExcEmptyObject with
  | some e => Except.error e
  | none =>
    match Assert P (decide (i < sp.rows)) (Exc.ExcIndexRange i 0 sp.rows) with
    | some e => Except.error e
    | none =>
      match Assert P (decide (j < sp.cols)) (Exc.ExcIndexRange j 0 sp.cols) with
      | some e => Except.error e
      | none =>
        match Assert P sp.compressed Exc.ExcNotCompressed with
        | some e => Except.error e
        | none =>
          let rowstart := sp.rowstart.getD []
          let colnums := sp.colnums.getD []
          if rowstart.getD i 0 = rowstart.getD (i + 1) 0 then Except.ok H.invalid_entry
          else if sp.store_diagonal_first_in_row && i == j then
            Except.ok (rowstart.getD i 0)
          else
            let sorted_region_start :=
              if sp.store_diagonal_first_in_row then rowstart.getD i 0 + 1
              else rowstart.getD i 0
            let p := H.lower_bound colnums sorted_region_start (rowstart.getD (i + 1) 0) j
            if p ≠ rowstart.getD (i + 1) 0 ∧ colnums.getD p 0 = j then Except.ok p
            else Except.ok H.invalid_entry

/-- The member `exists(i, j)`. -/
def «exists» (P : Platform) (i j : Nat) (sp : SparsityPattern) : Except Exc Bool :=
  match Assert P (sp.rowstart.isSome && sp.colnums.isSome) Exc.ExcEmptyObject with
  | some e => Except.error e
  | none =>
    match Assert P (decide (i < sp.rows)) (Exc.ExcIndexRange i 0 sp.rows) with
    | some e => Except.error e
    | none =>
      match Assert P (decide (j < sp.cols)) (Exc.ExcIndexRange j 0 sp.cols) with
      | some e => Except.error e
      | none =>
        let rowstart := sp.rowstart.getD []
        let colnums := sp.colnums.getD []
        Except.ok ((List.range' (rowstart.getD i 0)
          (rowstart.getD (i + 1) 0 - rowstart.getD i 0)).any
            (fun k => colnums.getD k 0 == j))

end SparsityPattern

/-! ## Definitions used to state the properties -/

/-- The region `d` after `f i` has been stored in every slot `i` of `[begin, end)`. -/
def write_subrange {α : Type} (f : Nat → α) (begin_ end_ : Nat) (d : List α) : List α :=
  for_loop begin_ end_ (fun i d => d.set i (f i)) d

namespace internal

/-- What `AlignedVectorDefaultInitialize` leaves in a slot: the all-zero object for a
trivially default constructible type, `T()` otherwise. -/
def default_initialized {T : Type} (E : ElementType T) : T :=
  if E.is_trivially_default_constructible then E.zero_bytes else E.value_initialized

end internal

namespace AlignedVector

variable {T : Type}

/-- The class invariant the member functions rely on: `size() <= capacity()`, and a
vector whose `elements` is `nullptr` has no storage. -/
def valid (v : AlignedVector T) : Prop :=
  v.size ≤ v.capacity ∧ (v.elements = 0 → v.capacity = 0)

instance (v : AlignedVector T) : Decidable v.valid := by
  unfold valid
  infer_instance

/-- The loop `for (const T &x : values) v.push_back(x);`. -/
def push_back_all (P : Platform) (E : ElementType T) (values : List T)
    (v : AlignedVector T) : Outcome T :=
  values.foldl (fun o x => o.andThen (push_back P E x)) (Outcome.ok v [])

end AlignedVector

namespace SparsityPattern

/-- The values `a[lo], ..., a[lo + n - 1]` of an array. -/
def slots (a : List Nat) (lo n : Nat) : List Nat :=
  (List.range' lo n).map (fun k => a.getD k 0)

/-- The value `rowstart[i]`. -/
def rowstart_at (sp : SparsityPattern) (i : Nat) : Nat :=
  (sp.rowstart.getD []).getD i 0

/-- The value `colnums[k]`. -/
def colnums_at (sp : SparsityPattern) (k : Nat) : Nat :=
  (sp.colnums.getD []).getD k 0

/-- The slots of row `i`: `colnums[rowstart[i]], ..., colnums[rowstart[i + 1] - 1]`. -/
def row_slots (sp : SparsityPattern) (i : Nat) : List Nat :=
  slots (sp.colnums.getD []) (sp.rowstart_at i) (sp.rowstart_at (i + 1) - sp.rowstart_at i)

/-- The column indices of row `i`: what its slots hold other than `invalid_entry`. -/
def row_entries (H : Declarations) (sp : SparsityPattern) (i : Nat) : List Nat :=
  (row_slots sp i).filter (fun col => col != H.invalid_entry)

/-- The number of slots of the stored range `colnums[rowstart[0]], ...,
`colnums[rowstart[rows] - 1]` that hold a column index. -/
def n_valid_entries (H : Declarations) (sp : SparsityPattern) : Nat :=
  ((slots (sp.colnums.getD []) (sp.rowstart_at 0)
      (sp.rowstart_at sp.rows - sp.rowstart_at 0)).filter
    (fun col => col != H.invalid_entry)).length

/-- An uncompressed pattern as `reinit` leaves it and `add` keeps it: both arrays are
there and hold the rows one after the other, no row has more slots than
`max_row_length`, the column indices of a row come before its free slots and are
distinct, and a square pattern has the diagonal entry in the first slot of each row. -/
structure Uncompressed (H : Declarations) (sp : SparsityPattern) : Prop where
  not_compressed : sp.compressed = false
  rowstart_size : ∃ rowstart, sp.rowstart = some rowstart ∧ sp.rows + 1 ≤ rowstart.length
  colnums_size : ∃ colnums, sp.colnums = some colnums ∧ sp.rowstart_at sp.rows ≤ colnums.length
  rowstart_mono : ∀ i, i < sp.rows → sp.rowstart_at i ≤ sp.rowstart_at (i + 1)
  row_length_le :
    ∀ i, i < sp.rows → sp.rowstart_at (i + 1) - sp.rowstart_at i ≤ sp.max_row_length
  valid_first :
    ∀ i, i < sp.rows → ∀ l, l < sp.rowstart_at (i + 1) → ∀ k, sp.rowstart_at i ≤ k → k < l →
      sp.colnums_at l ≠ H.invalid_entry → sp.colnums_at k ≠ H.invalid_entry
  distinct :
    ∀ i, i < sp.rows → ∀ l, l < sp.rowstart_at (i + 1) → ∀ k, sp.rowstart_at i ≤ k → k < l →
      sp.colnums_at l ≠ H.invalid_entry → sp.colnums_at k ≠ sp.colnums_at l
  diagonal_first :
    sp.store_diagonal_first_in_row = true → ∀ i, i < sp.rows →
      sp.rowstart_at i < sp.rowstart_at (i + 1) ∧ sp.colnums_at (sp.rowstart_at i) = i ∧
        i ≠ H.invalid_entry

/-- A compressed pattern: both arrays are there, the rows follow one another from
`rowstart[0] = 0`, each row is in strictly ascending order, after its first slot in a
square pattern, where that slot holds the diagonal entry. -/
structure Compressed (sp : SparsityPattern) : Prop where
  is_compressed : sp.compressed = true
  rowstart_size : ∃ rowstart, sp.rowstart = some rowstart ∧ sp.rows + 1 ≤ rowstart.length
  colnums_size : ∃ colnums, sp.colnums = some colnums ∧ sp.rowstart_at sp.rows ≤ colnums.length
  rowstart_zero : sp.rowstart_at 0 = 0
  rowstart_mono : ∀ i, i < sp.rows → sp.rowstart_at i ≤ sp.rowstart_at (i + 1)
  ascending :
    ∀ i, i < sp.rows → ∀ l, l < sp.rowstart_at (i + 1) →
      ∀ k, sp.rowstart_at i + (if sp.store_diagonal_first_in_row then 1 else 0) ≤ k → k < l →
        sp.colnums_at k < sp.colnums_at l
  diagonal_first :
    sp.store_diagonal_first_in_row = true → ∀ i, i < sp.rows →
      sp.rowstart_at i < sp.rowstart_at (i + 1) ∧ sp.colnums_at (sp.rowstart_at i) = i

/-- The row that `compress` makes of the column indices `p` of a row: sorted, after
the first one when the diagonal is stored first. -/
def compress.sorted_row (H : Declarations) (store_diagonal_first_in_row : Bool)
    (p : List Nat) : List Nat :=
  if p.length > 1 then
    p.take (if store_diagonal_first_in_row then 1 else 0) ++
      H.sort (p.drop (if store_diagonal_first_in_row then 1 else 0))
  else p

/-- The row `line` after `compress`, from the arrays before it. -/
def compress.new_row (H : Declarations) (store_diagonal_first_in_row : Bool)
    (rowstart colnums : List Nat) (line : Nat) : List Nat :=
  compress.sorted_row H store_diagonal_first_in_row
    ((slots colnums (rowstart.getD line 0)
        (rowstart.getD (line + 1) 0 - rowstart.getD line 0)).takeWhile
      (fun col => col != H.invalid_entry))

/-- The first `n` rows after `compress`, one after the other. -/
def compress.new_rows (H : Declarations) (store_diagonal_first_in_row : Bool)
    (rowstart colnums : List Nat) : Nat → List Nat
  | 0 => []
  | n + 1 =>
    compress.new_rows H store_diagonal_first_in_row rowstart colnums n ++
      compress.new_row H store_diagonal_first_in_row rowstart colnums n

end SparsityPattern

/-! ## Concrete instances used to evaluate the functions -/

/-- The element type `int` (32 bits), its values represented by integers. -/
def int32 : ElementType Int where
  sizeof := 4
  sizeof_pos := by decide
  is_trivially_copyable := true
  is_trivially_default_constructible := true
  is_trivially_destructible := true
  is_long_double := false
  value_initialized := 0
  zero_bytes := 0
  memcmp_zero := fun e => e == 0
  memcmp_zero_eq := by
    intro e h
    simpa using h
  memory_consumption := fun _ => 4
  operator_ne := fun a b => a != b

/-- A platform on which every allocation succeeds (at address `64 * (size + 1)`) and
the parallel-for driver runs the whole range as one subrange. -/
def serial_platform (debug : Bool) : Platform where
  running_in_debug_mode := debug
  posix_memalign := fun _ size => some (64 * (size + 1))
  posix_memalign_ne_null := by
    intro _ size p _ h
    simp at h
    omega
  subranges := fun begin_ end_ _ => [(begin_, end_)]
  subranges_within := by
    intro b e g r hbe hr
    simp at hr
    subst hr
    exact ⟨Nat.le_refl _, hbe, Nat.le_refl _⟩
  subranges_cover := by
    intro b e g i h1 h2
    exact ⟨(b, e), by simp, h1, h2⟩
  temporary_object := 8

/-- Three `int`s in a block of four, owned by the object at address 1000. -/
def example_buffer : AlignedVector Int :=
  { this_ptr := 1000
    elements := 4096
    deleter := { deleter_action_object := none, owning_aligned_vector := 1000 }
    live := [some 1, some 2, some 3]
    allocated_size := 4
    replicated_across_communicator := false }

/-- The vector `AlignedVector<int>(5, 7)`. -/
def five_sevens : AlignedVector Int :=
  (AlignedVector.size_constructor (serial_platform true) int32 1000 5 7).vec

/-- The vector `AlignedVector<int>(3, 1)`. -/
def three_ones : AlignedVector Int :=
  (AlignedVector.size_constructor (serial_platform true) int32 1000 3 1).vec

/-- The vector `AlignedVector<int>(8, 0)`. -/
def eight_zeros : AlignedVector Int :=
  (AlignedVector.size_constructor (serial_platform true) int32 1000 8 0).vec

/-- A default constructed vector after `push_back(1); push_back(2);`. -/
def one_two : AlignedVector Int :=
  (AlignedVector.push_back_all (serial_platform true) int32 [1, 2]
    (AlignedVector.default_constructor 1000)).vec

/-- One `int` in a block of one: a full vector. -/
def full_buffer : AlignedVector Int :=
  { this_ptr := 1000
    elements := 4096
    deleter := { deleter_action_object := none, owning_aligned_vector := 1000 }
    live := [some 5]
    allocated_size := 1
    replicated_across_communicator := false }

/-- The vector `[1, 2, 3]` as `replicate_across_communicator` leaves it in a debug
build on the root of a shared-memory group: the block lies in an MPI window, the
deleter carries the shared-memory action, and the flag is set. -/
def replicated_buffer : AlignedVector Int :=
  { this_ptr := 1000
    elements := 8192
    deleter :=
      { deleter_action_object := some
          { is_shmem_root := true
            aligned_shmem_pointer := 8192
            shmem_group_communicator := 1
            shmem_window := 2 }
        owning_aligned_vector := 1000 }
    live := [some 1, some 2, some 3]
    allocated_size := 3
    replicated_across_communicator := true }

/-- An element type with a user-provided default constructor (it stores `7`) and a
user-provided destructor, its values represented by integers. -/
def counted : ElementType Int where
  sizeof := 8
  sizeof_pos := by decide
  is_trivially_copyable := false
  is_trivially_default_constructible := false
  is_trivially_destructible := false
  is_long_double := false
  value_initialized := 7
  zero_bytes := 0
  memcmp_zero := fun e => e == 0
  memcmp_zero_eq := by
    intro e h
    simpa using h
  memory_consumption := fun _ => 8
  operator_ne := fun a b => a != b

/-- The element type `AlignedVector<int>`, for a vector of vectors: an object of
48 bytes whose `memory_consumption()` is the member function of this header and
whose `operator!=` is the negation of `operator==` of this header. -/
def nested_vector : ElementType (AlignedVector Int) where
  sizeof := 48
  sizeof_pos := by decide
  is_trivially_copyable := false
  is_trivially_default_constructible := false
  is_trivially_destructible := false
  is_long_double := false
  value_initialized := AlignedVector.default_constructor 0
  zero_bytes :=
    { this_ptr := 0
      elements := 0
      deleter := { deleter_action_object := none, owning_aligned_vector := 0 }
      live := []
      allocated_size := 0
      replicated_across_communicator := false }
  memcmp_zero := fun e => decide (e =
    { this_ptr := 0
      elements := 0
      deleter := { deleter_action_object := none, owning_aligned_vector := 0 }
      live := []
      allocated_size := 0
      replicated_across_communicator := false })
  memcmp_zero_eq := by
    intro e h
    simpa using h
  memory_consumption := AlignedVector.memory_consumption int32 48
  operator_ne := fun a b => !AlignedVector.operator_eq int32 a b

/-- A vector of vectors with one element, the vector `[1, 2, 3]` with room for
four `int`s, in a block with room for two elements. -/
def nested_buffer : AlignedVector (AlignedVector Int) :=
  { this_ptr := 3000
    elements := 12288
    deleter := { deleter_action_object := none, owning_aligned_vector := 3000 }
    live := [some { example_buffer with
      this_ptr := 12288
      deleter := { deleter_action_object := none, owning_aligned_vector := 12288 } }]
    allocated_size := 2
    replicated_across_communicator := false }

/-- A value of a floating-point type: a number or a NaN. -/
inductive FloatingPoint where
  | number (x : Int)
  | NaN
  deriving DecidableEq

/-- The element type `double`, its values represented by integers and a NaN, which
`operator!=` tells from every value, itself included. -/
def double : ElementType FloatingPoint where
  sizeof := 8
  sizeof_pos := by decide
  is_trivially_copyable := true
  is_trivially_default_constructible := true
  is_trivially_destructible := true
  is_long_double := false
  value_initialized := FloatingPoint.number 0
  zero_bytes := FloatingPoint.number 0
  memcmp_zero := fun e => e == FloatingPoint.number 0
  memcmp_zero_eq := by
    intro e h
    simpa using h
  memory_consumption := fun _ => 8
  operator_ne := fun a b =>
    match a, b with
    | FloatingPoint.number x, FloatingPoint.number y => x != y
    | _, _ => true

/-- The vector of `double` that holds `1.0` and a NaN. -/
def one_and_nan : AlignedVector FloatingPoint :=
  { this_ptr := 1000
    elements := 4096
    deleter := { deleter_action_object := none, owning_aligned_vector := 1000 }
    live := [some (FloatingPoint.number 1), some FloatingPoint.NaN]
    allocated_size := 2
    replicated_across_communicator := false }

/-- A platform on which no allocation succeeds: `posix_memalign` always throws
`ExcOutOfMemory`. -/
def exhausted_platform (debug : Bool) : Platform where
  running_in_debug_mode := debug
  posix_memalign := fun _ _ => none
  posix_memalign_ne_null := by
    intro _ _ p _ h
    simp at h
  subranges := fun begin_ end_ _ => [(begin_, end_)]
  subranges_within := by
    intro b e g r hbe hr
    simp at hr
    subst hr
    exact ⟨Nat.le_refl _, hbe, Nat.le_refl _⟩
  subranges_cover := by
    intro b e g i h1 h2
    exact ⟨(b, e), by simp, h1, h2⟩
  temporary_object := 8

/-- A communicator of four processes on two machines, processes 0 and 1 on the
first and processes 2 and 3 on the second; each process sees the shared segment
eight bytes behind a multiple of 4096. -/
def two_nodes : Communicator where
  n_mpi_processes := 4
  shmem_root := fun root_process r =>
    if r / 2 = root_process / 2 then root_process else 2 * (r / 2)
  shmem_root_of_root := by
    intro root_process
    simp
  shmem_root_idem := by
    intro root_process r
    by_cases h : r / 2 = root_process / 2
    · simp [h]
    · have h2 : 2 * (r / 2) / 2 = r / 2 := by omega
      simp [h, h2]
  shmem_root_lt := by
    intro root_process r h1 h2
    by_cases h : r / 2 = root_process / 2
    · simp [h, h1]
    · simp only [h, if_false]
      omega
  shmem_group_communicator := fun r => 100 + r
  shmem_window := fun r => 200 + r
  base_ptr := fun r _ => 4096 * (r + 1) + 8

/-- The communicator of a single process. -/
def one_process : Communicator where
  n_mpi_processes := 1
  shmem_root := fun root_process r => if r = root_process then root_process else r
  shmem_root_of_root := by
    intro root_process
    simp
  shmem_root_idem := by
    intro root_process r
    by_cases h : r = root_process <;> simp [h]
  shmem_root_lt := by
    intro root_process r h1 h2
    by_cases h : r = root_process <;> simp [h, h1, h2]
  shmem_group_communicator := fun r => 100 + r
  shmem_window := fun r => 200 + r
  base_ptr := fun r _ => 4096 * (r + 1) + 8

/-- The objects of four processes before a replication from process 0: `[1, 2, 3]`
on process 0, `AlignedVector<int>(5, 7)` on process 1, empty vectors elsewhere. -/
def four_vectors (r : Nat) : AlignedVector Int :=
  if r = 0 then example_buffer
  else if r = 1 then five_sevens
  else AlignedVector.default_constructor (1000 + r)

/-- A trivially copyable element type of `2^30` bytes (a `struct` with an array of
`2^28` `int`s, say), its values represented by integers. -/
def block : ElementType Int where
  sizeof := 1073741824
  sizeof_pos := by decide
  is_trivially_copyable := true
  is_trivially_default_constructible := true
  is_trivially_destructible := true
  is_long_double := false
  value_initialized := 0
  zero_bytes := 0
  memcmp_zero := fun e => e == 0
  memcmp_zero_eq := by
    intro e h
    simpa using h
  memory_consumption := fun _ => 1073741824
  operator_ne := fun a b => a != b

/-- The objects of four processes before a replication from process 0: five objects
on process 0, empty vectors elsewhere. -/
def five_blocks (r : Nat) : AlignedVector Int :=
  if r = 0 then
    { this_ptr := 1000
      elements := 4096
      deleter := { deleter_action_object := none, owning_aligned_vector := 1000 }
      live := [some 1, some 2, some 3, some 4, some 5]
      allocated_size := 5
      replicated_across_communicator := false }
  else AlignedVector.default_constructor (1000 + r)

/-- A stand-in for the sum of the bytes of a packed vector of `int`. -/
def sum_of_items (ar : List (ArchiveItem Int)) : Int :=
  ar.foldl (fun acc item =>
    match item with
    | ArchiveItem.size n => acc + n
    | ArchiveItem.array slots => slots.foldl (fun a s => a + s.getD 0) acc) 0

/-- The communicator `two_nodes` on a machine that maps the shared segment at
addresses with different remainders modulo 64 in different processes. -/
def distorted_nodes : Communicator :=
  { two_nodes with base_ptr := fun r _ => 4096 * (r + 1) + 8 * (r + 1) }

/-- The vector `AlignedVector<int>(2, 9)` in the object at address 2000. -/
def two_nines : AlignedVector Int :=
  (AlignedVector.size_constructor (serial_platform true) int32 2000 2 9).vec

/-- An empty vector with room for four `int`s: a default constructed vector after
`reserve(4)`. -/
def reserved_buffer : AlignedVector Int :=
  (AlignedVector.reserve (serial_platform true) int32 4
    (AlignedVector.default_constructor 1000)).vec

/-- The first index in `[first, first + count)` at which `stop` holds, `first + count`
if there is none. -/
def scan (stop : Nat → Bool) : (count first : Nat) → Nat
  | 0, first => first
  | count + 1, first => if stop first then first else scan stop count (first + 1)

/-- The declarations with `invalid_entry` the largest 32-bit unsigned number, an
insertion sort for `std::sort`, and the two searches done by scanning. -/
def standard_declarations : SparsityPattern.Declarations :=
  have key : ∀ (stop : Nat → Bool) (count first : Nat),
      first ≤ scan stop count first ∧ scan stop count first ≤ first + count ∧
      (∀ k, first ≤ k → k < scan stop count first → stop k = false) ∧
      (scan stop count first < first + count → stop (scan stop count first) = true) := by
    intro stop count
    induction count with
    | zero =>
      intro first
      simp only [scan]
      exact ⟨Nat.le_refl _, Nat.le_refl _, fun k h1 h2 => absurd h2 (by omega),
        fun h => absurd h (by omega)⟩
    | succ count ih =>
      intro first
      simp only [scan]
      by_cases h : stop first = true
      · rw [if_pos h]
        exact ⟨Nat.le_refl _, by omega, fun k h1 h2 => absurd h2 (by omega), fun _ => h⟩
      · rw [if_neg h]
        obtain ⟨h1, h2, h3, h4⟩ := ih (first + 1)
        refine ⟨by omega, by omega, ?_, fun h5 => h4 (by omega)⟩
        intro k hk1 hk2
        by_cases hk : k = first
        · subst hk
          simpa using h
        · exact h3 k (by omega) hk2
  { invalid_entry := 4294967295
    sort := fun l => l.insertionSort (fun x y => x ≤ y)
    sort_perm := fun l => List.perm_insertionSort _ l
    sort_sorted := fun l => List.sorted_insertionSort _ l
    lower_bound := fun a first last val =>
      scan (fun k => decide (val ≤ a.getD k 0)) (last - first) first
    lower_bound_spec := by
      intro a first last val hfl hsorted
      dsimp only
      obtain ⟨h1, h2, h3, h4⟩ := key (fun k => decide (val ≤ a.getD k 0)) (last - first) first
      refine ⟨h1, by omega, ?_, ?_⟩
      · intro k hk1 hk2
        have := h3 k hk1 hk2
        simp only [decide_eq_false_iff_not, Nat.not_le] at this
        exact this
      · intro k hk1 hk2
        have h5 := h4 (by omega)
        simp only [decide_eq_true_eq] at h5
        exact Nat.le_trans h5 (hsorted _ k h1 hk1 hk2)
    upper_bound := fun a first last val =>
      scan (fun k => decide (val < a.getD k 0)) (last - first) first
    upper_bound_spec := by
      intro a first last val hfl hsorted
      dsimp only
      obtain ⟨h1, h2, h3, h4⟩ := key (fun k => decide (val < a.getD k 0)) (last - first) first
      refine ⟨h1, by omega, ?_, ?_⟩
      · intro k hk1 hk2
        have := h3 k hk1 hk2
        simp only [decide_eq_false_iff_not, Nat.not_lt] at this
        exact this
      · intro k hk1 hk2
        have h5 := h4 (by omega)
        simp only [decide_eq_true_eq] at h5
        exact Nat.lt_of_lt_of_le h5 (hsorted _ k h1 hk1 hk2)
    n_nonzero_elements := fun rowstart rows => rowstart.getD rows 0 - rowstart.getD 0 0
    n_nonzero_elements_eq := fun _ _ => rfl }

/-- The pattern of `SparsityPattern(2, 3, {1, 1})` in a debug build: two rows of three
columns with one slot each. -/
def two_rows : SparsityPattern :=
  (SparsityPattern.constructor (serial_platform true) standard_declarations 2 3 [1, 1]).pattern

/-- The square pattern of `SparsityPattern(3, 3, {3, 3, 3})` after `add(0, 2)`,
`add(0, 1)`, `add(1, 2)`, `add(1, 0)` and `add(2, 1)`, in a debug build. -/
def square_pattern : SparsityPattern :=
  (SparsityPattern.add (serial_platform true) standard_declarations 2 1
    (SparsityPattern.add (serial_platform true) standard_declarations 1 0
      (SparsityPattern.add (serial_platform true) standard_declarations 1 2
        (SparsityPattern.add (serial_platform true) standard_declarations 0 1
          (SparsityPattern.add (serial_platform true) standard_declarations 0 2
            (SparsityPattern.constructor (serial_platform true) standard_declarations 3 3
              [3, 3, 3]).pattern).pattern).pattern).pattern).pattern).pattern

/-- The pattern of `SparsityPattern(3, 4, {2, 0, 3})`, whose row 1 has no slot, after
`add(0, 2)`, `add(0, 1)`, `add(2, 3)` and `add(2, 0)`, in a debug build. -/
def rectangular_pattern : SparsityPattern :=
  (SparsityPattern.add (serial_platform true) standard_declarations 2 0
    (SparsityPattern.add (serial_platform true) standard_declarations 2 3
      (SparsityPattern.add (serial_platform true) standard_declarations 0 1
        (SparsityPattern.add (serial_platform true) standard_declarations 0 2
          (SparsityPattern.constructor (serial_platform true) standard_declarations 3 4
            [2, 0, 3]).pattern).pattern).pattern).pattern).pattern

/-- The pattern `rectangular_pattern` after `compress()`. -/
def compressed_rectangular : SparsityPattern :=
  (SparsityPattern.compress (serial_platform true) standard_declarations
    rectangular_pattern).pattern

/-- The pattern `square_pattern` after `compress()`. -/
def compressed_square : SparsityPattern :=
  (SparsityPattern.compress (serial_platform true) standard_declarations square_pattern).pattern

/-! ## Lemmas on the bulk operations -/

theorem foldl_set_getElem? {α : Type} (f : Nat → α) (n : Nat) :
    ∀ (b : Nat) (d : List α) (j : Nat),
      ((List.range' b n).foldl (fun acc i => acc.set i (f i)) d)[j]? =
        if b ≤ j ∧ j < b + n then (if j < d.length then some (f j) else none) else d[j]? := by
  induction n with
  | zero =>
    intro b d j
    have h : ¬ (b ≤ j ∧ j < b) := by omega
    simp [h]
  | succ n ih =>
    intro b d j
    rw [List.range'_succ, List.foldl_cons, ih, List.getElem?_set, List.length_set]
    by_cases h1 : b = j
    · subst h1
      simp
    · by_cases h2 : b + 1 ≤ j ∧ j < b + 1 + n
      · have h3 : b ≤ j ∧ j < b + (n + 1) := by omega
        simp [h1, h2, h3]
      · have h3 : ¬ (b ≤ j ∧ j < b + (n + 1)) := by omega
        simp [h1, h2, h3]

theorem for_loop_set_getElem? {α : Type} (f : Nat → α) (b e : Nat) (d : List α) (j : Nat) :
    (for_loop b e (fun i d => d.set i (f i)) d)[j]? =
      if b ≤ j ∧ j < e then (if j < d.length then some (f j) else none) else d[j]? := by
  unfold for_loop
  rw [foldl_set_getElem?]
  by_cases h : b ≤ j ∧ j < e
  · have h' : b ≤ j ∧ j < b + (e - b) := by omega
    simp [h, h']
  · have h' : ¬ (b ≤ j ∧ j < b + (e - b)) := by omega
    simp [h, h']

/-- Writing `f i` into every slot `i` of the subranges `rs`, one subrange after the other. -/
theorem foldl_subranges_getElem? {α : Type} (f : Nat → α) (rs : List (Nat × Nat)) :
    ∀ (d : List α) (j : Nat),
      (rs.foldl (fun acc r => for_loop r.1 r.2 (fun i d => d.set i (f i)) acc) d)[j]? =
        if ∃ r ∈ rs, r.1 ≤ j ∧ j < r.2 then (if j < d.length then some (f j) else none)
        else d[j]? := by
  induction rs with
  | nil => intro d j; simp
  | cons r rs ih =>
    intro d j
    rw [List.foldl_cons, ih, for_loop_set_getElem?]
    have hlen : (for_loop r.1 r.2 (fun i d => d.set i (f i)) d).length = d.length := by
      unfold for_loop
      generalize List.range' r.1 (r.2 - r.1) = is
      induction is generalizing d with
      | nil => simp
      | cons i is ih2 => simp [List.foldl_cons, ih2]
    rw [hlen]
    by_cases h1 : ∃ r' ∈ rs, r'.1 ≤ j ∧ j < r'.2
    · have h2 : ∃ r' ∈ r :: rs, r'.1 ≤ j ∧ j < r'.2 := by
        obtain ⟨r', hr', hj⟩ := h1
        exact ⟨r', List.mem_cons_of_mem _ hr', hj⟩
      simp only [h1, h2, if_true]
    · by_cases h3 : r.1 ≤ j ∧ j < r.2
      · have h2 : ∃ r' ∈ r :: rs, r'.1 ≤ j ∧ j < r'.2 :=
          ⟨r, List.mem_cons_self _ _, h3⟩
        simp only [h1, h2, h3, if_true, if_false]
        by_cases h4 : j < d.length
        · simp [h4]
        · simp [h4]
      · have h2 : ¬ ∃ r' ∈ r :: rs, r'.1 ≤ j ∧ j < r'.2 := by
          rintro ⟨r', hr', hj⟩
          rcases List.mem_cons.mp hr' with h | h
          · subst h; exact h3 hj
          · exact h1 ⟨r', h, hj⟩
        simp only [h1, h2, h3, if_false]

theorem bulk_write {α : Type} (P : Platform) (f : Nat → α) (n grain : Nat) (d : List α)
    (hn : n ≤ d.length) :
    (if n < grain then write_subrange f 0 n d
     else ParallelForInteger.apply_parallel P (write_subrange f) 0 n grain d) =
      (List.range n).map f ++ d.drop n := by
  apply List.ext_getElem?
  intro j
  have hR : ((List.range n).map f ++ d.drop n)[j]? = if j < n then some (f j) else d[j]? := by
    by_cases hj : j < n
    · rw [List.getElem?_append_left (by simpa using hj)]
      simp [hj, List.getElem?_range]
    · rw [List.getElem?_append_right (by simpa using hj)]
      simp only [List.length_map, List.length_range, List.getElem?_drop, hj, if_false]
      congr 1
      omega
  rw [hR]
  split
  · unfold write_subrange
    rw [for_loop_set_getElem?]
    by_cases hj : j < n
    · have : j < d.length := by omega
      simp [hj, this]
    · simp [hj]
  · unfold ParallelForInteger.apply_parallel write_subrange
    rw [foldl_subranges_getElem?]
    by_cases hj : j < n
    · have h1 : ∃ r ∈ P.subranges 0 n grain, r.1 ≤ j ∧ j < r.2 :=
        P.subranges_cover 0 n grain j (Nat.zero_le _) hj
      have : j < d.length := by omega
      simp only [h1, hj, this, if_true]
    · have h1 : ¬ ∃ r ∈ P.subranges 0 n grain, r.1 ≤ j ∧ j < r.2 := by
        rintro ⟨r, hr, -, h2⟩
        have := (P.subranges_within 0 n grain r (Nat.zero_le _) hr).2.2
        omega
      simp only [h1, hj, if_false]

theorem map_getD_range {α : Type} (source : List (Option α)) :
    (List.range source.length).map (fun i => source.getD i none) = source := by
  apply List.ext_getElem?
  intro j
  by_cases hj : j < source.length
  · simp [List.getElem?_range, hj, List.getD_eq_getElem?_getD]
  · have h1 : (List.range source.length)[j]? = none :=
      List.getElem?_eq_none (by simp; omega)
    have h2 : source[j]? = none := List.getElem?_eq_none (by omega)
    simp [h1, h2]

namespace internal

theorem apply_to_subrange_move_eq {T : Type} (E : ElementType T) (raw_pointers : Bool)
    (source : List (Option T)) :
    AlignedVectorMoveConstruct.apply_to_subrange E raw_pointers source =
      write_subrange (fun i => source.getD i none) := by
  funext b e d
  unfold AlignedVectorMoveConstruct.apply_to_subrange write_subrange
  split
  · rename_i h
    subst h
    simp [for_loop]
  · split
    · unfold memcpy for_loop
      rw [Nat.add_sub_cancel_left]
    · rfl

theorem apply_to_subrange_copy_eq {T : Type} (E : ElementType T) (raw_pointers : Bool)
    (source : List (Option T)) :
    AlignedVectorCopyConstruct.apply_to_subrange E raw_pointers source =
      write_subrange (fun i => source.getD i none) := by
  funext b e d
  unfold AlignedVectorCopyConstruct.apply_to_subrange write_subrange
  split
  · rename_i h
    subst h
    simp [for_loop]
  · split
    · unfold memcpy for_loop
      rw [Nat.add_sub_cancel_left]
    · rfl

theorem AlignedVectorMoveConstruct_ok {T : Type} (P : Platform) (E : ElementType T)
    (raw_pointers : Bool) (source : List (Option T)) (ptr : Nat) (d : List (Option T))
    (hptr : source.length = 0 ∨ ptr ≠ 0) (hlen : source.length ≤ d.length) :
    AlignedVectorMoveConstruct P E raw_pointers source ptr d =
      Except.ok (source ++ d.drop source.length) := by
  have hA : Assert P (source.length == 0 || ptr != 0) Exc.ExcInternalError = none := by
    unfold Assert
    rcases hptr with h | h <;> simp [h]
  unfold AlignedVectorMoveConstruct
  rw [hA]
  simp only [apply_to_subrange_move_eq E raw_pointers]
  have := bulk_write P (fun i => source.getD i none) source.length
    (minimum_parallel_grain_size E) d hlen
  rw [map_getD_range] at this
  rw [← this]
  split <;> rfl

theorem AlignedVectorCopyConstruct_ok {T : Type} (P : Platform) (E : ElementType T)
    (raw_pointers : Bool) (source : List (Option T)) (ptr : Nat) (d : List (Option T))
    (hptr : source.length = 0 ∨ ptr ≠ 0) (hlen : source.length ≤ d.length) :
    AlignedVectorCopyConstruct P E raw_pointers source ptr d =
      Except.ok (source ++ d.drop source.length) := by
  have hA : Assert P (source.length == 0 || ptr != 0) Exc.ExcInternalError = none := by
    unfold Assert
    rcases hptr with h | h <;> simp [h]
  unfold AlignedVectorCopyConstruct
  rw [hA]
  simp only [apply_to_subrange_copy_eq E raw_pointers]
  have := bulk_write P (fun i => source.getD i none) source.length
    (minimum_parallel_grain_size E) d hlen
  rw [map_getD_range] at this
  rw [← this]
  split <;> rfl

theorem apply_to_subrange_value_eq {T : Type} (E : ElementType T)
    (initialize_memory : Bool) (element : T) (trivial_element : Bool)
    (htriv : trivial_element = true → element = E.zero_bytes) :
    AlignedVectorInitialize.apply_to_subrange E initialize_memory element trivial_element =
      write_subrange (fun _ => some element) := by
  funext b e d
  unfold AlignedVectorInitialize.apply_to_subrange write_subrange
  split
  · rename_i h
    simp only [Bool.and_eq_true] at h
    rw [htriv h.2]
    unfold memset for_loop
    rw [Nat.add_sub_cancel_left]
  · split <;> rfl

theorem AlignedVectorInitialize_ok {T : Type} (P : Platform) (E : ElementType T)
    (initialize_memory : Bool) (size : Nat) (element : T) (ptr : Nat) (d : List (Option T))
    (hptr : size = 0 ∨ ptr ≠ 0) (hlen : size ≤ d.length) :
    AlignedVectorInitialize P E initialize_memory size element ptr d =
      Except.ok (List.replicate size (some element) ++ d.drop size) := by
  unfold AlignedVectorInitialize
  split
  · rename_i h
    subst h
    simp
  · rename_i h
    have hA : Assert P (ptr != 0) Exc.ExcInternalError = none := by
      unfold Assert
      rcases hptr with h' | h'
      · exact absurd h' h
      · simp [h']
    rw [hA]
    have htriv : (if (E.is_trivially_default_constructible && !E.is_long_double) = true then
        E.memcmp_zero element else false) = true → element = E.zero_bytes := by
      intro h1
      split at h1
      · exact E.memcmp_zero_eq element h1
      · exact absurd h1 (by simp)
    simp only [apply_to_subrange_value_eq E initialize_memory element _ htriv]
    have := bulk_write P (fun _ => some element) size (minimum_parallel_grain_size E) d hlen
    have hm : (List.range size).map (fun _ => some element) =
        List.replicate size (some element) := by
      apply List.ext_getElem?
      intro j
      by_cases hj : j < size <;> simp [List.getElem?_range, hj, List.getElem?_replicate]
    rw [hm] at this
    rw [← this]
    split <;> rfl

theorem apply_to_subrange_default_eq {T : Type} (E : ElementType T)
    (initialize_memory : Bool) :
    AlignedVectorDefaultInitialize.apply_to_subrange E initialize_memory =
      write_subrange (fun _ => some (default_initialized E)) := by
  funext b e d
  unfold AlignedVectorDefaultInitialize.apply_to_subrange write_subrange default_initialized
  split
  · unfold memset for_loop
    rw [Nat.add_sub_cancel_left]
  · split <;> rfl

theorem AlignedVectorDefaultInitialize_ok {T : Type} (P : Platform) (E : ElementType T)
    (initialize_memory : Bool) (size : Nat) (ptr : Nat) (d : List (Option T))
    (hptr : size = 0 ∨ ptr ≠ 0) (hlen : size ≤ d.length) :
    AlignedVectorDefaultInitialize P E initialize_memory size ptr d =
      Except.ok (List.replicate size (some (default_initialized E)) ++ d.drop size) := by
  unfold AlignedVectorDefaultInitialize
  split
  · rename_i h
    subst h
    simp
  · rename_i h
    have hA : Assert P (ptr != 0) Exc.ExcInternalError = none := by
      unfold Assert
      rcases hptr with h' | h'
      · exact absurd h' h
      · simp [h']
    rw [hA]
    simp only [apply_to_subrange_default_eq E initialize_memory]
    have := bulk_write P (fun _ => some (default_initialized E)) size
      (minimum_parallel_grain_size E) d hlen
    have hm : (List.range size).map (fun _ => some (default_initialized E)) =
        List.replicate size (some (default_initialized E)) := by
      apply List.ext_getElem?
      intro j
      by_cases hj : j < size <;> simp [List.getElem?_range, hj, List.getElem?_replicate]
    rw [hm] at this
    rw [← this]
    split <;> rfl

end internal

/-! ## Lemmas on allocation -/

theorem resize_slots_length {T : Type} (l : List (Option T)) (k : Nat) :
    (resize_slots l k).length = k := by
  unfold resize_slots
  simp
  omega

theorem resize_slots_self {T : Type} (l : List (Option T)) :
    resize_slots l l.length = l := by
  unfold resize_slots
  simp

theorem resize_slots_le {T : Type} (l : List (Option T)) (k : Nat) (h : k ≤ l.length) :
    resize_slots l k = l.take k := by
  unfold resize_slots
  rw [List.take_append_of_le_length h]

theorem resize_slots_ge {T : Type} (l : List (Option T)) (k : Nat) (h : l.length ≤ k) :
    resize_slots l k = l ++ List.replicate (k - l.length) none := by
  unfold resize_slots
  apply List.take_of_length_le
  simp
  omega

theorem resize_slots_append {T : Type} (l m : List (Option T)) (k : Nat)
    (h : l.length = k) : resize_slots (l ++ m) k = l := by
  subst h
  rw [resize_slots_le _ _ (by simp)]
  simp

namespace AlignedVector
variable {T : Type}

/-- `allocate_and_move` when the allocation succeeds. -/
theorem allocate_and_move_ok (P : Platform) (E : ElementType T)
    (old_size new_size new_allocated_size : Nat) (v : AlignedVector T) (p : Nat)
    (hp : P.posix_memalign 64 (new_size * E.sizeof) = some p)
    (hle : old_size ≤ new_size) (hmove : 0 < new_allocated_size ∨ old_size = 0) :
    allocate_and_move P E old_size new_size new_allocated_size v =
      Outcome.ok
        { v with
          elements := p
          deleter := { deleter_action_object := none, owning_aligned_vector := v.this_ptr }
          live := resize_slots v.live old_size
          allocated_size := new_size }
        (release_events E v) := by
  unfold allocate_and_move
  simp only [hp]
  have hptr : (resize_slots v.live old_size).length = 0 ∨ p ≠ 0 := by
    rw [resize_slots_length]
    by_cases h0 : new_size = 0
    · left; omega
    · right
      exact P.posix_memalign_ne_null 64 _ p
        (Nat.mul_pos (Nat.pos_of_ne_zero h0) E.sizeof_pos) hp
  have hmv := internal.AlignedVectorMoveConstruct_ok P E true (resize_slots v.live old_size) p
    (List.replicate new_size none) hptr (by simp [resize_slots_length]; exact hle)
  by_cases hn : new_allocated_size > 0
  · simp only [hn, if_true, hmv]
    rw [resize_slots_append _ _ _ (resize_slots_length _ _)]
  · have h0 : old_size = 0 := by omega
    subst h0
    simp [hn, resize_slots]

theorem allocate_and_move_capacity_ge (P : Platform) (E : ElementType T)
    (old_size new_size new_allocated_size : Nat) (v : AlignedVector T)
    (h : v.capacity ≤ new_size) :
    v.capacity ≤ (allocate_and_move P E old_size new_size new_allocated_size v).vec.capacity := by
  unfold allocate_and_move
  split
  · simp [Outcome.throw]
  · by_cases hn : new_allocated_size > 0
    · simp only [hn, if_true]
      split
      · simp [Outcome.throw]
      · simpa [Outcome.ok, capacity] using h
    · simp only [hn, if_false]
      simpa [Outcome.ok, capacity] using h

end AlignedVector

/-! ## Lemmas on the member functions -/

namespace AlignedVector

variable {T : Type}

theorem reserve_grow (P : Platform) (E : ElementType T) (n : Nat) (v : AlignedVector T)
    (p : Nat) (hinv : v.size ≤ v.capacity) (hn : v.capacity < n)
    (hp : P.posix_memalign 64 (max n (2 * v.capacity) * E.sizeof) = some p) :
    reserve P E n v =
      Outcome.ok
        { v with
          elements := p
          deleter := { deleter_action_object := none, owning_aligned_vector := v.this_ptr }
          allocated_size := max n (2 * v.capacity) }
        (release_events E v) := by
  unfold reserve
  simp only [gt_iff_lt, hn, if_true]
  rw [allocate_and_move_ok P E v.size _ n v p hp (by unfold size capacity at *; omega)
    (Or.inl (by omega))]
  unfold size
  rw [resize_slots_self]

theorem reserve_noop (P : Platform) (E : ElementType T) (n : Nat) (v : AlignedVector T)
    (h0 : 0 < n) (hn : n ≤ v.capacity) : reserve P E n v = Outcome.ok v [] := by
  unfold reserve
  have h1 : ¬ n > v.capacity := by omega
  have h2 : n ≠ 0 := by omega
  simp only [h1, h2, if_false]

theorem reserve_zero (P : Platform) (E : ElementType T) (v : AlignedVector T) :
    reserve P E 0 v = clear E v := by
  unfold reserve
  simp

theorem reserve_capacity_ge (P : Platform) (E : ElementType T) (n : Nat)
    (v : AlignedVector T) (h0 : 0 < n) :
    v.capacity ≤ (reserve P E n v).vec.capacity := by
  unfold reserve
  by_cases h1 : n > v.capacity
  · simp only [h1, if_true]
    apply allocate_and_move_capacity_ge
    omega
  · have h2 : n ≠ 0 := by omega
    simp only [h1, h2, if_false, Outcome.ok]
    exact Nat.le_refl _

theorem clear_result (E : ElementType T) (v : AlignedVector T) :
    (clear E v).thrown = none ∧ (clear E v).vec.size = 0 ∧
      (clear E v).vec.capacity = 0 ∧ (clear E v).vec.data = 0 := by
  simp [clear, Outcome.ok, size, capacity, data]

theorem resize_zero (P : Platform) (E : ElementType T) (init : T) (v : AlignedVector T) :
    resize P E 0 v = clear E v ∧ resize_value P E 0 init v = clear E v ∧
      resize_fast P E 0 v = clear E v := by
  simp [resize, resize_value, resize_fast]

end AlignedVector


theorem Outcome.ok_andThen {T : Type} (v : AlignedVector T) (ev : List Event)
    (next : AlignedVector T → Outcome T) :
    (Outcome.ok v ev).andThen next =
      { thrown := (next v).thrown, vec := (next v).vec, events := ev ++ (next v).events } := by
  simp [Outcome.ok, Outcome.andThen]

theorem Assert_of_true (P : Platform) (cond : Bool) (exc : Exc) (h : cond = true) :
    Assert P cond exc = none := by
  simp [Assert, h]

theorem Assert_of_debug_false (P : Platform) (cond : Bool) (exc : Exc)
    (hd : P.running_in_debug_mode = true) (h : cond = false) :
    Assert P cond exc = some exc := by
  simp [Assert, h, hd]


namespace AlignedVector

variable {T : Type}

theorem push_back_with_room (P : Platform) (E : ElementType T) (x : T)
    (v : AlignedVector T) (h : v.size < v.capacity) :
    push_back P E x v = Outcome.ok { v with live := v.live ++ [some x] } [] := by
  unfold push_back
  rw [Assert_of_true P _ _ (by simpa using Nat.le_of_lt h)]
  have hne : v.size ≠ v.capacity := by omega
  simp only [hne, if_false, Outcome.ok_andThen]
  simp [Outcome.ok]

theorem push_back_full (P : Platform) (E : ElementType T) (x : T)
    (v : AlignedVector T) (p : Nat) (h : v.size = v.capacity)
    (hp : P.posix_memalign 64 (max (2 * v.capacity) 16 * E.sizeof) = some p) :
    push_back P E x v =
      Outcome.ok
        { v with
          elements := p
          deleter := { deleter_action_object := none, owning_aligned_vector := v.this_ptr }
          live := v.live ++ [some x]
          allocated_size := max (2 * v.capacity) 16 }
        (release_events E v) := by
  unfold push_back
  rw [Assert_of_true P _ _ (by simpa using Nat.le_of_eq h)]
  simp only [h, if_true]
  have hmax : max (max (2 * v.capacity) 16) (2 * v.capacity) = max (2 * v.capacity) 16 := by
    omega
  rw [reserve_grow P E _ v p (Nat.le_of_eq h) (by omega) (by rw [hmax]; exact hp)]
  rw [Outcome.ok_andThen, hmax]
  simp [Outcome.ok]

theorem push_back_fold_with_room (P : Platform) (E : ElementType T) (values : List T) :
    ∀ (v : AlignedVector T) (ev : List Event), v.size + values.length ≤ v.capacity →
      values.foldl (fun o x => o.andThen (push_back P E x)) (Outcome.ok v ev) =
        Outcome.ok { v with live := v.live ++ values.map some } ev := by
  induction values with
  | nil => intro v ev _; simp
  | cons x rest ih =>
    intro v ev h
    simp only [List.length_cons] at h
    rw [List.foldl_cons, Outcome.ok_andThen,
      push_back_with_room P E x v (by omega)]
    have := ih { v with live := v.live ++ [some x] } ev
      (by simp only [size, capacity, List.length_append, List.length_singleton] at *; omega)
    simp only [Outcome.ok, List.append_nil] at this ⊢
    rw [this]
    simp

/-- After `reserve(n)` with `n > size()` has returned, the elements are those before
the call, the block is not at `nullptr` and holds at least `n` slots. -/
theorem reserve_for_growth (P : Platform) (E : ElementType T) (n : Nat)
    (v : AlignedVector T) (hv : v.valid) (hn : v.size < n)
    (hmem : v.capacity < n →
      (P.posix_memalign 64 (max n (2 * v.capacity) * E.sizeof)).isSome = true) :
    ∃ v1 ev, reserve P E n v = Outcome.ok v1 ev ∧ v1.live = v.live ∧ v1.elements ≠ 0 ∧
      v1.capacity = (if n ≤ v.capacity then v.capacity else max n (2 * v.capacity)) ∧
      v1.this_ptr = v.this_ptr ∧
      v1.replicated_across_communicator = v.replicated_across_communicator := by
  by_cases hc : n ≤ v.capacity
  · refine ⟨v, [], reserve_noop P E n v (by omega) hc, rfl, ?_, by simp [hc], rfl, rfl⟩
    intro h0
    have := hv.2 h0
    omega
  · obtain ⟨p, hp⟩ := Option.isSome_iff_exists.mp (hmem (by omega))
    refine ⟨_, _, reserve_grow P E n v p hv.1 (by omega) hp, rfl, ?_,
      by rw [if_neg hc]; rfl, rfl, rfl⟩
    exact P.posix_memalign_ne_null 64 _ p
      (Nat.mul_pos (by omega) E.sizeof_pos) hp

theorem drop_resize_slots (l : List (Option T)) (n : Nat) (h : l.length ≤ n) :
    (resize_slots l n).drop l.length = List.replicate (n - l.length) none ∧
    (resize_slots l n).take l.length = l := by
  rw [resize_slots_ge l n h]
  simp

theorem resize_value_grow (P : Platform) (E : ElementType T) (n : Nat) (init : T)
    (v : AlignedVector T) (hv : v.valid) (hn : v.size < n)
    (hmem : v.capacity < n →
      (P.posix_memalign 64 (max n (2 * v.capacity) * E.sizeof)).isSome = true) :
    (resize_value P E n init v).thrown = none ∧
    (resize_value P E n init v).vec.live =
      v.live ++ List.replicate (n - v.size) (some init) ∧
    (resize_value P E n init v).vec.capacity =
      (if n ≤ v.capacity then v.capacity else max n (2 * v.capacity)) := by
  obtain ⟨v1, ev, hr, hlive, hptr, hcap, -, -⟩ := reserve_for_growth P E n v hv hn hmem
  unfold resize_value
  have h0 : n ≠ 0 := by omega
  have h1 : n ≠ v.size := by omega
  have h2 : ¬ n < v.size := by omega
  simp only [h0, h1, h2, if_false, hr, Outcome.ok_andThen, set_used_elements_end]
  have hlen : v1.live.length ≤ n := by rw [hlive]; unfold size at hn; omega
  have hsz : v.size = v1.live.length := by rw [hlive]; rfl
  rw [hsz, (drop_resize_slots v1.live n hlen).1, (drop_resize_slots v1.live n hlen).2]
  rw [internal.AlignedVectorInitialize_ok P E true _ init _ _
    (Or.inr (by omega)) (by simp)]
  refine ⟨rfl, ?_, hcap⟩
  simp [Outcome.ok, hlive]

theorem resize_grow (P : Platform) (E : ElementType T) (n : Nat)
    (v : AlignedVector T) (hv : v.valid) (hn : v.size < n)
    (hmem : v.capacity < n →
      (P.posix_memalign 64 (max n (2 * v.capacity) * E.sizeof)).isSome = true) :
    (resize P E n v).thrown = none ∧
    (resize P E n v).vec.live =
      v.live ++ List.replicate (n - v.size) (some (internal.default_initialized E)) ∧
    (resize P E n v).vec.capacity =
      (if n ≤ v.capacity then v.capacity else max n (2 * v.capacity)) := by
  obtain ⟨v1, ev, hr, hlive, hptr, hcap, -, -⟩ := reserve_for_growth P E n v hv hn hmem
  unfold resize
  have h0 : n ≠ 0 := by omega
  have h1 : n ≠ v.size := by omega
  have h2 : ¬ n < v.size := by omega
  simp only [h0, h1, h2, if_false, hr, Outcome.ok_andThen, set_used_elements_end]
  have hlen : v1.live.length ≤ n := by rw [hlive]; unfold size at hn; omega
  have hsz : v.size = v1.live.length := by rw [hlive]; rfl
  rw [hsz, (drop_resize_slots v1.live n hlen).1, (drop_resize_slots v1.live n hlen).2]
  rw [internal.AlignedVectorDefaultInitialize_ok P E true _ _ _
    (Or.inr (by omega)) (by simp)]
  refine ⟨rfl, ?_, hcap⟩
  simp [Outcome.ok, hlive]

theorem resize_below (E : ElementType T) (n : Nat) (v : AlignedVector T) (hn : n < v.size) :
    (resize_shrink E n v).thrown = none ∧ (resize_shrink E n v).vec.size = n ∧
    (resize_shrink E n v).vec.live = v.live.take n ∧
    (resize_shrink E n v).vec.capacity = v.capacity := by
  unfold size at hn
  refine ⟨rfl, ?_, ?_, rfl⟩
  · simp [resize_shrink, set_used_elements_end, Outcome.ok, size, resize_slots_length]
  · simp only [resize_shrink, set_used_elements_end, Outcome.ok]
    exact resize_slots_le _ _ (by omega)

theorem release_events_default (E : ElementType T) (this_ptr : Nat) :
    release_events E (default_constructor this_ptr : AlignedVector T) = [] := by
  simp [release_events, default_constructor]

theorem range_constructor_ok (P : Platform) (E : ElementType T) (this_ptr : Nat)
    (raw_pointers : Bool) (range : List (Option T)) (q : Nat)
    (hq : P.posix_memalign 64 (range.length * E.sizeof) = some q) :
    range_constructor P E this_ptr raw_pointers range =
      Outcome.ok
        { this_ptr := this_ptr
          elements := q
          deleter := { deleter_action_object := none, owning_aligned_vector := this_ptr }
          live := range
          allocated_size := range.length
          replicated_across_communicator := false } [] := by
  unfold range_constructor
  rw [allocate_and_move_ok P E 0 range.length range.length _ q hq (Nat.zero_le _)
    (Or.inr rfl), Outcome.ok_andThen, release_events_default]
  have hptr : range.length = 0 ∨ q ≠ 0 := by
    by_cases h0 : range.length = 0
    · exact Or.inl h0
    · exact Or.inr (P.posix_memalign_ne_null 64 _ q
        (Nat.mul_pos (Nat.pos_of_ne_zero h0) E.sizeof_pos) hq)
  simp only [set_used_elements_end, default_constructor]
  rw [internal.AlignedVectorCopyConstruct_ok P E raw_pointers range q _ hptr
    (by simp [resize_slots_length])]
  simp [Outcome.ok, resize_slots]

theorem insert_moves_ok (P : Platform) (E : ElementType T) (offset : Nat)
    (temporary v : AlignedVector T) (p : Nat) (hp : p ≠ 0) (hk : offset ≤ v.size) :
    insert_moves P E offset temporary.live.length temporary p
        (List.replicate (v.size + temporary.live.length) none) v =
      Except.ok (v.live.take offset ++ temporary.live ++ v.live.drop offset) := by
  simp only [size] at hk ⊢
  unfold insert_moves
  have hp2 : ∀ k, p + k ≠ 0 := by intro k; omega
  have e1 : (List.take offset v.live).length = offset := by
    rw [List.length_take]; omega
  have e2 : (List.drop offset v.live).length = v.live.length - offset := List.length_drop _ _
  -- the prefix
  rw [internal.AlignedVectorMoveConstruct_ok P E true _ p _ (Or.inr hp)
    (by rw [e1, List.length_replicate]; omega)]
  simp only [bind, Except.bind]
  rw [e1, List.drop_left' e1, List.take_left' e1]
  -- the inserted range
  rw [internal.AlignedVectorMoveConstruct_ok P E true _ _ _ (Or.inr (hp2 _))
    (by rw [List.length_drop, List.length_replicate]; omega)]
  simp only [bind, Except.bind]
  have e3 : (List.take offset v.live ++ temporary.live).length =
      offset + temporary.live.length := by
    rw [List.length_append, e1]
  rw [← List.append_assoc, List.drop_left' e3, List.take_left' e3]
  -- the suffix
  rw [internal.AlignedVectorMoveConstruct_ok P E true _ _ _ (Or.inr (hp2 _))
    (by simp only [List.length_drop, List.length_replicate]; omega)]
  simp only [pure, Except.pure]
  congr 1
  have e4 : List.drop (List.drop offset v.live).length
      (List.drop temporary.live.length
        (List.drop offset
          (List.replicate (v.live.length + temporary.live.length) (none : Option T)))) = [] := by
    apply List.drop_of_length_le
    simp only [List.length_drop, List.length_replicate]
    omega
  rw [e4, List.append_nil]

theorem Assert_release (P : Platform) (cond : Bool) (exc : Exc)
    (h : P.running_in_debug_mode = false ∨ cond = true) : Assert P cond exc = none := by
  rcases h with h | h <;> simp [Assert, h]

end AlignedVector


theorem Assert_eq_some (P : Platform) (cond : Bool) (exc e : Exc)
    (h : Assert P cond exc = some e) : e = exc := by
  unfold Assert at h
  split at h
  · exact (Option.some.inj h).symm
  · exact absurd h (by simp)


namespace internal

variable {T : Type}

theorem AlignedVectorMoveConstruct_error (P : Platform) (E : ElementType T)
    (raw_pointers : Bool) (source : List (Option T)) (ptr : Nat) (d : List (Option T))
    (e : Exc) (h : AlignedVectorMoveConstruct P E raw_pointers source ptr d = Except.error e) :
    e = Exc.ExcInternalError := by
  unfold AlignedVectorMoveConstruct at h
  split at h
  · rename_i e' he
    have := Assert_eq_some P _ _ _ he
    simp only [Except.error.injEq] at h
    rw [← h, this]
  · dsimp only at h
    by_cases hs : source.length < minimum_parallel_grain_size E
    · rw [if_pos hs] at h; exact absurd h (by simp)
    · rw [if_neg hs] at h; exact absurd h (by simp)

theorem AlignedVectorInitialize_error (P : Platform) (E : ElementType T) (b : Bool)
    (size : Nat) (element : T) (ptr : Nat) (d : List (Option T)) (e : Exc)
    (h : AlignedVectorInitialize P E b size element ptr d = Except.error e) :
    e = Exc.ExcInternalError := by
  unfold AlignedVectorInitialize at h
  split at h
  · exact absurd h (by simp)
  · split at h
    · rename_i e' he
      have := Assert_eq_some P _ _ _ he
      simp only [Except.error.injEq] at h
      rw [← h, this]
    · dsimp only at h
      by_cases hs : size < minimum_parallel_grain_size E
      · rw [if_pos hs] at h; exact absurd h (by simp)
      · rw [if_neg hs] at h; exact absurd h (by simp)

theorem AlignedVectorDefaultInitialize_error (P : Platform) (E : ElementType T) (b : Bool)
    (size : Nat) (ptr : Nat) (d : List (Option T)) (e : Exc)
    (h : AlignedVectorDefaultInitialize P E b size ptr d = Except.error e) :
    e = Exc.ExcInternalError := by
  unfold AlignedVectorDefaultInitialize at h
  split at h
  · exact absurd h (by simp)
  · split at h
    · rename_i e' he
      have := Assert_eq_some P _ _ _ he
      simp only [Except.error.injEq] at h
      rw [← h, this]
    · by_cases hs : size < minimum_parallel_grain_size E
      · rw [if_pos hs] at h; exact absurd h (by simp)
      · rw [if_neg hs] at h; exact absurd h (by simp)

end internal

namespace AlignedVector

variable {T : Type}

theorem allocate_and_move_thrown (P : Platform) (E : ElementType T)
    (old_size new_size new_allocated_size : Nat) (v : AlignedVector T) :
    (allocate_and_move P E old_size new_size new_allocated_size v).thrown ≠
      some Exc.ExcAlignedVectorChangeAfterReplication := by
  unfold allocate_and_move
  split
  · simp [Outcome.throw]
  · by_cases hn : new_allocated_size > 0
    · simp only [hn, if_true]
      split
      · rename_i e he
        rw [internal.AlignedVectorMoveConstruct_error P E _ _ _ _ e he]
        simp [Outcome.throw]
      · simp [Outcome.ok]
    · simp only [hn, if_false]
      simp [Outcome.ok]

theorem reserve_thrown (P : Platform) (E : ElementType T) (n : Nat) (v : AlignedVector T) :
    (reserve P E n v).thrown ≠ some Exc.ExcAlignedVectorChangeAfterReplication := by
  unfold reserve
  simp only []
  split
  · exact allocate_and_move_thrown P E _ _ _ v
  · split <;> simp [clear, Outcome.ok]

theorem andThen_thrown (o : Outcome T) (next : AlignedVector T → Outcome T) (e : Exc)
    (h1 : o.thrown ≠ some e) (h2 : ∀ w, (next w).thrown ≠ some e) :
    (o.andThen next).thrown ≠ some e := by
  unfold Outcome.andThen
  split
  · exact h1
  · exact h2 _

theorem resize_thrown (P : Platform) (E : ElementType T) (n : Nat) (init : T)
    (v : AlignedVector T) :
    (resize P E n v).thrown ≠ some Exc.ExcAlignedVectorChangeAfterReplication ∧
    (resize_value P E n init v).thrown ≠ some Exc.ExcAlignedVectorChangeAfterReplication ∧
    (resize_fast P E n v).thrown ≠ some Exc.ExcAlignedVectorChangeAfterReplication := by
  refine ⟨?_, ?_, ?_⟩
  · unfold resize
    simp only []
    split
    · simp [clear, Outcome.ok]
    · split
      · simp [Outcome.ok]
      · split
        · simp [resize_shrink, Outcome.ok]
        · apply andThen_thrown _ _ _ (reserve_thrown P E n v)
          intro w
          split
          · rename_i e he
            rw [internal.AlignedVectorDefaultInitialize_error P E _ _ _ _ e he]
            simp [Outcome.throw]
          · simp [Outcome.ok]
  · unfold resize_value
    simp only []
    split
    · simp [clear, Outcome.ok]
    · split
      · simp [Outcome.ok]
      · split
        · simp [resize_shrink, Outcome.ok]
        · apply andThen_thrown _ _ _ (reserve_thrown P E n v)
          intro w
          split
          · rename_i e he
            rw [internal.AlignedVectorInitialize_error P E _ _ _ _ _ e he]
            simp [Outcome.throw]
          · simp [Outcome.ok]
  · unfold resize_fast
    simp only []
    split
    · simp [clear, Outcome.ok]
    · split
      · simp [Outcome.ok]
      · split
        · simp [resize_shrink, Outcome.ok]
        · apply andThen_thrown _ _ _ (reserve_thrown P E n v)
          intro w
          split
          · split
            · rename_i e he
              rw [internal.AlignedVectorDefaultInitialize_error P E _ _ _ _ e he]
              simp [Outcome.throw]
            · simp [Outcome.ok]
          · simp [Outcome.ok]

theorem andThen_capacity_ge (c : Nat) (o : Outcome T) (next : AlignedVector T → Outcome T)
    (h1 : c ≤ o.vec.capacity) (h2 : ∀ w, w.capacity ≤ (next w).vec.capacity) :
    c ≤ (o.andThen next).vec.capacity := by
  unfold Outcome.andThen
  split
  · exact h1
  · exact Nat.le_trans h1 (h2 _)

theorem push_back_capacity_ge (P : Platform) (E : ElementType T) (x : T)
    (v : AlignedVector T) : v.capacity ≤ (push_back P E x v).vec.capacity := by
  unfold push_back
  split
  · exact Nat.le_refl _
  · apply andThen_capacity_ge
    · split
      · exact reserve_capacity_ge P E _ v (by omega)
      · exact Nat.le_refl _
    · intro w
      exact Nat.le_refl _

theorem foldl_append_capacity (range : List T) :
    ∀ w : AlignedVector T,
      (range.foldl (fun w x => { w with live := w.live ++ [some x] }) w).capacity =
        w.capacity := by
  induction range with
  | nil => intro w; rfl
  | cons x rest ih => intro w; rw [List.foldl_cons, ih]; rfl

theorem insert_back_capacity_ge (P : Platform) (E : ElementType T) (range : List T)
    (v : AlignedVector T) (h : 0 < v.size + range.length) :
    v.capacity ≤ (insert_back P E range v).vec.capacity := by
  unfold insert_back
  apply andThen_capacity_ge
  · exact reserve_capacity_ge P E _ v h
  · intro w
    simp only [Outcome.ok]
    rw [foldl_append_capacity]

theorem resize_capacity_ge (P : Platform) (E : ElementType T) (n : Nat) (init : T)
    (v : AlignedVector T) (h0 : 0 < n) :
    v.capacity ≤ (resize P E n v).vec.capacity ∧
    v.capacity ≤ (resize_value P E n init v).vec.capacity ∧
    v.capacity ≤ (resize_fast P E n v).vec.capacity := by
  have h1 : n ≠ 0 := by omega
  refine ⟨?_, ?_, ?_⟩
  · unfold resize
    simp only [h1, if_false]
    split
    · exact Nat.le_refl _
    · split
      · exact Nat.le_refl _
      · apply andThen_capacity_ge _ _ _ (reserve_capacity_ge P E n v h0)
        intro w
        split <;> exact Nat.le_refl _
  · unfold resize_value
    simp only [h1, if_false]
    split
    · exact Nat.le_refl _
    · split
      · exact Nat.le_refl _
      · apply andThen_capacity_ge _ _ _ (reserve_capacity_ge P E n v h0)
        intro w
        split <;> exact Nat.le_refl _
  · unfold resize_fast
    simp only [h1, if_false]
    split
    · exact Nat.le_refl _
    · split
      · exact Nat.le_refl _
      · apply andThen_capacity_ge _ _ _ (reserve_capacity_ge P E n v h0)
        intro w
        split
        · split <;> exact Nat.le_refl _
        · exact Nat.le_refl _

theorem fill_capacity (P : Platform) (E : ElementType T) (value : T) (v : AlignedVector T) :
    (fill P E v).vec.capacity = v.capacity ∧
    (fill_value P E value v).vec.capacity = v.capacity := by
  constructor
  · unfold fill
    split <;> rfl
  · unfold fill_value
    split <;> rfl

end AlignedVector

/-! ## Lemmas on the length of the regions and on `size() <= capacity()` -/

theorem for_loop_set_length {α : Type} (f : Nat → α) (b e : Nat) (d : List α) :
    (for_loop b e (fun i d => d.set i (f i)) d).length = d.length := by
  unfold for_loop
  generalize List.range' b (e - b) = is
  induction is generalizing d with
  | nil => rfl
  | cons i is ih => rw [List.foldl_cons, ih, List.length_set]

theorem apply_parallel_length {α : Type} (P : Platform)
    (body : Nat → Nat → List α → List α)
    (hbody : ∀ b e d, (body b e d).length = d.length) (b e g : Nat) (d : List α) :
    (ParallelForInteger.apply_parallel P body b e g d).length = d.length := by
  unfold ParallelForInteger.apply_parallel
  generalize P.subranges b e g = rs
  induction rs generalizing d with
  | nil => rfl
  | cons r rs ih => rw [List.foldl_cons, ih, hbody]

namespace internal

variable {T : Type}

theorem apply_to_subrange_copy_length (E : ElementType T) (raw_pointers : Bool)
    (source : List (Option T)) (b e : Nat) (d : List (Option T)) :
    (AlignedVectorCopyConstruct.apply_to_subrange E raw_pointers source b e d).length =
      d.length := by
  unfold AlignedVectorCopyConstruct.apply_to_subrange memcpy
  split
  · rfl
  · split <;> exact for_loop_set_length _ _ _ _

theorem apply_to_subrange_value_length (E : ElementType T) (initialize_memory : Bool)
    (element : T) (trivial_element : Bool) (b e : Nat) (d : List (Option T)) :
    (AlignedVectorInitialize.apply_to_subrange E initialize_memory element
      trivial_element b e d).length = d.length := by
  unfold AlignedVectorInitialize.apply_to_subrange memset
  split
  · exact for_loop_set_length _ _ _ _
  · split <;> exact for_loop_set_length _ _ _ _

theorem apply_to_subrange_default_length (E : ElementType T) (initialize_memory : Bool)
    (b e : Nat) (d : List (Option T)) :
    (AlignedVectorDefaultInitialize.apply_to_subrange E initialize_memory b e d).length =
      d.length := by
  unfold AlignedVectorDefaultInitialize.apply_to_subrange memset
  split
  · exact for_loop_set_length _ _ _ _
  · split <;> exact for_loop_set_length _ _ _ _

theorem AlignedVectorCopyConstruct_length (P : Platform) (E : ElementType T)
    (raw_pointers : Bool) (source : List (Option T)) (ptr : Nat)
    (d region : List (Option T))
    (h : AlignedVectorCopyConstruct P E raw_pointers source ptr d = Except.ok region) :
    region.length = d.length := by
  unfold AlignedVectorCopyConstruct at h
  split at h
  · exact absurd h (by simp)
  · dsimp only at h
    by_cases hs : source.length < minimum_parallel_grain_size E
    · rw [if_pos hs] at h
      rw [← Except.ok.inj h]
      exact apply_to_subrange_copy_length E raw_pointers source _ _ d
    · rw [if_neg hs] at h
      rw [← Except.ok.inj h]
      exact apply_parallel_length P _ (apply_to_subrange_copy_length E raw_pointers source)
        _ _ _ d

theorem AlignedVectorInitialize_length (P : Platform) (E : ElementType T)
    (initialize_memory : Bool) (size : Nat) (element : T) (ptr : Nat)
    (d region : List (Option T))
    (h : AlignedVectorInitialize P E initialize_memory size element ptr d =
      Except.ok region) :
    region.length = d.length := by
  unfold AlignedVectorInitialize at h
  split at h
  · rw [← Except.ok.inj h]
  · split at h
    · exact absurd h (by simp)
    · dsimp only at h
      by_cases hs : size < minimum_parallel_grain_size E
      · rw [if_pos hs] at h
        rw [← Except.ok.inj h]
        exact apply_to_subrange_value_length E _ _ _ _ _ d
      · rw [if_neg hs] at h
        rw [← Except.ok.inj h]
        exact apply_parallel_length P _ (apply_to_subrange_value_length E _ _ _) _ _ _ d

theorem AlignedVectorDefaultInitialize_length (P : Platform) (E : ElementType T)
    (initialize_memory : Bool) (size : Nat) (ptr : Nat) (d region : List (Option T))
    (h : AlignedVectorDefaultInitialize P E initialize_memory size ptr d =
      Except.ok region) :
    region.length = d.length := by
  unfold AlignedVectorDefaultInitialize at h
  split at h
  · rw [← Except.ok.inj h]
  · split at h
    · exact absurd h (by simp)
    · by_cases hs : size < minimum_parallel_grain_size E
      · rw [if_pos hs] at h
        rw [← Except.ok.inj h]
        exact apply_to_subrange_default_length E _ _ _ d
      · rw [if_neg hs] at h
        rw [← Except.ok.inj h]
        exact apply_parallel_length P _ (apply_to_subrange_default_length E _) _ _ _ d

end internal

namespace AlignedVector

variable {T : Type}

theorem andThen_size_le (o : Outcome T) (next : AlignedVector T → Outcome T)
    (h1 : o.vec.size ≤ o.vec.capacity)
    (h2 : o.thrown = none → (next o.vec).vec.size ≤ (next o.vec).vec.capacity) :
    (o.andThen next).vec.size ≤ (o.andThen next).vec.capacity := by
  unfold Outcome.andThen
  split
  · exact h1
  · rename_i h
    exact h2 h

theorem allocate_and_move_size_le (P : Platform) (E : ElementType T)
    (old_size new_size new_allocated_size : Nat) (v : AlignedVector T)
    (hv : v.size ≤ v.capacity) (h : old_size ≤ new_size) :
    (allocate_and_move P E old_size new_size new_allocated_size v).vec.size ≤
      (allocate_and_move P E old_size new_size new_allocated_size v).vec.capacity := by
  unfold allocate_and_move
  split
  · exact hv
  · by_cases hn : new_allocated_size > 0
    · simp only [hn, if_true]
      split
      · exact hv
      · simpa [Outcome.ok, size, capacity, resize_slots_length] using h
    · simp only [hn, if_false]
      simpa [Outcome.ok, size, capacity, resize_slots_length] using h

/-- What `allocate_and_move` leaves when it returns normally. -/
theorem allocate_and_move_returned (P : Platform) (E : ElementType T)
    (old_size new_size new_allocated_size : Nat) (v : AlignedVector T)
    (h : (allocate_and_move P E old_size new_size new_allocated_size v).thrown = none) :
    (allocate_and_move P E old_size new_size new_allocated_size v).vec.size = old_size ∧
    (allocate_and_move P E old_size new_size new_allocated_size v).vec.capacity =
      new_size := by
  unfold allocate_and_move at h ⊢
  split
  · rename_i h1
    rw [h1] at h
    simp [Outcome.throw] at h
  · rename_i p h1
    rw [h1] at h
    by_cases hn : new_allocated_size > 0
    · simp only [hn, if_true] at h ⊢
      split
      · rename_i e he
        rw [he] at h
        simp [Outcome.throw] at h
      · simp [Outcome.ok, size, capacity, resize_slots_length]
    · simp only [hn, if_false]
      simp [Outcome.ok, size, capacity, resize_slots_length]

theorem reserve_size_le (P : Platform) (E : ElementType T) (n : Nat)
    (v : AlignedVector T) (hv : v.size ≤ v.capacity) :
    (reserve P E n v).vec.size ≤ (reserve P E n v).vec.capacity := by
  unfold reserve
  dsimp only
  split
  · rename_i h
    apply allocate_and_move_size_le P E _ _ _ v hv
    have := Nat.le_max_left n (2 * v.capacity)
    omega
  · split
    · simp [clear, Outcome.ok, size, capacity]
    · exact hv

/-- After `reserve(n)` has returned normally there is room for `n` elements and no
more elements than before. -/
theorem reserve_returned (P : Platform) (E : ElementType T) (n : Nat)
    (v : AlignedVector T) (h : (reserve P E n v).thrown = none) :
    n ≤ (reserve P E n v).vec.capacity ∧ (reserve P E n v).vec.size ≤ v.size := by
  unfold reserve at h ⊢
  dsimp only at h ⊢
  split
  · rename_i hn
    rw [if_pos hn] at h
    obtain ⟨h1, h2⟩ := allocate_and_move_returned P E _ _ _ v h
    rw [h1, h2]
    exact ⟨Nat.le_max_left _ _, Nat.le_refl _⟩
  · rename_i hn
    split
    · rename_i h0
      subst h0
      simp [clear, Outcome.ok, size]
    · simp only [Outcome.ok]
      exact ⟨by omega, Nat.le_refl _⟩

theorem clear_size_le (E : ElementType T) (v : AlignedVector T) :
    (clear E v).vec.size ≤ (clear E v).vec.capacity := by
  simp [clear, Outcome.ok, size, capacity]

theorem resize_shrink_size_le (E : ElementType T) (n : Nat) (v : AlignedVector T)
    (hv : v.size ≤ v.capacity) (hn : n < v.size) :
    (resize_shrink E n v).vec.size ≤ (resize_shrink E n v).vec.capacity := by
  simp only [resize_shrink, set_used_elements_end, Outcome.ok, size, capacity,
    resize_slots_length] at *
  omega

/-- The statement `used_elements_end = elements.get() + n` after a `reserve(n)` that
returned normally. -/
theorem set_used_size_le (P : Platform) (E : ElementType T) (n : Nat)
    (v : AlignedVector T) (h : (reserve P E n v).thrown = none) :
    ((reserve P E n v).vec.set_used_elements_end n).size = n ∧
    ((reserve P E n v).vec.set_used_elements_end n).capacity =
      (reserve P E n v).vec.capacity ∧
    n ≤ (reserve P E n v).vec.capacity := by
  refine ⟨?_, rfl, (reserve_returned P E n v h).1⟩
  simp [set_used_elements_end, size, resize_slots_length]

theorem resize_size_le (P : Platform) (E : ElementType T) (n : Nat) (init : T)
    (v : AlignedVector T) (hv : v.size ≤ v.capacity) :
    (resize P E n v).vec.size ≤ (resize P E n v).vec.capacity ∧
    (resize_value P E n init v).vec.size ≤ (resize_value P E n init v).vec.capacity ∧
    (resize_fast P E n v).vec.size ≤ (resize_fast P E n v).vec.capacity := by
  have key : ∀ region : List (Option T),
      (reserve P E n v).thrown = none → v.size < n →
      region.length = (((reserve P E n v).vec.set_used_elements_end n).live.drop v.size).length →
      (((reserve P E n v).vec.set_used_elements_end n).live.take v.size ++ region).length ≤
        (reserve P E n v).vec.capacity := by
    intro region hr hn hlen
    obtain ⟨h1, -, h3⟩ := set_used_size_le P E n v hr
    simp only [size] at h1 hn
    rw [List.length_append, hlen, List.length_take, List.length_drop, h1]
    omega
  refine ⟨?_, ?_, ?_⟩
  · unfold resize
    dsimp only
    split
    · exact clear_size_le E v
    · split
      · exact hv
      · split
        · rename_i hlt
          exact resize_shrink_size_le E n v hv hlt
        · rename_i h0 h1 h2
          apply andThen_size_le _ _ (reserve_size_le P E n v hv)
          intro hr
          obtain ⟨h1', h2', h3'⟩ := set_used_size_le P E n v hr
          split
          · rw [Outcome.throw, h1', h2']
            exact h3'
          · rename_i region hreg
            have hlen := internal.AlignedVectorDefaultInitialize_length P E _ _ _ _ _ hreg
            simp only [Outcome.ok, size, capacity]
            exact key region hr (by omega) hlen
  · unfold resize_value
    dsimp only
    split
    · exact clear_size_le E v
    · split
      · exact hv
      · split
        · rename_i hlt
          exact resize_shrink_size_le E n v hv hlt
        · rename_i h0 h1 h2
          apply andThen_size_le _ _ (reserve_size_le P E n v hv)
          intro hr
          obtain ⟨h1', h2', h3'⟩ := set_used_size_le P E n v hr
          split
          · rw [Outcome.throw, h1', h2']
            exact h3'
          · rename_i region hreg
            have hlen := internal.AlignedVectorInitialize_length P E _ _ _ _ _ _ hreg
            simp only [Outcome.ok, size, capacity]
            exact key region hr (by omega) hlen
  · unfold resize_fast
    dsimp only
    split
    · exact clear_size_le E v
    · split
      · exact hv
      · split
        · rename_i hlt
          exact resize_shrink_size_le E n v hv hlt
        · rename_i h0 h1 h2
          apply andThen_size_le _ _ (reserve_size_le P E n v hv)
          intro hr
          obtain ⟨h1', h2', h3'⟩ := set_used_size_le P E n v hr
          split
          · split
            · rw [Outcome.throw, h1', h2']
              exact h3'
            · rename_i region hreg
              have hlen := internal.AlignedVectorDefaultInitialize_length P E _ _ _ _ _ hreg
              simp only [Outcome.ok, size, capacity]
              exact key region hr (by omega) hlen
          · rw [Outcome.ok, h1', h2']
            exact h3'

end AlignedVector

namespace AlignedVector

variable {T : Type}

theorem foldl_append_live (range : List T) :
    ∀ w : AlignedVector T,
      range.foldl (fun w x => { w with live := w.live ++ [some x] }) w =
        { w with live := w.live ++ range.map some } := by
  induction range with
  | nil => intro w; simp
  | cons x rest ih =>
    intro w
    rw [List.foldl_cons, ih]
    simp

theorem push_back_size_le (P : Platform) (E : ElementType T) (x : T)
    (v : AlignedVector T) (hv : v.size ≤ v.capacity) :
    (push_back P E x v).vec.size ≤ (push_back P E x v).vec.capacity := by
  unfold push_back
  split
  · exact hv
  · by_cases hfull : v.size = v.capacity
    · simp only [hfull, if_true]
      apply andThen_size_le _ _ (reserve_size_le P E _ v hv)
      intro hr
      obtain ⟨h1, h2⟩ := reserve_returned P E _ v hr
      simp only [Outcome.ok, size, capacity, List.length_append, List.length_singleton] at *
      omega
    · simp only [hfull, if_false, Outcome.ok_andThen]
      simp only [Outcome.ok, size, capacity, List.length_append, List.length_singleton] at *
      omega

theorem insert_back_size_le (P : Platform) (E : ElementType T) (range : List T)
    (v : AlignedVector T) (hv : v.size ≤ v.capacity) :
    (insert_back P E range v).vec.size ≤ (insert_back P E range v).vec.capacity := by
  unfold insert_back
  apply andThen_size_le _ _ (reserve_size_le P E _ v hv)
  intro hr
  obtain ⟨h1, h2⟩ := reserve_returned P E _ v hr
  rw [foldl_append_live]
  simp only [Outcome.ok, size, capacity, List.length_append, List.length_map] at *
  omega

theorem shrink_to_fit_size_le (P : Platform) (E : ElementType T)
    (v : AlignedVector T) (hv : v.size ≤ v.capacity) :
    (shrink_to_fit P E v).vec.size ≤ (shrink_to_fit P E v).vec.capacity := by
  unfold shrink_to_fit
  split
  · exact hv
  · dsimp only
    split
    · exact allocate_and_move_size_le P E _ _ _ v hv (Nat.le_refl _)
    · exact hv

theorem insert_size_le (P : Platform) (E : ElementType T) (offset : Nat)
    (raw_pointers : Bool) (range : List T) (v : AlignedVector T)
    (hv : v.size ≤ v.capacity) :
    (insert P E offset raw_pointers range v).1.vec.size ≤
      (insert P E offset raw_pointers range v).1.vec.capacity := by
  unfold insert
  split
  · exact hv
  · split
    · exact hv
    · dsimp only
      split
      · split
        · exact hv
        · split
          · exact hv
          · split
            · exact hv
            · simp [Outcome.ok, size, capacity, resize_slots_length]
      · exact hv

theorem fill_size_le (P : Platform) (E : ElementType T) (value : T)
    (v : AlignedVector T) (hv : v.size ≤ v.capacity) :
    (fill P E v).vec.size ≤ (fill P E v).vec.capacity ∧
    (fill_value P E value v).vec.size ≤ (fill_value P E value v).vec.capacity := by
  constructor
  · unfold fill
    split
    · exact hv
    · rename_i region hreg
      have := internal.AlignedVectorDefaultInitialize_length P E _ _ _ _ _ hreg
      simp only [Outcome.ok, size, capacity] at *
      omega
  · unfold fill_value
    split
    · exact hv
    · rename_i region hreg
      have := internal.AlignedVectorInitialize_length P E _ _ _ _ _ _ hreg
      simp only [Outcome.ok, size, capacity] at *
      omega

theorem copy_assignment_size_le (P : Platform) (E : ElementType T) (vec : Reference T)
    (v : AlignedVector T) :
    (copy_assignment P E vec v).vec.size ≤ (copy_assignment P E vec v).vec.capacity := by
  unfold copy_assignment
  dsimp only
  have hz : resize P E 0 v = clear E v := by simp [resize]
  rw [hz]
  apply andThen_size_le _ _ (clear_size_le E v)
  intro _
  apply andThen_size_le _ _ (reserve_size_le P E _ _ (clear_size_le E v))
  intro hr
  obtain ⟨h1, -⟩ := reserve_returned P E _ _ hr
  split
  · exact reserve_size_le P E _ _ (clear_size_le E v)
  · simp only [Outcome.ok, size, capacity, resize_slots_length] at *
    exact h1

theorem load_size_le (P : Platform) (E : ElementType T) (ar : List (ArchiveItem T))
    (v : AlignedVector T) (hv : v.size ≤ v.capacity) :
    (load P E ar v).1.vec.size ≤ (load P E ar v).1.vec.capacity := by
  unfold load
  split
  · rename_i vec_size ar1
    split
    · dsimp only
      split
      · exact reserve_size_le P E _ v hv
      · rename_i hr
        obtain ⟨h1, -⟩ := reserve_returned P E _ v hr
        split
        · split
          · simp only [Outcome.ok, size, capacity, resize_slots_length] at *
            exact h1
          · exact reserve_size_le P E _ v hv
        · exact reserve_size_le P E _ v hv
    · exact hv
  · exact hv

theorem default_constructor_size_le (this_ptr : Nat) :
    (default_constructor this_ptr : AlignedVector T).size ≤
      (default_constructor this_ptr : AlignedVector T).capacity :=
  Nat.le_refl _

theorem range_constructor_size_le (P : Platform) (E : ElementType T) (this_ptr : Nat)
    (raw_pointers : Bool) (range : List (Option T)) :
    (range_constructor P E this_ptr raw_pointers range).vec.size ≤
      (range_constructor P E this_ptr raw_pointers range).vec.capacity := by
  unfold range_constructor
  apply andThen_size_le _ _
    (allocate_and_move_size_le P E _ _ _ _ (default_constructor_size_le this_ptr)
      (Nat.zero_le _))
  intro _
  dsimp only
  split
  · simp [Outcome.throw, set_used_elements_end, size, capacity, resize_slots_length]
  · rename_i region hreg
    have := internal.AlignedVectorCopyConstruct_length P E _ _ _ _ _ hreg
    simp only [Outcome.ok, set_used_elements_end, size, capacity,
      resize_slots_length] at *
    omega

theorem copy_constructor_size_le (P : Platform) (E : ElementType T) (this_ptr : Nat)
    (vec : AlignedVector T) :
    (copy_constructor P E this_ptr vec).vec.size ≤
      (copy_constructor P E this_ptr vec).vec.capacity := by
  unfold copy_constructor
  apply andThen_size_le _ _ (reserve_size_le P E _ _ (default_constructor_size_le this_ptr))
  intro _
  dsimp only
  split
  · simp [Outcome.throw, set_used_elements_end, size, capacity, resize_slots_length]
  · rename_i region hreg
    have := internal.AlignedVectorCopyConstruct_length P E _ _ _ _ _ hreg
    simp only [Outcome.ok, set_used_elements_end, size, capacity,
      resize_slots_length] at *
    omega

theorem size_constructor_size_le (P : Platform) (E : ElementType T) (this_ptr : Nat)
    (n : Nat) (init : T) :
    (size_constructor P E this_ptr n init).vec.size ≤
      (size_constructor P E this_ptr n init).vec.capacity := by
  unfold size_constructor
  split
  · exact (resize_size_le P E n init _ (default_constructor_size_le this_ptr)).2.1
  · exact default_constructor_size_le this_ptr

end AlignedVector

/-! ## Lemmas on copying, shrinking, the archive and the memory footprint -/

namespace AlignedVector

variable {T : Type}

/-- `reserve(n)` on a vector without elements and without storage. -/
theorem reserve_fresh (P : Platform) (E : ElementType T) (n : Nat) (w : AlignedVector T)
    (hlive : w.live = []) (hcap : w.allocated_size = 0)
    (hmem : 0 < n → (P.posix_memalign 64 (n * E.sizeof)).isSome = true) :
    ∃ w1 ev, reserve P E n w = Outcome.ok w1 ev ∧ w1.live = [] ∧ w1.allocated_size = n ∧
      (0 < n → w1.elements ≠ 0) ∧ w1.this_ptr = w.this_ptr ∧
      w1.replicated_across_communicator = w.replicated_across_communicator := by
  by_cases h0 : n = 0
  · subst h0
    refine ⟨_, _, reserve_zero P E w, rfl, rfl, fun h => absurd h (by omega), rfl, rfl⟩
  · obtain ⟨p, hp⟩ := Option.isSome_iff_exists.mp (hmem (by omega))
    have hmax : max n (2 * w.capacity) = n := by
      simp only [capacity, hcap]
      omega
    refine ⟨_, _, reserve_grow P E n w p (by simp [size, capacity, hlive])
      (by simp only [capacity, hcap]; omega) (by rw [hmax]; exact hp), hlive, ?_, ?_, rfl, rfl⟩
    · exact hmax
    · intro _
      exact P.posix_memalign_ne_null 64 _ p (Nat.mul_pos (by omega) E.sizeof_pos) hp

/-- The loop of `operator==` on two ranges that hold the same slots: no pair differs
exactly when every slot holds an object that `operator!=` of `T` does not tell from
itself. -/
theorem all_not_slot_ne (E : ElementType T) (l : List (Option T)) :
    (List.zip l l).all (fun p => !slot_ne E p.1 p.2) = true ↔
      ∀ s ∈ l, ∃ x, s = some x ∧ E.operator_ne x x = false := by
  induction l with
  | nil => simp
  | cons s rest ih =>
    simp only [List.zip_cons_cons, List.all_cons, Bool.and_eq_true, ih, List.mem_cons,
      forall_eq_or_imp]
    constructor
    · rintro ⟨h1, h2⟩
      refine ⟨?_, h2⟩
      cases s with
      | none => simp [slot_ne] at h1
      | some x => exact ⟨x, rfl, by simpa [slot_ne] using h1⟩
    · rintro ⟨⟨x, hx, hne⟩, h2⟩
      subst hx
      exact ⟨by simp [slot_ne, hne], h2⟩

/-- Two vectors with the same slots compare equal exactly when every element has a
value that `operator!=` of `T` does not tell from itself. -/
theorem operator_eq_of_live_eq (E : ElementType T) (a b : AlignedVector T)
    (h : a.live = b.live) :
    operator_eq E a b = true ↔ ∀ s ∈ b.live, ∃ x, s = some x ∧ E.operator_ne x x = false := by
  unfold operator_eq size
  rw [h]
  simp only [bne_self_eq_false, Bool.false_eq_true, if_false]
  exact all_not_slot_ne E b.live

theorem copy_constructor_ok (P : Platform) (E : ElementType T) (this_ptr : Nat)
    (S : AlignedVector T)
    (hmem : 0 < S.size → (P.posix_memalign 64 (S.size * E.sizeof)).isSome = true) :
    (copy_constructor P E this_ptr S).thrown = none ∧
    (copy_constructor P E this_ptr S).vec.live = S.live ∧
    (copy_constructor P E this_ptr S).vec.allocated_size = S.size := by
  obtain ⟨w1, ev, hr, hl, hc, hp, -, -⟩ :=
    reserve_fresh P E S.size (default_constructor this_ptr) rfl rfl hmem
  unfold copy_constructor
  rw [hr, Outcome.ok_andThen]
  simp only [set_used_elements_end, hl, hc]
  have hptr : S.live.length = 0 ∨ w1.elements ≠ 0 := by
    by_cases h0 : S.live.length = 0
    · exact Or.inl h0
    · exact Or.inr (hp (Nat.pos_of_ne_zero h0))
  rw [internal.AlignedVectorCopyConstruct_ok P E true S.live w1.elements _ hptr
    (by simp [resize_slots_length, size])]
  have hdrop : List.drop S.live.length (resize_slots ([] : List (Option T)) S.size) = [] := by
    apply List.drop_of_length_le
    simp [resize_slots_length, size]
  simp [Outcome.ok, hdrop, hc]

theorem copy_assignment_ok (P : Platform) (E : ElementType T) (S D : AlignedVector T)
    (hmem : 0 < S.size → (P.posix_memalign 64 (S.size * E.sizeof)).isSome = true) :
    (copy_assignment P E (Reference.other S) D).thrown = none ∧
    (copy_assignment P E (Reference.other S) D).vec.live = S.live ∧
    (copy_assignment P E (Reference.other S) D).vec.allocated_size = S.size := by
  have hz : resize P E 0 D = clear E D := by simp [resize]
  obtain ⟨w1, ev, hr, hl, hc, hp, -, -⟩ :=
    reserve_fresh P E S.size (clear E D).vec rfl rfl hmem
  unfold copy_assignment
  simp only [Reference.read, hz]
  have hclear : clear E D = Outcome.ok (clear E D).vec (clear E D).events := rfl
  rw [hclear, Outcome.ok_andThen]
  dsimp only
  rw [hr, Outcome.ok_andThen]
  have hptr : S.live.length = 0 ∨ w1.elements ≠ 0 := by
    by_cases h0 : S.live.length = 0
    · exact Or.inl h0
    · exact Or.inr (hp (Nat.pos_of_ne_zero h0))
  rw [internal.AlignedVectorCopyConstruct_ok P E true S.live w1.elements _ hptr
    (by simp [resize_slots_length, hc, size])]
  refine ⟨rfl, ?_, hc⟩
  exact resize_slots_append _ _ _ rfl

end AlignedVector

theorem foldl_add_eq_sum {α : Type} (f : α → Nat) (l : List α) :
    ∀ a : Nat, l.foldl (fun m t => m + f t) a = a + (l.map f).sum := by
  induction l with
  | nil => intro a; simp
  | cons x rest ih =>
    intro a
    rw [List.foldl_cons, ih]
    simp only [List.map_cons, List.sum_cons]
    omega

theorem sum_map_const {α : Type} (f : α → Nat) (c : Nat) (l : List α)
    (h : ∀ s ∈ l, f s = c) : (l.map f).sum = l.length * c := by
  induction l with
  | nil => simp
  | cons x rest ih =>
    simp only [List.map_cons, List.sum_cons, List.length_cons]
    rw [ih (fun s hs => h s (List.mem_cons_of_mem _ hs)), h x (List.mem_cons_self _ _)]
    rw [Nat.add_mul]
    omega

namespace AlignedVector

variable {T : Type}

theorem shrink_to_fit_ok (P : Platform) (E : ElementType T) (v : AlignedVector T)
    (hguard : P.running_in_debug_mode = false ∨ v.replicated_across_communicator = false)
    (p : Nat) (hlt : v.size < v.capacity)
    (hp : P.posix_memalign 64 (v.size * E.sizeof) = some p) :
    shrink_to_fit P E v =
      Outcome.ok
        { v with
          elements := p
          deleter := { deleter_action_object := none, owning_aligned_vector := v.this_ptr }
          allocated_size := v.size }
        (release_events E v) := by
  unfold shrink_to_fit
  rw [Assert_release P _ _ (hguard.imp id (fun h => by simp [h]))]
  simp only [gt_iff_lt, hlt, if_true]
  rw [allocate_and_move_ok P E v.size v.size v.size v p hp (Nat.le_refl _) (by omega)]
  unfold size
  rw [resize_slots_self]

theorem shrink_to_fit_noop (P : Platform) (E : ElementType T) (v : AlignedVector T)
    (hguard : P.running_in_debug_mode = false ∨ v.replicated_across_communicator = false)
    (hle : v.capacity ≤ v.size) : shrink_to_fit P E v = Outcome.ok v [] := by
  unfold shrink_to_fit
  rw [Assert_release P _ _ (hguard.imp id (fun h => by simp [h]))]
  have h : ¬ v.capacity > v.size := by omega
  simp only [h, if_false]

theorem allocate_and_move_thrown_vec (P : Platform) (E : ElementType T)
    (old_size new_size new_allocated_size : Nat) (v : AlignedVector T)
    (h : (allocate_and_move P E old_size new_size new_allocated_size v).thrown ≠ none) :
    (allocate_and_move P E old_size new_size new_allocated_size v).vec = v := by
  unfold allocate_and_move at h ⊢
  split
  · rfl
  · rename_i new_data_ptr hp
    simp only [hp] at h
    dsimp only at h ⊢
    split
    · rfl
    · rename_i block hb
      rw [hb] at h
      exact absurd rfl h

theorem allocate_and_move_flag (P : Platform) (E : ElementType T)
    (old_size new_size new_allocated_size : Nat) (v : AlignedVector T) :
    (allocate_and_move P E old_size new_size new_allocated_size
      v).vec.replicated_across_communicator = v.replicated_across_communicator := by
  unfold allocate_and_move
  split
  · rfl
  · dsimp only
    split <;> rfl

/-- A second `shrink_to_fit()` right after one that returned normally changes
nothing. -/
theorem shrink_to_fit_again (P : Platform) (E : ElementType T) (v : AlignedVector T)
    (h : (shrink_to_fit P E v).thrown = none) :
    shrink_to_fit P E (shrink_to_fit P E v).vec = Outcome.ok (shrink_to_fit P E v).vec [] := by
  have hguard : P.running_in_debug_mode = false ∨ v.replicated_across_communicator = false := by
    unfold shrink_to_fit at h
    by_cases hd : P.running_in_debug_mode = false
    · exact Or.inl hd
    · by_cases hf : v.replicated_across_communicator = false
      · exact Or.inr hf
      · have hd1 : P.running_in_debug_mode = true := by simpa using hd
        have hf1 : v.replicated_across_communicator = true := by simpa using hf
        rw [Assert_of_debug_false P _ _ hd1 (by simp [hf1])] at h
        exact absurd h (by simp [Outcome.throw])
  by_cases hlt : v.size < v.capacity
  · have hs : shrink_to_fit P E v = allocate_and_move P E v.size v.size v.size v := by
      unfold shrink_to_fit
      rw [Assert_release P _ _ (hguard.imp id (fun h => by simp [h]))]
      simp only [gt_iff_lt, hlt, if_true]
    rw [hs] at h ⊢
    obtain ⟨h1, h2⟩ := allocate_and_move_returned P E _ _ _ v h
    apply shrink_to_fit_noop
    · rw [allocate_and_move_flag]
      exact hguard
    · omega
  · rw [shrink_to_fit_noop P E v hguard (by omega)]
    exact shrink_to_fit_noop P E v hguard (by omega)

theorem shrink_to_fit_thrown_vec (P : Platform) (E : ElementType T) (v : AlignedVector T)
    (h : (shrink_to_fit P E v).thrown ≠ none) : (shrink_to_fit P E v).vec = v := by
  unfold shrink_to_fit at h ⊢
  split
  · rfl
  · rename_i ha
    simp only [ha] at h
    dsimp only at h ⊢
    split
    · rename_i hc
      simp only [hc, if_true] at h
      exact allocate_and_move_thrown_vec P E _ _ _ v h
    · rfl

end AlignedVector

/-! ## Lemmas on failed allocations, destruction order and replication -/

namespace AlignedVector

variable {T : Type}

theorem allocate_and_move_out_of_memory (P : Platform) (E : ElementType T)
    (old_size new_size new_allocated_size : Nat) (v : AlignedVector T)
    (hp : P.posix_memalign 64 (new_size * E.sizeof) = none) :
    allocate_and_move P E old_size new_size new_allocated_size v =
      Outcome.throw (Exc.ExcOutOfMemory (new_size * E.sizeof)) v [] := by
  unfold allocate_and_move
  simp only [hp]

theorem reserve_out_of_memory (P : Platform) (E : ElementType T) (n : Nat)
    (v : AlignedVector T) (hn : v.capacity < n)
    (hp : P.posix_memalign 64 (max n (2 * v.capacity) * E.sizeof) = none) :
    reserve P E n v =
      Outcome.throw (Exc.ExcOutOfMemory (max n (2 * v.capacity) * E.sizeof)) v [] := by
  unfold reserve
  simp only [gt_iff_lt, hn, if_true]
  exact allocate_and_move_out_of_memory P E _ _ _ v hp

theorem throw_andThen (e : Exc) (v : AlignedVector T) (ev : List Event)
    (next : AlignedVector T → Outcome T) :
    (Outcome.throw e v ev).andThen next = Outcome.throw e v ev := by
  simp [Outcome.throw, Outcome.andThen]

theorem resize_out_of_memory (P : Platform) (E : ElementType T) (n : Nat) (init : T)
    (v : AlignedVector T) (hs : v.size < n) (hn : v.capacity < n)
    (hp : P.posix_memalign 64 (max n (2 * v.capacity) * E.sizeof) = none) :
    resize P E n v =
      Outcome.throw (Exc.ExcOutOfMemory (max n (2 * v.capacity) * E.sizeof)) v [] ∧
    resize_value P E n init v =
      Outcome.throw (Exc.ExcOutOfMemory (max n (2 * v.capacity) * E.sizeof)) v [] ∧
    resize_fast P E n v =
      Outcome.throw (Exc.ExcOutOfMemory (max n (2 * v.capacity) * E.sizeof)) v [] := by
  have h0 : n ≠ 0 := by omega
  have h1 : n ≠ v.size := by omega
  have h2 : ¬ n < v.size := by omega
  refine ⟨?_, ?_, ?_⟩
  · unfold resize
    simp only [h0, h1, h2, if_false, reserve_out_of_memory P E n v hn hp, throw_andThen]
  · unfold resize_value
    simp only [h0, h1, h2, if_false, reserve_out_of_memory P E n v hn hp, throw_andThen]
  · unfold resize_fast
    simp only [h0, h1, h2, if_false, reserve_out_of_memory P E n v hn hp, throw_andThen]

theorem push_back_out_of_memory (P : Platform) (E : ElementType T) (x : T)
    (v : AlignedVector T) (h : v.size = v.capacity)
    (hp : P.posix_memalign 64 (max (2 * v.capacity) 16 * E.sizeof) = none) :
    push_back P E x v =
      Outcome.throw (Exc.ExcOutOfMemory (max (2 * v.capacity) 16 * E.sizeof)) v [] := by
  have hmax : max (max (2 * v.capacity) 16) (2 * v.capacity) = max (2 * v.capacity) 16 := by
    omega
  unfold push_back
  rw [Assert_of_true P _ _ (by simpa using Nat.le_of_eq h)]
  simp only [h, if_true]
  rw [reserve_out_of_memory P E _ v (by omega) (by rw [hmax]; exact hp), throw_andThen, hmax]

theorem insert_back_out_of_memory (P : Platform) (E : ElementType T) (range : List T)
    (v : AlignedVector T) (hn : v.capacity < v.size + range.length)
    (hp : P.posix_memalign 64
      (max (v.size + range.length) (2 * v.capacity) * E.sizeof) = none) :
    insert_back P E range v =
      Outcome.throw
        (Exc.ExcOutOfMemory (max (v.size + range.length) (2 * v.capacity) * E.sizeof)) v [] := by
  unfold insert_back
  dsimp only
  rw [reserve_out_of_memory P E _ v hn hp, throw_andThen]

theorem insert_out_of_memory (P : Platform) (E : ElementType T) (offset : Nat)
    (raw_pointers : Bool) (range : List T) (v : AlignedVector T) (hr : range ≠ [])
    (hp : P.posix_memalign 64 ((v.size + range.length) * E.sizeof) = none) :
    (insert P E offset raw_pointers range v).1.thrown ≠ none ∧
    (insert P E offset raw_pointers range v).1.vec = v ∧
    ((P.running_in_debug_mode = false ∨
        (v.replicated_across_communicator = false ∧ offset ≤ v.size)) →
      (insert P E offset raw_pointers range v).1 =
        Outcome.throw (Exc.ExcOutOfMemory ((v.size + range.length) * E.sizeof)) v []) := by
  have hlen : range.length ≠ 0 := fun h => hr (List.length_eq_zero.mp h)
  refine ⟨?_, ?_, ?_⟩
  · unfold insert
    split
    · simp [Outcome.throw]
    · split
      · simp [Outcome.throw]
      · simp [hlen, hp, Outcome.throw]
  · unfold insert
    split
    · rfl
    · split
      · rfl
      · simp [hlen, hp, Outcome.throw]
  · intro hg
    unfold insert
    rw [Assert_release P _ _ (hg.imp id (fun h => by simp [h.1])),
      Assert_release P _ _ (hg.imp id (fun h => by simpa using h.2))]
    simp [hlen, hp]

end AlignedVector

theorem destroy_backward_eq (block used lower : Nat) :
    destroy_backward block used lower =
      (List.range (used - lower)).map (fun k => Event.destructor block (used - 1 - k)) := by
  unfold destroy_backward
  apply List.ext_getElem?
  intro j
  by_cases hj : j < used - lower
  · simp only [List.getElem?_map]
    rw [List.getElem?_reverse (by simpa using hj)]
    simp only [List.length_range']
    rw [List.getElem?_range' _ _ (by omega), List.getElem?_range hj]
    simp only [Option.map_some']
    congr 2
    omega
  · rw [List.getElem?_eq_none (by simp; omega), List.getElem?_eq_none (by simp; omega)]

namespace AlignedVector

variable {T : Type}

theorem allocate_and_move_returned_deleter (P : Platform) (E : ElementType T)
    (old_size new_size new_allocated_size : Nat) (v : AlignedVector T)
    (h : (allocate_and_move P E old_size new_size new_allocated_size v).thrown = none) :
    (allocate_and_move P E old_size new_size new_allocated_size v).vec.deleter =
      { deleter_action_object := none, owning_aligned_vector := v.this_ptr } ∧
    (allocate_and_move P E old_size new_size new_allocated_size v).events =
      release_events E v := by
  unfold allocate_and_move at h ⊢
  split
  · rename_i hp
    simp [hp, Outcome.throw] at h
  · rename_i new_data_ptr hp
    simp only [hp] at h
    dsimp only at h ⊢
    split
    · rename_i e he
      rw [he] at h
      simp [Outcome.throw] at h
    · exact ⟨rfl, rfl⟩

end AlignedVector

theorem std.align_fits (size ptr : Nat) :
    std.align 64 size ptr (size + 63) =
      ((ptr + 63) / 64 * 64, (ptr + 63) / 64 * 64, size + 63 - ((ptr + 63) / 64 * 64 - ptr)) ∧
    ptr ≤ (ptr + 63) / 64 * 64 ∧ (ptr + 63) / 64 * 64 - ptr ≤ 63 ∧
    64 ∣ (ptr + 63) / 64 * 64 := by
  have h1 : ptr ≤ (ptr + 63) / 64 * 64 := by omega
  have h2 : (ptr + 63) / 64 * 64 - ptr ≤ 63 := by omega
  refine ⟨?_, h1, h2, Nat.dvd_mul_left _ _⟩
  unfold std.align
  have h3 : ¬ (size + 63 < size) := by omega
  have h4 : ¬ ((ptr + 64 - 1) / 64 * 64 - ptr > size + 63 - size) := by omega
  simp only [h3, h4, if_false]
  have h5 : ptr + 64 - 1 = ptr + 63 := by omega
  rw [h5]

theorem Utilities.MPI.min_le (values : List Nat) :
    ∀ own : Nat, Utilities.MPI.min own values ≤ own ∧
      ∀ x ∈ values, Utilities.MPI.min own values ≤ x := by
  induction values with
  | nil => intro own; exact ⟨Nat.le_refl _, fun x hx => absurd hx (List.not_mem_nil x)⟩
  | cons y rest ih =>
    intro own
    have h := ih (Min.min own y)
    unfold Utilities.MPI.min at h ⊢
    rw [List.foldl_cons]
    refine ⟨Nat.le_trans h.1 (Nat.min_le_left _ _), ?_⟩
    intro x hx
    rcases List.mem_cons.mp hx with hx | hx
    · subst hx
      exact Nat.le_trans h.1 (Nat.min_le_right _ _)
    · exact h.2 x hx

theorem Utilities.MPI.le_max (values : List Nat) :
    ∀ own : Nat, own ≤ Utilities.MPI.max own values ∧
      ∀ x ∈ values, x ≤ Utilities.MPI.max own values := by
  induction values with
  | nil => intro own; exact ⟨Nat.le_refl _, fun x hx => absurd hx (List.not_mem_nil x)⟩
  | cons y rest ih =>
    intro own
    have h := ih (Max.max own y)
    unfold Utilities.MPI.max at h ⊢
    rw [List.foldl_cons]
    refine ⟨Nat.le_trans (Nat.le_max_left _ _) h.1, ?_⟩
    intro x hx
    rcases List.mem_cons.mp hx with hx | hx
    · subst hx
      exact Nat.le_trans (Nat.le_max_right _ _) h.1
    · exact h.2 x hx

theorem Utilities.MPI.min_of_all_eq (values : List Nat) (own : Nat)
    (h : ∀ x ∈ values, x = own) : Utilities.MPI.min own values = own := by
  induction values with
  | nil => rfl
  | cons y rest ih =>
    unfold Utilities.MPI.min at ih ⊢
    rw [List.foldl_cons, h y (List.mem_cons_self _ _), Nat.min_self]
    exact ih (fun x hx => h x (List.mem_cons_of_mem _ hx))

theorem Utilities.MPI.max_of_all_eq {α : Type} [LinearOrder α] (values : List α) (own : α)
    (h : ∀ x ∈ values, x = own) : Utilities.MPI.max own values = own := by
  induction values with
  | nil => rfl
  | cons y rest ih =>
    unfold Utilities.MPI.max at ih ⊢
    rw [List.foldl_cons, h y (List.mem_cons_self _ _), max_self]
    exact ih (fun x hx => h x (List.mem_cons_of_mem _ hx))

/-- The test of step 5: the least and the greatest `available_space` agree exactly
when every process of the group has the value of the caller. -/
theorem Utilities.MPI.min_eq_max_iff (values : List Nat) (own : Nat) :
    Utilities.MPI.min own values = Utilities.MPI.max own values ↔ ∀ x ∈ values, x = own := by
  constructor
  · intro h x hx
    have h1 := Utilities.MPI.min_le values own
    have h2 := Utilities.MPI.le_max values own
    have h3 := h1.2 x hx
    have h4 := h2.2 x hx
    have h5 := h1.1
    have h6 := h2.1
    omega
  · intro h
    rw [Utilities.MPI.min_of_all_eq values own h, Utilities.MPI.max_of_all_eq values own h]

theorem Outcome.eq_ok_of_returned {T : Type} (o : Outcome T) (h : o.thrown = none) :
    o = Outcome.ok o.vec o.events := by
  cases o
  simp only [Outcome.ok] at h ⊢
  subst h
  rfl

theorem internal.memcpy_all {T : Type} (source d : List (Option T))
    (h : d.length = source.length) :
    internal.memcpy source 0 source.length d = source := by
  unfold internal.memcpy
  apply List.ext_getElem?
  intro j
  rw [for_loop_set_getElem?]
  by_cases hj : j < source.length
  · have h1 : 0 ≤ j ∧ j < 0 + source.length := by omega
    have h2 : j < d.length := by omega
    simp only [h1, h2, and_self, if_true, List.getD_eq_getElem?_getD]
    rw [List.getElem?_eq_getElem hj]
    rfl
  · have h1 : ¬ (0 ≤ j ∧ j < 0 + source.length) := by omega
    simp only [h1, if_false]
    rw [List.getElem?_eq_none (by omega), List.getElem?_eq_none (by omega)]

namespace AlignedVector

variable {T : Type}

/-- `resize(n)` on a vector without elements and without storage. -/
theorem resize_fresh (P : Platform) (E : ElementType T) (n : Nat) (w : AlignedVector T)
    (hlive : w.live = []) (hcap : w.allocated_size = 0) (hn : 0 < n)
    (hmem : (P.posix_memalign 64 (n * E.sizeof)).isSome = true) :
    ∃ w1 ev, resize P E n w = Outcome.ok w1 ev ∧ w1.live.length = n ∧
      w1.this_ptr = w.this_ptr ∧
      w1.replicated_across_communicator = w.replicated_across_communicator := by
  obtain ⟨v1, ev, hr, hl, hc, hp, ht, hf⟩ := reserve_fresh P E n w hlive hcap (fun _ => hmem)
  have h0 : n ≠ 0 := by omega
  have h1 : n ≠ w.size := by simp only [size, hlive, List.length_nil]; omega
  have h2 : ¬ n < w.size := by simp only [size, hlive, List.length_nil]; omega
  unfold resize
  simp only [h0, h1, h2, if_false, hr, Outcome.ok_andThen, set_used_elements_end]
  have hsz : w.size = 0 := by simp [size, hlive]
  rw [hsz, hl]
  rw [internal.AlignedVectorDefaultInitialize_ok P E true _ _ _ (Or.inr (by
    have := hp hn
    simp only [Nat.zero_mul, Nat.add_zero]
    exact this)) (by simp [resize_slots_length])]
  refine ⟨_, _, rfl, ?_, ht, hf⟩
  simp [Outcome.ok, resize_slots_length]

/-- What `load` makes of the archive `save` wrote, in a default constructed vector. -/
theorem load_save_fresh (P : Platform) (E : ElementType T) (this_ptr : Nat)
    (B : AlignedVector T)
    (hmem : 0 < B.size → (P.posix_memalign 64 (B.size * E.sizeof)).isSome = true) :
    (load P E (save B []) (default_constructor this_ptr)).1.thrown = none ∧
    (load P E (save B []) (default_constructor this_ptr)).1.vec.live = B.live ∧
    (load P E (save B []) (default_constructor this_ptr)).1.vec.allocated_size = B.size := by
  by_cases h0 : B.size = 0
  · have hl : B.live = [] := List.length_eq_zero.mp h0
    simp [save, load, h0, Outcome.ok, default_constructor, hl]
  · obtain ⟨w1, ev, hr, hl, hc, -, -, -⟩ :=
      reserve_fresh P E B.size (default_constructor this_ptr) rfl rfl hmem
    have hpos : B.size > 0 := by omega
    have hlen : B.live.length = B.size := rfl
    simp only [save, load, hpos, if_true, List.nil_append, List.cons_append, hr, hlen]
    simp only [Outcome.ok, hl, hc, and_true, true_and]
    exact resize_slots_append _ _ _ rfl

end AlignedVector

namespace AlignedVector

variable {T : Type}

/-- Steps 0 to 2 on a process that is not rank 0 of its group: its block is released. -/
theorem distribute_other (C : Communicator) (P : Platform) (E : ElementType T)
    (root_process : Nat) (world : Nat → AlignedVector T) (q : Nat)
    (hq : C.shmem_root root_process q ≠ q) :
    replicate_across_communicator.distribute C P E root_process world q =
      Outcome.ok { world q with elements := 0, live := [], allocated_size := 0 }
        (release_events E (world q)) := by
  have hqr : q ≠ root_process := by
    intro h
    subst h
    exact hq (C.shmem_root_of_root q)
  unfold replicate_across_communicator.distribute
  simp only [ne_eq, hqr, not_false_eq_true, if_true, Outcome.ok_andThen, beq_iff_eq, hq,
    Bool.false_and, if_false, Bool.false_eq_true]
  simp [Outcome.ok]

/-- Steps 0 to 2 on the root process change nothing. -/
theorem distribute_root (C : Communicator) (P : Platform) (E : ElementType T)
    (root_process : Nat) (world : Nat → AlignedVector T) :
    replicate_across_communicator.distribute C P E root_process world root_process =
      Outcome.ok (world root_process) [] := by
  unfold replicate_across_communicator.distribute
  simp only [ne_eq, not_true_eq_false, if_false, Outcome.ok_andThen, C.shmem_root_of_root,
    beq_self_eq_true, Bool.and_self, if_true, Bool.true_eq_false]
  cases E.is_trivially_copyable <;> simp [Outcome.ok, Outcome.andThen]

theorem int_from_size_t_of_lt (n : Nat) (h : n < 2 ^ 31) : int_from_size_t n = (n : Int) := by
  unfold int_from_size_t
  have h1 : n % 2 ^ 32 = n := Nat.mod_eq_of_lt (by omega)
  rw [h1, if_pos h]

theorem MPI_Bcast_length (E : ElementType T) (sent : List (Option T)) (count : Int)
    (buffer : List (Option T)) : (MPI_Bcast E sent count buffer).length = buffer.length := by
  unfold MPI_Bcast internal.memcpy
  dsimp only
  split
  · rw [for_loop_set_length]
  · rw [List.length_set, for_loop_set_length]

/-- A broadcast of all the bytes of the sender, when their number fits `int`. -/
theorem MPI_Bcast_all (E : ElementType T) (sent buffer : List (Option T))
    (hlen : buffer.length = sent.length) (hcount : E.sizeof * sent.length < 2 ^ 31) :
    MPI_Bcast E sent (int_from_size_t (E.sizeof * sent.length)) buffer = sent := by
  unfold MPI_Bcast
  rw [int_from_size_t_of_lt _ hcount]
  simp only [Int.toNat_ofNat, Nat.mul_mod_right, if_true,
    Nat.mul_div_cancel_left _ E.sizeof_pos]
  exact internal.memcpy_all _ _ hlen

/-- Steps 0 to 2 on a process that is rank 0 of its group: it holds as many elements
as the root afterwards, and they are the elements of the root when the byte count
of the `MPI_Bcast` fits `int`. -/
theorem distribute_shmem_root (C : Communicator) (P : Platform) (E : ElementType T)
    (root_process : Nat) (world : Nat → AlignedVector T) (q : Nat)
    (hq : C.shmem_root root_process q = q) (hn : 0 < (world root_process).size)
    (hmem : (P.posix_memalign 64 ((world root_process).size * E.sizeof)).isSome = true) :
    ∃ w ev, replicate_across_communicator.distribute C P E root_process world q =
        Outcome.ok w ev ∧
      w.live.length = (world root_process).size ∧
      ((E.is_trivially_copyable = true →
          E.sizeof * (world root_process).size < 2 ^ 31) →
        w.live = (world root_process).live) ∧
      w.this_ptr = (world q).this_ptr ∧
      w.replicated_across_communicator = (world q).replicated_across_communicator := by
  by_cases hqr : q = root_process
  · subst hqr
    exact ⟨_, _, distribute_root C P E q world, rfl, fun _ => rfl, rfl, rfl⟩
  · have hb : (q == root_process) = false := by simpa using hqr
    unfold replicate_across_communicator.distribute
    simp only [ne_eq, hqr, not_false_eq_true, if_true, Outcome.ok_andThen, hq,
      beq_self_eq_true, Bool.true_and, hb, if_false, Bool.false_eq_true]
    cases hT : E.is_trivially_copyable
    · simp only [Bool.false_eq_true, if_false]
      obtain ⟨h1, h2, -⟩ := load_save_fresh P E P.temporary_object (world root_process)
        (fun _ => hmem)
      simp only [Utilities.MPI.broadcast, h1]
      have h3 : ((move_assignment E
          (load P E (save (world root_process) [])
            (default_constructor P.temporary_object)).1.vec
          { world q with elements := 0, live := [], allocated_size := 0 }).1).vec.live =
          (world root_process).live := by
        simp only [move_assignment, clear, Outcome.ok]
        exact h2
      exact ⟨_, _, rfl, by rw [h3]; rfl, fun _ => h3, rfl, rfl⟩
    · simp only [if_true]
      obtain ⟨w1, ev, hr, hl, ht, hf⟩ := resize_fresh P E (world root_process).size
        { world q with elements := 0, live := [], allocated_size := 0 } rfl rfl hn hmem
      rw [hr, Outcome.ok_andThen]
      refine ⟨_, _, rfl, ?_, ?_, ht, hf⟩
      · simp only [Outcome.ok]
        rw [MPI_Bcast_length]
        exact hl
      · intro hcount
        simp only [Outcome.ok]
        exact MPI_Bcast_all E _ _ hl (hcount trivial)

end AlignedVector

namespace AlignedVector

variable {T : Type}

/-- Step 5 on process `q` when the window has `new_size * sizeof(T) + 63` bytes: the
aligned address if every process of the group is left with the same
`available_space`, the start of the segment otherwise. -/
theorem align_value (C : Communicator) (P : Platform) (E : ElementType T)
    (root_process : Nat) (world : Nat → AlignedVector T) (q : Nat)
    (hsize : (replicate_across_communicator.distribute C P E root_process world
      (C.shmem_root root_process q)).vec.size = (world root_process).size) :
    ((∀ x, x < C.n_mpi_processes →
        C.shmem_root root_process x = C.shmem_root root_process q →
        (C.base_ptr x ((world root_process).size * E.sizeof + 63) + 63) / 64 * 64 -
            C.base_ptr x ((world root_process).size * E.sizeof + 63) =
          (C.base_ptr q ((world root_process).size * E.sizeof + 63) + 63) / 64 * 64 -
            C.base_ptr q ((world root_process).size * E.sizeof + 63)) →
      replicate_across_communicator.align C P E root_process world q =
        (C.base_ptr q ((world root_process).size * E.sizeof + 63) + 63) / 64 * 64) ∧
    (¬ (∀ x, x < C.n_mpi_processes →
        C.shmem_root root_process x = C.shmem_root root_process q →
        (C.base_ptr x ((world root_process).size * E.sizeof + 63) + 63) / 64 * 64 -
            C.base_ptr x ((world root_process).size * E.sizeof + 63) =
          (C.base_ptr q ((world root_process).size * E.sizeof + 63) + 63) / 64 * 64 -
            C.base_ptr q ((world root_process).size * E.sizeof + 63)) →
      replicate_across_communicator.align C P E root_process world q =
        C.base_ptr q ((world root_process).size * E.sizeof + 63)) := by
  have hiff : (∀ v ∈ ((List.range C.n_mpi_processes).filter
        (fun p => C.shmem_root root_process p == C.shmem_root root_process q)).map
        (fun p => (std.align 64 ((world root_process).size * E.sizeof)
          (C.base_ptr p ((world root_process).size * E.sizeof + 63))
          ((world root_process).size * E.sizeof + 63)).2.2),
        v = (std.align 64 ((world root_process).size * E.sizeof)
          (C.base_ptr q ((world root_process).size * E.sizeof + 63))
          ((world root_process).size * E.sizeof + 63)).2.2) ↔
      (∀ x, x < C.n_mpi_processes →
        C.shmem_root root_process x = C.shmem_root root_process q →
        (C.base_ptr x ((world root_process).size * E.sizeof + 63) + 63) / 64 * 64 -
            C.base_ptr x ((world root_process).size * E.sizeof + 63) =
          (C.base_ptr q ((world root_process).size * E.sizeof + 63) + 63) / 64 * 64 -
            C.base_ptr q ((world root_process).size * E.sizeof + 63)) := by
    constructor
    · intro h x hx hg
      have := h _ (List.mem_map.mpr ⟨x, List.mem_filter.mpr ⟨List.mem_range.mpr hx, by
        simpa using hg⟩, rfl⟩)
      rw [(std.align_fits _ _).1, (std.align_fits _ _).1] at this
      simp only at this
      have h1 := (std.align_fits ((world root_process).size * E.sizeof)
        (C.base_ptr x ((world root_process).size * E.sizeof + 63))).2.2.1
      have h2 := (std.align_fits ((world root_process).size * E.sizeof)
        (C.base_ptr q ((world root_process).size * E.sizeof + 63))).2.2.1
      omega
    · intro h v hv
      obtain ⟨x, hx, rfl⟩ := List.mem_map.mp hv
      obtain ⟨hx1, hx2⟩ := List.mem_filter.mp hx
      have := h x (List.mem_range.mp hx1) (by simpa using hx2)
      rw [(std.align_fits _ _).1, (std.align_fits _ _).1]
      simp only
      omega
  have h63 : (64 - 1 : Nat) = 63 := rfl
  constructor
  · intro h
    unfold replicate_across_communicator.align
    simp only [hsize, h63]
    rw [if_neg (by
      rw [ne_eq, not_not, Utilities.MPI.min_eq_max_iff]
      exact hiff.mpr h)]
    rw [(std.align_fits _ _).1]
  · intro h
    unfold replicate_across_communicator.align
    simp only [hsize, h63]
    rw [if_pos (by
      rw [ne_eq, Utilities.MPI.min_eq_max_iff]
      exact fun h' => h (hiff.mp h'))]

/-- The pointers two processes of one group install after step 5 lie the same number
of bytes behind the start of the segment. -/
theorem align_offset (C : Communicator) (P : Platform) (E : ElementType T)
    (root_process : Nat) (world : Nat → AlignedVector T) (q p : Nat)
    (hq : q < C.n_mpi_processes) (hp : p < C.n_mpi_processes)
    (hg : C.shmem_root root_process p = C.shmem_root root_process q)
    (hsize : (replicate_across_communicator.distribute C P E root_process world
      (C.shmem_root root_process q)).vec.size = (world root_process).size) :
    replicate_across_communicator.align C P E root_process world q -
        C.base_ptr q ((world root_process).size * E.sizeof + 63) =
      replicate_across_communicator.align C P E root_process world p -
        C.base_ptr p ((world root_process).size * E.sizeof + 63) := by
  have hq' := align_value C P E root_process world q hsize
  have hp' := align_value C P E root_process world p (by rw [hg]; exact hsize)
  by_cases h : ∀ x, x < C.n_mpi_processes →
      C.shmem_root root_process x = C.shmem_root root_process q →
      (C.base_ptr x ((world root_process).size * E.sizeof + 63) + 63) / 64 * 64 -
          C.base_ptr x ((world root_process).size * E.sizeof + 63) =
        (C.base_ptr q ((world root_process).size * E.sizeof + 63) + 63) / 64 * 64 -
          C.base_ptr q ((world root_process).size * E.sizeof + 63)
  · rw [hq'.1 h, hp'.1 (fun x hx hxg => by
      rw [h x hx (by rw [hxg, hg]), h p hp hg])]
    exact (h p hp hg).symm
  · rw [hq'.2 h, hp'.2 (fun h' => h (fun x hx hxg => by
      rw [h' x hx (by rw [hxg, hg]), h' q hq hg.symm]))]
    omega

end AlignedVector

namespace AlignedVector

variable {T : Type}

theorem save_of_live_eq (a b : AlignedVector T) (ar : List (ArchiveItem T))
    (h : a.live = b.live) : save a ar = save b ar := by
  unfold save size
  rw [h]

/-- Steps 0 to 7 on process `q`, when the allocation of the processes with rank 0
succeeds and no process sees the segment at address 0; the elements are those of
the root when the byte count of the `MPI_Bcast` fits `int`. -/
theorem install_ok (C : Communicator) (P : Platform) (E : ElementType T)
    (root_process : Nat) (world : Nat → AlignedVector T) (q : Nat)
    (hroot : root_process < C.n_mpi_processes) (hq : q < C.n_mpi_processes)
    (hn : 0 < (world root_process).size)
    (hmem : (P.posix_memalign 64 ((world root_process).size * E.sizeof)).isSome = true)
    (hbase : ∀ x, x < C.n_mpi_processes →
      C.base_ptr x ((world root_process).size * E.sizeof + 63) ≠ 0) :
    ∃ w ev, replicate_across_communicator.install C P E root_process world q =
        Outcome.ok w ev ∧
      ((E.is_trivially_copyable = true →
          E.sizeof * (world root_process).size < 2 ^ 31) →
        w.live = (world root_process).live) ∧
      w.allocated_size = (world root_process).size ∧
      w.elements = replicate_across_communicator.align C P E root_process world q ∧
      w.deleter =
        { deleter_action_object := some
            { is_shmem_root := C.shmem_root root_process q == q
              aligned_shmem_pointer :=
                replicate_across_communicator.align C P E root_process world q
              shmem_group_communicator := C.shmem_group_communicator q
              shmem_window := C.shmem_window q }
          owning_aligned_vector := (world q).this_ptr } ∧
      w.this_ptr = (world q).this_ptr ∧
      w.replicated_across_communicator = (world q).replicated_across_communicator := by
  obtain ⟨wl, evl, hdl, hlen, hll, -, -⟩ := distribute_shmem_root C P E root_process world
    (C.shmem_root root_process q) (C.shmem_root_idem root_process q) hn hmem
  have hsize : (replicate_across_communicator.distribute C P E root_process world
      (C.shmem_root root_process q)).vec.size = (world root_process).size := by
    rw [hdl]
    simp only [Outcome.ok, size, hlen]
  have hdq : ∃ w2 ev2, replicate_across_communicator.distribute C P E root_process world q =
      Outcome.ok w2 ev2 ∧ w2.this_ptr = (world q).this_ptr ∧
      w2.replicated_across_communicator = (world q).replicated_across_communicator := by
    by_cases hs : C.shmem_root root_process q = q
    · obtain ⟨w, ev, h1, -, -, h3, h4⟩ :=
        distribute_shmem_root C P E root_process world q hs hn hmem
      exact ⟨w, ev, h1, h3, h4⟩
    · exact ⟨_, _, distribute_other C P E root_process world q hs, rfl, rfl⟩
  obtain ⟨w2, ev2, hd2, ht2, hf2⟩ := hdq
  have hoff := align_offset C P E root_process world q (C.shmem_root root_process q) hq
    (C.shmem_root_lt root_process q hroot hq) (C.shmem_root_idem root_process q) hsize
  have h63 : (64 - 1 : Nat) = 63 := rfl
  have hb := hbase q hq
  have hA1 : (if (C.shmem_root root_process q == q) = false then
      Assert P (C.base_ptr q ((world root_process).size * E.sizeof + 63) != 0)
        Exc.ExcInternalError else none) = none := by
    split
    · exact Assert_of_true P _ _ (by simpa using hb)
    · rfl
  have hA2 : Assert P ((std.align 64 ((world root_process).size * E.sizeof)
      (C.base_ptr q ((world root_process).size * E.sizeof + 63))
      ((world root_process).size * E.sizeof + 63)).1 != 0) Exc.ExcInternalError = none := by
    apply Assert_of_true
    rw [(std.align_fits _ _).1]
    have := (std.align_fits ((world root_process).size * E.sizeof)
      (C.base_ptr q ((world root_process).size * E.sizeof + 63))).2.1
    simp only [bne_iff_ne, ne_eq]
    omega
  unfold replicate_across_communicator.install
  rw [hd2, Outcome.ok_andThen]
  simp only [hsize, h63, hA1, hA2, hoff, shared_window_read, if_true]
  refine ⟨_, _, rfl, ?_, rfl, rfl, ?_, ht2, hf2⟩
  · intro hcount
    simp only [Outcome.ok, hdl, hll hcount]
    exact resize_slots_self _
  · simp only [Outcome.ok, ht2]

/-- The whole member function on process `r`, under the hypotheses of `install_ok`:
what it installs, whether it returns or the consistency check of the debug build
raises `ExcInternalError`. -/
theorem replicate_installed (C : Communicator) (P : Platform) (E : ElementType T)
    (hash : List (ArchiveItem T) → Int) (root_process : Nat)
    (world : Nat → AlignedVector T) (r : Nat)
    (hroot : root_process < C.n_mpi_processes) (hr : r < C.n_mpi_processes)
    (hn : 0 < (world root_process).size)
    (hmem : (P.posix_memalign 64 ((world root_process).size * E.sizeof)).isSome = true)
    (hbase : ∀ x, x < C.n_mpi_processes →
      C.base_ptr x ((world root_process).size * E.sizeof + 63) ≠ 0) :
    (replicate_across_communicator C P E hash root_process world r).vec.allocated_size =
      (world root_process).size ∧
    (replicate_across_communicator C P E hash root_process world r).vec.elements =
      replicate_across_communicator.align C P E root_process world r ∧
    (replicate_across_communicator C P E hash root_process world r).vec.deleter =
      { deleter_action_object := some
          { is_shmem_root := C.shmem_root root_process r == r
            aligned_shmem_pointer :=
              replicate_across_communicator.align C P E root_process world r
            shmem_group_communicator := C.shmem_group_communicator r
            shmem_window := C.shmem_window r }
        owning_aligned_vector := (world r).this_ptr } ∧
    (replicate_across_communicator C P E hash root_process world
        r).vec.replicated_across_communicator =
      (P.running_in_debug_mode || (world r).replicated_across_communicator) := by
  obtain ⟨w, ev, hi, -, hc, he, hd, -, hf⟩ :=
    install_ok C P E root_process world r hroot hr hn hmem hbase
  have h0 : (world root_process).size ≠ 0 := by omega
  unfold replicate_across_communicator
  simp only [h0, if_false, hi, Outcome.ok_andThen]
  cases hdebug : P.running_in_debug_mode
  · simp only [Bool.false_eq_true, if_false, Outcome.ok, Bool.false_or]
    exact ⟨hc, he, hd, hf⟩
  · simp only [if_true, Bool.true_or]
    split
    · simp only [Outcome.throw]
      exact ⟨hc, he, hd, trivial⟩
    · simp only [Outcome.ok]
      exact ⟨hc, he, hd, trivial⟩

/-- The whole member function on process `r`, under the hypotheses of `install_ok` and
when the byte count of the `MPI_Bcast` fits `int`. -/
theorem replicate_ok (C : Communicator) (P : Platform) (E : ElementType T)
    (hash : List (ArchiveItem T) → Int) (root_process : Nat)
    (world : Nat → AlignedVector T) (r : Nat)
    (hroot : root_process < C.n_mpi_processes) (hr : r < C.n_mpi_processes)
    (hn : 0 < (world root_process).size)
    (hmem : (P.posix_memalign 64 ((world root_process).size * E.sizeof)).isSome = true)
    (hbase : ∀ x, x < C.n_mpi_processes →
      C.base_ptr x ((world root_process).size * E.sizeof + 63) ≠ 0)
    (hcount : E.is_trivially_copyable = true →
      E.sizeof * (world root_process).size < 2 ^ 31) :
    (replicate_across_communicator C P E hash root_process world r).thrown = none ∧
    (replicate_across_communicator C P E hash root_process world r).vec.live =
      (world root_process).live := by
  obtain ⟨w, ev, hi, hl, -⟩ :=
    install_ok C P E root_process world r hroot hr hn hmem hbase
  replace hl := hl hcount
  have h0 : (world root_process).size ≠ 0 := by omega
  unfold replicate_across_communicator
  simp only [h0, if_false, hi, Outcome.ok_andThen]
  cases hdebug : P.running_in_debug_mode
  · simp only [Bool.false_eq_true, if_false, Outcome.ok]
    exact ⟨trivial, hl⟩
  · simp only [if_true]
    have hmax : Utilities.MPI.max
        (hash (save { w with replicated_across_communicator := true } []))
        ((List.range C.n_mpi_processes).map fun q =>
          hash (save (replicate_across_communicator.install C P E root_process world q).vec []))
        = hash (save { w with replicated_across_communicator := true } []) := by
      apply Utilities.MPI.max_of_all_eq
      intro x hx
      obtain ⟨q, hq, rfl⟩ := List.mem_map.mp hx
      obtain ⟨wq, evq, hiq, hlq, -⟩ :=
        install_ok C P E root_process world q hroot (List.mem_range.mp hq) hn hmem hbase
      rw [hiq]
      congr 1
      apply save_of_live_eq
      simp only [Outcome.ok, hlq hcount, hl]
    rw [hmax, Assert_of_true P _ _ (by simp)]
    simp only [Outcome.ok]
    exact ⟨trivial, hl⟩

end AlignedVector

namespace AlignedVector

variable {T : Type}

end AlignedVector

namespace AlignedVector

variable {T : Type}

end AlignedVector

/-! ## Lemmas on subranges in any order -/

/-- Writing `f i` into the slots of subranges that lie in `[0, n)` and cover it, in
whatever order, writes `f i` into every slot `i < n` and into no other slot. -/
theorem foldl_write_subrange {α : Type} (f : Nat → α) (rs : List (Nat × Nat)) (n : Nat)
    (d : List α) (hwithin : ∀ r ∈ rs, r.2 ≤ n)
    (hcover : ∀ i, i < n → ∃ r ∈ rs, r.1 ≤ i ∧ i < r.2) (hn : n ≤ d.length) :
    rs.foldl (fun acc r => write_subrange f r.1 r.2 acc) d =
      (List.range n).map f ++ d.drop n := by
  apply List.ext_getElem?
  intro j
  have hR : ((List.range n).map f ++ d.drop n)[j]? = if j < n then some (f j) else d[j]? := by
    by_cases hj : j < n
    · rw [List.getElem?_append_left (by simpa using hj)]
      simp [hj, List.getElem?_range]
    · rw [List.getElem?_append_right (by simpa using hj)]
      simp only [List.length_map, List.length_range, List.getElem?_drop, hj, if_false]
      congr 1
      omega
  rw [hR]
  unfold write_subrange
  rw [foldl_subranges_getElem?]
  by_cases hj : j < n
  · have h1 : ∃ r ∈ rs, r.1 ≤ j ∧ j < r.2 := hcover j hj
    have h2 : j < d.length := by omega
    simp [h1, hj, h2]
  · have h1 : ¬ ∃ r ∈ rs, r.1 ≤ j ∧ j < r.2 := by
      rintro ⟨r, hr, -, h3⟩
      have := hwithin r hr
      omega
    simp [h1, hj]

theorem write_subrange_all {α : Type} (f : Nat → α) (n : Nat) (d : List α)
    (hn : n ≤ d.length) :
    write_subrange f 0 n d = (List.range n).map f ++ d.drop n := by
  have h := foldl_write_subrange f [(0, n)] n d
    (fun r hr => by simp at hr; subst hr; exact Nat.le_refl _)
    (fun i hi => ⟨(0, n), by simp, Nat.zero_le _, hi⟩) hn
  simpa using h

/-! ## Lemmas on sparsity patterns -/

theorem for_loop_zero_succ {σ : Type} (n : Nat) (body : Nat → σ → σ) (s : σ) :
    for_loop 0 (n + 1) body s = body n (for_loop 0 n body s) := by
  unfold for_loop
  simp only [Nat.sub_zero]
  rw [List.range'_1_concat, List.foldl_append]
  simp

theorem for_loop_zero_zero {σ : Type} (body : Nat → σ → σ) (s : σ) :
    for_loop 0 0 body s = s := rfl

theorem set_append_length {α : Type} (A B : List α) (x : α) (h : 0 < B.length) :
    (A ++ B).set A.length x = A ++ x :: B.tail := by
  cases B with
  | nil => simp at h
  | cons b B => simp [List.set_append]

namespace SparsityPattern

theorem slots_length (a : List Nat) (lo n : Nat) : (slots a lo n).length = n := by
  simp [slots]

theorem slots_succ (a : List Nat) (lo n : Nat) :
    slots a lo (n + 1) = a.getD lo 0 :: slots a (lo + 1) n := by
  simp [slots, List.range'_succ]

theorem slots_append (a : List Nat) (lo m n : Nat) :
    slots a lo (m + n) = slots a lo m ++ slots a (lo + m) n := by
  simp only [slots]
  rw [← List.map_append, List.range'_append_1, Nat.add_comm n m]

theorem slots_getD (a : List Nat) (lo n t : Nat) (h : t < n) :
    (slots a lo n).getD t 0 = a.getD (lo + t) 0 := by
  simp [slots, List.getD_eq_getElem?_getD, List.getElem?_map, List.getElem?_range' , h]

theorem mem_slots (a : List Nat) (lo n x : Nat) :
    x ∈ slots a lo n ↔ ∃ k, lo ≤ k ∧ k < lo + n ∧ a.getD k 0 = x := by
  simp only [slots, List.mem_map, List.mem_range'_1]
  constructor
  · rintro ⟨k, ⟨h1, h2⟩, h3⟩
    exact ⟨k, h1, h2, h3⟩
  · rintro ⟨k, h1, h2, h3⟩
    exact ⟨k, ⟨h1, h2⟩, h3⟩

theorem slots_eq_of_getD (a b : List Nat) (lo n : Nat)
    (h : ∀ k, lo ≤ k → k < lo + n → a.getD k 0 = b.getD k 0) : slots a lo n = slots b lo n := by
  simp only [slots]
  apply List.map_congr_left
  intro k hk
  rw [List.mem_range'_1] at hk
  exact h k hk.1 hk.2

theorem slots_append_left (A B : List Nat) (n : Nat) (h : n ≤ B.length) :
    slots (A ++ B) A.length n = B.take n := by
  apply List.ext_getElem?
  intro t
  by_cases ht : t < n
  · have h1 : t < B.length := by omega
    have h4 : (A ++ B)[A.length + t]? = B[t]? := by
      rw [List.getElem?_append_right (by omega)]
      congr 1
      omega
    simp [slots, List.getElem?_map, List.getElem?_range', ht, List.getElem?_take,
      List.getD_eq_getElem?_getD, h4, h1]
  · have h2 : (slots (A ++ B) A.length n).length ≤ t := by rw [slots_length]; omega
    have h3 : (B.take n).length ≤ t := by rw [List.length_take]; omega
    rw [List.getElem?_eq_none h2, List.getElem?_eq_none h3]

theorem take_succ_set {α : Type} (l : List α) (n : Nat) (x : α) (h : n < l.length) :
    (l.set n x).take (n + 1) = l.take n ++ [x] := by
  apply List.ext_getElem?
  intro t
  have h5 : (l.take n).length = n := by rw [List.length_take]; omega
  rw [List.getElem?_take, List.getElem?_set]
  by_cases h1 : t < n
  · have h3 : t < (l.take n).length := by omega
    rw [if_pos (by omega), if_neg (by omega), List.getElem?_append_left h3,
      List.getElem?_take, if_pos h1]
  · by_cases h4 : t = n
    · subst h4
      rw [if_pos (by omega), if_pos rfl, if_pos h, List.getElem?_append_right (by omega), h5]
      simp
    · rw [if_neg (by omega), List.getElem?_append_right (by omega), h5]
      have h6 : 1 ≤ t - n := by omega
      simp [h6]

theorem drop_set_lt {α : Type} (l : List α) (n m : Nat) (x : α) (h : n < m) :
    (l.set n x).drop m = l.drop m := by
  apply List.ext_getElem?
  intro t
  rw [List.getElem?_drop, List.getElem?_drop, List.getElem?_set_ne (by omega)]

theorem copy_used_eq (H : Declarations) (colnums : List Nat) :
    ∀ (count j row_length : Nat) (tmp_entries : List Nat),
      row_length + ((slots colnums j count).takeWhile
        (fun col => col != H.invalid_entry)).length ≤ tmp_entries.length →
      compress.copy_used H colnums count j row_length tmp_entries =
        (row_length + ((slots colnums j count).takeWhile
            (fun col => col != H.invalid_entry)).length,
         tmp_entries.take row_length ++
           (slots colnums j count).takeWhile (fun col => col != H.invalid_entry) ++
           tmp_entries.drop (row_length + ((slots colnums j count).takeWhile
            (fun col => col != H.invalid_entry)).length)) := by
  intro count
  induction count with
  | zero =>
    intro j rl tmp _
    simp [compress.copy_used, slots]
  | succ count ih =>
    intro j rl tmp h
    rw [slots_succ] at h ⊢
    simp only [compress.copy_used]
    by_cases hv : colnums.getD j 0 = H.invalid_entry
    · have hb : (colnums.getD j 0 != H.invalid_entry) = false := by simpa using hv
      rw [if_neg (not_not.mpr hv)]
      simp only [List.takeWhile_cons, hb]
      simp
    · have hb : (colnums.getD j 0 != H.invalid_entry) = true := by simpa using hv
      simp only [List.takeWhile_cons, hb, if_true] at h ⊢
      simp only [List.length_cons] at h ⊢
      rw [if_pos hv, ih (j + 1) (rl + 1) (tmp.set rl (colnums.getD j 0))
        (by rw [List.length_set]; omega),
        take_succ_set _ _ _ (by omega), drop_set_lt _ _ _ _ (by omega)]
      have e : rl + 1 + (List.takeWhile (fun col => col != H.invalid_entry)
          (slots colnums (j + 1) count)).length =
          rl + ((List.takeWhile (fun col => col != H.invalid_entry)
          (slots colnums (j + 1) count)).length + 1) := by omega
      rw [e]
      simp

theorem write_loop_eq (t : List Nat) :
    ∀ (n : Nat) (A B : List Nat), n ≤ B.length → n ≤ t.length →
      for_loop 0 n
        (fun j (w : List Nat × Nat) => (w.1.set w.2 (t.getD j 0), w.2 + 1)) (A ++ B, A.length) =
        (A ++ t.take n ++ B.drop n, A.length + n) := by
  intro n
  induction n with
  | zero =>
    intro A B _ _
    simp [for_loop_zero_zero]
  | succ n ih =>
    intro A B hB ht
    rw [for_loop_zero_succ, ih A B (by omega) (by omega)]
    have h1 : (A ++ t.take n).length = A.length + n := by
      rw [List.length_append, List.length_take]; omega
    have h2 : 0 < (B.drop n).length := by rw [List.length_drop]; omega
    have h3 := set_append_length (A ++ t.take n) (B.drop n) (t.getD n 0) h2
    rw [h1] at h3
    simp only []
    rw [h3]
    have h4 : t.take (n + 1) = t.take n ++ [t.getD n 0] := by
      rw [List.take_succ]
      have : t[n]? = some (t.getD n 0) := by
        rw [List.getD_eq_getElem?_getD, List.getElem?_eq_getElem (by omega)]
        rfl
      rw [this]
      rfl
    rw [h4, List.tail_drop]
    simp [Nat.add_assoc]

theorem sorted_row_perm (H : Declarations) (sd : Bool) (p : List Nat) :
    (compress.sorted_row H sd p).Perm p := by
  unfold compress.sorted_row
  split
  · have h1 := (H.sort_perm (p.drop (if sd then 1 else 0))).append_left
      (p.take (if sd then 1 else 0))
    rw [List.take_append_drop] at h1
    exact h1
  · exact List.Perm.refl _

theorem sorted_row_length (H : Declarations) (sd : Bool) (p : List Nat) :
    (compress.sorted_row H sd p).length = p.length :=
  (sorted_row_perm H sd p).length_eq

theorem sorted_row_head (H : Declarations) (p : List Nat) :
    (compress.sorted_row H true p).head? = p.head? := by
  unfold compress.sorted_row
  split
  · rename_i h
    cases p with
    | nil => simp at h
    | cons x p => simp
  · rfl

theorem no_adjacent_equal_of_nodup :
    ∀ l : List Nat, l.Nodup → compress.no_adjacent_equal l = true := by
  intro l
  induction l with
  | nil => intro _; rfl
  | cons x l ih =>
    intro h
    cases l with
    | nil => rfl
    | cons y l =>
      rw [List.nodup_cons] at h
      simp only [compress.no_adjacent_equal, Bool.and_eq_true, bne_iff_ne, ne_eq]
      refine ⟨?_, ih h.2⟩
      intro e
      exact h.1 (by simp [e])

theorem sort_region_eq (H : Declarations) (sd : Bool) (p junk : List Nat) :
    (if p.length > 1 then
        (p ++ junk).take (if sd then 1 else 0) ++
          H.sort (((p ++ junk).drop (if sd then 1 else 0)).take
            (p.length - (if sd then 1 else 0))) ++
          (p ++ junk).drop p.length
      else p ++ junk) = compress.sorted_row H sd p ++ junk := by
  unfold compress.sorted_row
  by_cases h : p.length > 1
  · rw [if_pos h, if_pos h]
    have hf : (if sd then 1 else 0) ≤ p.length := by split <;> omega
    have h1 : (p ++ junk).take (if sd then 1 else 0) = p.take (if sd then 1 else 0) :=
      List.take_append_of_le_length hf
    have h2 : ((p ++ junk).drop (if sd then 1 else 0)).take
        (p.length - (if sd then 1 else 0)) = p.drop (if sd then 1 else 0) := by
      rw [List.drop_append_of_le_length hf, List.take_append_of_le_length
        (by rw [List.length_drop]), List.take_of_length_le (by rw [List.length_drop])]
    rw [h1, h2, List.drop_left]
  · rw [if_neg h, if_neg h]

theorem getD_append_middle (A R B : List Nat) (t : Nat) (h : t < R.length) :
    (A ++ R ++ B).getD (A.length + t) 0 = R.getD t 0 := by
  rw [List.getD_eq_getElem?_getD, List.getD_eq_getElem?_getD, List.append_assoc,
    List.getElem?_append_right (by omega), List.getElem?_append_left (by omega)]
  congr 2
  omega

theorem drop_take_append_middle (A R B : List Nat) (t : Nat) (h : t ≤ R.length) :
    ((A ++ R ++ B).drop (A.length + t)).take (A.length + R.length - (A.length + t)) =
      R.drop t := by
  have e : A.length + R.length - (A.length + t) = (R.drop t).length := by
    rw [List.length_drop]; omega
  rw [List.append_assoc, List.drop_append, List.drop_append_of_le_length h, e,
    List.take_left]

theorem row_eq (P : Platform) (H : Declarations) (sd : Bool) (colnums : List Nat)
    (line : Nat) (s : compress.State) (A B : List Nat)
    (hthrown : s.thrown = none) (hline : line < s.rowstart.length)
    (hnew : s.new_colnums = A ++ B) (hfree : s.next_free_entry = A.length)
    (hstart : s.next_row_start = A.length)
    (htmp : (compress.new_row H sd s.rowstart colnums line).length ≤ s.tmp_entries.length)
    (hB : (compress.new_row H sd s.rowstart colnums line).length ≤ B.length)
    (hnodup : (compress.new_row H sd s.rowstart colnums line).Nodup)
    (hdiag : sd = true →
      (compress.new_row H sd s.rowstart colnums line).head? = some line) :
    compress.row P H sd colnums line s =
      { rowstart := s.rowstart.set line A.length
        new_colnums := A ++ compress.new_row H sd s.rowstart colnums line ++
          B.drop (compress.new_row H sd s.rowstart colnums line).length
        tmp_entries := compress.new_row H sd s.rowstart colnums line ++
          s.tmp_entries.drop (compress.new_row H sd s.rowstart colnums line).length
        next_free_entry := A.length + (compress.new_row H sd s.rowstart colnums line).length
        next_row_start := A.length + (compress.new_row H sd s.rowstart colnums line).length
        thrown := none } := by
  unfold compress.new_row at htmp hB hnodup hdiag ⊢
  rw [sorted_row_length] at htmp hB
  generalize hp : (slots colnums (s.rowstart.getD line 0)
    (s.rowstart.getD (line + 1) 0 - s.rowstart.getD line 0)).takeWhile
      (fun col => col != H.invalid_entry) = p at htmp hB hnodup hdiag ⊢
  have hcopy := copy_used_eq H colnums
    (s.rowstart.getD (line + 1) 0 - s.rowstart.getD line 0) (s.rowstart.getD line 0) 0
    s.tmp_entries (by rw [hp]; omega)
  rw [hp] at hcopy
  simp only [List.take_zero, List.nil_append, Nat.zero_add] at hcopy
  unfold compress.row
  rw [hthrown]
  simp only [hcopy]
  rw [sort_region_eq H sd p (s.tmp_entries.drop p.length), hnew, hfree, hstart]
  generalize hR : compress.sorted_row H sd p = R at hnodup hdiag ⊢
  have hRlen : R.length = p.length := by rw [← hR, sorted_row_length]
  have hw := write_loop_eq (R ++ s.tmp_entries.drop p.length) p.length A B hB
    (by rw [List.length_append]; omega)
  rw [hw]
  have htake : (R ++ List.drop p.length s.tmp_entries).take p.length = R := by
    rw [← hRlen, List.take_left]
  simp only [htake]
  have hrs : (s.rowstart.set line A.length).getD line 0 = A.length := by
    rw [List.getD_eq_getElem?_getD, List.getElem?_set_self hline]
    rfl
  simp only [hrs]
  have hA1 : (!sd || (p.length != 0 &&
      (A ++ R ++ B.drop p.length).getD A.length 0 == line)) = true := by
    cases sd with
    | false => rfl
    | true =>
      have hd := hdiag rfl
      cases R with
      | nil => simp at hd
      | cons x R =>
        simp only [List.head?_cons, Option.some.injEq] at hd
        have h1 := getD_append_middle A (x :: R) (B.drop p.length) 0 (by simp)
        simp only [Nat.add_zero] at h1
        rw [h1]
        simp only [List.length_cons] at hRlen
        have : p.length ≠ 0 := by omega
        simp [hd, this]
  have hA2 : (A.length == A.length + p.length ||
      !(((A ++ R ++ B.drop p.length).drop (A.length + 1)).take
        (A.length + p.length - (A.length + 1))).contains
          ((A ++ R ++ B.drop p.length).getD A.length 0)) = true := by
    cases R with
    | nil =>
      simp only [List.length_nil] at hRlen
      simp [← hRlen]
    | cons x R =>
      have h1 := getD_append_middle A (x :: R) (B.drop p.length) 0 (by simp)
      simp only [Nat.add_zero] at h1
      have h2 := drop_take_append_middle A (x :: R) (B.drop p.length) 1 (by simp)
      rw [hRlen] at h2
      rw [h1, h2]
      rw [List.nodup_cons] at hnodup
      simp [hnodup.1]
  have hA3 : (A.length == A.length + p.length ||
      compress.no_adjacent_equal
        (((A ++ R ++ B.drop p.length).drop (A.length + 1)).take
          (A.length + p.length - (A.length + 1)))) = true := by
    cases R with
    | nil =>
      simp only [List.length_nil] at hRlen
      simp [← hRlen]
    | cons x R =>
      have h2 := drop_take_append_middle A (x :: R) (B.drop p.length) 1 (by simp)
      rw [hRlen] at h2
      rw [h2]
      rw [List.nodup_cons] at hnodup
      simp [no_adjacent_equal_of_nodup _ hnodup.2]
  rw [Assert_of_true P _ _ hA1, Assert_of_true P _ _ hA2, Assert_of_true P _ _ hA3, hRlen]

theorem new_row_congr (H : Declarations) (sd : Bool) (a b colnums : List Nat) (line : Nat)
    (h1 : a.getD line 0 = b.getD line 0) (h2 : a.getD (line + 1) 0 = b.getD (line + 1) 0) :
    compress.new_row H sd a colnums line = compress.new_row H sd b colnums line := by
  unfold compress.new_row
  rw [h1, h2]

theorem new_rows_length_mono (H : Declarations) (sd : Bool) (rs cs : List Nat) (L : Nat) :
    ∀ n, (compress.new_rows H sd rs cs L).length ≤
      (compress.new_rows H sd rs cs (L + n)).length := by
  intro n
  induction n with
  | zero => exact Nat.le_refl _
  | succ n ih =>
    rw [← Nat.add_assoc]
    simp only [compress.new_rows, List.length_append]
    omega

theorem getD_map_range_append (f : Nat → Nat) (L : Nat) (rest : List Nat) (i : Nat) :
    ((List.range L).map f ++ rest).getD i 0 =
      if i < L then f i else rest.getD (i - L) 0 := by
  rw [List.getD_eq_getElem?_getD]
  by_cases h : i < L
  · rw [if_pos h, List.getElem?_append_left (by simp [h])]
    simp [h]
  · rw [if_neg h, List.getElem?_append_right (by simp; omega)]
    simp [List.getD_eq_getElem?_getD]

theorem getD_drop (l : List Nat) (n i : Nat) : (l.drop n).getD i 0 = l.getD (n + i) 0 := by
  rw [List.getD_eq_getElem?_getD, List.getD_eq_getElem?_getD, List.getElem?_drop]

/-- The state of the loop over the rows in `compress` after `L` rows. -/
theorem rows_loop_eq (P : Platform) (H : Declarations) (sd : Bool) (rs cs : List Nat)
    (rows M N : Nat) (tmp0 : List Nat) (htmp0 : tmp0.length = M)
    (hlen : rows + 1 ≤ rs.length)
    (hM : ∀ i, i < rows → (compress.new_row H sd rs cs i).length ≤ M)
    (hnodup : ∀ i, i < rows → (compress.new_row H sd rs cs i).Nodup)
    (hdiag : sd = true → ∀ i, i < rows → (compress.new_row H sd rs cs i).head? = some i)
    (hN : (compress.new_rows H sd rs cs rows).length ≤ N) :
    ∀ L, L ≤ rows → ∃ tmp, tmp.length = M ∧
      for_loop 0 L (compress.row P H sd cs)
        { rowstart := rs
          new_colnums := List.replicate N 0
          tmp_entries := tmp0
          next_free_entry := 0
          next_row_start := 0
          thrown := none } =
        { rowstart :=
            (List.range L).map (fun i => (compress.new_rows H sd rs cs i).length) ++ rs.drop L
          new_colnums := compress.new_rows H sd rs cs L ++
            List.replicate (N - (compress.new_rows H sd rs cs L).length) 0
          tmp_entries := tmp
          next_free_entry := (compress.new_rows H sd rs cs L).length
          next_row_start := (compress.new_rows H sd rs cs L).length
          thrown := none } := by
  intro L
  induction L with
  | zero =>
    intro _
    exact ⟨tmp0, htmp0, by simp [for_loop_zero_zero, compress.new_rows]⟩
  | succ L ih =>
    intro hL
    obtain ⟨tmp, htmp, heq⟩ := ih (by omega)
    rw [for_loop_zero_succ, heq]
    have hmono := new_rows_length_mono H sd rs cs (L + 1) (rows - (L + 1))
    rw [Nat.add_sub_cancel' hL] at hmono
    have hsucc : (compress.new_rows H sd rs cs (L + 1)).length =
        (compress.new_rows H sd rs cs L).length + (compress.new_row H sd rs cs L).length := by
      simp [compress.new_rows]
    have hrow : compress.new_row H sd
        ((List.range L).map (fun i => (compress.new_rows H sd rs cs i).length) ++ rs.drop L)
        cs L = compress.new_row H sd rs cs L := by
      apply new_row_congr
      · rw [getD_map_range_append, if_neg (by omega), getD_drop]
        congr 1
        omega
      · rw [getD_map_range_append, if_neg (by omega), getD_drop]
        congr 1
        omega
    have hstep := row_eq P H sd cs L
      { rowstart :=
          (List.range L).map (fun i => (compress.new_rows H sd rs cs i).length) ++ rs.drop L
        new_colnums := compress.new_rows H sd rs cs L ++
          List.replicate (N - (compress.new_rows H sd rs cs L).length) 0
        tmp_entries := tmp
        next_free_entry := (compress.new_rows H sd rs cs L).length
        next_row_start := (compress.new_rows H sd rs cs L).length
        thrown := none }
      (compress.new_rows H sd rs cs L)
      (List.replicate (N - (compress.new_rows H sd rs cs L).length) 0)
      rfl (by simp; omega) rfl rfl rfl
      (by
        simp only [hrow]
        rw [htmp]
        exact hM L (by omega))
      (by
        simp only [hrow]
        rw [List.length_replicate]
        omega)
      (by
        simp only [hrow]
        exact hnodup L (by omega))
      (by
        intro h
        simp only [hrow]
        exact hdiag h L (by omega))
    simp only [hrow] at hstep
    rw [hstep]
    refine ⟨compress.new_row H sd rs cs L ++
        tmp.drop (compress.new_row H sd rs cs L).length, ?_, ?_⟩
    · have := hM L (by omega)
      rw [List.length_append, List.length_drop]
      omega
    · have h1 : ((List.range L).map (fun i => (compress.new_rows H sd rs cs i).length)).length
          = L := by simp
      have h2 : 0 < (rs.drop L).length := by rw [List.length_drop]; omega
      have h3 := set_append_length
        ((List.range L).map (fun i => (compress.new_rows H sd rs cs i).length))
        (rs.drop L) (compress.new_rows H sd rs cs L).length h2
      rw [h1] at h3
      rw [h3, List.tail_drop, List.drop_replicate, ← hsucc]
      have h4 : N - (compress.new_rows H sd rs cs L).length -
          (compress.new_row H sd rs cs L).length =
          N - (compress.new_rows H sd rs cs (L + 1)).length := by omega
      rw [h4, List.range_succ, List.map_append]
      simp [compress.new_rows]

theorem takeWhile_slots_eq_filter (H : Declarations) (cs : List Nat) :
    ∀ (n lo : Nat),
      (∀ l, l < lo + n → ∀ k, lo ≤ k → k < l →
        cs.getD l 0 ≠ H.invalid_entry → cs.getD k 0 ≠ H.invalid_entry) →
      (slots cs lo n).takeWhile (fun col => col != H.invalid_entry) =
        (slots cs lo n).filter (fun col => col != H.invalid_entry) := by
  intro n
  induction n with
  | zero => intro lo _; rfl
  | succ n ih =>
    intro lo h
    rw [slots_succ]
    by_cases hv : cs.getD lo 0 = H.invalid_entry
    · have hb : (cs.getD lo 0 != H.invalid_entry) = false := by simpa using hv
      rw [List.takeWhile_cons, List.filter_cons]
      simp only [hb, Bool.false_eq_true, if_false]
      symm
      rw [List.filter_eq_nil_iff]
      intro x hx
      rw [mem_slots] at hx
      obtain ⟨k, hk1, hk2, hk3⟩ := hx
      simp only [bne_iff_ne, ne_eq, not_not]
      by_contra hne
      exact h k (by omega) lo (Nat.le_refl _) (by omega) (by rw [hk3]; exact hne) hv
    · have hb : (cs.getD lo 0 != H.invalid_entry) = true := by simpa using hv
      rw [List.takeWhile_cons, List.filter_cons]
      simp only [hb, if_true]
      rw [ih (lo + 1) (fun l hl k hk1 hk2 => h l (by omega) k (by omega) hk2)]

theorem nodup_filter_slots (H : Declarations) (cs : List Nat) :
    ∀ (n lo : Nat),
      (∀ l, l < lo + n → ∀ k, lo ≤ k → k < l →
        cs.getD l 0 ≠ H.invalid_entry → cs.getD k 0 ≠ cs.getD l 0) →
      ((slots cs lo n).filter (fun col => col != H.invalid_entry)).Nodup := by
  intro n
  induction n with
  | zero => intro lo _; simp [slots]
  | succ n ih =>
    intro lo h
    rw [slots_succ, List.filter_cons]
    have ih1 := ih (lo + 1) (fun l hl k hk1 hk2 => h l (by omega) k (by omega) hk2)
    split
    · rw [List.nodup_cons]
      refine ⟨?_, ih1⟩
      intro hmem
      rw [List.mem_filter, mem_slots] at hmem
      obtain ⟨⟨k, hk1, hk2, hk3⟩, hk4⟩ := hmem
      simp only [bne_iff_ne, ne_eq] at hk4
      exact h k (by omega) lo (Nat.le_refl _) (by omega) (by rw [hk3]; exact hk4) hk3.symm
    · exact ih1

theorem drop_take_eq_slots (cs : List Nat) (lo n : Nat) (h : lo + n ≤ cs.length) :
    (cs.drop lo).take n = slots cs lo n := by
  apply List.ext_getElem?
  intro t
  by_cases ht : t < n
  · have h1 : lo + t < cs.length := by omega
    simp [slots, List.getElem?_take, List.getElem?_drop, ht, List.getElem?_map,
      List.getElem?_range', List.getD_eq_getElem?_getD, h1]
  · have h2 : (slots cs lo n).length ≤ t := by rw [slots_length]; omega
    have h3 : ((cs.drop lo).take n).length ≤ t := by
      rw [List.length_take, List.length_drop]; omega
    rw [List.getElem?_eq_none h2, List.getElem?_eq_none h3]

theorem new_rows_split (H : Declarations) (sd : Bool) (rs cs : List Nat) (i : Nat) :
    ∀ n, ∃ rest, compress.new_rows H sd rs cs (i + 1 + n) =
      compress.new_rows H sd rs cs i ++ compress.new_row H sd rs cs i ++ rest := by
  intro n
  induction n with
  | zero => exact ⟨[], by simp [compress.new_rows]⟩
  | succ n ih =>
    obtain ⟨rest, h⟩ := ih
    refine ⟨rest ++ compress.new_row H sd rs cs (i + 1 + n), ?_⟩
    rw [← Nat.add_assoc]
    simp only [compress.new_rows] at h ⊢
    rw [h]
    simp

theorem slots_new_rows (H : Declarations) (sd : Bool) (rs cs : List Nat) (rows i : Nat)
    (h : i < rows) :
    slots (compress.new_rows H sd rs cs rows) (compress.new_rows H sd rs cs i).length
      ((compress.new_rows H sd rs cs (i + 1)).length -
        (compress.new_rows H sd rs cs i).length) = compress.new_row H sd rs cs i := by
  obtain ⟨rest, hrest⟩ := new_rows_split H sd rs cs i (rows - (i + 1))
  have e : i + 1 + (rows - (i + 1)) = rows := by omega
  rw [e] at hrest
  have e2 : (compress.new_rows H sd rs cs (i + 1)).length -
      (compress.new_rows H sd rs cs i).length = (compress.new_row H sd rs cs i).length := by
    simp [compress.new_rows]
  rw [hrest, e2, List.append_assoc, slots_append_left _ _ _ (by simp), List.take_left]

theorem new_row_valid (H : Declarations) (sd : Bool) (rs cs : List Nat) (i x : Nat)
    (h : x ∈ compress.new_row H sd rs cs i) : x ≠ H.invalid_entry := by
  unfold compress.new_row at h
  rw [(sorted_row_perm H sd _).mem_iff] at h
  have := List.mem_takeWhile_imp h
  simpa using this

theorem new_rows_valid (H : Declarations) (sd : Bool) (rs cs : List Nat) :
    ∀ n x, x ∈ compress.new_rows H sd rs cs n → x ≠ H.invalid_entry := by
  intro n
  induction n with
  | zero => intro x h; simp [compress.new_rows] at h
  | succ n ih =>
    intro x h
    simp only [compress.new_rows, List.mem_append] at h
    rcases h with h | h
    · exact ih x h
    · exact new_row_valid H sd rs cs n x h

theorem sorted_row_ascending (H : Declarations) (sd : Bool) (p : List Nat) (h : p.Nodup) :
    ((compress.sorted_row H sd p).drop (if sd then 1 else 0)).Pairwise (fun x y => x < y) := by
  have hnodup : (compress.sorted_row H sd p).Nodup := (sorted_row_perm H sd p).nodup_iff.mpr h
  unfold compress.sorted_row at hnodup ⊢
  by_cases hp : p.length > 1
  · rw [if_pos hp] at hnodup ⊢
    have hlen : (p.take (if sd then 1 else 0)).length = (if sd then 1 else 0) := by
      rw [List.length_take]
      split <;> omega
    have hdrop : (p.take (if sd then 1 else 0) ++ H.sort (p.drop (if sd then 1 else 0))).drop
        (if sd then 1 else 0) = H.sort (p.drop (if sd then 1 else 0)) := by
      have := List.drop_left (p.take (if sd then 1 else 0))
        (H.sort (p.drop (if sd then 1 else 0)))
      rw [hlen] at this
      exact this
    rw [hdrop]
    have h1 := H.sort_sorted (p.drop (if sd then 1 else 0))
    have h2 : (H.sort (p.drop (if sd then 1 else 0))).Nodup :=
      (List.nodup_append.mp hnodup).2.1
    exact (h1.and h2).imp (fun hxy => Nat.lt_of_le_of_ne hxy.1 hxy.2)
  · rw [if_neg hp]
    have h3 : (p.drop (if sd then 1 else 0)).length ≤ 1 := by
      rw [List.length_drop]; omega
    match hq : p.drop (if sd then 1 else 0), h3 with
    | [], _ => exact List.Pairwise.nil
    | [x], _ => exact List.pairwise_singleton _ _
    | _ :: _ :: _, h4 => simp at h4

theorem rowstart_at_eq (sp : SparsityPattern) (rs : List Nat) (h : sp.rowstart = some rs)
    (i : Nat) : sp.rowstart_at i = rs.getD i 0 := by
  simp [rowstart_at, h]

theorem colnums_at_eq (sp : SparsityPattern) (cs : List Nat) (h : sp.colnums = some cs)
    (k : Nat) : sp.colnums_at k = cs.getD k 0 := by
  simp [colnums_at, h]

theorem row_slots_eq (sp : SparsityPattern) (rs cs : List Nat) (hrs : sp.rowstart = some rs)
    (hcs : sp.colnums = some cs) (i : Nat) :
    row_slots sp i = slots cs (rs.getD i 0) (rs.getD (i + 1) 0 - rs.getD i 0) := by
  simp [row_slots, rowstart_at, hrs, hcs]

theorem Uncompressed.new_row_eq {H : Declarations} {sp : SparsityPattern}
    (hu : Uncompressed H sp) (rs cs : List Nat) (hrs : sp.rowstart = some rs)
    (hcs : sp.colnums = some cs) (i : Nat) (hi : i < sp.rows) :
    compress.new_row H sp.store_diagonal_first_in_row rs cs i =
      compress.sorted_row H sp.store_diagonal_first_in_row (row_entries H sp i) := by
  unfold compress.new_row row_entries
  rw [row_slots_eq sp rs cs hrs hcs, takeWhile_slots_eq_filter]
  intro l hl k hk1 hk2 hv
  have hm := hu.rowstart_mono i hi
  have := hu.valid_first i hi l
  simp only [rowstart_at_eq sp rs hrs, colnums_at_eq sp cs hcs] at this hm
  exact this (by omega) k hk1 hk2 hv

theorem Uncompressed.row_entries_nodup {H : Declarations} {sp : SparsityPattern}
    (hu : Uncompressed H sp) (i : Nat) (hi : i < sp.rows) : (row_entries H sp i).Nodup := by
  obtain ⟨rs, hrs, _⟩ := hu.rowstart_size
  obtain ⟨cs, hcs, _⟩ := hu.colnums_size
  unfold row_entries
  rw [row_slots_eq sp rs cs hrs hcs]
  apply nodup_filter_slots
  intro l hl k hk1 hk2 hv
  have hm := hu.rowstart_mono i hi
  have := hu.distinct i hi l
  simp only [rowstart_at_eq sp rs hrs, colnums_at_eq sp cs hcs] at this hm
  exact this (by omega) k hk1 hk2 hv

theorem row_entries_length_le (H : Declarations) (sp : SparsityPattern) (i : Nat) :
    (row_entries H sp i).length ≤ sp.rowstart_at (i + 1) - sp.rowstart_at i := by
  unfold row_entries
  refine Nat.le_trans (List.length_filter_le _ _) ?_
  simp [row_slots, slots_length]

theorem Uncompressed.row_entries_head {H : Declarations} {sp : SparsityPattern}
    (hu : Uncompressed H sp) (hsd : sp.store_diagonal_first_in_row = true) (i : Nat)
    (hi : i < sp.rows) : (row_entries H sp i).head? = some i := by
  obtain ⟨h1, h2, h3⟩ := hu.diagonal_first hsd i hi
  unfold row_entries row_slots
  have e : sp.rowstart_at (i + 1) - sp.rowstart_at i =
      (sp.rowstart_at (i + 1) - sp.rowstart_at i - 1) + 1 := by omega
  rw [e, slots_succ, List.filter_cons]
  have e2 : (sp.colnums.getD []).getD (sp.rowstart_at i) 0 = i := h2
  rw [e2]
  have hb : (i != H.invalid_entry) = true := by simpa using h3
  simp [hb]

theorem Uncompressed.rowstart_zero_le {H : Declarations} {sp : SparsityPattern}
    (hu : Uncompressed H sp) :
    ∀ L, L ≤ sp.rows → sp.rowstart_at 0 ≤ sp.rowstart_at L := by
  intro L
  induction L with
  | zero => intro _; exact Nat.le_refl _
  | succ L ih =>
    intro hL
    exact Nat.le_trans (ih (by omega)) (hu.rowstart_mono L (by omega))

theorem Uncompressed.count_eq {H : Declarations} {sp : SparsityPattern}
    (hu : Uncompressed H sp) (rs cs : List Nat) (hrs : sp.rowstart = some rs)
    (hcs : sp.colnums = some cs) :
    ∀ L, L ≤ sp.rows →
      ((slots cs (rs.getD 0 0) (rs.getD L 0 - rs.getD 0 0)).filter
        (fun col => col != H.invalid_entry)).length =
        (compress.new_rows H sp.store_diagonal_first_in_row rs cs L).length := by
  intro L
  induction L with
  | zero => intro _; simp [compress.new_rows, slots]
  | succ L ih =>
    intro hL
    have h0 := hu.rowstart_zero_le L (by omega)
    have h1 := hu.rowstart_mono L (by omega)
    simp only [rowstart_at_eq sp rs hrs] at h0 h1
    have e : rs.getD (L + 1) 0 - rs.getD 0 0 =
        (rs.getD L 0 - rs.getD 0 0) + (rs.getD (L + 1) 0 - rs.getD L 0) := by omega
    have e2 : rs.getD 0 0 + (rs.getD L 0 - rs.getD 0 0) = rs.getD L 0 := by omega
    rw [e, slots_append, List.filter_append, List.length_append, ih (by omega), e2]
    simp only [compress.new_rows, List.length_append]
    rw [hu.new_row_eq rs cs hrs hcs L (by omega), sorted_row_length, row_entries,
      row_slots_eq sp rs cs hrs hcs]

theorem Uncompressed.n_valid_entries_eq {H : Declarations} {sp : SparsityPattern}
    (hu : Uncompressed H sp) (rs cs : List Nat) (hrs : sp.rowstart = some rs)
    (hcs : sp.colnums = some cs) :
    n_valid_entries H sp =
      (compress.new_rows H sp.store_diagonal_first_in_row rs cs sp.rows).length := by
  rw [← hu.count_eq rs cs hrs hcs sp.rows (Nat.le_refl _)]
  simp [n_valid_entries, rowstart_at, hrs, hcs]

/-- What `compress` returns for an uncompressed pattern: no assertion fails, the rows
are written one after the other and `rowstart` holds where each begins. -/
theorem Uncompressed.compress_eq {H : Declarations} {sp : SparsityPattern}
    (hu : Uncompressed H sp) (P : Platform) (rs cs : List Nat) (hrs : sp.rowstart = some rs)
    (hcs : sp.colnums = some cs) :
    compress P H sp =
      { thrown := none
        pattern :=
          { sp with
            rowstart := some ((List.range (sp.rows + 1)).map (fun i =>
              (compress.new_rows H sp.store_diagonal_first_in_row rs cs i).length) ++
                rs.drop (sp.rows + 1))
            colnums := some (compress.new_rows H sp.store_diagonal_first_in_row rs cs sp.rows)
            max_vec_len := n_valid_entries H sp
            compressed := true }
        stored := [] } := by
  obtain ⟨rs1, hrs1, hlen⟩ := hu.rowstart_size
  obtain ⟨cs1, hcs1, hclen⟩ := hu.colnums_size
  rw [hrs] at hrs1
  rw [hcs] at hcs1
  cases Option.some.inj hrs1
  cases Option.some.inj hcs1
  rw [rowstart_at_eq sp rs hrs] at hclen
  have h0 := hu.rowstart_zero_le sp.rows (Nat.le_refl _)
  simp only [rowstart_at_eq sp rs hrs] at h0
  have hN := hu.n_valid_entries_eq rs cs hrs hcs
  have hcount : ((cs.drop (rs.getD 0 0)).take (rs.getD sp.rows 0 - rs.getD 0 0)).countP
      (fun col => col != H.invalid_entry) = n_valid_entries H sp := by
    rw [drop_take_eq_slots cs _ _ (by omega), List.countP_eq_length_filter]
    simp [n_valid_entries, rowstart_at, hrs, hcs]
  obtain ⟨tmp, _, hloop⟩ := rows_loop_eq P H sp.store_diagonal_first_in_row rs cs sp.rows
    sp.max_row_length (n_valid_entries H sp) (List.replicate sp.max_row_length 0)
    (List.length_replicate _ _) hlen
    (by
      intro i hi
      rw [hu.new_row_eq rs cs hrs hcs i hi, sorted_row_length]
      exact Nat.le_trans (row_entries_length_le H sp i) (hu.row_length_le i hi))
    (by
      intro i hi
      rw [hu.new_row_eq rs cs hrs hcs i hi]
      exact (sorted_row_perm H _ _).nodup_iff.mpr (hu.row_entries_nodup i hi))
    (by
      intro hsd i hi
      rw [hu.new_row_eq rs cs hrs hcs i hi, hsd, sorted_row_head]
      exact hu.row_entries_head hsd i hi)
    (by rw [hN])
    sp.rows (Nat.le_refl _)
  unfold compress
  have hnone : ¬ (sp.rowstart = none ∧ sp.colnums = none) := by
    rw [hrs]
    simp
  rw [if_neg hnone, hu.not_compressed]
  simp only [Bool.false_eq_true, if_false, hrs, hcs, Option.getD_some, hcount]
  rw [hloop]
  simp only []
  rw [Assert_of_true P _ _ (by rw [hN]; simp)]
  simp only []
  have h1 : ((List.range sp.rows).map (fun i =>
      (compress.new_rows H sp.store_diagonal_first_in_row rs cs i).length)).length = sp.rows := by
    simp
  have h2 : 0 < (rs.drop sp.rows).length := by rw [List.length_drop]; omega
  have h3 := set_append_length
    ((List.range sp.rows).map (fun i =>
      (compress.new_rows H sp.store_diagonal_first_in_row rs cs i).length))
    (rs.drop sp.rows) (compress.new_rows H sp.store_diagonal_first_in_row rs cs sp.rows).length h2
  rw [h1] at h3
  rw [h3, List.tail_drop, ← hN, Nat.sub_self, List.range_succ, List.map_append]
  simp [hN]

theorem Uncompressed.compress_rowstart_at {H : Declarations} {sp : SparsityPattern}
    (hu : Uncompressed H sp) (P : Platform) (rs cs : List Nat) (hrs : sp.rowstart = some rs)
    (hcs : sp.colnums = some cs) (i : Nat) (hi : i ≤ sp.rows) :
    (compress P H sp).pattern.rowstart_at i =
      (compress.new_rows H sp.store_diagonal_first_in_row rs cs i).length := by
  rw [hu.compress_eq P rs cs hrs hcs]
  simp only [rowstart_at, Option.getD_some]
  rw [getD_map_range_append, if_pos (by omega)]

theorem Uncompressed.compress_colnums {H : Declarations} {sp : SparsityPattern}
    (hu : Uncompressed H sp) (P : Platform) (rs cs : List Nat) (hrs : sp.rowstart = some rs)
    (hcs : sp.colnums = some cs) :
    (compress P H sp).pattern.colnums =
      some (compress.new_rows H sp.store_diagonal_first_in_row rs cs sp.rows) := by
  rw [hu.compress_eq P rs cs hrs hcs]

/-- Row `i` after `compress`: the column indices of the row before it, sorted. -/
theorem Uncompressed.compress_row_slots {H : Declarations} {sp : SparsityPattern}
    (hu : Uncompressed H sp) (P : Platform) (i : Nat) (hi : i < sp.rows) :
    row_slots (compress P H sp).pattern i =
      compress.sorted_row H sp.store_diagonal_first_in_row (row_entries H sp i) := by
  obtain ⟨rs, hrs, _⟩ := hu.rowstart_size
  obtain ⟨cs, hcs, _⟩ := hu.colnums_size
  unfold row_slots
  rw [hu.compress_rowstart_at P rs cs hrs hcs i (by omega),
    hu.compress_rowstart_at P rs cs hrs hcs (i + 1) (by omega),
    hu.compress_colnums P rs cs hrs hcs, Option.getD_some,
    slots_new_rows H _ rs cs sp.rows i hi, hu.new_row_eq rs cs hrs hcs i hi]

theorem Uncompressed.compress_fields {H : Declarations} {sp : SparsityPattern}
    (hu : Uncompressed H sp) (P : Platform) :
    (compress P H sp).thrown = none ∧ (compress P H sp).stored = [] ∧
    (compress P H sp).pattern.compressed = true ∧
    (compress P H sp).pattern.rows = sp.rows ∧ (compress P H sp).pattern.cols = sp.cols ∧
    (compress P H sp).pattern.store_diagonal_first_in_row = sp.store_diagonal_first_in_row ∧
    (compress P H sp).pattern.max_vec_len = n_valid_entries H sp := by
  obtain ⟨rs, hrs, _⟩ := hu.rowstart_size
  obtain ⟨cs, hcs, _⟩ := hu.colnums_size
  rw [hu.compress_eq P rs cs hrs hcs]
  exact ⟨rfl, rfl, rfl, rfl, rfl, rfl, rfl⟩

theorem Uncompressed.compress_colnums_valid {H : Declarations} {sp : SparsityPattern}
    (hu : Uncompressed H sp) (P : Platform) (k : Nat)
    (hk : k < (compress P H sp).pattern.rowstart_at sp.rows) :
    (compress P H sp).pattern.colnums_at k ≠ H.invalid_entry := by
  obtain ⟨rs, hrs, _⟩ := hu.rowstart_size
  obtain ⟨cs, hcs, _⟩ := hu.colnums_size
  rw [hu.compress_rowstart_at P rs cs hrs hcs sp.rows (Nat.le_refl _)] at hk
  rw [colnums_at, hu.compress_colnums P rs cs hrs hcs, Option.getD_some,
    List.getD_eq_getElem?_getD, List.getElem?_eq_getElem hk]
  exact new_rows_valid H _ rs cs sp.rows _ (List.getElem_mem hk)

theorem compress_of_compressed (P : Platform) (H : Declarations) (sp : SparsityPattern)
    (h : sp.compressed = true) :
    compress P H sp = { thrown := none, pattern := sp, stored := [] } := by
  unfold compress
  by_cases h1 : sp.rowstart = none ∧ sp.colnums = none
  · rw [if_pos h1]
    have : ({ sp with compressed := true } : SparsityPattern) = sp := by
      cases sp
      simp only at h
      simp [h]
    rw [this]
  · rw [if_neg h1, if_pos h]

theorem pairwise_drop_getD (l : List Nat) (f : Nat)
    (h : (l.drop f).Pairwise (fun x y => x < y)) (a b : Nat) (ha : f ≤ a) (hab : a < b)
    (hb : b < l.length) : l.getD a 0 < l.getD b 0 := by
  rw [List.pairwise_iff_getElem] at h
  have h1 := h (a - f) (b - f) (by rw [List.length_drop]; omega)
    (by rw [List.length_drop]; omega) (by omega)
  rw [List.getElem_drop, List.getElem_drop] at h1
  have e1 : f + (a - f) = a := by omega
  have e2 : f + (b - f) = b := by omega
  simp only [e1, e2] at h1
  rw [List.getD_eq_getElem?_getD, List.getD_eq_getElem?_getD,
    List.getElem?_eq_getElem (by omega), List.getElem?_eq_getElem hb]
  exact h1

theorem colnums_at_eq_row_slots (sp : SparsityPattern) (i k : Nat)
    (h1 : sp.rowstart_at i ≤ k) (h2 : k < sp.rowstart_at (i + 1)) :
    sp.colnums_at k = (row_slots sp i).getD (k - sp.rowstart_at i) 0 := by
  unfold row_slots
  rw [slots_getD _ _ _ _ (by omega)]
  unfold colnums_at
  congr 1
  omega

theorem row_slots_length (sp : SparsityPattern) (i : Nat) :
    (row_slots sp i).length = sp.rowstart_at (i + 1) - sp.rowstart_at i := by
  simp [row_slots, slots_length]

theorem row_slots_head (sp : SparsityPattern) (i x : Nat)
    (h : (row_slots sp i).head? = some x) :
    sp.rowstart_at i < sp.rowstart_at (i + 1) ∧ sp.colnums_at (sp.rowstart_at i) = x := by
  have hlen := row_slots_length sp i
  have hpos : 0 < (row_slots sp i).length := by
    cases hr : row_slots sp i with
    | nil => rw [hr] at h; simp at h
    | cons y r => simp
  have h1 : sp.rowstart_at i < sp.rowstart_at (i + 1) := by omega
  refine ⟨h1, ?_⟩
  rw [colnums_at_eq_row_slots sp i _ (Nat.le_refl _) h1, Nat.sub_self]
  cases hr : row_slots sp i with
  | nil => rw [hr] at h; simp at h
  | cons y r =>
    rw [hr] at h
    simp only [List.head?_cons, Option.some.injEq] at h
    simp [h]

/-- After `compress` an uncompressed pattern is a compressed one. -/
theorem Uncompressed.compressed_compress {H : Declarations} {sp : SparsityPattern}
    (hu : Uncompressed H sp) (P : Platform) : Compressed (compress P H sp).pattern := by
  obtain ⟨rs, hrs, hlen⟩ := hu.rowstart_size
  obtain ⟨cs, hcs, _⟩ := hu.colnums_size
  obtain ⟨_, _, hc, hrows, _, hsd, _⟩ := hu.compress_fields P
  have hmono : ∀ i, i < sp.rows → (compress P H sp).pattern.rowstart_at i ≤
      (compress P H sp).pattern.rowstart_at (i + 1) := by
    intro i hi
    rw [hu.compress_rowstart_at P rs cs hrs hcs i (by omega),
      hu.compress_rowstart_at P rs cs hrs hcs (i + 1) (by omega)]
    exact new_rows_length_mono H _ rs cs i 1
  refine ⟨hc, ?_, ?_, ?_, ?_, ?_, ?_⟩
  · rw [hrows, hu.compress_eq P rs cs hrs hcs]
    exact ⟨_, rfl, by simp⟩
  · rw [hrows, hu.compress_rowstart_at P rs cs hrs hcs sp.rows (Nat.le_refl _),
      hu.compress_colnums P rs cs hrs hcs]
    exact ⟨_, rfl, Nat.le_refl _⟩
  · rw [hu.compress_rowstart_at P rs cs hrs hcs 0 (Nat.zero_le _)]
    rfl
  · rw [hrows]
    exact hmono
  · rw [hrows, hsd]
    intro i hi l hl k hk1 hk2
    have hm := hmono i hi
    have hf : (if sp.store_diagonal_first_in_row then 1 else 0) ≥ 0 := Nat.zero_le _
    rw [colnums_at_eq_row_slots _ i k (by omega) (by omega),
      colnums_at_eq_row_slots _ i l (by omega) hl]
    apply pairwise_drop_getD _ (if sp.store_diagonal_first_in_row then 1 else 0)
    · rw [hu.compress_row_slots P i hi]
      exact sorted_row_ascending H _ _ (hu.row_entries_nodup i hi)
    · omega
    · omega
    · rw [row_slots_length]
      omega
  · rw [hrows, hsd]
    intro h i hi
    apply row_slots_head
    rw [hu.compress_row_slots P i hi, h, sorted_row_head]
    exact hu.row_entries_head h i hi

theorem mono_chain (f : Nat → Nat) (n : Nat) (h : ∀ i, i < n → f i ≤ f (i + 1)) :
    ∀ b a, a ≤ b → b ≤ n → f a ≤ f b := by
  intro b
  induction b with
  | zero =>
    intro a ha _
    have : a = 0 := by omega
    rw [this]
  | succ b ih =>
    intro a ha hb
    by_cases e : a = b + 1
    · rw [e]
    · exact Nat.le_trans (ih a (by omega) (by omega)) (h b (by omega))

theorem row_unique (f : Nat → Nat) (n : Nat) (h : ∀ i, i < n → f i ≤ f (i + 1))
    (i i' k : Nat) (hi : i < n) (hi' : i' < n) (h1 : f i ≤ k) (h2 : k < f (i + 1))
    (h3 : f i' ≤ k) (h4 : k < f (i' + 1)) : i = i' := by
  by_contra hne
  rcases Nat.lt_or_gt_of_ne hne with hlt | hgt
  · have := mono_chain f n h i' (i + 1) (by omega) (by omega)
    omega
  · have := mono_chain f n h i (i' + 1) (by omega) (by omega)
    omega

theorem add_loop_cases (P : Platform) (H : Declarations) (i j : Nat) (rowstart : List Nat)
    (sp : SparsityPattern) :
    ∀ (count k : Nat) (colnums : List Nat),
      (add.loop P H i j rowstart sp count k colnums).pattern =
          { sp with colnums := some colnums } ∨
        ∃ k', k ≤ k' ∧ k' < k + count ∧ colnums.getD k' 0 = H.invalid_entry ∧
          (∀ t, k ≤ t → t < k' →
            colnums.getD t 0 ≠ j ∧ colnums.getD t 0 ≠ H.invalid_entry) ∧
          (add.loop P H i j rowstart sp count k colnums).pattern =
            { sp with colnums := some (colnums.set k' j) } := by
  intro count
  induction count with
  | zero =>
    intro k colnums
    exact Or.inl rfl
  | succ count ih =>
    intro k colnums
    simp only [add.loop]
    by_cases h1 : colnums.getD k 0 = j
    · rw [if_pos h1]
      exact Or.inl rfl
    · rw [if_neg h1]
      by_cases h2 : colnums.getD k 0 = H.invalid_entry
      · rw [if_pos h2]
        exact Or.inr ⟨k, Nat.le_refl _, by omega, h2, fun t ht1 ht2 => absurd ht2 (by omega),
          rfl⟩
      · rw [if_neg h2]
        rcases ih (k + 1) colnums with h | ⟨k', hk1, hk2, hk3, hk4, hk5⟩
        · exact Or.inl h
        · refine Or.inr ⟨k', by omega, by omega, hk3, ?_, hk5⟩
          intro t ht1 ht2
          by_cases e : t = k
          · rw [e]
            exact ⟨h1, h2⟩
          · exact hk4 t (by omega) ht2

theorem with_colnums_self (sp : SparsityPattern) (cs : List Nat) (h : sp.colnums = some cs) :
    ({ sp with colnums := some cs } : SparsityPattern) = sp := by
  cases sp
  simp only at h
  simp [h]

theorem add_cases (P : Platform) (H : Declarations) (i j : Nat) (sp : SparsityPattern)
    (rs cs : List Nat) (hrs : sp.rowstart = some rs) (hcs : sp.colnums = some cs) :
    (add P H i j sp).pattern = sp ∨
      ∃ k', rs.getD i 0 ≤ k' ∧ k' < rs.getD (i + 1) 0 ∧ cs.getD k' 0 = H.invalid_entry ∧
        (∀ t, rs.getD i 0 ≤ t → t < k' → cs.getD t 0 ≠ j ∧ cs.getD t 0 ≠ H.invalid_entry) ∧
        (add P H i j sp).pattern = { sp with colnums := some (cs.set k' j) } := by
  unfold add
  split
  · exact Or.inl rfl
  · split
    · exact Or.inl rfl
    · split
      · exact Or.inl rfl
      · split
        · exact Or.inl rfl
        · simp only [hrs, hcs, Option.getD_some]
          rcases add_loop_cases P H i j rs sp (rs.getD (i + 1) 0 - rs.getD i 0)
            (rs.getD i 0) cs with h | ⟨k', hk1, hk2, hk3, hk4, hk5⟩
          · rw [with_colnums_self sp cs hcs] at h
            exact Or.inl h
          · exact Or.inr ⟨k', hk1, by omega, hk3, hk4, by rw [hk5, hrs]⟩

/-- The member `add` keeps an uncompressed pattern an uncompressed pattern. -/
theorem Uncompressed.add_keeps {H : Declarations} {sp : SparsityPattern} (hu : Uncompressed H sp)
    (P : Platform) (i j : Nat) (hi : i < sp.rows) (hj : j ≠ H.invalid_entry) :
    Uncompressed H (SparsityPattern.add P H i j sp).pattern := by
  obtain ⟨rs, hrs, hlen⟩ := hu.rowstart_size
  obtain ⟨cs, hcs, hclen⟩ := hu.colnums_size
  rcases add_cases P H i j sp rs cs hrs hcs with h | ⟨k', hk1, hk2, hk3, hk4, hk5⟩
  · rw [h]
    exact hu
  · rw [hk5]
    have hmono := hu.rowstart_mono
    have hlast := mono_chain sp.rowstart_at sp.rows hmono sp.rows (i + 1) (by omega)
      (Nat.le_refl _)
    simp only [rowstart_at_eq sp rs hrs] at hlast hclen hmono
    have hk'len : k' < cs.length := by omega
    have hat : ∀ t, colnums_at { sp with colnums := some (cs.set k' j) } t =
        if t = k' then j else cs.getD t 0 := by
      intro t
      simp only [colnums_at, Option.getD_some, List.getD_eq_getElem?_getD, List.getElem?_set]
      by_cases e : t = k'
      · subst e
        simp [hk'len]
      · have e' : ¬ k' = t := fun h => e h.symm
        simp [e, e']
    have hrow : ∀ t, rowstart_at { sp with colnums := some (cs.set k' j) } t = rs.getD t 0 := by
      intro t
      simp [rowstart_at, hrs]
    have hsame : ∀ i', i' < sp.rows → rs.getD i' 0 ≤ k' → k' < rs.getD (i' + 1) 0 → i = i' := by
      intro i' hi' h1 h2
      exact row_unique (fun t => rs.getD t 0) sp.rows hmono i i' k' hi hi' hk1 hk2 h1 h2
    have hvf := hu.valid_first
    have hdi := hu.distinct
    have hdf := hu.diagonal_first
    have hrl := hu.row_length_le
    simp only [rowstart_at_eq sp rs hrs, colnums_at_eq sp cs hcs] at hvf hdi hdf hrl
    refine ⟨hu.not_compressed, ⟨rs, hrs, hlen⟩, ⟨cs.set k' j, rfl, ?_⟩, ?_, ?_, ?_, ?_, ?_⟩
    · rw [hrow, List.length_set]
      exact hclen
    · intro i' hi'
      rw [hrow, hrow]
      exact hmono i' hi'
    · intro i' hi'
      rw [hrow, hrow]
      exact hrl i' hi'
    · intro i' hi' l hl k hk1' hk2'
      rw [hrow] at hl hk1'
      rw [hat, hat]
      by_cases e1 : k = k'
      · rw [if_pos e1]
        exact fun _ => hj
      · rw [if_neg e1]
        by_cases e2 : l = k'
        · rw [if_pos e2]
          intro _
          have hii := hsame i' hi' (by omega) (by omega)
          subst hii
          exact (hk4 k hk1' (by omega)).2
        · rw [if_neg e2]
          exact hvf i' hi' l hl k hk1' hk2'
    · intro i' hi' l hl k hk1' hk2'
      rw [hrow] at hl hk1'
      rw [hat, hat]
      by_cases e2 : l = k'
      · have e1 : k ≠ k' := by omega
        rw [if_pos e2, if_neg e1]
        intro _
        have hii := hsame i' hi' (by omega) (by omega)
        subst hii
        exact (hk4 k hk1' (by omega)).1
      · rw [if_neg e2]
        by_cases e1 : k = k'
        · rw [if_pos e1]
          intro hv
          exfalso
          have := hvf i' hi' l hl k hk1' hk2' hv
          rw [e1] at this
          exact this hk3
        · rw [if_neg e1]
          exact hdi i' hi' l hl k hk1' hk2'
    · intro hsd i' hi'
      rw [hrow, hrow, hat]
      obtain ⟨h1, h2, h3⟩ := hdf hsd i' hi'
      have e : rs.getD i' 0 ≠ k' := by
        intro e
        rw [e, hk3] at h2
        exact h3 h2.symm
      rw [if_neg e]
      exact ⟨h1, h2, h3⟩

end SparsityPattern

theorem for_loop_succ {σ : Type} (b e : Nat) (h : b ≤ e) (body : Nat → σ → σ) (s : σ) :
    for_loop b (e + 1) body s = body e (for_loop b e body s) := by
  unfold for_loop
  have e1 : e + 1 - b = (e - b) + 1 := by omega
  rw [e1, List.range'_1_concat, List.foldl_append]
  have e2 : b + (e - b) = e := by omega
  simp [e2]

theorem getD_set (l : List Nat) (i j x : Nat) :
    (l.set i x).getD j 0 = if i = j ∧ i < l.length then x else l.getD j 0 := by
  rw [List.getD_eq_getElem?_getD, List.getD_eq_getElem?_getD, List.getElem?_set]
  by_cases h1 : i = j
  · subst h1
    by_cases h2 : i < l.length
    · simp [h2]
    · have h3 : l.length ≤ i := by omega
      simp [h2, List.getElem?_eq_none h3]
  · simp [h1]

namespace SparsityPattern

theorem reinit_rowstart_loop (sd : Bool) (n m : Nat) (rl : List Nat) :
    ∀ L, L ≤ m →
      (for_loop 1 (L + 1) (fun i rowstart =>
          rowstart.set i
            (rowstart.getD (i - 1) 0 + reinit.slots sd n (rl.getD (i - 1) 0)))
          ((List.replicate (m + 1) 0).set 0 0)).length = m + 1 ∧
      (for_loop 1 (L + 1) (fun i rowstart =>
          rowstart.set i
            (rowstart.getD (i - 1) 0 + reinit.slots sd n (rl.getD (i - 1) 0)))
          ((List.replicate (m + 1) 0).set 0 0)).getD 0 0 = 0 ∧
      ∀ i, i < L →
        (for_loop 1 (L + 1) (fun i rowstart =>
          rowstart.set i
            (rowstart.getD (i - 1) 0 + reinit.slots sd n (rl.getD (i - 1) 0)))
          ((List.replicate (m + 1) 0).set 0 0)).getD (i + 1) 0 =
        (for_loop 1 (L + 1) (fun i rowstart =>
          rowstart.set i
            (rowstart.getD (i - 1) 0 + reinit.slots sd n (rl.getD (i - 1) 0)))
          ((List.replicate (m + 1) 0).set 0 0)).getD i 0 +
          reinit.slots sd n (rl.getD i 0) := by
  intro L
  induction L with
  | zero =>
    intro _
    refine ⟨by simp [for_loop], by simp [for_loop], fun i hi => absurd hi (by omega)⟩
  | succ L ih =>
    intro hL
    obtain ⟨h1, h2, h3⟩ := ih (by omega)
    rw [for_loop_succ 1 (L + 1) (by omega)]
    generalize for_loop 1 (L + 1) (fun i rowstart =>
          rowstart.set i
            (rowstart.getD (i - 1) 0 + reinit.slots sd n (rl.getD (i - 1) 0)))
          ((List.replicate (m + 1) 0).set 0 0) = r at h1 h2 h3
    simp only [Nat.add_sub_cancel]
    refine ⟨by rw [List.length_set]; exact h1, ?_, ?_⟩
    · rw [getD_set, if_neg (by omega)]
      exact h2
    · intro i hi
      by_cases e : i = L
      · subst e
        rw [getD_set, if_pos ⟨rfl, by omega⟩, getD_set, if_neg (by omega)]
      · rw [getD_set, if_neg (by omega), getD_set, if_neg (by omega)]
        exact h3 i (by omega)

theorem reinit_vec_len_loop (sd : Bool) (n : Nat) (hn : 0 < n) (rl r : List Nat) (m : Nat)
    (h0 : r.getD 0 0 = 0)
    (hr : ∀ i, i < m → r.getD (i + 1) 0 = r.getD i 0 + reinit.slots sd n (rl.getD i 0)) :
    ∀ L, L ≤ m →
      for_loop 0 L (fun i vec_len =>
        vec_len + min (if sd then max (rl.getD i 0) 1 else rl.getD i 0) n) 0 = r.getD L 0 := by
  intro L
  induction L with
  | zero => intro _; rw [for_loop_zero_zero, h0]
  | succ L ih =>
    intro hL
    rw [for_loop_zero_succ, ih (by omega), hr L (by omega)]
    congr 1
    unfold reinit.slots
    cases sd with
    | false => simp
    | true =>
      simp only [if_true]
      by_cases h1 : rl.getD L 0 < 1
      · rw [if_pos h1]
        have : max (rl.getD L 0) 1 = 1 := by omega
        rw [this]
        omega
      · rw [if_neg h1]
        have : max (rl.getD L 0) 1 = rl.getD L 0 := by omega
        rw [this]
        by_cases h2 : n < rl.getD L 0
        · rw [if_pos h2]; omega
        · rw [if_neg h2]; omega

theorem reinit_fill_loop (inv v : Nat) :
    for_loop 0 v (fun k colnums => colnums.set k inv) (List.replicate v 0) =
      List.replicate v inv := by
  apply List.ext_getElem?
  intro t
  rw [for_loop_set_getElem? (fun _ => inv)]
  by_cases h : t < v
  · simp [h, List.getElem?_replicate]
  · simp [h, List.getElem?_replicate]

theorem reinit_diagonal_loop (r c0 : List Nat) :
    ∀ L,
      (for_loop 0 L (fun i colnums => colnums.set (r.getD i 0) i) c0).length = c0.length ∧
      (∀ t, (∀ i, i < L → r.getD i 0 ≠ t) →
        (for_loop 0 L (fun i colnums => colnums.set (r.getD i 0) i) c0).getD t 0 =
          c0.getD t 0) ∧
      (∀ i, i < L → (∀ i', i < i' → i' < L → r.getD i' 0 ≠ r.getD i 0) →
        r.getD i 0 < c0.length →
        (for_loop 0 L (fun i colnums => colnums.set (r.getD i 0) i) c0).getD (r.getD i 0) 0 =
          i) := by
  intro L
  induction L with
  | zero =>
    exact ⟨rfl, fun t _ => rfl, fun i hi => absurd hi (by omega)⟩
  | succ L ih =>
    obtain ⟨h1, h2, h3⟩ := ih
    rw [for_loop_zero_succ]
    generalize for_loop 0 L (fun i colnums => colnums.set (r.getD i 0) i) c0 = c at h1 h2 h3
    refine ⟨by rw [List.length_set]; exact h1, ?_, ?_⟩
    · intro t ht
      rw [getD_set, if_neg (fun h => ht L (by omega) h.1)]
      exact h2 t (fun i hi => ht i (by omega))
    · intro i hi hne hlt
      by_cases e : i = L
      · subst e
        rw [getD_set, if_pos ⟨rfl, by omega⟩]
      · rw [getD_set, if_neg (fun h => hne L (by omega) (by omega) h.1)]
        exact h3 i (by omega) (fun i' h4 h5 => hne i' h4 (by omega)) hlt

/-- What the constructor `SparsityPattern(m, n, row_lengths)` makes of a matrix with
rows and columns: `rowstart` holds the running sums of the numbers of slots, and
`colnums` holds `invalid_entry`, but for the diagonal entries of a square pattern. -/
theorem constructor_eq (P : Platform) (H : Declarations) (m n : Nat) (rl : List Nat)
    (hm : 0 < m) (hn : 0 < n) (hlen : rl.length = m) :
    ∃ R : List Nat, R.length = m + 1 ∧ R.getD 0 0 = 0 ∧
      (∀ i, i < m →
        R.getD (i + 1) 0 = R.getD i 0 + reinit.slots (decide (m = n)) n (rl.getD i 0)) ∧
      constructor P H m n rl =
        { thrown := none
          pattern :=
            { rows := m
              cols := n
              store_diagonal_first_in_row := decide (m = n)
              max_dim := m
              max_vec_len := if R.getD m 0 = 0 then 1 else R.getD m 0
              max_row_length :=
                if decide (m = n) && (min (rl.foldl max 0) n == 0) then 1
                else min (rl.foldl max 0) n
              compressed := false
              rowstart := some R
              colnums := some
                (if decide (m = n) then
                  for_loop 0 m (fun i colnums => colnums.set (R.getD i 0) i)
                    (List.replicate (if R.getD m 0 = 0 then 1 else R.getD m 0) H.invalid_entry)
                else List.replicate (if R.getD m 0 = 0 then 1 else R.getD m 0) H.invalid_entry) }
          stored := [] } := by
  have hinit : (reinit P H 0 0 [] initial).pattern = initial := by
    simp [reinit, Assert, initial]
  obtain ⟨h1, h2, h3⟩ := reinit_rowstart_loop (decide (m = n)) n m rl m (Nat.le_refl _)
  have hv := reinit_vec_len_loop (decide (m = n)) n hn rl _ m h2 h3 m (Nat.le_refl _)
  refine ⟨_, h1, h2, h3, ?_⟩
  unfold constructor
  rw [hinit]
  unfold reinit
  rw [Assert_of_true P _ _ (by simp [hlen])]
  dsimp only
  rw [if_neg (by omega)]
  have hempty : rl.isEmpty = false := by
    cases rl with
    | nil => simp at hlen; omega
    | cons x rl => rfl
  have hm0 : (m != 0) = true := by simpa using (by omega : m ≠ 0)
  simp only [initial, gt_iff_lt, hm, if_true, hv, hempty, Bool.false_eq_true, if_false, hm0,
    Bool.and_true]
  generalize for_loop 1 (m + 1) (fun i rowstart =>
          rowstart.set i
            (rowstart.getD (i - 1) 0 + reinit.slots (decide (m = n)) n (rl.getD (i - 1) 0)))
          ((List.replicate (m + 1) 0).set 0 0) = R
  by_cases hR : R.getD m 0 = 0
  · simp only [hR, if_true]
    rw [Assert_of_true P _ _ (by simp)]
    simp only [Nat.lt_irrefl, if_false, Option.getD_some]
    rw [reinit_fill_loop]
  · have hpos : 0 < R.getD m 0 := by omega
    simp only [hR, if_false, hpos, if_true]
    rw [Assert_of_true P _ _ (by simp)]
    simp only []
    rw [reinit_fill_loop]

theorem strict_chain (f : Nat → Nat) (n : Nat) (h : ∀ i, i < n → f i < f (i + 1)) :
    ∀ b a, a < b → b ≤ n → f a < f b := by
  intro b
  induction b with
  | zero => intro a ha _; omega
  | succ b ih =>
    intro a ha hb
    by_cases e : a = b
    · rw [e]
      exact h b (by omega)
    · exact Nat.lt_trans (ih a (by omega) (by omega)) (h b (by omega))

theorem getD_le_foldl_max (l : List Nat) :
    ∀ (init i : Nat), i < l.length → l.getD i 0 ≤ l.foldl max init := by
  have hinit : ∀ (l : List Nat) (init : Nat), init ≤ l.foldl max init := by
    intro l
    induction l with
    | nil => intro init; exact Nat.le_refl _
    | cons x l ih =>
      intro init
      exact Nat.le_trans (Nat.le_max_left _ _) (ih (max init x))
  induction l with
  | nil => intro init i hi; simp at hi
  | cons x l ih =>
    intro init i hi
    cases i with
    | zero =>
      simp only [List.getD_cons_zero, List.foldl_cons]
      exact Nat.le_trans (Nat.le_max_right _ _) (hinit l _)
    | succ i =>
      simp only [List.getD_cons_succ, List.foldl_cons]
      exact ih _ i (by simpa using hi)

theorem reinit_slots_le (sd : Bool) (n x M : Nat) (hn : 0 < n) (hx : x ≤ M) :
    reinit.slots sd n x ≤ (if sd && (min M n == 0) then 1 else min M n) := by
  unfold reinit.slots
  cases sd with
  | false =>
    simp only [Bool.false_eq_true, if_false, Bool.false_and]
    omega
  | true =>
    simp only [if_true, Bool.true_and]
    by_cases hM : min M n = 0
    · have : M = 0 := by omega
      simp only [hM, beq_self_eq_true, if_true]
      rw [if_pos (by omega)]
    · have hb : (min M n == 0) = false := by simpa using hM
      simp only [hb, Bool.false_eq_true, if_false]
      split
      · omega
      · split <;> omega

theorem reinit_slots_pos (n x : Nat) (hn : 0 < n) : 0 < reinit.slots true n x := by
  unfold reinit.slots
  simp only [if_true]
  split
  · omega
  · split <;> omega

/-- The constructor `SparsityPattern(m, n, row_lengths)` makes an uncompressed pattern out
of a matrix that has rows and columns. -/
theorem constructor_uncompressed (P : Platform) (H : Declarations) (m n : Nat)
    (rl : List Nat) (hm : 0 < m) (hn : 0 < n) (hlen : rl.length = m)
    (hinv : m ≤ H.invalid_entry) :
    (constructor P H m n rl).thrown = none ∧
      Uncompressed H (constructor P H m n rl).pattern := by
  obtain ⟨R, hRlen, hR0, hRs, heq⟩ := constructor_eq P H m n rl hm hn hlen
  rw [heq]
  refine ⟨rfl, ?_⟩
  have hrow : ∀ (sp : SparsityPattern), sp.rowstart = some R →
      ∀ t, sp.rowstart_at t = R.getD t 0 := fun sp h t => rowstart_at_eq sp R h t
  have hmono : ∀ i, i < m → R.getD i 0 ≤ R.getD (i + 1) 0 := by
    intro i hi
    rw [hRs i hi]
    omega
  have hlast : ∀ i, i ≤ m → R.getD i 0 ≤ R.getD m 0 := fun i hi =>
    mono_chain (fun t => R.getD t 0) m hmono m i hi (Nat.le_refl _)
  have hvl : R.getD m 0 ≤ (if R.getD m 0 = 0 then 1 else R.getD m 0) := by
    split <;> omega
  generalize hvl' : (if R.getD m 0 = 0 then 1 else R.getD m 0) = vl at hvl ⊢
  have hrep : ∀ t, t < vl → (List.replicate vl H.invalid_entry).getD t 0 = H.invalid_entry := by
    intro t ht
    rw [List.getD_eq_getElem?_getD, List.getElem?_replicate, if_pos ht]
    rfl
  by_cases hsd : m = n
  · have hd : decide (m = n) = true := by simpa using hsd
    simp only [hd, if_true] at hRs ⊢
    have hstrict : ∀ i, i < m → R.getD i 0 < R.getD (i + 1) 0 := by
      intro i hi
      rw [hRs i hi]
      have := reinit_slots_pos n (rl.getD i 0) hn
      omega
    obtain ⟨hl, hother, hdiag⟩ := reinit_diagonal_loop R (List.replicate vl H.invalid_entry) m
    generalize for_loop 0 m (fun i colnums => colnums.set (R.getD i 0) i)
      (List.replicate vl H.invalid_entry) = c at hl hother hdiag ⊢
    rw [List.length_replicate] at hl hdiag
    have hfree : ∀ i, i < m → ∀ l, R.getD i 0 < l → l < R.getD (i + 1) 0 →
        c.getD l 0 = H.invalid_entry := by
      intro i hi l hl1 hl2
      rw [hother l, hrep l (by have := hlast (i + 1) (by omega); omega)]
      intro i' hi' e
      rcases Nat.lt_or_ge i i' with h | h
      · have h1 := mono_chain (fun t => R.getD t 0) m hmono i' (i + 1) (by omega) (by omega)
        simp only at h1
        omega
      · have h1 := mono_chain (fun t => R.getD t 0) m hmono i i' (by omega) (by omega)
        simp only at h1
        omega
    refine ⟨rfl, ⟨R, rfl, by rw [hRlen]⟩, ⟨c, rfl, ?_⟩, ?_, ?_, ?_, ?_, ?_⟩
    · rw [hrow _ rfl, hl]
      exact hvl
    · intro i hi
      replace hi : i < m := hi
      rw [hrow _ rfl, hrow _ rfl]
      exact hmono i hi
    · intro i hi
      replace hi : i < m := hi
      rw [hrow _ rfl, hrow _ rfl, hRs i hi, Nat.add_sub_cancel_left]
      have := reinit_slots_le true n (rl.getD i 0) (rl.foldl max 0) hn
        (getD_le_foldl_max rl 0 i (by omega))
      simpa using this
    · intro i hi l hl1 k hk1 hk2 hv
      replace hi : i < m := hi
      rw [hrow _ rfl] at hl1 hk1
      exact absurd (hfree i hi l (by omega) hl1) hv
    · intro i hi l hl1 k hk1 hk2 hv
      replace hi : i < m := hi
      rw [hrow _ rfl] at hl1 hk1
      exact absurd (hfree i hi l (by omega) hl1) hv
    · intro _ i hi
      replace hi : i < m := hi
      rw [hrow _ rfl, hrow _ rfl]
      refine ⟨hstrict i hi, ?_, by omega⟩
      show c.getD (R.getD i 0) 0 = i
      apply hdiag i hi
      · intro i' h1 h2
        have := strict_chain (fun t => R.getD t 0) m hstrict i' i h1 (by omega)
        simp only at this
        omega
      · have := hlast (i + 1) (by omega)
        have := hstrict i hi
        omega
  · have hd : decide (m = n) = false := by simpa using hsd
    simp only [hd, Bool.false_eq_true, if_false] at hRs ⊢
    have hfree : ∀ i, i < m → ∀ l, l < R.getD (i + 1) 0 →
        (List.replicate vl H.invalid_entry).getD l 0 = H.invalid_entry := by
      intro i hi l hl1
      exact hrep l (by have := hlast (i + 1) (by omega); omega)
    refine ⟨rfl, ⟨R, rfl, by rw [hRlen]⟩, ⟨_, rfl, ?_⟩, ?_, ?_, ?_, ?_, ?_⟩
    · rw [hrow _ rfl, List.length_replicate]
      exact hvl
    · intro i hi
      replace hi : i < m := hi
      rw [hrow _ rfl, hrow _ rfl]
      exact hmono i hi
    · intro i hi
      replace hi : i < m := hi
      rw [hrow _ rfl, hrow _ rfl, hRs i hi, Nat.add_sub_cancel_left]
      have := reinit_slots_le false n (rl.getD i 0) (rl.foldl max 0) hn
        (getD_le_foldl_max rl 0 i (by omega))
      simpa using this
    · intro i hi l hl1 k hk1 hk2 hv
      replace hi : i < m := hi
      rw [hrow _ rfl] at hl1
      exact absurd (hfree i hi l hl1) hv
    · intro i hi l hl1 k hk1 hk2 hv
      replace hi : i < m := hi
      rw [hrow _ rfl] at hl1
      exact absurd (hfree i hi l hl1) hv
    · intro h
      exact absurd h (by simp)

/-- The constructor `SparsityPattern(m, n, max_per_row)` makes an uncompressed pattern out
of a matrix that has rows and columns. -/
theorem constructor_max_per_row_uncompressed (P : Platform) (H : Declarations)
    (m n max_per_row : Nat) (hm : 0 < m) (hn : 0 < n) (hinv : m ≤ H.invalid_entry) :
    (constructor_max_per_row P H m n max_per_row).thrown = none ∧
      Uncompressed H (constructor_max_per_row P H m n max_per_row).pattern :=
  constructor_uncompressed P H m n (List.replicate m max_per_row) hm hn
    (List.length_replicate _ _) hinv

theorem exists_member_eq (P : Platform) (sp : SparsityPattern) (i j : Nat)
    (hrs : sp.rowstart.isSome = true) (hcs : sp.colnums.isSome = true) (hi : i < sp.rows)
    (hj : j < sp.cols) :
    ∃ b, SparsityPattern.exists P i j sp = Except.ok b ∧
      (b = true ↔ ∃ k, sp.rowstart_at i ≤ k ∧ k < sp.rowstart_at (i + 1) ∧
        sp.colnums_at k = j) := by
  unfold SparsityPattern.exists
  rw [Assert_of_true P _ _ (by simp [hrs, hcs]), Assert_of_true P _ _ (by simpa using hi),
    Assert_of_true P _ _ (by simpa using hj)]
  refine ⟨_, rfl, ?_⟩
  simp only [List.any_eq_true, List.mem_range'_1, beq_iff_eq]
  constructor
  · rintro ⟨k, ⟨h1, h2⟩, h3⟩
    exact ⟨k, h1, by unfold rowstart_at; omega, h3⟩
  · rintro ⟨k, h1, h2, h3⟩
    unfold rowstart_at at h1 h2
    exact ⟨k, ⟨h1, by omega⟩, h3⟩

theorem Compressed.operator_call_eq {sp : SparsityPattern} (hc : Compressed sp)
    (P : Platform) (H : Declarations) (i j : Nat) (hi : i < sp.rows) (hj : j < sp.cols) :
    (∃ k, operator_call P H i j sp = Except.ok k ∧ sp.rowstart_at i ≤ k ∧
        k < sp.rowstart_at (i + 1) ∧ sp.colnums_at k = j) ∨
      (operator_call P H i j sp = Except.ok H.invalid_entry ∧
        ¬ ∃ k, sp.rowstart_at i ≤ k ∧ k < sp.rowstart_at (i + 1) ∧ sp.colnums_at k = j) := by
  obtain ⟨rs, hrs, _⟩ := hc.rowstart_size
  obtain ⟨cs, hcs, _⟩ := hc.colnums_size
  have hmono := hc.rowstart_mono i hi
  have hasc := hc.ascending i hi
  have hdiag := hc.diagonal_first
  unfold operator_call
  rw [Assert_of_true P _ _ (by simp [hrs, hcs]), Assert_of_true P _ _ (by simpa using hi),
    Assert_of_true P _ _ (by simpa using hj), Assert_of_true P _ _ hc.is_compressed]
  simp only [rowstart_at, colnums_at] at hmono hasc hdiag ⊢
  generalize sp.rowstart.getD [] = R at hmono hasc hdiag ⊢
  generalize sp.colnums.getD [] = C at hasc hdiag ⊢
  by_cases h1 : R.getD i 0 = R.getD (i + 1) 0
  · rw [if_pos h1]
    refine Or.inr ⟨rfl, ?_⟩
    rintro ⟨k, hk1, hk2, _⟩
    omega
  · rw [if_neg h1]
    by_cases h2 : (sp.store_diagonal_first_in_row && i == j) = true
    · rw [if_pos h2]
      simp only [Bool.and_eq_true, beq_iff_eq] at h2
      obtain ⟨h3, h4⟩ := hdiag h2.1 i hi
      exact Or.inl ⟨_, rfl, Nat.le_refl _, h3, by rw [h4]; exact h2.2⟩
    · rw [if_neg h2]
      have hfirst : (if sp.store_diagonal_first_in_row = true then R.getD i 0 + 1
          else R.getD i 0) = R.getD i 0 + (if sp.store_diagonal_first_in_row then 1 else 0) := by
        split <;> rfl
      simp only [hfirst]
      have hle : R.getD i 0 + (if sp.store_diagonal_first_in_row then 1 else 0) ≤
          R.getD (i + 1) 0 := by
        split <;> omega
      obtain ⟨s1, s2, s3, s4⟩ := H.lower_bound_spec C
        (R.getD i 0 + (if sp.store_diagonal_first_in_row then 1 else 0)) (R.getD (i + 1) 0) j
        hle
        (by
          intro k l hk hkl hl
          by_cases e : k = l
          · rw [e]
          · exact Nat.le_of_lt (hasc l hl k hk (by omega)))
      generalize H.lower_bound C
        (R.getD i 0 + (if sp.store_diagonal_first_in_row then 1 else 0))
        (R.getD (i + 1) 0) j = p at s1 s2 s3 s4 ⊢
      by_cases h3 : p ≠ R.getD (i + 1) 0 ∧ C.getD p 0 = j
      · rw [if_pos h3]
        exact Or.inl ⟨p, rfl, by omega, by omega, h3.2⟩
      · rw [if_neg h3]
        refine Or.inr ⟨rfl, ?_⟩
        rintro ⟨k, hk1, hk2, hk3⟩
        have hstart : R.getD i 0 + (if sp.store_diagonal_first_in_row then 1 else 0) ≤ k := by
          by_cases hsd : sp.store_diagonal_first_in_row = true
          · rw [if_pos hsd]
            have hne : k ≠ R.getD i 0 := by
              intro e
              rw [e, (hdiag hsd i hi).2] at hk3
              exact h2 (by simp [hsd, hk3])
            omega
          · rw [if_neg hsd]
            omega
        have hpk : p ≤ k := by
          by_contra hlt
          have := s3 k hstart (by omega)
          omega
        have hp1 : p < R.getD (i + 1) 0 := by omega
        have hp2 := s4 p (Nat.le_refl _) hp1
        have hp3 : C.getD p 0 ≤ C.getD k 0 := by
          by_cases e : p = k
          · rw [e]
          · exact Nat.le_of_lt (hasc k hk2 p s1 (by omega))
        exact h3 ⟨by omega, by omega⟩

theorem square_pattern_uncompressed : Uncompressed standard_declarations square_pattern :=
  ((((((constructor_uncompressed (serial_platform true) standard_declarations 3 3 [3, 3, 3]
    (by decide) (by decide) rfl (by decide)).2.add_keeps
      (serial_platform true) 0 2 (by decide) (by decide)).add_keeps
      (serial_platform true) 0 1 (by decide) (by decide)).add_keeps
      (serial_platform true) 1 2 (by decide) (by decide)).add_keeps
      (serial_platform true) 1 0 (by decide) (by decide)).add_keeps
      (serial_platform true) 2 1 (by decide) (by decide))

theorem rectangular_pattern_uncompressed :
    Uncompressed standard_declarations rectangular_pattern :=
  (((((constructor_uncompressed (serial_platform true) standard_declarations 3 4 [2, 0, 3]
    (by decide) (by decide) rfl (by decide)).2.add_keeps
      (serial_platform true) 0 2 (by decide) (by decide)).add_keeps
      (serial_platform true) 0 1 (by decide) (by decide)).add_keeps
      (serial_platform true) 2 3 (by decide) (by decide)).add_keeps
      (serial_platform true) 2 0 (by decide) (by decide))

theorem compressed_rectangular_compressed : Compressed compressed_rectangular :=
  rectangular_pattern_uncompressed.compressed_compress (serial_platform true)

theorem compressed_square_compressed : Compressed compressed_square :=
  square_pattern_uncompressed.compressed_compress (serial_platform true)

end SparsityPattern

/-! ## The properties -/

namespace AlignedVector

variable {T : Type}

/-- C1 (as stated, refuted): on a vector whose replicated flag is set, in a debug
build, `resize(2)` returns normally and leaves two of the three elements (it makes
no call at all). `clear()`, `reserve(8)` and `push_back(9)` do not raise the
exception either: they release the shared window (which the header allows when
made on all processes) and, that done, return with another size or capacity. -/
theorem replicated_vector_is_mutated :
    replicated_buffer.replicated_across_communicator = true ∧
    replicated_buffer.size = 3 ∧ replicated_buffer.capacity = 3 ∧
    (resize (serial_platform true) int32 2 replicated_buffer).thrown = none ∧
    (resize (serial_platform true) int32 2 replicated_buffer).vec.size = 2 ∧
    (clear int32 replicated_buffer).thrown = none ∧
    (clear int32 replicated_buffer).vec.size = 0 ∧
    (reserve (serial_platform true) int32 8 replicated_buffer).thrown = none ∧
    (reserve (serial_platform true) int32 8 replicated_buffer).vec.capacity = 8 ∧
    (push_back (serial_platform true) int32 9 replicated_buffer).thrown = none ∧
    (push_back (serial_platform true) int32 9 replicated_buffer).vec.live =
      [some 1, some 2, some 3, some 9] := by
  decide

/-- C1 (amended): on a vector whose replicated flag is set, in a debug build
`shrink_to_fit()` and `insert(..)` raise `ExcAlignedVectorChangeAfterReplication`
and leave the vector exactly as it was; `clear()`, `reserve(n)` and the three
resize functions do not test the flag and never raise that exception, in any
build (whether they return is not part of the statement). -/
theorem replication_guard (P : Platform) (E : ElementType T) (v : AlignedVector T)
    (hrep : v.replicated_across_communicator = true) :
    (P.running_in_debug_mode = true →
      ((shrink_to_fit P E v).thrown = some Exc.ExcAlignedVectorChangeAfterReplication ∧
        (shrink_to_fit P E v).vec = v) ∧
      (∀ (offset : Nat) (raw_pointers : Bool) (range : List T),
        (insert P E offset raw_pointers range v).1.thrown =
          some Exc.ExcAlignedVectorChangeAfterReplication ∧
        (insert P E offset raw_pointers range v).1.vec = v)) ∧
    (clear E v).thrown ≠ some Exc.ExcAlignedVectorChangeAfterReplication ∧
    (∀ (n : Nat) (init : T),
      (reserve P E n v).thrown ≠ some Exc.ExcAlignedVectorChangeAfterReplication ∧
      (resize P E n v).thrown ≠ some Exc.ExcAlignedVectorChangeAfterReplication ∧
      (resize_value P E n init v).thrown ≠
        some Exc.ExcAlignedVectorChangeAfterReplication ∧
      (resize_fast P E n v).thrown ≠ some Exc.ExcAlignedVectorChangeAfterReplication) := by
  refine ⟨?_, by simp [clear, Outcome.ok], ?_⟩
  · intro hdebug
    have hA : Assert P (v.replicated_across_communicator == false)
        Exc.ExcAlignedVectorChangeAfterReplication =
        some Exc.ExcAlignedVectorChangeAfterReplication :=
      Assert_of_debug_false P _ _ hdebug (by simp [hrep])
    constructor
    · unfold shrink_to_fit
      simp only [hA, Outcome.throw, and_self]
    · intro offset raw_pointers range
      unfold insert
      simp only [hA, Outcome.throw, and_self]
  · intro n init
    exact ⟨reserve_thrown P E n v, resize_thrown P E n init v⟩

/-- Witness for C1: the replicated example vector in a debug build. -/
theorem replication_guard_witness :
    replicated_buffer.replicated_across_communicator = true ∧
    (serial_platform true).running_in_debug_mode = true ∧
    (shrink_to_fit (serial_platform true) int32 replicated_buffer).thrown =
      some Exc.ExcAlignedVectorChangeAfterReplication ∧
    (shrink_to_fit (serial_platform true) int32 replicated_buffer).vec = replicated_buffer ∧
    (insert (serial_platform true) int32 1 true [10, 11] replicated_buffer).1.thrown =
      some Exc.ExcAlignedVectorChangeAfterReplication ∧
    (insert (serial_platform true) int32 1 true [10, 11] replicated_buffer).1.vec =
      replicated_buffer :=
  ⟨rfl, rfl,
    ((replication_guard (serial_platform true) int32 replicated_buffer rfl).1 rfl).1.1,
    ((replication_guard (serial_platform true) int32 replicated_buffer rfl).1 rfl).1.2,
    (((replication_guard (serial_platform true) int32 replicated_buffer rfl).1 rfl).2
      1 true [10, 11]).1,
    (((replication_guard (serial_platform true) int32 replicated_buffer rfl).1 rfl).2
      1 true [10, 11]).2⟩

/-- C2 (as stated, refuted): on three `int`s in a block of four, `clear()`,
`reserve(0)`, `resize(0)`, `shrink_to_fit()` and `insert` of one element all return
normally with a smaller `capacity()` than before. -/
theorem capacity_can_decrease :
    example_buffer.capacity = 4 ∧
    (clear int32 example_buffer).thrown = none ∧
    (clear int32 example_buffer).vec.capacity = 0 ∧
    (reserve (serial_platform true) int32 0 example_buffer).thrown = none ∧
    (reserve (serial_platform true) int32 0 example_buffer).vec.capacity = 0 ∧
    (resize (serial_platform true) int32 0 example_buffer).thrown = none ∧
    (resize (serial_platform true) int32 0 example_buffer).vec.capacity = 0 ∧
    (shrink_to_fit (serial_platform true) int32 example_buffer).thrown = none ∧
    (shrink_to_fit (serial_platform true) int32 example_buffer).vec.capacity = 3 ∧
    (insert (serial_platform true) int32 0 true [9]
      { example_buffer with allocated_size := 16 }).1.thrown = none ∧
    (insert (serial_platform true) int32 0 true [9]
      { example_buffer with allocated_size := 16 }).1.vec.capacity = 4 := by
  decide

/-- C2 (amended): `capacity()` after the call is at least `capacity()` before it,
whether the call returns or throws, for `reserve(n)` with `n > 0`, for `resize(n)`,
`resize(n, init)` and `resize_fast(n)` with `n > 0`, for `push_back`, for
`insert_back` unless the vector and the range are both empty, and for both `fill`
functions (which leave it unchanged). -/
theorem capacity_kept (P : Platform) (E : ElementType T) (v : AlignedVector T) :
    (∀ n : Nat, 0 < n → v.capacity ≤ (reserve P E n v).vec.capacity) ∧
    (∀ n : Nat, 0 < n → v.capacity ≤ (resize P E n v).vec.capacity) ∧
    (∀ (n : Nat) (init : T), 0 < n →
      v.capacity ≤ (resize_value P E n init v).vec.capacity) ∧
    (∀ n : Nat, 0 < n → v.capacity ≤ (resize_fast P E n v).vec.capacity) ∧
    (∀ x : T, v.capacity ≤ (push_back P E x v).vec.capacity) ∧
    (∀ range : List T, 0 < v.size + range.length →
      v.capacity ≤ (insert_back P E range v).vec.capacity) ∧
    (fill P E v).vec.capacity = v.capacity ∧
    (∀ value : T, (fill_value P E value v).vec.capacity = v.capacity) := by
  exact ⟨fun n h => reserve_capacity_ge P E n v h,
    fun n h => (resize_capacity_ge P E n E.value_initialized v h).1,
    fun n init h => (resize_capacity_ge P E n init v h).2.1,
    fun n h => (resize_capacity_ge P E n E.value_initialized v h).2.2,
    fun x => push_back_capacity_ge P E x v,
    fun range h => insert_back_capacity_ge P E range v h,
    (fill_capacity P E E.value_initialized v).1,
    fun value => (fill_capacity P E value v).2⟩

/-- Witness for C2: calls on three `int`s in a block of four. -/
theorem capacity_kept_witness :
    example_buffer.capacity = 4 ∧
    4 ≤ (reserve (serial_platform true) int32 9 example_buffer).vec.capacity ∧
    4 ≤ (resize (serial_platform true) int32 2 example_buffer).vec.capacity ∧
    4 ≤ (resize_value (serial_platform true) int32 7 0 example_buffer).vec.capacity ∧
    4 ≤ (resize_fast (serial_platform true) int32 4 example_buffer).vec.capacity ∧
    4 ≤ (push_back (serial_platform true) int32 9 example_buffer).vec.capacity ∧
    4 ≤ (insert_back (serial_platform true) int32 [8, 9] example_buffer).vec.capacity ∧
    (fill (serial_platform true) int32 example_buffer).vec.capacity = 4 ∧
    (fill_value (serial_platform true) int32 5 example_buffer).vec.capacity = 4 :=
  ⟨rfl,
    (capacity_kept (serial_platform true) int32 example_buffer).1 9 (by decide),
    (capacity_kept (serial_platform true) int32 example_buffer).2.1 2 (by decide),
    (capacity_kept (serial_platform true) int32 example_buffer).2.2.1 7 0 (by decide),
    (capacity_kept (serial_platform true) int32 example_buffer).2.2.2.1 4 (by decide),
    (capacity_kept (serial_platform true) int32 example_buffer).2.2.2.2.1 9,
    (capacity_kept (serial_platform true) int32 example_buffer).2.2.2.2.2.1 [8, 9]
      (by decide),
    (capacity_kept (serial_platform true) int32 example_buffer).2.2.2.2.2.2.1,
    (capacity_kept (serial_platform true) int32 example_buffer).2.2.2.2.2.2.2 5⟩

/-- C3: on a vector with `size() <= capacity()`, `reserve(n)` with `n > capacity()`
returns normally once the allocation of `max(n, 2 * capacity())` elements succeeds,
and then `capacity()` is exactly `max(n, 2 * capacity())` while `size()` and the
elements are those before the call; `reserve(n)` with `0 < n <= capacity()` returns
normally and changes nothing at all. -/
theorem reserve_contract (P : Platform) (E : ElementType T) (n : Nat)
    (v : AlignedVector T) (hinv : v.size ≤ v.capacity) :
    (v.capacity < n →
      (P.posix_memalign 64 (max n (2 * v.capacity) * E.sizeof)).isSome = true →
        (reserve P E n v).thrown = none ∧
        (reserve P E n v).vec.capacity = max n (2 * v.capacity) ∧
        (reserve P E n v).vec.size = v.size ∧
        (reserve P E n v).vec.live = v.live) ∧
    (0 < n → n ≤ v.capacity →
      (reserve P E n v).thrown = none ∧ (reserve P E n v).vec = v) := by
  constructor
  · intro hn hmem
    obtain ⟨p, hp⟩ := Option.isSome_iff_exists.mp hmem
    rw [reserve_grow P E n v p hinv hn hp]
    simp [Outcome.ok, capacity, size]
  · intro h0 hn
    rw [reserve_noop P E n v h0 hn]
    simp [Outcome.ok]

/-- Witness for C3: `reserve(5)` and `reserve(2)` on three `int`s in a block of four. -/
theorem reserve_contract_witness :
    example_buffer.size ≤ example_buffer.capacity ∧
    ((reserve (serial_platform true) int32 5 example_buffer).thrown = none ∧
      (reserve (serial_platform true) int32 5 example_buffer).vec.capacity = 8 ∧
      (reserve (serial_platform true) int32 5 example_buffer).vec.size = 3 ∧
      (reserve (serial_platform true) int32 5 example_buffer).vec.live =
        [some 1, some 2, some 3]) ∧
    ((reserve (serial_platform true) int32 2 example_buffer).thrown = none ∧
      (reserve (serial_platform true) int32 2 example_buffer).vec = example_buffer) :=
  ⟨by decide,
    (reserve_contract (serial_platform true) int32 5 example_buffer (by decide)).1
      (by decide) rfl,
    (reserve_contract (serial_platform true) int32 2 example_buffer (by decide)).2
      (by decide) (by decide)⟩

/-- C4: `push_back(x)` appends `x` and raises `size()` by one; `capacity()` stays as
it is when `size() < capacity()`, and becomes exactly `max(2 * capacity(), 16)` when
`size() == capacity()` (once that allocation succeeds). Hence pushing between one
and sixteen values into a vector with `size() == 0` and `capacity() == 0` (as the
default constructor or `clear()` leaves it) gives exactly these values, in order,
and `capacity() == 16`. -/
theorem push_back_contract (P : Platform) (E : ElementType T) (x : T)
    (v : AlignedVector T) :
    (v.size < v.capacity →
      (push_back P E x v).thrown = none ∧
      (push_back P E x v).vec.live = v.live ++ [some x] ∧
      (push_back P E x v).vec.size = v.size + 1 ∧
      (push_back P E x v).vec.capacity = v.capacity) ∧
    (v.size = v.capacity →
      (P.posix_memalign 64 (max (2 * v.capacity) 16 * E.sizeof)).isSome = true →
        (push_back P E x v).thrown = none ∧
        (push_back P E x v).vec.live = v.live ++ [some x] ∧
        (push_back P E x v).vec.size = v.size + 1 ∧
        (push_back P E x v).vec.capacity = max (2 * v.capacity) 16) ∧
    (∀ (w : AlignedVector T) (values : List T), w.size = 0 → w.capacity = 0 →
      values ≠ [] → values.length ≤ 16 →
      (P.posix_memalign 64 (16 * E.sizeof)).isSome = true →
        (push_back_all P E values w).thrown = none ∧
        (push_back_all P E values w).vec.live = values.map some ∧
        (push_back_all P E values w).vec.capacity = 16) := by
  refine ⟨?_, ?_, ?_⟩
  · intro h
    rw [push_back_with_room P E x v h]
    simp [Outcome.ok, size, capacity]
  · intro h hmem
    obtain ⟨p, hp⟩ := Option.isSome_iff_exists.mp hmem
    rw [push_back_full P E x v p h hp]
    simp [Outcome.ok, size, capacity]
  · intro w values hs hc hne hlen hmem
    obtain ⟨p, hp⟩ := Option.isSome_iff_exists.mp hmem
    have hlive : w.live = [] := List.length_eq_zero.mp hs
    have hp' : P.posix_memalign 64 (max (2 * w.capacity) 16 * E.sizeof) = some p := by
      rw [hc]; exact hp
    cases values with
    | nil => exact absurd rfl hne
    | cons y rest =>
      simp only [List.length_cons] at hlen
      unfold push_back_all
      rw [List.foldl_cons, Outcome.ok_andThen,
        push_back_full P E y w p (by rw [hs, hc]) hp']
      have := push_back_fold_with_room P E rest
        { w with
          elements := p
          deleter := { deleter_action_object := none, owning_aligned_vector := w.this_ptr }
          live := w.live ++ [some y]
          allocated_size := max (2 * w.capacity) 16 }
        (release_events E w)
        (by simp only [size, capacity, hlive, hc, List.nil_append, List.length_singleton]
            omega)
      simp only [Outcome.ok, List.append_nil, List.nil_append] at this ⊢
      rw [this]
      simp only [capacity] at hc
      simp [capacity, hlive, hc]

/-- Witness for C4: a push into spare room, a push into a full vector, and ten pushes
into a default constructed vector. -/
theorem push_back_contract_witness :
    ((push_back (serial_platform true) int32 9 example_buffer).thrown = none ∧
      (push_back (serial_platform true) int32 9 example_buffer).vec.live =
        [some 1, some 2, some 3, some 9] ∧
      (push_back (serial_platform true) int32 9 example_buffer).vec.size = 4 ∧
      (push_back (serial_platform true) int32 9 example_buffer).vec.capacity = 4) ∧
    ((push_back (serial_platform true) int32 9 full_buffer).thrown = none ∧
      (push_back (serial_platform true) int32 9 full_buffer).vec.live = [some 5, some 9] ∧
      (push_back (serial_platform true) int32 9 full_buffer).vec.size = 2 ∧
      (push_back (serial_platform true) int32 9 full_buffer).vec.capacity = 16) ∧
    ((push_back_all (serial_platform true) int32 [0, 1, 2, 3, 4, 5, 6, 7, 8, 9]
        (default_constructor 1000)).thrown = none ∧
      (push_back_all (serial_platform true) int32 [0, 1, 2, 3, 4, 5, 6, 7, 8, 9]
        (default_constructor 1000)).vec.live =
        [some 0, some 1, some 2, some 3, some 4, some 5, some 6, some 7, some 8, some 9] ∧
      (push_back_all (serial_platform true) int32 [0, 1, 2, 3, 4, 5, 6, 7, 8, 9]
        (default_constructor 1000)).vec.capacity = 16) :=
  ⟨(push_back_contract (serial_platform true) int32 9 example_buffer).1 (by decide),
    (push_back_contract (serial_platform true) int32 9 full_buffer).2.1 rfl rfl,
    (push_back_contract (serial_platform true) int32 9 example_buffer).2.2
      (default_constructor 1000) [0, 1, 2, 3, 4, 5, 6, 7, 8, 9] rfl rfl
      (by decide) (by decide) rfl⟩

/-- C5 (as stated, refuted): a vector with `size() == capacity() == 1` has
`capacity() == 16` after `push_back`, not `2`. -/
theorem push_back_does_not_double :
    full_buffer.size = 1 ∧ full_buffer.capacity = 1 ∧
    (push_back (serial_platform true) int32 9 full_buffer).thrown = none ∧
    (push_back (serial_platform true) int32 9 full_buffer).vec.capacity = 16 ∧
    (push_back (serial_platform true) int32 9 full_buffer).vec.capacity ≠
      2 * full_buffer.capacity := by
  decide

/-- C5 (amended): when `push_back` is called on a non-empty vector with
`size() == capacity() == c`, and the allocation succeeds, the capacity afterwards is
exactly `max(2 * c, 16)`: it is `2 * c` when `c >= 8` and `16` when `c < 8`. -/
theorem push_back_growth (P : Platform) (E : ElementType T) (x : T)
    (v : AlignedVector T) (hfull : v.size = v.capacity) (hpos : 0 < v.capacity)
    (hmem : (P.posix_memalign 64 (max (2 * v.capacity) 16 * E.sizeof)).isSome = true) :
    (push_back P E x v).thrown = none ∧
    (push_back P E x v).vec.capacity = max (2 * v.capacity) 16 ∧
    (8 ≤ v.capacity → (push_back P E x v).vec.capacity = 2 * v.capacity) ∧
    (v.capacity < 8 → (push_back P E x v).vec.capacity = 16) := by
  obtain ⟨p, hp⟩ := Option.isSome_iff_exists.mp hmem
  rw [push_back_full P E x v p hfull hp]
  simp only [Outcome.ok, capacity, true_and]
  simp only [capacity] at hpos
  refine ⟨?_, ?_⟩
  · intro h; omega
  · intro h; omega

/-- Witness for C5: a full vector of eight `int`s doubles to sixteen. -/
theorem push_back_growth_witness :
    eight_zeros.size = eight_zeros.capacity ∧ 0 < eight_zeros.capacity ∧
    (push_back (serial_platform true) int32 9 eight_zeros).thrown = none ∧
    (push_back (serial_platform true) int32 9 eight_zeros).vec.capacity = 16 :=
  ⟨by decide, by decide,
    (push_back_growth (serial_platform true) int32 9 eight_zeros
      (by decide) (by decide) rfl).1,
    (push_back_growth (serial_platform true) int32 9 eight_zeros
      (by decide) (by decide) rfl).2.1⟩

/-- C6 (as stated, refuted): `AlignedVector<int>(5, 7)`, five `int`s in a block of
five, resized to `0` by each of the three functions, ends with `capacity() == 0`,
not `5`. -/
theorem resize_to_zero_releases :
    five_sevens.size = 5 ∧ five_sevens.capacity = 5 ∧
    (resize_value (serial_platform true) int32 0 0 five_sevens).thrown = none ∧
    (resize_value (serial_platform true) int32 0 0 five_sevens).vec.capacity = 0 ∧
    (resize (serial_platform true) int32 0 five_sevens).vec.capacity = 0 ∧
    (resize_fast (serial_platform true) int32 0 five_sevens).vec.capacity = 0 := by
  decide

/-- C6 (amended): for `new_size < size()`, each of `resize(new_size)`,
`resize(new_size, init)` and `resize_fast(new_size)` returns normally with
`size() == new_size`; when `new_size > 0` the first `new_size` elements and
`capacity()` are unchanged, and when `new_size == 0` the storage is released, so
that `capacity() == 0`. -/
theorem resize_to_smaller (P : Platform) (E : ElementType T) (new_size : Nat) (init : T)
    (v : AlignedVector T) (hn : new_size < v.size) :
    (0 < new_size →
      ((resize P E new_size v).thrown = none ∧
        (resize P E new_size v).vec.size = new_size ∧
        (resize P E new_size v).vec.live = v.live.take new_size ∧
        (resize P E new_size v).vec.capacity = v.capacity) ∧
      ((resize_value P E new_size init v).thrown = none ∧
        (resize_value P E new_size init v).vec.size = new_size ∧
        (resize_value P E new_size init v).vec.live = v.live.take new_size ∧
        (resize_value P E new_size init v).vec.capacity = v.capacity) ∧
      ((resize_fast P E new_size v).thrown = none ∧
        (resize_fast P E new_size v).vec.size = new_size ∧
        (resize_fast P E new_size v).vec.live = v.live.take new_size ∧
        (resize_fast P E new_size v).vec.capacity = v.capacity)) ∧
    (new_size = 0 →
      ((resize P E new_size v).thrown = none ∧
        (resize P E new_size v).vec.size = 0 ∧
        (resize P E new_size v).vec.capacity = 0) ∧
      ((resize_value P E new_size init v).thrown = none ∧
        (resize_value P E new_size init v).vec.size = 0 ∧
        (resize_value P E new_size init v).vec.capacity = 0) ∧
      ((resize_fast P E new_size v).thrown = none ∧
        (resize_fast P E new_size v).vec.size = 0 ∧
        (resize_fast P E new_size v).vec.capacity = 0)) := by
  constructor
  · intro h0
    have h1 : new_size ≠ 0 := by omega
    have h2 : new_size ≠ v.size := by omega
    have e1 : resize P E new_size v = resize_shrink E new_size v := by
      unfold resize
      simp only [h1, h2, hn, if_true, if_false]
    have e2 : resize_value P E new_size init v = resize_shrink E new_size v := by
      unfold resize_value
      simp only [h1, h2, hn, if_true, if_false]
    have e3 : resize_fast P E new_size v = resize_shrink E new_size v := by
      unfold resize_fast
      simp only [h1, h2, hn, if_true, if_false]
    rw [e1, e2, e3]
    exact ⟨resize_below E new_size v hn, resize_below E new_size v hn,
      resize_below E new_size v hn⟩
  · intro h0
    subst h0
    have hc := clear_result E v
    have hz := resize_zero P E init v
    rw [hz.1, hz.2.1, hz.2.2]
    exact ⟨⟨hc.1, hc.2.1, hc.2.2.1⟩, ⟨hc.1, hc.2.1, hc.2.2.1⟩,
      ⟨hc.1, hc.2.1, hc.2.2.1⟩⟩

/-- Witness for C6: five sevens resized to two (scenario 2 of the specification). -/
theorem resize_to_smaller_witness :
    2 < five_sevens.size ∧
    (resize_value (serial_platform true) int32 2 0 five_sevens).thrown = none ∧
    (resize_value (serial_platform true) int32 2 0 five_sevens).vec.size = 2 ∧
    (resize_value (serial_platform true) int32 2 0 five_sevens).vec.live =
      [some 7, some 7] ∧
    (resize_value (serial_platform true) int32 2 0 five_sevens).vec.capacity = 5 :=
  ⟨by decide,
    ((resize_to_smaller (serial_platform true) int32 2 0 five_sevens
      (by decide)).1 (by decide)).2.1⟩

/-- C7, the code at `B = AlignedVector<int>(3, 1)` and `B.resize(6, B[0])`: `init`
refers to the first element of `B`. The call returns normally with `size() == 6`;
`reserve(6)` has moved the three elements to a new block and freed the old one,
and the three new elements are copies of the freed object, so that their values are
indeterminate and not `1`. (`B.resize(6, 1)`, with an object outside `B`, stores
`1` three times.) -/
theorem resize_from_own_element_reads_freed_block :
    three_ones.live = [some 1, some 1, some 1] ∧ three_ones.capacity = 3 ∧
    (resize_value_of_element (serial_platform true) int32 6 0 three_ones).thrown = none ∧
    (resize_value_of_element (serial_platform true) int32 6 0 three_ones).events =
      [Event.free three_ones.elements] ∧
    (resize_value_of_element (serial_platform true) int32 6 0 three_ones).vec.size = 6 ∧
    (resize_value_of_element (serial_platform true) int32 6 0 three_ones).vec.live =
      [some 1, some 1, some 1, none, none, none] ∧
    (resize_value (serial_platform true) int32 6 1 three_ones).vec.live =
      [some 1, some 1, some 1, some 1, some 1, some 1] := by
  decide

/-- What `resize(new_size, init)` does with an `init` that is not an element of the
vector: on a valid vector and for `new_size > size()` it returns normally (once the
allocation it may need succeeds) with `size() == new_size`, the old elements
followed by `new_size - size()` copies of `init`, and `capacity()` unchanged if
`new_size <= capacity()` and `max(new_size, 2 * capacity())` otherwise; in both
cases `capacity() >= new_size`. -/
theorem resize_value_contract (P : Platform) (E : ElementType T) (new_size : Nat)
    (init : T) (v : AlignedVector T) (hv : v.valid) (hn : v.size < new_size)
    (hmem : v.capacity < new_size →
      (P.posix_memalign 64 (max new_size (2 * v.capacity) * E.sizeof)).isSome = true) :
    (resize_value P E new_size init v).thrown = none ∧
    (resize_value P E new_size init v).vec.size = new_size ∧
    (resize_value P E new_size init v).vec.live =
      v.live ++ List.replicate (new_size - v.size) (some init) ∧
    (resize_value P E new_size init v).vec.capacity =
      (if new_size ≤ v.capacity then v.capacity else max new_size (2 * v.capacity)) ∧
    new_size ≤ (resize_value P E new_size init v).vec.capacity := by
  obtain ⟨h1, h2, h3⟩ := resize_value_grow P E new_size init v hv hn hmem
  refine ⟨h1, ?_, h2, h3, ?_⟩
  · unfold size at hn ⊢
    rw [h2, List.length_append, List.length_replicate]
    unfold size
    omega
  · rw [h3]
    split
    · assumption
    · exact Nat.le_max_left _ _

/-- Three ones resized to six with the value nine (scenario 3 of the
specification). -/
theorem resize_value_three_ones :
    (resize_value (serial_platform true) int32 6 9 three_ones).thrown = none ∧
    (resize_value (serial_platform true) int32 6 9 three_ones).vec.size = 6 ∧
    (resize_value (serial_platform true) int32 6 9 three_ones).vec.live =
      [some 1, some 1, some 1, some 9, some 9, some 9] ∧
    (resize_value (serial_platform true) int32 6 9 three_ones).vec.capacity = 6 ∧
    6 ≤ (resize_value (serial_platform true) int32 6 9 three_ones).vec.capacity :=
  resize_value_contract (serial_platform true) int32 6 9 three_ones
    (by decide) (by decide) (fun _ => rfl)

/-- C8: for an element type that is not trivially default constructible,
`resize_fast(n)` and `resize(n)` are the same function: same exception or normal
return, same vector afterwards, same release calls; and when they grow a valid
vector, the new elements are default constructed. -/
theorem resize_fast_eq_resize (P : Platform) (E : ElementType T)
    (hT : E.is_trivially_default_constructible = false) (n : Nat) (v : AlignedVector T) :
    resize_fast P E n v = resize P E n v ∧
    (v.valid → v.size < n →
      (v.capacity < n →
        (P.posix_memalign 64 (max n (2 * v.capacity) * E.sizeof)).isSome = true) →
      (resize_fast P E n v).thrown = none ∧
      (resize_fast P E n v).vec.live =
        v.live ++ List.replicate (n - v.size) (some E.value_initialized)) := by
  have heq : resize_fast P E n v = resize P E n v := by
    unfold resize_fast resize
    simp only [hT, if_true]
  refine ⟨heq, ?_⟩
  intro hv hn hmem
  rw [heq]
  obtain ⟨h1, h2, -⟩ := resize_grow P E n v hv hn hmem
  refine ⟨h1, ?_⟩
  rw [h2]
  simp [internal.default_initialized, hT]

/-- Witness for C8: three objects of a type with a user-provided default
constructor, resized to five. -/
theorem resize_fast_eq_resize_witness :
    counted.is_trivially_default_constructible = false ∧
    resize_fast (serial_platform true) counted 5 example_buffer =
      resize (serial_platform true) counted 5 example_buffer ∧
    (resize_fast (serial_platform true) counted 5 example_buffer).thrown = none ∧
    (resize_fast (serial_platform true) counted 5 example_buffer).vec.live =
      [some 1, some 2, some 3, some 7, some 7] :=
  ⟨rfl, (resize_fast_eq_resize (serial_platform true) counted rfl 5 example_buffer).1,
    (resize_fast_eq_resize (serial_platform true) counted rfl 5 example_buffer).2
      (by decide) (by decide) (fun _ => rfl)⟩

/-- C9: each of `clear()`, `reserve(0)`, `resize(0)`, `resize(0, init)` and
`resize_fast(0)` returns normally and leaves the vector as the default
constructor makes it: `size() == 0`, `capacity() == 0` and `data() == nullptr`. -/
theorem release_all_storage (P : Platform) (E : ElementType T) (init : T)
    (v : AlignedVector T) :
    ((clear E v).thrown = none ∧ (clear E v).vec.size = 0 ∧
      (clear E v).vec.capacity = 0 ∧ (clear E v).vec.data = 0) ∧
    ((reserve P E 0 v).thrown = none ∧ (reserve P E 0 v).vec.size = 0 ∧
      (reserve P E 0 v).vec.capacity = 0 ∧ (reserve P E 0 v).vec.data = 0) ∧
    ((resize P E 0 v).thrown = none ∧ (resize P E 0 v).vec.size = 0 ∧
      (resize P E 0 v).vec.capacity = 0 ∧ (resize P E 0 v).vec.data = 0) ∧
    ((resize_value P E 0 init v).thrown = none ∧ (resize_value P E 0 init v).vec.size = 0 ∧
      (resize_value P E 0 init v).vec.capacity = 0 ∧
      (resize_value P E 0 init v).vec.data = 0) ∧
    ((resize_fast P E 0 v).thrown = none ∧ (resize_fast P E 0 v).vec.size = 0 ∧
      (resize_fast P E 0 v).vec.capacity = 0 ∧ (resize_fast P E 0 v).vec.data = 0) := by
  have hc := clear_result E v
  have hz := resize_zero P E init v
  rw [reserve_zero P E v, hz.1, hz.2.1, hz.2.2]
  exact ⟨hc, hc, hc, hc, hc⟩

/-- C10: on a vector that has not been replicated (or in a release build), with
`offset <= size()`: `insert(begin() + offset, first, last)` with a non-empty range
returns normally once its two allocations succeed, the elements are then the old
ones before `offset`, the range, and the old ones from `offset` on, `size()` and
`capacity()` both equal the old size plus the length of the range, and the
returned iterator is `begin() + offset` in the new block; with an empty range
the call returns `begin() + offset` and changes nothing. -/
theorem insert_contract (P : Platform) (E : ElementType T) (offset : Nat)
    (raw_pointers : Bool) (range : List T) (v : AlignedVector T)
    (hrep : P.running_in_debug_mode = false ∨ v.replicated_across_communicator = false)
    (hk : offset ≤ v.size) :
    (range ≠ [] →
      (P.posix_memalign 64 ((v.size + range.length) * E.sizeof)).isSome = true →
      (P.posix_memalign 64 (range.length * E.sizeof)).isSome = true →
        (insert P E offset raw_pointers range v).1.thrown = none ∧
        (insert P E offset raw_pointers range v).1.vec.live =
          v.live.take offset ++ range.map some ++ v.live.drop offset ∧
        (insert P E offset raw_pointers range v).1.vec.size = v.size + range.length ∧
        (insert P E offset raw_pointers range v).1.vec.capacity = v.size + range.length ∧
        (insert P E offset raw_pointers range v).2 =
          some ((insert P E offset raw_pointers range v).1.vec.data + offset * E.sizeof)) ∧
    (range = [] →
      (insert P E offset raw_pointers range v).1.thrown = none ∧
      (insert P E offset raw_pointers range v).1.vec = v ∧
      (insert P E offset raw_pointers range v).2 = some (v.data + offset * E.sizeof)) := by
  have hA1 : Assert P (v.replicated_across_communicator == false)
      Exc.ExcAlignedVectorChangeAfterReplication = none := by
    apply Assert_release
    rcases hrep with h | h
    · exact Or.inl h
    · exact Or.inr (by simp [h])
  have hA2 : Assert P (decide (offset ≤ v.size)) Exc.ExcMessage = none :=
    Assert_release P _ _ (Or.inr (by simpa using hk))
  constructor
  · intro hne h1 h2
    obtain ⟨p, hp⟩ := Option.isSome_iff_exists.mp h1
    obtain ⟨q, hq⟩ := Option.isSome_iff_exists.mp h2
    have hlen : range.length ≠ 0 := by
      intro h0
      exact hne (List.length_eq_zero.mp h0)
    have hp0 : p ≠ 0 := P.posix_memalign_ne_null 64 _ p
      (Nat.mul_pos (by omega) E.sizeof_pos) hp
    have hq' : P.posix_memalign 64 ((range.map some).length * E.sizeof) = some q := by
      rw [List.length_map]; exact hq
    have hmoves := insert_moves_ok P E offset
      { this_ptr := P.temporary_object
        elements := q
        deleter := { deleter_action_object := none,
                     owning_aligned_vector := P.temporary_object }
        live := range.map some
        allocated_size := (range.map some).length
        replicated_across_communicator := false } v p hp0 hk
    simp only [List.length_map] at hmoves
    have hfinal : (v.live.take offset ++ range.map some ++ v.live.drop offset).length =
        v.size + range.length := by
      simp only [List.length_append, List.length_take, List.length_drop, List.length_map, size]
      unfold size at hk
      omega
    unfold insert
    simp only [hA1, hA2, hlen, ne_eq, not_false_eq_true, if_true, hp,
      range_constructor_ok P E P.temporary_object raw_pointers (range.map some) q hq',
      Outcome.ok,
      List.length_map, hmoves]
    rw [← hfinal, resize_slots_self]
    simp only [size, capacity, data, hfinal, and_self]
  · intro he
    subst he
    unfold insert
    simp only [hA1, hA2, List.length_nil, ne_eq, not_true_eq_false, if_false, Outcome.ok,
      data, and_self]

/-- Witness for C10: `[1, 2]` with `[10, 11, 12]` inserted at offset one (scenario 4 of
the specification), and an empty range inserted at the same place. -/
theorem insert_contract_witness :
    ((serial_platform true).running_in_debug_mode = false ∨
      one_two.replicated_across_communicator = false) ∧
    1 ≤ one_two.size ∧
    ((insert (serial_platform true) int32 1 true [10, 11, 12] one_two).1.thrown = none ∧
      (insert (serial_platform true) int32 1 true [10, 11, 12] one_two).1.vec.live =
        [some 1, some 10, some 11, some 12, some 2] ∧
      (insert (serial_platform true) int32 1 true [10, 11, 12] one_two).1.vec.size = 5 ∧
      (insert (serial_platform true) int32 1 true [10, 11, 12] one_two).1.vec.capacity = 5 ∧
      (insert (serial_platform true) int32 1 true [10, 11, 12] one_two).2 =
        some (1344 + 1 * 4)) ∧
    ((insert (serial_platform true) int32 1 true [] one_two).1.thrown = none ∧
      (insert (serial_platform true) int32 1 true [] one_two).1.vec = one_two ∧
      (insert (serial_platform true) int32 1 true [] one_two).2 = some (4160 + 1 * 4)) :=
  ⟨Or.inr (by decide), by decide,
    (insert_contract (serial_platform true) int32 1 true [10, 11, 12] one_two
      (Or.inr (by decide)) (by decide)).1 (by decide) rfl rfl,
    (insert_contract (serial_platform true) int32 1 true [] one_two
      (Or.inr (by decide)) (by decide)).2 rfl⟩

/-- C11: on a vector with `size() <= capacity()`, `insert_back(first, last)` with a
range outside the vector returns normally (once the allocation it may need
succeeds) with the old elements followed by the range, `size()` raised by the
length of the range, and `capacity()` at least the new size. -/
theorem insert_back_contract (P : Platform) (E : ElementType T) (range : List T)
    (v : AlignedVector T) (hinv : v.size ≤ v.capacity)
    (hmem : v.capacity < v.size + range.length →
      (P.posix_memalign 64
        (max (v.size + range.length) (2 * v.capacity) * E.sizeof)).isSome = true) :
    (insert_back P E range v).thrown = none ∧
    (insert_back P E range v).vec.live = v.live ++ range.map some ∧
    (insert_back P E range v).vec.size = v.size + range.length ∧
    v.size + range.length ≤ (insert_back P E range v).vec.capacity := by
  have hsize : (v.live ++ range.map some).length = v.size + range.length := by
    simp [size]
  by_cases hgrow : v.capacity < v.size + range.length
  · obtain ⟨p, hp⟩ := Option.isSome_iff_exists.mp (hmem hgrow)
    unfold insert_back
    dsimp only
    rw [reserve_grow P E _ v p hinv hgrow hp, Outcome.ok_andThen, foldl_append_live]
    refine ⟨rfl, rfl, hsize, ?_⟩
    exact Nat.le_max_left _ _
  · by_cases h0 : v.size + range.length = 0
    · have hl : v.live = [] := List.length_eq_zero.mp (by unfold size at h0; omega)
      have hr : range = [] := List.length_eq_zero.mp (by omega)
      subst hr
      unfold insert_back
      simp only [List.length_nil, Nat.add_zero]
      have hs : v.size = 0 := by omega
      rw [hs, reserve_zero]
      simp [clear, Outcome.ok, Outcome.andThen, hl, size]
    · unfold insert_back
      dsimp only
      rw [reserve_noop P E _ v (by omega) (by omega), Outcome.ok_andThen, foldl_append_live]
      refine ⟨rfl, rfl, hsize, ?_⟩
      simp only [Outcome.ok, capacity] at hgrow ⊢
      omega

/-- Witness for C11: `[7, 8]` appended to three `int`s in a block of four. -/
theorem insert_back_contract_witness :
    example_buffer.size ≤ example_buffer.capacity ∧
    (insert_back (serial_platform true) int32 [7, 8] example_buffer).thrown = none ∧
    (insert_back (serial_platform true) int32 [7, 8] example_buffer).vec.live =
      [some 1, some 2, some 3, some 7, some 8] ∧
    (insert_back (serial_platform true) int32 [7, 8] example_buffer).vec.size = 5 ∧
    5 ≤ (insert_back (serial_platform true) int32 [7, 8] example_buffer).vec.capacity :=
  ⟨by decide,
    insert_back_contract (serial_platform true) int32 [7, 8] example_buffer (by decide)
      (fun _ => rfl)⟩

/-- C12: the constructor `AlignedVector(n, init)` with `n > 0` returns normally (once
the allocation of `n` elements succeeds) with `size() == n`, `capacity() == n` and
every element equal to `init`; with `n == 0` it leaves the default constructed
vector. -/
theorem size_constructor_contract (P : Platform) (E : ElementType T) (this_ptr : Nat)
    (n : Nat) (init : T) :
    (0 < n → (P.posix_memalign 64 (n * E.sizeof)).isSome = true →
      (size_constructor P E this_ptr n init).thrown = none ∧
      (size_constructor P E this_ptr n init).vec.size = n ∧
      (size_constructor P E this_ptr n init).vec.capacity = n ∧
      (size_constructor P E this_ptr n init).vec.live = List.replicate n (some init)) ∧
    size_constructor P E this_ptr 0 init = Outcome.ok (default_constructor this_ptr) [] := by
  constructor
  · intro hn hmem
    have hv : (default_constructor this_ptr : AlignedVector T).valid :=
      ⟨Nat.le_refl _, fun _ => rfl⟩
    have hmax : max n (2 * (default_constructor this_ptr : AlignedVector T).capacity) = n := by
      simp [default_constructor, capacity]
    obtain ⟨h1, h2, h3⟩ := resize_value_grow P E n init (default_constructor this_ptr) hv hn
      (fun _ => by rw [hmax]; exact hmem)
    unfold size_constructor
    simp only [hn, gt_iff_lt, if_true]
    refine ⟨h1, ?_, ?_, ?_⟩
    · rw [size, h2]
      simp [default_constructor, size]
    · rw [h3, hmax]
      simp [default_constructor, capacity]
      omega
    · rw [h2]
      simp [default_constructor, size]
  · simp [size_constructor]

/-- Witness for C12: `AlignedVector<int>(5, 7)`. -/
theorem size_constructor_contract_witness :
    (size_constructor (serial_platform true) int32 1000 5 7).thrown = none ∧
    (size_constructor (serial_platform true) int32 1000 5 7).vec.size = 5 ∧
    (size_constructor (serial_platform true) int32 1000 5 7).vec.capacity = 5 ∧
    (size_constructor (serial_platform true) int32 1000 5 7).vec.live =
      [some 7, some 7, some 7, some 7, some 7] :=
  (size_constructor_contract (serial_platform true) int32 1000 5 7).1 (by decide) rfl

/-- C13 (as stated, refuted): the copy of the vector of `double` that holds `1.0` and a
NaN, made by the copy constructor or by copy assignment to an empty vector, holds
the elements of the source and does not compare equal to it: `operator==` returns
`false`, since `operator!=` tells the NaN from itself. -/
theorem copy_of_nan_does_not_compare_equal :
    (copy_constructor (serial_platform true) double 2000 one_and_nan).thrown = none ∧
    (copy_constructor (serial_platform true) double 2000 one_and_nan).vec.live =
      one_and_nan.live ∧
    operator_eq double (copy_constructor (serial_platform true) double 2000 one_and_nan).vec
      one_and_nan = false ∧
    (copy_assignment (serial_platform true) double (Reference.other one_and_nan)
      (default_constructor 2000)).thrown = none ∧
    (copy_assignment (serial_platform true) double (Reference.other one_and_nan)
      (default_constructor 2000)).vec.live = one_and_nan.live ∧
    operator_eq double (copy_assignment (serial_platform true) double
      (Reference.other one_and_nan) (default_constructor 2000)).vec one_and_nan = false := by
  decide

/-- C13 (amended): for a source `S` (whose allocation of `S.size()` elements succeeds),
the copy constructor returns normally with the elements of `S`, `size()` and
`capacity()` both `S.size()`; copy assignment of `S` to another vector `D`, whatever
`D` held, returns normally and leaves `D` with the elements of `S` and `capacity()`
exactly `S.size()`. In both cases `operator==` of the result and `S` returns `true`
exactly when every element of `S` has a value that `operator!=` of `T` does not tell
from itself. `S` is passed by reference to `const` and is not written to. -/
theorem copy_contract (P : Platform) (E : ElementType T)
    (S : AlignedVector T)
    (hmem : 0 < S.size → (P.posix_memalign 64 (S.size * E.sizeof)).isSome = true) :
    (∀ this_ptr : Nat,
      (copy_constructor P E this_ptr S).thrown = none ∧
      (copy_constructor P E this_ptr S).vec.live = S.live ∧
      (copy_constructor P E this_ptr S).vec.size = S.size ∧
      (copy_constructor P E this_ptr S).vec.capacity = S.size ∧
      (operator_eq E (copy_constructor P E this_ptr S).vec S = true ↔
        ∀ s ∈ S.live, ∃ x, s = some x ∧ E.operator_ne x x = false)) ∧
    (∀ D : AlignedVector T,
      (copy_assignment P E (Reference.other S) D).thrown = none ∧
      (copy_assignment P E (Reference.other S) D).vec.live = S.live ∧
      (copy_assignment P E (Reference.other S) D).vec.size = S.size ∧
      (copy_assignment P E (Reference.other S) D).vec.capacity = S.size ∧
      (operator_eq E (copy_assignment P E (Reference.other S) D).vec S = true ↔
        ∀ s ∈ S.live, ∃ x, s = some x ∧ E.operator_ne x x = false)) := by
  constructor
  · intro this_ptr
    obtain ⟨h1, h2, h3⟩ := copy_constructor_ok P E this_ptr S hmem
    exact ⟨h1, h2, by rw [size, h2]; rfl, h3, operator_eq_of_live_eq E _ _ h2⟩
  · intro D
    obtain ⟨h1, h2, h3⟩ := copy_assignment_ok P E S D hmem
    exact ⟨h1, h2, by rw [size, h2]; rfl, h3, operator_eq_of_live_eq E _ _ h2⟩

/-- Witness for C13: three `int`s copied into a new vector and into five sevens. -/
theorem copy_contract_witness :
    (0 < example_buffer.size →
      ((serial_platform true).posix_memalign 64 (example_buffer.size * int32.sizeof)).isSome
        = true) ∧
    ((copy_constructor (serial_platform true) int32 2000 example_buffer).thrown = none ∧
      (copy_constructor (serial_platform true) int32 2000 example_buffer).vec.live =
        [some 1, some 2, some 3] ∧
      (copy_constructor (serial_platform true) int32 2000 example_buffer).vec.size = 3 ∧
      (copy_constructor (serial_platform true) int32 2000 example_buffer).vec.capacity = 3 ∧
      operator_eq int32 (copy_constructor (serial_platform true) int32 2000
        example_buffer).vec example_buffer = true) ∧
    ((copy_assignment (serial_platform true) int32 (Reference.other example_buffer)
        five_sevens).thrown = none ∧
      (copy_assignment (serial_platform true) int32 (Reference.other example_buffer)
        five_sevens).vec.live = [some 1, some 2, some 3] ∧
      (copy_assignment (serial_platform true) int32 (Reference.other example_buffer)
        five_sevens).vec.size = 3 ∧
      (copy_assignment (serial_platform true) int32 (Reference.other example_buffer)
        five_sevens).vec.capacity = 3 ∧
      operator_eq int32 (copy_assignment (serial_platform true) int32
        (Reference.other example_buffer) five_sevens).vec example_buffer = true) :=
  ⟨fun _ => rfl,
    ⟨((copy_contract (serial_platform true) int32 example_buffer (fun _ => rfl)).1 2000).1,
      ((copy_contract (serial_platform true) int32 example_buffer (fun _ => rfl)).1 2000).2.1,
      ((copy_contract (serial_platform true) int32 example_buffer
        (fun _ => rfl)).1 2000).2.2.1,
      ((copy_contract (serial_platform true) int32 example_buffer
        (fun _ => rfl)).1 2000).2.2.2.1,
      ((copy_contract (serial_platform true) int32 example_buffer
        (fun _ => rfl)).1 2000).2.2.2.2.mpr (by
        intro s hs
        cases s with
        | none => exact absurd hs (by decide)
        | some x => exact ⟨x, rfl, by simp [int32]⟩)⟩,
    ⟨((copy_contract (serial_platform true) int32 example_buffer
        (fun _ => rfl)).2 five_sevens).1,
      ((copy_contract (serial_platform true) int32 example_buffer
        (fun _ => rfl)).2 five_sevens).2.1,
      ((copy_contract (serial_platform true) int32 example_buffer
        (fun _ => rfl)).2 five_sevens).2.2.1,
      ((copy_contract (serial_platform true) int32 example_buffer
        (fun _ => rfl)).2 five_sevens).2.2.2.1,
      ((copy_contract (serial_platform true) int32 example_buffer
        (fun _ => rfl)).2 five_sevens).2.2.2.2.mpr (by
        intro s hs
        cases s with
        | none => exact absurd hs (by decide)
        | some x => exact ⟨x, rfl, by simp [int32]⟩)⟩⟩

/-- C14: after `B2 = std::move(B1)` on two different objects, and after move
construction of `B2` from `B1`, `B2` has the size, capacity, elements and data
pointer `B1` had, and `B1` has `size() == 0`, `capacity() == 0`, `data() == nullptr`
and satisfies the class invariant; neither operation throws. -/
theorem move_contract (E : ElementType T) (B1 : AlignedVector T) :
    (∀ B2 : AlignedVector T,
      (move_assignment E B1 B2).1.thrown = none ∧
      (move_assignment E B1 B2).1.vec.size = B1.size ∧
      (move_assignment E B1 B2).1.vec.capacity = B1.capacity ∧
      (move_assignment E B1 B2).1.vec.live = B1.live ∧
      (move_assignment E B1 B2).1.vec.data = B1.data ∧
      (move_assignment E B1 B2).2.size = 0 ∧
      (move_assignment E B1 B2).2.capacity = 0 ∧
      (move_assignment E B1 B2).2.data = 0 ∧
      (move_assignment E B1 B2).2.valid) ∧
    (∀ this_ptr : Nat,
      (move_constructor E this_ptr B1).1.thrown = none ∧
      (move_constructor E this_ptr B1).1.vec.size = B1.size ∧
      (move_constructor E this_ptr B1).1.vec.capacity = B1.capacity ∧
      (move_constructor E this_ptr B1).1.vec.live = B1.live ∧
      (move_constructor E this_ptr B1).1.vec.data = B1.data ∧
      (move_constructor E this_ptr B1).2.size = 0 ∧
      (move_constructor E this_ptr B1).2.capacity = 0 ∧
      (move_constructor E this_ptr B1).2.data = 0 ∧
      (move_constructor E this_ptr B1).2.valid) := by
  have key : ∀ B2 : AlignedVector T,
      (move_assignment E B1 B2).1.thrown = none ∧
      (move_assignment E B1 B2).1.vec.size = B1.size ∧
      (move_assignment E B1 B2).1.vec.capacity = B1.capacity ∧
      (move_assignment E B1 B2).1.vec.live = B1.live ∧
      (move_assignment E B1 B2).1.vec.data = B1.data ∧
      (move_assignment E B1 B2).2.size = 0 ∧
      (move_assignment E B1 B2).2.capacity = 0 ∧
      (move_assignment E B1 B2).2.data = 0 ∧
      (move_assignment E B1 B2).2.valid := by
    intro B2
    simp [move_assignment, clear, Outcome.ok, size, capacity, data, valid]
  exact ⟨key, fun this_ptr => key (default_constructor this_ptr)⟩

/-- C15 (as stated, refuted): after move construction from a replicated vector (flag set,
shared-memory deleter action), the moved-from vector still has
`replicated_across_communicator == true`, and the vector that now owns the
shared-memory block has the flag `false`; the same holds for move assignment. -/
theorem moved_from_keeps_replicated_flag :
    (move_constructor int32 2000 replicated_buffer).2.replicated_across_communicator = true ∧
    (move_constructor int32 2000 replicated_buffer).1.vec.replicated_across_communicator
      = false ∧
    (move_constructor int32 2000 replicated_buffer).1.vec.deleter.deleter_action_object
      = replicated_buffer.deleter.deleter_action_object ∧
    (move_assignment int32 replicated_buffer example_buffer).2.replicated_across_communicator
      = true := by
  decide

/-- C15 (amended): after `B2 = std::move(B1)` (and after move construction), `B1` has
`size() == 0`, `capacity() == 0`, a null `elements` pointer and the default deleter
action; the deleter now held by `B2` carries the action `B1` held and names `B2` as
`owning_aligned_vector`; `replicated_across_communicator` of `B1` and of `B2` are
what they were before the move. -/
theorem move_frame (E : ElementType T) (B1 : AlignedVector T) :
    (∀ B2 : AlignedVector T,
      (move_assignment E B1 B2).2.size = 0 ∧
      (move_assignment E B1 B2).2.capacity = 0 ∧
      (move_assignment E B1 B2).2.elements = 0 ∧
      (move_assignment E B1 B2).2.deleter.deleter_action_object = none ∧
      (move_assignment E B1 B2).2.replicated_across_communicator =
        B1.replicated_across_communicator ∧
      (move_assignment E B1 B2).1.vec.deleter =
        { deleter_action_object := B1.deleter.deleter_action_object
          owning_aligned_vector := B2.this_ptr } ∧
      (move_assignment E B1 B2).1.vec.this_ptr = B2.this_ptr ∧
      (move_assignment E B1 B2).1.vec.replicated_across_communicator =
        B2.replicated_across_communicator) ∧
    (∀ this_ptr : Nat,
      (move_constructor E this_ptr B1).2.size = 0 ∧
      (move_constructor E this_ptr B1).2.capacity = 0 ∧
      (move_constructor E this_ptr B1).2.elements = 0 ∧
      (move_constructor E this_ptr B1).2.deleter.deleter_action_object = none ∧
      (move_constructor E this_ptr B1).2.replicated_across_communicator =
        B1.replicated_across_communicator ∧
      (move_constructor E this_ptr B1).1.vec.deleter =
        { deleter_action_object := B1.deleter.deleter_action_object
          owning_aligned_vector := this_ptr } ∧
      (move_constructor E this_ptr B1).1.vec.this_ptr = this_ptr ∧
      (move_constructor E this_ptr B1).1.vec.replicated_across_communicator = false) := by
  constructor
  · intro B2
    simp [move_assignment, clear, Outcome.ok, size, capacity]
  · intro this_ptr
    simp [move_constructor, move_assignment, clear, Outcome.ok, size, capacity,
      default_constructor]

/-- C16: `size() <= capacity()` holds after every constructor, and every member
function that changes the vector keeps it, whether the call returns or throws:
copy and move assignment, `reserve`, the three `resize` functions, `shrink_to_fit`,
`clear`, `push_back`, `insert_back`, `insert`, both `fill` functions, `swap` and
`load` (for move assignment and `swap`, the other vector satisfies it before and
after as well). Sizes are natural numbers, so `0 <= size()` always. -/
theorem size_le_capacity_invariant (P : Platform) (E : ElementType T) :
    ((∀ this_ptr : Nat,
        (default_constructor this_ptr : AlignedVector T).size ≤
          (default_constructor this_ptr : AlignedVector T).capacity) ∧
      (∀ (this_ptr n : Nat) (init : T),
        (size_constructor P E this_ptr n init).vec.size ≤
          (size_constructor P E this_ptr n init).vec.capacity) ∧
      (∀ (this_ptr : Nat) (raw_pointers : Bool) (range : List (Option T)),
        (range_constructor P E this_ptr raw_pointers range).vec.size ≤
          (range_constructor P E this_ptr raw_pointers range).vec.capacity) ∧
      (∀ (this_ptr : Nat) (vec : AlignedVector T),
        (copy_constructor P E this_ptr vec).vec.size ≤
          (copy_constructor P E this_ptr vec).vec.capacity) ∧
      (∀ (this_ptr : Nat) (vec : AlignedVector T), vec.size ≤ vec.capacity →
        (move_constructor E this_ptr vec).1.vec.size ≤
          (move_constructor E this_ptr vec).1.vec.capacity ∧
        (move_constructor E this_ptr vec).2.size ≤
          (move_constructor E this_ptr vec).2.capacity)) ∧
    (∀ v : AlignedVector T, v.size ≤ v.capacity →
      (∀ vec : Reference T,
        (copy_assignment P E vec v).vec.size ≤ (copy_assignment P E vec v).vec.capacity) ∧
      (∀ vec : AlignedVector T, vec.size ≤ vec.capacity →
        (move_assignment E vec v).1.vec.size ≤ (move_assignment E vec v).1.vec.capacity ∧
        (move_assignment E vec v).2.size ≤ (move_assignment E vec v).2.capacity) ∧
      (∀ n : Nat, (reserve P E n v).vec.size ≤ (reserve P E n v).vec.capacity) ∧
      (∀ (n : Nat) (init : T),
        (resize P E n v).vec.size ≤ (resize P E n v).vec.capacity ∧
        (resize_value P E n init v).vec.size ≤ (resize_value P E n init v).vec.capacity ∧
        (resize_fast P E n v).vec.size ≤ (resize_fast P E n v).vec.capacity) ∧
      (shrink_to_fit P E v).vec.size ≤ (shrink_to_fit P E v).vec.capacity ∧
      (clear E v).vec.size ≤ (clear E v).vec.capacity ∧
      (∀ x : T, (push_back P E x v).vec.size ≤ (push_back P E x v).vec.capacity) ∧
      (∀ range : List T,
        (insert_back P E range v).vec.size ≤ (insert_back P E range v).vec.capacity) ∧
      (∀ (offset : Nat) (raw_pointers : Bool) (range : List T),
        (insert P E offset raw_pointers range v).1.vec.size ≤
          (insert P E offset raw_pointers range v).1.vec.capacity) ∧
      (∀ value : T,
        (fill P E v).vec.size ≤ (fill P E v).vec.capacity ∧
        (fill_value P E value v).vec.size ≤ (fill_value P E value v).vec.capacity) ∧
      (∀ vec : AlignedVector T, vec.size ≤ vec.capacity →
        (swap vec v).1.size ≤ (swap vec v).1.capacity ∧
        (swap vec v).2.size ≤ (swap vec v).2.capacity) ∧
      (∀ ar : List (ArchiveItem T),
        (load P E ar v).1.vec.size ≤ (load P E ar v).1.vec.capacity)) := by
  have hmove : ∀ vec v : AlignedVector T, vec.size ≤ vec.capacity →
      (move_assignment E vec v).1.vec.size ≤ (move_assignment E vec v).1.vec.capacity ∧
      (move_assignment E vec v).2.size ≤ (move_assignment E vec v).2.capacity := by
    intro vec v h
    simp only [size, capacity] at h
    simp [move_assignment, clear, Outcome.ok, size, capacity, h]
  refine ⟨⟨default_constructor_size_le, size_constructor_size_le P E,
    range_constructor_size_le P E, copy_constructor_size_le P E,
    fun this_ptr vec h => hmove vec (default_constructor this_ptr) h⟩, ?_⟩
  intro v hv
  refine ⟨fun vec => copy_assignment_size_le P E vec v, fun vec h => hmove vec v h,
    fun n => reserve_size_le P E n v hv, fun n init => resize_size_le P E n init v hv,
    shrink_to_fit_size_le P E v hv, clear_size_le E v, fun x => push_back_size_le P E x v hv,
    fun range => insert_back_size_le P E range v hv,
    fun offset raw range => insert_size_le P E offset raw range v hv,
    fun value => fill_size_le P E value v hv, ?_, fun ar => load_size_le P E ar v hv⟩
  intro vec h
  simp only [size, capacity] at h hv
  simp [swap, size, capacity, h, hv]

/-- Witness for C16: the invariant of `[1, 2, 3]` (capacity 4) after `reserve(10)`,
`push_back(9)` and `shrink_to_fit()`. -/
theorem size_le_capacity_invariant_witness :
    example_buffer.size ≤ example_buffer.capacity ∧
    (reserve (serial_platform true) int32 10 example_buffer).vec.size ≤
      (reserve (serial_platform true) int32 10 example_buffer).vec.capacity ∧
    (push_back (serial_platform true) int32 9 example_buffer).vec.size ≤
      (push_back (serial_platform true) int32 9 example_buffer).vec.capacity ∧
    (shrink_to_fit (serial_platform true) int32 example_buffer).vec.size ≤
      (shrink_to_fit (serial_platform true) int32 example_buffer).vec.capacity :=
  ⟨by decide,
    ((size_le_capacity_invariant (serial_platform true) int32).2 example_buffer
      (by decide)).2.2.1 10,
    ((size_le_capacity_invariant (serial_platform true) int32).2 example_buffer
      (by decide)).2.2.2.2.2.2.1 9,
    ((size_le_capacity_invariant (serial_platform true) int32).2 example_buffer
      (by decide)).2.2.2.2.1⟩

/-- C17: on a vector with `size() <= capacity()` that is not replicated (or in a
release build), `shrink_to_fit()` returns normally (once the allocation of `size()`
elements it makes when `capacity() > size()` succeeds), leaves the elements and
`size()` as they were and leaves `capacity() == size()`; when `capacity()` already
equals `size()` the call changes nothing. -/
theorem shrink_to_fit_contract (P : Platform) (E : ElementType T) (v : AlignedVector T)
    (hguard : P.running_in_debug_mode = false ∨ v.replicated_across_communicator = false)
    (hinv : v.size ≤ v.capacity)
    (hmem : v.size < v.capacity →
      (P.posix_memalign 64 (v.size * E.sizeof)).isSome = true) :
    (shrink_to_fit P E v).thrown = none ∧
    (shrink_to_fit P E v).vec.live = v.live ∧
    (shrink_to_fit P E v).vec.size = v.size ∧
    (shrink_to_fit P E v).vec.capacity = v.size ∧
    (v.capacity = v.size → shrink_to_fit P E v = Outcome.ok v []) := by
  by_cases hlt : v.size < v.capacity
  · obtain ⟨p, hp⟩ := Option.isSome_iff_exists.mp (hmem hlt)
    rw [shrink_to_fit_ok P E v hguard p hlt hp]
    exact ⟨rfl, rfl, rfl, rfl, fun h => absurd h (by omega)⟩
  · rw [shrink_to_fit_noop P E v hguard (by omega)]
    refine ⟨rfl, rfl, rfl, ?_, fun _ => rfl⟩
    simp only [Outcome.ok]
    omega

/-- Witness for C17: `[1, 2, 3]` in a block of four is moved to a block of three. -/
theorem shrink_to_fit_contract_witness :
    example_buffer.size ≤ example_buffer.capacity ∧
    (shrink_to_fit (serial_platform true) int32 example_buffer).thrown = none ∧
    (shrink_to_fit (serial_platform true) int32 example_buffer).vec.live =
      [some 1, some 2, some 3] ∧
    (shrink_to_fit (serial_platform true) int32 example_buffer).vec.size = 3 ∧
    (shrink_to_fit (serial_platform true) int32 example_buffer).vec.capacity = 3 :=
  ⟨by decide,
    (shrink_to_fit_contract (serial_platform true) int32 example_buffer (Or.inr rfl)
      (by decide) (fun _ => rfl)).1,
    (shrink_to_fit_contract (serial_platform true) int32 example_buffer (Or.inr rfl)
      (by decide) (fun _ => rfl)).2.1,
    (shrink_to_fit_contract (serial_platform true) int32 example_buffer (Or.inr rfl)
      (by decide) (fun _ => rfl)).2.2.1,
    (shrink_to_fit_contract (serial_platform true) int32 example_buffer (Or.inr rfl)
      (by decide) (fun _ => rfl)).2.2.2.1⟩

/-- C18: `clear()` twice leaves the vector `clear()` leaves (and the second call
returns normally and releases nothing), and `shrink_to_fit()` twice leaves the
vector `shrink_to_fit()` leaves; after a `shrink_to_fit()` that returned normally
the second call is a normal return that changes nothing and releases nothing. -/
theorem clear_shrink_to_fit_idempotent (P : Platform) (E : ElementType T)
    (v : AlignedVector T) :
    clear E (clear E v).vec = Outcome.ok (clear E v).vec [] ∧
    (shrink_to_fit P E (shrink_to_fit P E v).vec).vec = (shrink_to_fit P E v).vec ∧
    ((shrink_to_fit P E v).thrown = none →
      shrink_to_fit P E (shrink_to_fit P E v).vec =
        Outcome.ok (shrink_to_fit P E v).vec []) := by
  refine ⟨?_, ?_, shrink_to_fit_again P E v⟩
  · simp [clear, Outcome.ok, release_events]
  · by_cases h : (shrink_to_fit P E v).thrown = none
    · rw [shrink_to_fit_again P E v h]
      rfl
    · rw [shrink_to_fit_thrown_vec P E v h]
      exact shrink_to_fit_thrown_vec P E v h

/-- Witness for C18: `shrink_to_fit()` on `[1, 2, 3]` in a block of four returns
normally, and a second call changes nothing. -/
theorem clear_shrink_to_fit_idempotent_witness :
    (shrink_to_fit (serial_platform true) int32 example_buffer).thrown = none ∧
    shrink_to_fit (serial_platform true) int32
        (shrink_to_fit (serial_platform true) int32 example_buffer).vec =
      Outcome.ok (shrink_to_fit (serial_platform true) int32 example_buffer).vec [] :=
  ⟨by decide,
    (clear_shrink_to_fit_idempotent (serial_platform true) int32 example_buffer).2.2
      (by decide)⟩

/-- C19 (as stated, refuted): the vector of `double` that holds `1.0` and a NaN, saved
and loaded into a default constructed vector, comes back with the same two
elements, and the loaded vector does not compare equal to it: `operator==` returns
`false`, since `operator!=` tells the NaN from itself. -/
theorem nan_round_trip_does_not_compare_equal :
    (load (serial_platform true) double (save one_and_nan [])
      (default_constructor 2000)).1.thrown = none ∧
    (load (serial_platform true) double (save one_and_nan [])
      (default_constructor 2000)).1.vec.live = one_and_nan.live ∧
    operator_eq double (load (serial_platform true) double (save one_and_nan [])
      (default_constructor 2000)).1.vec one_and_nan = false :=
  ⟨rfl, by decide, by decide⟩

/-- C19 (amended): `load` of the archive `save` wrote for a vector `B`, into a default
constructed vector, returns normally (once the allocation of `B.size()` elements
succeeds) and reads the whole archive; the vector then has the elements of `B` in
order, `size() == B.size()` and `capacity()` equal to the element count stored in
the archive, and `operator==` of it and `B` returns `true` exactly when every
element of `B` has a value that `operator!=` of `T` does not tell from itself. -/
theorem save_load_round_trip (P : Platform) (E : ElementType T)
    (this_ptr : Nat) (B : AlignedVector T)
    (hmem : 0 < B.size → (P.posix_memalign 64 (B.size * E.sizeof)).isSome = true) :
    (load P E (save B []) (default_constructor this_ptr)).1.thrown = none ∧
    (load P E (save B []) (default_constructor this_ptr)).1.vec.live = B.live ∧
    (load P E (save B []) (default_constructor this_ptr)).1.vec.size = B.size ∧
    (load P E (save B []) (default_constructor this_ptr)).1.vec.capacity = B.size ∧
    (load P E (save B []) (default_constructor this_ptr)).2 = [] ∧
    (operator_eq E (load P E (save B []) (default_constructor this_ptr)).1.vec B = true ↔
      ∀ s ∈ B.live, ∃ x, s = some x ∧ E.operator_ne x x = false) := by
  have key : (load P E (save B []) (default_constructor this_ptr)).1.thrown = none ∧
      (load P E (save B []) (default_constructor this_ptr)).1.vec.live = B.live ∧
      (load P E (save B []) (default_constructor this_ptr)).1.vec.allocated_size = B.size ∧
      (load P E (save B []) (default_constructor this_ptr)).2 = [] := by
    by_cases h0 : B.size = 0
    · have hl : B.live = [] := List.length_eq_zero.mp h0
      simp [save, load, h0, Outcome.ok, default_constructor, hl]
    · obtain ⟨w1, ev, hr, hl, hc, -, -, -⟩ :=
        reserve_fresh P E B.size (default_constructor this_ptr) rfl rfl hmem
      have hpos : B.size > 0 := by omega
      have hlen : B.live.length = B.size := rfl
      simp only [save, load, hpos, if_true, List.nil_append, List.cons_append, hr, hlen]
      simp only [Outcome.ok, hl, hc, and_true, true_and]
      exact resize_slots_append _ _ _ rfl
  obtain ⟨h1, h2, h3, h4⟩ := key
  exact ⟨h1, h2, by rw [size, h2]; rfl, h3, h4, operator_eq_of_live_eq E _ _ h2⟩

/-- Witness for C19: `[1, 2, 3]` saved and loaded into a default constructed vector. -/
theorem save_load_round_trip_witness :
    (0 < example_buffer.size →
      ((serial_platform true).posix_memalign 64 (example_buffer.size * int32.sizeof)).isSome
        = true) ∧
    (load (serial_platform true) int32 (save example_buffer [])
      (default_constructor 2000)).1.thrown = none ∧
    (load (serial_platform true) int32 (save example_buffer [])
      (default_constructor 2000)).1.vec.live = [some 1, some 2, some 3] ∧
    (load (serial_platform true) int32 (save example_buffer [])
      (default_constructor 2000)).1.vec.capacity = 3 ∧
    operator_eq int32 (load (serial_platform true) int32 (save example_buffer [])
      (default_constructor 2000)).1.vec example_buffer = true :=
  ⟨fun _ => rfl,
    (save_load_round_trip (serial_platform true) int32 2000 example_buffer (fun _ => rfl)).1,
    (save_load_round_trip (serial_platform true) int32 2000 example_buffer
      (fun _ => rfl)).2.1,
    (save_load_round_trip (serial_platform true) int32 2000 example_buffer
      (fun _ => rfl)).2.2.2.1,
    (save_load_round_trip (serial_platform true) int32 2000 example_buffer
      (fun _ => rfl)).2.2.2.2.2.mpr (by
      intro s hs
      cases s with
      | none => exact absurd hs (by decide)
      | some x => exact ⟨x, rfl, by simp [int32]⟩)⟩

/-- C20 (as stated, refuted), for an element type that is not trivial: for a vector of
vectors with one element (the vector `[1, 2, 3]` with room for four, footprint 64)
in a block of two, `memory_consumption()` is `48 + 64 + 48 = 160`, while
`sizeof(header) + capacity * sizeof(T)` plus the footprints of the live elements is
`48 + 96 + 64 = 208`; likewise `80` against `104` for three elements of footprint
8 in a block of four. -/
theorem memory_consumption_counts_used_slots_once :
    memory_consumption nested_vector 48 nested_buffer = 160 ∧
    48 + nested_buffer.capacity * nested_vector.sizeof +
      (nested_buffer.live.map (slot_memory_consumption nested_vector)).sum = 208 ∧
    memory_consumption counted 48 example_buffer = 80 ∧
    48 + example_buffer.capacity * counted.sizeof +
      (example_buffer.live.map (slot_memory_consumption counted)).sum = 104 := by
  decide

/-- C20 (amended): `memory_consumption()` is `sizeof(*this)`, plus what
`MemoryConsumption::memory_consumption` reports for each live element, plus
`sizeof(T)` for each of the `capacity() - size()` unused slots; when
`size() <= capacity()` and every live element reports `sizeof(T)`, as the elements
of a fundamental type do, this is `sizeof(*this) + capacity() * sizeof(T)`. -/
theorem memory_consumption_formula (E : ElementType T) (sizeof_this : Nat)
    (v : AlignedVector T) :
    memory_consumption E sizeof_this v =
      sizeof_this + (v.live.map (slot_memory_consumption E)).sum +
        E.sizeof * (v.capacity - v.size) ∧
    (v.size ≤ v.capacity → (∀ s ∈ v.live, slot_memory_consumption E s = E.sizeof) →
      memory_consumption E sizeof_this v = sizeof_this + v.capacity * E.sizeof) := by
  have h1 : memory_consumption E sizeof_this v =
      sizeof_this + (v.live.map (slot_memory_consumption E)).sum +
        E.sizeof * (v.capacity - v.size) := by
    unfold memory_consumption
    dsimp only
    rw [foldl_add_eq_sum]
    rfl
  refine ⟨h1, fun hinv hs => ?_⟩
  rw [h1, sum_map_const _ _ _ hs]
  have hsz : v.live.length = v.size := rfl
  rw [hsz, Nat.add_assoc, Nat.mul_comm E.sizeof, ← Nat.add_mul]
  congr 2
  omega

/-- Witness for C20: `[1, 2, 3]` of `int` in a block of four, with a header
of 48 bytes, reports `48 + 4 * 4 = 64` bytes. -/
theorem memory_consumption_formula_witness :
    example_buffer.size ≤ example_buffer.capacity ∧
    (∀ s ∈ example_buffer.live, slot_memory_consumption int32 s = int32.sizeof) ∧
    memory_consumption int32 48 example_buffer = 48 + 4 * 4 :=
  ⟨by decide, by decide,
    (memory_consumption_formula int32 48 example_buffer).2 (by decide) (by decide)⟩

/-- C21: when the `posix_memalign` call for the new block fails, `reserve(n)` with
`n > capacity()` throws `ExcOutOfMemory` and leaves the vector as it was (no
destructor and no deallocation has run); so do the three `resize` functions when
they grow past the capacity, `push_back` on a full vector and `insert_back` past
the capacity. `insert` with a non-empty range whose own allocation fails leaves the
vector as it was and reports a failure, which is `ExcOutOfMemory` whenever its two
debug assertions hold. -/
theorem allocation_failure_keeps_buffer (P : Platform) (E : ElementType T)
    (v : AlignedVector T) :
    (∀ n : Nat, v.capacity < n →
      P.posix_memalign 64 (max n (2 * v.capacity) * E.sizeof) = none →
      reserve P E n v =
        Outcome.throw (Exc.ExcOutOfMemory (max n (2 * v.capacity) * E.sizeof)) v []) ∧
    (∀ (n : Nat) (init : T), v.size < n → v.capacity < n →
      P.posix_memalign 64 (max n (2 * v.capacity) * E.sizeof) = none →
      resize P E n v =
        Outcome.throw (Exc.ExcOutOfMemory (max n (2 * v.capacity) * E.sizeof)) v [] ∧
      resize_value P E n init v =
        Outcome.throw (Exc.ExcOutOfMemory (max n (2 * v.capacity) * E.sizeof)) v [] ∧
      resize_fast P E n v =
        Outcome.throw (Exc.ExcOutOfMemory (max n (2 * v.capacity) * E.sizeof)) v []) ∧
    (∀ x : T, v.size = v.capacity →
      P.posix_memalign 64 (max (2 * v.capacity) 16 * E.sizeof) = none →
      push_back P E x v =
        Outcome.throw (Exc.ExcOutOfMemory (max (2 * v.capacity) 16 * E.sizeof)) v []) ∧
    (∀ range : List T, v.capacity < v.size + range.length →
      P.posix_memalign 64
        (max (v.size + range.length) (2 * v.capacity) * E.sizeof) = none →
      insert_back P E range v =
        Outcome.throw
          (Exc.ExcOutOfMemory (max (v.size + range.length) (2 * v.capacity) * E.sizeof))
          v []) ∧
    (∀ (offset : Nat) (raw_pointers : Bool) (range : List T), range ≠ [] →
      P.posix_memalign 64 ((v.size + range.length) * E.sizeof) = none →
      (insert P E offset raw_pointers range v).1.thrown ≠ none ∧
      (insert P E offset raw_pointers range v).1.vec = v ∧
      ((P.running_in_debug_mode = false ∨
          (v.replicated_across_communicator = false ∧ offset ≤ v.size)) →
        (insert P E offset raw_pointers range v).1 =
          Outcome.throw (Exc.ExcOutOfMemory ((v.size + range.length) * E.sizeof)) v [])) :=
  ⟨fun n => reserve_out_of_memory P E n v,
    fun n init => resize_out_of_memory P E n init v,
    fun x => push_back_out_of_memory P E x v,
    fun range => insert_back_out_of_memory P E range v,
    fun offset raw_pointers range => insert_out_of_memory P E offset raw_pointers range v⟩

/-- Witness for C21: `reserve(5)`, `push_back(9)` and `insert` of `[7]` on vectors of
`int` when no memory is left. -/
theorem allocation_failure_keeps_buffer_witness :
    (reserve (exhausted_platform true) int32 5 example_buffer =
      Outcome.throw (Exc.ExcOutOfMemory 32) example_buffer []) ∧
    (push_back (exhausted_platform true) int32 9 full_buffer =
      Outcome.throw (Exc.ExcOutOfMemory 64) full_buffer []) ∧
    ((insert (exhausted_platform true) int32 1 true [7] example_buffer).1 =
      Outcome.throw (Exc.ExcOutOfMemory 16) example_buffer []) :=
  ⟨(allocation_failure_keeps_buffer (exhausted_platform true) int32 example_buffer).1 5
      (by decide) rfl,
    (allocation_failure_keeps_buffer (exhausted_platform true) int32 full_buffer).2.2.1 9
      (by decide) rfl,
    ((allocation_failure_keeps_buffer (exhausted_platform true) int32
      example_buffer).2.2.2.2 1 true [7] (by decide) rfl).2.2 (Or.inr (by decide))⟩

/-- C22 (as stated, refuted): copy assignment of `[1, 2, 3]` to `AlignedVector<int>(5, 7)`
when no memory is left throws `ExcOutOfMemory`, and the destination, which had five
elements in a block of five, has `size() == 0` and `capacity() == 0` afterwards. -/
theorem copy_assignment_failure_empties_destination :
    five_sevens.size = 5 ∧ five_sevens.capacity = 5 ∧
    (copy_assignment (exhausted_platform true) int32 (Reference.other example_buffer)
      five_sevens).thrown = some (Exc.ExcOutOfMemory 12) ∧
    (copy_assignment (exhausted_platform true) int32 (Reference.other example_buffer)
      five_sevens).vec.size = 0 ∧
    (copy_assignment (exhausted_platform true) int32 (Reference.other example_buffer)
      five_sevens).vec.capacity = 0 ∧
    (copy_assignment (exhausted_platform true) int32 (Reference.other example_buffer)
      five_sevens).vec ≠ five_sevens := by
  decide

/-- C22 (amended): when the allocation for a non-empty source `S` fails during the
copy assignment `D = S` to another vector `D`, the assignment throws
`ExcOutOfMemory`, and `D` is left as `clear()` leaves it: `size() == 0`,
`capacity() == 0`, a null `elements` pointer, its old block released. -/
theorem copy_assignment_out_of_memory (P : Platform) (E : ElementType T)
    (S D : AlignedVector T) (hS : 0 < S.size)
    (hp : P.posix_memalign 64 (S.size * E.sizeof) = none) :
    copy_assignment P E (Reference.other S) D =
      Outcome.throw (Exc.ExcOutOfMemory (S.size * E.sizeof)) (clear E D).vec
        (release_events E D) ∧
    (copy_assignment P E (Reference.other S) D).vec.size = 0 ∧
    (copy_assignment P E (Reference.other S) D).vec.capacity = 0 ∧
    (copy_assignment P E (Reference.other S) D).vec.data = 0 := by
  have hmax : max S.size (2 * (clear E D).vec.capacity) = S.size := by
    simp [clear, Outcome.ok, capacity]
  have hr : reserve P E S.size (clear E D).vec =
      Outcome.throw (Exc.ExcOutOfMemory (S.size * E.sizeof)) (clear E D).vec [] := by
    have h := reserve_out_of_memory P E S.size (clear E D).vec
      (by simp only [clear, Outcome.ok, capacity]; exact hS) (by rw [hmax]; exact hp)
    rw [hmax] at h
    exact h
  have key : copy_assignment P E (Reference.other S) D =
      Outcome.throw (Exc.ExcOutOfMemory (S.size * E.sizeof)) (clear E D).vec
        (release_events E D) := by
    unfold copy_assignment
    simp only [Reference.read, resize, if_true]
    have hc : clear E D = Outcome.ok (clear E D).vec (release_events E D) := rfl
    rw [hc, Outcome.ok_andThen]
    simp only [Outcome.ok]
    rw [hr, throw_andThen]
    simp [Outcome.throw]
  refine ⟨key, ?_, ?_, ?_⟩ <;> rw [key] <;> rfl

/-- Witness for C22: the destination `AlignedVector<int>(5, 7)` after the failed
assignment of `[1, 2, 3]`. -/
theorem copy_assignment_out_of_memory_witness :
    0 < example_buffer.size ∧
    (copy_assignment (exhausted_platform true) int32 (Reference.other example_buffer)
      five_sevens).vec.size = 0 ∧
    (copy_assignment (exhausted_platform true) int32 (Reference.other example_buffer)
      five_sevens).vec.capacity = 0 ∧
    (copy_assignment (exhausted_platform true) int32 (Reference.other example_buffer)
      five_sevens).vec.data = 0 :=
  ⟨by decide,
    (copy_assignment_out_of_memory (exhausted_platform true) int32 example_buffer five_sevens
      (by decide) rfl).2⟩

/-- C23, the code at five objects of `2^30` bytes each on the root, process 0 of four
processes on two machines, in a release build: `sizeof(T) * new_size` is `5 * 2^30`,
which becomes the `int` `2^30` when it is passed to `MPI_Bcast`, so that one object
reaches the rank 0 of the second machine. The call returns normally on processes 2
and 3 with `size() == 5` and the elements `1, 0, 0, 0, 0`, not the `1, 2, 3, 4, 5` of
the root. In a debug build the consistency check at the end of the function raises
`ExcInternalError` on process 2. -/
theorem replicate_truncates_large_broadcast :
    (five_blocks 0).live = [some 1, some 2, some 3, some 4, some 5] ∧
    block.sizeof * (five_blocks 0).size = 5368709120 ∧
    int_from_size_t (block.sizeof * (five_blocks 0).size) = 1073741824 ∧
    (replicate_across_communicator two_nodes (serial_platform false) block sum_of_items 0
      five_blocks 2).thrown = none ∧
    (replicate_across_communicator two_nodes (serial_platform false) block sum_of_items 0
      five_blocks 2).vec.size = 5 ∧
    (replicate_across_communicator two_nodes (serial_platform false) block sum_of_items 0
      five_blocks 2).vec.live = [some 1, some 0, some 0, some 0, some 0] ∧
    (replicate_across_communicator two_nodes (serial_platform false) block sum_of_items 0
      five_blocks 3).thrown = none ∧
    (replicate_across_communicator two_nodes (serial_platform false) block sum_of_items 0
      five_blocks 3).vec.live = [some 1, some 0, some 0, some 0, some 0] ∧
    (replicate_across_communicator two_nodes (serial_platform true) block sum_of_items 0
      five_blocks 2).thrown = some Exc.ExcInternalError := by
  decide

/-- What `replicate_across_communicator` does when the byte count `sizeof(T) * size()`
of the root fits the `int` that `MPI_Bcast` takes (which matters for a trivially
copyable `T` only): when the vector of the root process is not empty, the
allocation made on the processes with rank 0 in their shared-memory group succeeds
and no process sees the shared segment at address 0, the function returns on every
process of the communicator, with the elements the root had when the function was
called, `size()` equal to the size the root had, and `capacity()` equal to that
size. When the vector of the root is empty, the call is `clear()` on every process:
`size()` and `capacity()` are 0, `data()` is null and no window is installed. -/
theorem replicate_contract (C : Communicator) (P : Platform) (E : ElementType T)
    (hash : List (ArchiveItem T) → Int) (root_process : Nat)
    (world : Nat → AlignedVector T) (hroot : root_process < C.n_mpi_processes) :
    (0 < (world root_process).size →
      (P.posix_memalign 64 ((world root_process).size * E.sizeof)).isSome = true →
      (∀ x, x < C.n_mpi_processes →
        C.base_ptr x ((world root_process).size * E.sizeof + 63) ≠ 0) →
      (E.is_trivially_copyable = true → E.sizeof * (world root_process).size < 2 ^ 31) →
      ∀ r, r < C.n_mpi_processes →
        (replicate_across_communicator C P E hash root_process world r).thrown = none ∧
        (replicate_across_communicator C P E hash root_process world r).vec.size =
          (world root_process).size ∧
        (replicate_across_communicator C P E hash root_process world r).vec.capacity =
          (world root_process).size ∧
        (replicate_across_communicator C P E hash root_process world r).vec.live =
          (world root_process).live) ∧
    ((world root_process).size = 0 →
      ∀ r,
        replicate_across_communicator C P E hash root_process world r = clear E (world r) ∧
        (replicate_across_communicator C P E hash root_process world r).vec.size = 0 ∧
        (replicate_across_communicator C P E hash root_process world r).vec.capacity = 0 ∧
        (replicate_across_communicator C P E hash root_process world r).vec.data = 0 ∧
        (replicate_across_communicator C P E hash root_process world r).vec.deleter =
          (world r).deleter) := by
  constructor
  · intro hn hmem hbase hcount r hr
    obtain ⟨h1, h2⟩ :=
      replicate_ok C P E hash root_process world r hroot hr hn hmem hbase hcount
    obtain ⟨h3, -⟩ :=
      replicate_installed C P E hash root_process world r hroot hr hn hmem hbase
    exact ⟨h1, by rw [size, h2]; rfl, h3, h2⟩
  · intro h0 r
    have key : replicate_across_communicator C P E hash root_process world r =
        clear E (world r) := by
      unfold replicate_across_communicator
      simp only [h0, if_true]
    rw [key]
    exact ⟨rfl, rfl, rfl, rfl, rfl⟩

/-- The vector `[1, 2, 3]` replicated from process 0 of four processes on two
machines, as process 3 sees it. -/
theorem replicate_three_ints :
    (0 : Nat) < two_nodes.n_mpi_processes ∧
    (replicate_across_communicator two_nodes (serial_platform true) int32 sum_of_items 0
      four_vectors 3).thrown = none ∧
    (replicate_across_communicator two_nodes (serial_platform true) int32 sum_of_items 0
      four_vectors 3).vec.size = 3 ∧
    (replicate_across_communicator two_nodes (serial_platform true) int32 sum_of_items 0
      four_vectors 3).vec.capacity = 3 ∧
    (replicate_across_communicator two_nodes (serial_platform true) int32 sum_of_items 0
      four_vectors 3).vec.live = [some 1, some 2, some 3] :=
  ⟨by decide,
    (replicate_contract two_nodes (serial_platform true) int32 sum_of_items 0 four_vectors
      (by decide)).1 (by decide) rfl (fun x _ => Nat.succ_ne_zero _) (fun _ => by decide)
      3 (by decide)⟩

/-- C24 (as stated, refuted): in a release build, after `[1, 2, 3]` has been
replicated from process 0 of four processes, the call has returned on process 1 and
`replicated_across_communicator` is `false` there, and on the root as well. -/
theorem release_build_leaves_flag_unset :
    0 < (four_vectors 0).size ∧
    (replicate_across_communicator two_nodes (serial_platform false) int32 sum_of_items 0
      four_vectors 1).thrown = none ∧
    (replicate_across_communicator two_nodes (serial_platform false) int32 sum_of_items 0
      four_vectors 1).vec.replicated_across_communicator = false ∧
    (replicate_across_communicator two_nodes (serial_platform false) int32 sum_of_items 0
      four_vectors 0).vec.replicated_across_communicator = false := by
  decide

/-- C24 (amended): after a call of `replicate_across_communicator` in which the vector
of the root is not empty (and which returns: allocation succeeds, no segment at
address 0, and the byte count of the broadcast of a trivially copyable `T` fits the
`int` it is passed as), `replicated_across_communicator` is `true` on every process
in a debug build, and in a release build it has the value it had before the call. -/
theorem replicated_flag_after_replicate (C : Communicator) (P : Platform)
    (E : ElementType T) (hash : List (ArchiveItem T) → Int) (root_process : Nat)
    (world : Nat → AlignedVector T) (r : Nat)
    (hroot : root_process < C.n_mpi_processes) (hr : r < C.n_mpi_processes)
    (hn : 0 < (world root_process).size)
    (hmem : (P.posix_memalign 64 ((world root_process).size * E.sizeof)).isSome = true)
    (hbase : ∀ x, x < C.n_mpi_processes →
      C.base_ptr x ((world root_process).size * E.sizeof + 63) ≠ 0) :
    ((E.is_trivially_copyable = true → E.sizeof * (world root_process).size < 2 ^ 31) →
      (replicate_across_communicator C P E hash root_process world r).thrown = none) ∧
    (P.running_in_debug_mode = true →
      (replicate_across_communicator C P E hash root_process world
        r).vec.replicated_across_communicator = true) ∧
    (P.running_in_debug_mode = false →
      (replicate_across_communicator C P E hash root_process world
        r).vec.replicated_across_communicator = (world r).replicated_across_communicator) := by
  obtain ⟨-, -, -, h6⟩ :=
    replicate_installed C P E hash root_process world r hroot hr hn hmem hbase
  refine ⟨fun hcount =>
    (replicate_ok C P E hash root_process world r hroot hr hn hmem hbase hcount).1, ?_, ?_⟩
  · intro hd
    rw [h6, hd]
    rfl
  · intro hd
    rw [h6, hd]
    rfl

/-- Witness for C24: process 1 of four after the replication of `[1, 2, 3]` from
process 0, in a debug build and in a release build. -/
theorem replicated_flag_after_replicate_witness :
    ((replicate_across_communicator two_nodes (serial_platform true) int32 sum_of_items 0
      four_vectors 1).thrown = none) ∧
    ((replicate_across_communicator two_nodes (serial_platform true) int32 sum_of_items 0
      four_vectors 1).vec.replicated_across_communicator = true) ∧
    ((replicate_across_communicator two_nodes (serial_platform false) int32 sum_of_items 0
      four_vectors 1).vec.replicated_across_communicator =
        (four_vectors 1).replicated_across_communicator) :=
  ⟨(replicated_flag_after_replicate two_nodes (serial_platform true) int32 sum_of_items 0
      four_vectors 1 (by decide) (by decide) (by decide) rfl
      (fun x _ => Nat.succ_ne_zero _)).1 (fun _ => by decide),
    (replicated_flag_after_replicate two_nodes (serial_platform true) int32 sum_of_items 0
      four_vectors 1 (by decide) (by decide) (by decide) rfl
      (fun x _ => Nat.succ_ne_zero _)).2.1 rfl,
    (replicated_flag_after_replicate two_nodes (serial_platform false) int32 sum_of_items 0
      four_vectors 1 (by decide) (by decide) (by decide) rfl
      (fun x _ => Nat.succ_ne_zero _)).2.2 rfl⟩

/-- C26 (as stated, refuted): `reserve(10)` on the replicated example vector, whose
deleter carries the shared-memory action, returns normally in a debug build and
leaves a deleter with the default action; so does `push_back(4)`, and so does
`reserve(10)` on the vector process 0 holds after a replication of `[1, 2, 3]`. -/
theorem shared_deleter_replaced_by_default :
    replicated_buffer.deleter.deleter_action_object ≠ none ∧
    (reserve (serial_platform true) int32 10 replicated_buffer).thrown = none ∧
    (reserve (serial_platform true) int32 10
      replicated_buffer).vec.deleter.deleter_action_object = none ∧
    (push_back (serial_platform true) int32 4 replicated_buffer).thrown = none ∧
    (push_back (serial_platform true) int32 4
      replicated_buffer).vec.deleter.deleter_action_object = none ∧
    (replicate_across_communicator two_nodes (serial_platform true) int32 sum_of_items 0
      four_vectors 0).vec.deleter.deleter_action_object ≠ none ∧
    (reserve (serial_platform true) int32 10
      (replicate_across_communicator two_nodes (serial_platform true) int32 sum_of_items 0
        four_vectors 0).vec).vec.deleter.deleter_action_object = none := by
  decide

/-- C26 (amended): a shared-memory deleter action stays with the block. A move hands
it to the vector that takes the block; `clear()`, a `resize` to a smaller non-zero
size and `reserve(n)` with `n <= capacity()` leave the deleter of the vector with
that action. A `reserve(n)` with `n > capacity()` that returns has released the
old block through the old deleter, and the deleter of the new block has the
default action. -/
theorem shared_deleter_transitions (P : Platform) (E : ElementType T)
    (v : AlignedVector T) (a : MPISharedMemDeleterAction)
    (h : v.deleter.deleter_action_object = some a) :
    (∀ B2 : AlignedVector T,
      (move_assignment E v B2).1.vec.deleter.deleter_action_object = some a) ∧
    (clear E v).vec.deleter.deleter_action_object = some a ∧
    (∀ n : Nat, 0 < n → n < v.size →
      (resize P E n v).vec.deleter.deleter_action_object = some a) ∧
    (∀ n : Nat, n ≤ v.capacity →
      (reserve P E n v).vec.deleter.deleter_action_object = some a) ∧
    (∀ n : Nat, v.capacity < n → (reserve P E n v).thrown = none →
      (reserve P E n v).vec.deleter.deleter_action_object = none ∧
      (reserve P E n v).events =
        (if v.elements ≠ 0 then a.delete_array E v.size v.elements else [])) := by
  refine ⟨?_, ?_, ?_, ?_, ?_⟩
  · intro B2
    simp [move_assignment, clear, Outcome.ok, h]
  · simp [clear, Outcome.ok, h]
  · intro n h0 hn
    have h1 : n ≠ 0 := by omega
    have h2 : n ≠ v.size := by omega
    unfold resize
    simp only [h1, h2, hn, if_false, if_true, resize_shrink, set_used_elements_end,
      Outcome.ok, h]
  · intro n hn
    unfold reserve
    have h1 : ¬ n > v.capacity := by omega
    simp only [h1, if_false]
    split
    · simp [clear, Outcome.ok, h]
    · simp [Outcome.ok, h]
  · intro n hn hret
    unfold reserve at hret ⊢
    simp only [gt_iff_lt, hn, if_true] at hret ⊢
    obtain ⟨h1, h2⟩ := allocate_and_move_returned_deleter P E _ _ _ v hret
    rw [h1, h2]
    refine ⟨rfl, ?_⟩
    simp only [release_events, Deleter.call, h, size]

/-- Witness for C26: the replicated example vector after `clear()` and after
`reserve(10)`. -/
theorem shared_deleter_transitions_witness :
    (clear int32 replicated_buffer).vec.deleter.deleter_action_object =
      replicated_buffer.deleter.deleter_action_object ∧
    (reserve (serial_platform true) int32 10
      replicated_buffer).vec.deleter.deleter_action_object = none ∧
    (reserve (serial_platform true) int32 10 replicated_buffer).events =
      [Event.MPI_Win_free 2, Event.free_communicator 1] :=
  ⟨(shared_deleter_transitions (serial_platform true) int32 replicated_buffer _ rfl).2.1,
    ((shared_deleter_transitions (serial_platform true) int32 replicated_buffer _ rfl).2.2.2.2
      10 (by decide) (by decide)).1,
    ((shared_deleter_transitions (serial_platform true) int32 replicated_buffer _ rfl).2.2.2.2
      10 (by decide) (by decide)).2⟩

/-- C27: in a segment of `n * s + 63` bytes that starts at address `b`, the call
`std::align(64, n * s, ptr, space)` of step 5 returns the first multiple `a` of 64
that is not below `b`; it satisfies `a - b <= 63` and `a + n * s <= b + n * s + 63`,
and `space` is left at `n * s + 63 - (a - b)`. For a segment that is not at address
0 the returned pointer is not null, so the assertion
`aligned_shmem_pointer != nullptr` holds. -/
theorem window_size_suffices (P : Platform) (b n s : Nat) :
    (std.align 64 (n * s) b (n * s + 63)).1 = (b + 63) / 64 * 64 ∧
    (std.align 64 (n * s) b (n * s + 63)).2.2 =
      n * s + 63 - ((std.align 64 (n * s) b (n * s + 63)).1 - b) ∧
    64 ∣ (std.align 64 (n * s) b (n * s + 63)).1 ∧
    b ≤ (std.align 64 (n * s) b (n * s + 63)).1 ∧
    (∀ m, 64 ∣ m → b ≤ m → (std.align 64 (n * s) b (n * s + 63)).1 ≤ m) ∧
    (std.align 64 (n * s) b (n * s + 63)).1 - b ≤ 63 ∧
    (std.align 64 (n * s) b (n * s + 63)).1 + n * s ≤ b + n * s + 63 ∧
    (b ≠ 0 →
      (std.align 64 (n * s) b (n * s + 63)).1 ≠ 0 ∧
      Assert P ((std.align 64 (n * s) b (n * s + 63)).1 != 0) Exc.ExcInternalError = none) := by
  obtain ⟨h1, h2, h3, h4⟩ := std.align_fits (n * s) b
  rw [h1]
  simp only
  refine ⟨trivial, trivial, h4, h2, ?_, h3, by omega, ?_⟩
  · intro m hm hb
    obtain ⟨k, rfl⟩ := hm
    omega
  · intro hb
    have hne : (b + 63) / 64 * 64 ≠ 0 := by omega
    exact ⟨hne, Assert_of_true P _ _ (by simpa using hne)⟩

/-- Witness for C27: three `int`s in a segment of 75 bytes at address 4104: the
aligned pointer is 4160, 56 bytes further, and 19 bytes remain. -/
theorem window_size_suffices_witness :
    (std.align 64 (3 * 4) 4104 (3 * 4 + 63)).1 = 4160 ∧
    (std.align 64 (3 * 4) 4104 (3 * 4 + 63)).2.2 = 19 ∧
    (std.align 64 (3 * 4) 4104 (3 * 4 + 63)).1 ≠ 0 ∧
    Assert (serial_platform true) ((std.align 64 (3 * 4) 4104 (3 * 4 + 63)).1 != 0)
      Exc.ExcInternalError = none :=
  ⟨(window_size_suffices (serial_platform true) 4104 3 4).1,
    (window_size_suffices (serial_platform true) 4104 3 4).2.1,
    ((window_size_suffices (serial_platform true) 4104 3 4).2.2.2.2.2.2.2 (by decide)).1,
    ((window_size_suffices (serial_platform true) 4104 3 4).2.2.2.2.2.2.2 (by decide)).2⟩

/-- C28: in a call of `replicate_across_communicator` that returns (the vector of the
root is not empty, the allocation succeeds, no process sees the segment at address
0), take the processes of one shared-memory group, `base_ptr` being the address at
which each sees the segment of `new_size * sizeof(T) + 63` bytes. If `std::align`
leaves the same `available_space` on all of them, each installs a data pointer that
is a multiple of 64; otherwise each installs its `base_ptr`. In both cases the data
pointer lies the same number of bytes behind `base_ptr` on all of them. -/
theorem alignment_consistency (C : Communicator) (P : Platform) (E : ElementType T)
    (hash : List (ArchiveItem T) → Int) (root_process : Nat)
    (world : Nat → AlignedVector T) (q : Nat)
    (hroot : root_process < C.n_mpi_processes) (hq : q < C.n_mpi_processes)
    (hn : 0 < (world root_process).size)
    (hmem : (P.posix_memalign 64 ((world root_process).size * E.sizeof)).isSome = true)
    (hbase : ∀ x, x < C.n_mpi_processes →
      C.base_ptr x ((world root_process).size * E.sizeof + 63) ≠ 0) :
    ((∀ x, x < C.n_mpi_processes →
        C.shmem_root root_process x = C.shmem_root root_process q →
        (std.align 64 ((world root_process).size * E.sizeof)
            (C.base_ptr x ((world root_process).size * E.sizeof + 63))
            ((world root_process).size * E.sizeof + 63)).2.2 =
          (std.align 64 ((world root_process).size * E.sizeof)
            (C.base_ptr q ((world root_process).size * E.sizeof + 63))
            ((world root_process).size * E.sizeof + 63)).2.2) →
      ∀ x, x < C.n_mpi_processes →
        C.shmem_root root_process x = C.shmem_root root_process q →
        64 ∣ (replicate_across_communicator C P E hash root_process world x).vec.data) ∧
    (¬ (∀ x, x < C.n_mpi_processes →
        C.shmem_root root_process x = C.shmem_root root_process q →
        (std.align 64 ((world root_process).size * E.sizeof)
            (C.base_ptr x ((world root_process).size * E.sizeof + 63))
            ((world root_process).size * E.sizeof + 63)).2.2 =
          (std.align 64 ((world root_process).size * E.sizeof)
            (C.base_ptr q ((world root_process).size * E.sizeof + 63))
            ((world root_process).size * E.sizeof + 63)).2.2) →
      ∀ x, x < C.n_mpi_processes →
        C.shmem_root root_process x = C.shmem_root root_process q →
        (replicate_across_communicator C P E hash root_process world x).vec.data =
          C.base_ptr x ((world root_process).size * E.sizeof + 63)) ∧
    (∀ x, x < C.n_mpi_processes →
      C.shmem_root root_process x = C.shmem_root root_process q →
      (replicate_across_communicator C P E hash root_process world x).vec.data -
          C.base_ptr x ((world root_process).size * E.sizeof + 63) =
        (replicate_across_communicator C P E hash root_process world q).vec.data -
          C.base_ptr q ((world root_process).size * E.sizeof + 63)) := by
  obtain ⟨wl, evl, hdl, hlen, -, -, -⟩ := distribute_shmem_root C P E root_process world
    (C.shmem_root root_process q) (C.shmem_root_idem root_process q) hn hmem
  have hsize : (replicate_across_communicator.distribute C P E root_process world
      (C.shmem_root root_process q)).vec.size = (world root_process).size := by
    rw [hdl]
    simp only [Outcome.ok, size, hlen]
  have hdata : ∀ x, x < C.n_mpi_processes →
      (replicate_across_communicator C P E hash root_process world x).vec.data =
        replicate_across_communicator.align C P E root_process world x := by
    intro x hx
    exact (replicate_installed C P E hash root_process world x hroot hx hn hmem hbase).2.1
  have hrem : ∀ x y : Nat,
      ((std.align 64 ((world root_process).size * E.sizeof)
          (C.base_ptr x ((world root_process).size * E.sizeof + 63))
          ((world root_process).size * E.sizeof + 63)).2.2 =
        (std.align 64 ((world root_process).size * E.sizeof)
          (C.base_ptr y ((world root_process).size * E.sizeof + 63))
          ((world root_process).size * E.sizeof + 63)).2.2) ↔
      ((C.base_ptr x ((world root_process).size * E.sizeof + 63) + 63) / 64 * 64 -
          C.base_ptr x ((world root_process).size * E.sizeof + 63) =
        (C.base_ptr y ((world root_process).size * E.sizeof + 63) + 63) / 64 * 64 -
          C.base_ptr y ((world root_process).size * E.sizeof + 63)) := by
    intro x y
    rw [(std.align_fits _ _).1, (std.align_fits _ _).1]
    simp only
    have h1 := (std.align_fits ((world root_process).size * E.sizeof)
      (C.base_ptr x ((world root_process).size * E.sizeof + 63))).2.2.1
    have h2 := (std.align_fits ((world root_process).size * E.sizeof)
      (C.base_ptr y ((world root_process).size * E.sizeof + 63))).2.2.1
    omega
  refine ⟨?_, ?_, ?_⟩
  · intro hall x hx hg
    rw [hdata x hx]
    have hx' := (align_value C P E root_process world x (by rw [hg]; exact hsize)).1
      (fun y hy hyg => by
        have h1 := (hrem y q).mp (hall y hy (by rw [hyg, hg]))
        have h2 := (hrem x q).mp (hall x hx hg)
        rw [h1, h2])
    rw [hx']
    exact Nat.dvd_mul_left _ _
  · intro hnot x hx hg
    rw [hdata x hx]
    exact (align_value C P E root_process world x (by rw [hg]; exact hsize)).2
      (fun hall => hnot (fun y hy hyg => by
        have h1 := hall y hy (by rw [hyg, hg])
        have h2 := hall q hq hg.symm
        exact (hrem y q).mpr (by rw [h1, h2])))
  · intro x hx hg
    rw [hdata x hx, hdata q hq]
    exact (align_offset C P E root_process world q x hq hx hg hsize).symm

/-- Witness for C28: `[1, 2, 3]` replicated from process 0 of four processes. Where
every process sees the segment 8 bytes behind a multiple of 64, process 1 installs
a multiple of 64, as far behind its `base_ptr` as process 0; where the remainders
differ, process 1 installs its `base_ptr`. -/
theorem alignment_consistency_witness :
    (64 ∣ (replicate_across_communicator two_nodes (serial_platform true) int32
      sum_of_items 0 four_vectors 1).vec.data) ∧
    ((replicate_across_communicator distorted_nodes (serial_platform true) int32
      sum_of_items 0 four_vectors 1).vec.data = distorted_nodes.base_ptr 1 75) ∧
    ((replicate_across_communicator two_nodes (serial_platform true) int32
        sum_of_items 0 four_vectors 1).vec.data - two_nodes.base_ptr 1 75 =
      (replicate_across_communicator two_nodes (serial_platform true) int32
        sum_of_items 0 four_vectors 0).vec.data - two_nodes.base_ptr 0 75) :=
  ⟨(alignment_consistency two_nodes (serial_platform true) int32 sum_of_items 0 four_vectors
      0 (by decide) (by decide) (by decide) rfl (fun x _ => Nat.succ_ne_zero _)).1
      (by decide) 1 (by decide) (by decide),
    (alignment_consistency distorted_nodes (serial_platform true) int32 sum_of_items 0
      four_vectors 0 (by decide) (by decide) (by decide) rfl
      (fun x _ => Nat.succ_ne_zero _)).2.1 (by decide) 1 (by decide) (by decide),
    (alignment_consistency two_nodes (serial_platform true) int32 sum_of_items 0 four_vectors
      0 (by decide) (by decide) (by decide) rfl (fun x _ => Nat.succ_ne_zero _)).2.2
      1 (by decide) (by decide)⟩

/-- C29: for an element type that is not trivially destructible, each `resize` to a
`new_size` with `0 < new_size < size()` calls the destructor once on each of the
elements `size() - 1`, `size() - 2`, ..., `new_size`, in this order, and makes no
other call; the deleter with the default action, called on a non-null pointer,
destroys the elements `size() - 1` down to `0` in this order and then frees the
block, and called on a null pointer it does nothing. -/
theorem destruction_order (P : Platform) (E : ElementType T)
    (hE : E.is_trivially_destructible = false) :
    (∀ (v : AlignedVector T) (n : Nat) (init : T), 0 < n → n < v.size →
      (resize P E n v).events =
        (List.range (v.size - n)).map
          (fun k => Event.destructor v.elements (v.size - 1 - k)) ∧
      (resize_value P E n init v).events =
        (List.range (v.size - n)).map
          (fun k => Event.destructor v.elements (v.size - 1 - k)) ∧
      (resize_fast P E n v).events =
        (List.range (v.size - n)).map
          (fun k => Event.destructor v.elements (v.size - 1 - k))) ∧
    (∀ owner used ptr : Nat, ptr ≠ 0 →
      Deleter.call E { deleter_action_object := none, owning_aligned_vector := owner }
          used ptr =
        (List.range used).map (fun k => Event.destructor ptr (used - 1 - k)) ++
          [Event.free ptr]) ∧
    (∀ owner used : Nat,
      Deleter.call E { deleter_action_object := none, owning_aligned_vector := owner }
          used 0 = []) := by
  refine ⟨?_, ?_, ?_⟩
  · intro v n init h0 hn
    have h1 : n ≠ 0 := by omega
    have h2 : n ≠ v.size := by omega
    refine ⟨?_, ?_, ?_⟩
    · unfold resize
      simp only [h1, h2, hn, if_false, if_true, resize_shrink, Outcome.ok, hE,
        destroy_backward_eq]
    · unfold resize_value
      simp only [h1, h2, hn, if_false, if_true, resize_shrink, Outcome.ok, hE,
        destroy_backward_eq]
    · unfold resize_fast
      simp only [h1, h2, hn, if_false, if_true, resize_shrink, Outcome.ok, hE,
        destroy_backward_eq]
  · intro owner used ptr hptr
    simp only [Deleter.call, hptr, ne_eq, not_false_eq_true, if_true, hE,
      destroy_backward_eq, Nat.sub_zero]
  · intro owner used
    simp [Deleter.call]

/-- Witness for C29: three objects resized to one (destructors on elements 2 and 1),
and a block of three released by the default deleter action. -/
theorem destruction_order_witness :
    counted.is_trivially_destructible = false ∧
    (resize (serial_platform true) counted 1 example_buffer).events =
      [Event.destructor 4096 2, Event.destructor 4096 1] ∧
    Deleter.call counted { deleter_action_object := none, owning_aligned_vector := 1000 }
        3 4096 =
      [Event.destructor 4096 2, Event.destructor 4096 1, Event.destructor 4096 0,
        Event.free 4096] :=
  ⟨rfl,
    ((destruction_order (serial_platform true) counted rfl).1 example_buffer 1 0
      (by decide) (by decide)).1,
    (destruction_order (serial_platform true) counted rfl).2.1 1000 3 4096 (by decide)⟩

/-- C30 (as stated, refuted): for `int` (`sizeof` 4) the grain threshold of the bulk
operations is `40001`, not `max(1, 160000 / 4) = 40000`, so an operation on 40000
elements is below the threshold of the code and not below the stated one. -/
theorem grain_size_is_one_more :
    internal.minimum_parallel_grain_size int32 = 40001 ∧
    max 1 (160000 / int32.sizeof) = 40000 ∧
    40000 < internal.minimum_parallel_grain_size int32 ∧
    ¬ (40000 < max 1 (160000 / int32.sizeof)) := by
  decide

/-- C30 (amended): the grain threshold of the four bulk operations is
`160000 / sizeof(T) + 1` (integer division), which is at least 1 and is one more
than `160000 / sizeof(T)`; an operation on `n` elements that passes its assertion
calls `apply_to_subrange(0, n)` directly when `n` is smaller than the threshold and
otherwise calls `apply_parallel(0, n, threshold)`. -/
theorem grain_size_formula (P : Platform) (E : ElementType T) :
    internal.minimum_parallel_grain_size E = 160000 / E.sizeof + 1 ∧
    1 ≤ internal.minimum_parallel_grain_size E ∧
    (∀ (raw_pointers : Bool) (source : List (Option T)) (ptr : Nat) (d : List (Option T)),
      source.length = 0 ∨ ptr ≠ 0 →
      internal.AlignedVectorCopyConstruct P E raw_pointers source ptr d =
        Except.ok (if source.length < 160000 / E.sizeof + 1 then
          internal.AlignedVectorCopyConstruct.apply_to_subrange E raw_pointers source 0
            source.length d
        else ParallelForInteger.apply_parallel P
          (internal.AlignedVectorCopyConstruct.apply_to_subrange E raw_pointers source) 0
          source.length (160000 / E.sizeof + 1) d) ∧
      internal.AlignedVectorMoveConstruct P E raw_pointers source ptr d =
        Except.ok (if source.length < 160000 / E.sizeof + 1 then
          internal.AlignedVectorMoveConstruct.apply_to_subrange E raw_pointers source 0
            source.length d
        else ParallelForInteger.apply_parallel P
          (internal.AlignedVectorMoveConstruct.apply_to_subrange E raw_pointers source) 0
          source.length (160000 / E.sizeof + 1) d)) ∧
    (∀ (initialize_memory : Bool) (n : Nat) (element : T) (ptr : Nat) (d : List (Option T)),
      0 < n → ptr ≠ 0 →
      internal.AlignedVectorInitialize P E initialize_memory n element ptr d =
        Except.ok (if n < 160000 / E.sizeof + 1 then
          internal.AlignedVectorInitialize.apply_to_subrange E initialize_memory element
            (if E.is_trivially_default_constructible && !E.is_long_double then
              E.memcmp_zero element else false) 0 n d
        else ParallelForInteger.apply_parallel P
          (internal.AlignedVectorInitialize.apply_to_subrange E initialize_memory element
            (if E.is_trivially_default_constructible && !E.is_long_double then
              E.memcmp_zero element else false)) 0 n (160000 / E.sizeof + 1) d) ∧
      internal.AlignedVectorDefaultInitialize P E initialize_memory n ptr d =
        Except.ok (if n < 160000 / E.sizeof + 1 then
          internal.AlignedVectorDefaultInitialize.apply_to_subrange E initialize_memory 0 n d
        else ParallelForInteger.apply_parallel P
          (internal.AlignedVectorDefaultInitialize.apply_to_subrange E initialize_memory) 0 n
          (160000 / E.sizeof + 1) d)) := by
  refine ⟨rfl, Nat.le_add_left 1 _, ?_, ?_⟩
  · intro raw_pointers source ptr d h
    have ha : Assert P (source.length == 0 || ptr != 0) Exc.ExcInternalError = none :=
      Assert_of_true P _ _ (by rcases h with h | h <;> simp [h])
    constructor
    · unfold internal.AlignedVectorCopyConstruct
      rw [ha]
      simp only [internal.minimum_parallel_grain_size]
      split <;> rfl
    · unfold internal.AlignedVectorMoveConstruct
      rw [ha]
      simp only [internal.minimum_parallel_grain_size]
      split <;> rfl
  · intro initialize_memory n element ptr d hn hptr
    have ha : Assert P (ptr != 0) Exc.ExcInternalError = none :=
      Assert_of_true P _ _ (by simp [hptr])
    have h0 : n ≠ 0 := by omega
    constructor
    · unfold internal.AlignedVectorInitialize
      simp only [h0, if_false, ha, internal.minimum_parallel_grain_size]
      split <;> rfl
    · unfold internal.AlignedVectorDefaultInitialize
      simp only [h0, if_false, ha, internal.minimum_parallel_grain_size]
      split <;> rfl

/-- Witness for C30: copying `[1, 2, 3]` of `int` is below the threshold `40001` and
is one call of `apply_to_subrange(0, 3)`. -/
theorem grain_size_formula_witness :
    internal.AlignedVectorCopyConstruct (serial_platform true) int32 true [some 1, some 2, some 3]
        4096 [none, none, none] =
      Except.ok (if 3 < 160000 / int32.sizeof + 1 then
        internal.AlignedVectorCopyConstruct.apply_to_subrange int32 true [some 1, some 2, some 3]
          0 3 [none, none, none]
      else ParallelForInteger.apply_parallel (serial_platform true)
        (internal.AlignedVectorCopyConstruct.apply_to_subrange int32 true [some 1, some 2, some 3])
        0 3 (160000 / int32.sizeof + 1) [none, none, none]) :=
  ((grain_size_formula (serial_platform true) int32).2.2.1 true [some 1, some 2, some 3]
    4096 [none, none, none] (Or.inr (by decide))).1

/-- C31: let `rs` be subranges `[lo, hi)` that lie in `[0, n)` and cover it, listed in
the order in which `apply_to_subrange` runs on them. After
`AlignedVectorCopyConstruct::apply_to_subrange` has run on each of them, slot `i`
of the destination holds what slot `i` of the source holds, for every `i < n`, and
every slot from `n` on is as it was; this is what the single call
`apply_to_subrange(0, n)` leaves. The same holds for
`AlignedVectorMoveConstruct::apply_to_subrange`. -/
theorem bulk_copy_partition_independent (E : ElementType T) (raw_pointers : Bool)
    (source : List (Option T)) (rs : List (Nat × Nat)) (n : Nat) (d : List (Option T))
    (hwithin : ∀ r ∈ rs, r.2 ≤ n)
    (hcover : ∀ i, i < n → ∃ r ∈ rs, r.1 ≤ i ∧ i < r.2) (hn : n ≤ d.length) :
    rs.foldl (fun acc r =>
        internal.AlignedVectorCopyConstruct.apply_to_subrange E raw_pointers source
          r.1 r.2 acc) d =
      (List.range n).map (fun i => source.getD i none) ++ d.drop n ∧
    internal.AlignedVectorCopyConstruct.apply_to_subrange E raw_pointers source 0 n d =
      (List.range n).map (fun i => source.getD i none) ++ d.drop n ∧
    rs.foldl (fun acc r =>
        internal.AlignedVectorMoveConstruct.apply_to_subrange E raw_pointers source
          r.1 r.2 acc) d =
      (List.range n).map (fun i => source.getD i none) ++ d.drop n ∧
    internal.AlignedVectorMoveConstruct.apply_to_subrange E raw_pointers source 0 n d =
      (List.range n).map (fun i => source.getD i none) ++ d.drop n := by
  rw [internal.apply_to_subrange_copy_eq, internal.apply_to_subrange_move_eq]
  exact ⟨foldl_write_subrange _ rs n d hwithin hcover hn, write_subrange_all _ n d hn,
    foldl_write_subrange _ rs n d hwithin hcover hn, write_subrange_all _ n d hn⟩

/-- Witness for C31: four `int`s copied into a block of five in the subranges
`[2, 4)`, `[0, 1)`, `[1, 2)`, in this order. -/
theorem bulk_copy_partition_independent_witness :
    [(2, 4), (0, 1), (1, 2)].foldl (fun acc r =>
        internal.AlignedVectorCopyConstruct.apply_to_subrange int32 true
          [some 1, some 2, some 3, some 4] r.1 r.2 acc) [none, none, none, none, some 9] =
      (List.range 4).map (fun i => [some 1, some 2, some 3, some (4 : Int)].getD i none) ++
        [none, none, none, none, some 9].drop 4 :=
  (bulk_copy_partition_independent int32 true [some 1, some 2, some 3, some 4]
    [(2, 4), (0, 1), (1, 2)] 4 [none, none, none, none, some 9] (by decide) (by decide)
    (by decide)).1

/-- C32: for a trivially default constructible element type,
`AlignedVectorInitialize(n, e, dst)` leaves `e` in every slot `i < n` and leaves the
slots from `n` on as they were. `apply_to_subrange` takes the `std::memset` path
exactly when `trivial_element` is set, which the constructor does exactly when the
bytes of `e` are all zero and `T` is not `long double`; on that path and on the
path of `copy_construct_or_assign` a subrange ends up holding `e`. -/
theorem zero_fast_path_agrees (P : Platform) (E : ElementType T)
    (hE : E.is_trivially_default_constructible = true) (initialize_memory : Bool)
    (e : T) :
    (∀ (n ptr : Nat) (d : List (Option T)), (n = 0 ∨ ptr ≠ 0) → n ≤ d.length →
      internal.AlignedVectorInitialize P E initialize_memory n e ptr d =
        Except.ok (List.replicate n (some e) ++ d.drop n)) ∧
    (∀ (b en : Nat) (d : List (Option T)),
      internal.AlignedVectorInitialize.apply_to_subrange E initialize_memory e true b en d =
        internal.memset E b (en - b) d ∧
      internal.AlignedVectorInitialize.apply_to_subrange E initialize_memory e false b en d =
        for_loop b en (fun i d => d.set i (some e)) d) ∧
    ((if E.is_trivially_default_constructible && !E.is_long_double then E.memcmp_zero e
      else false) = (E.memcmp_zero e && !E.is_long_double)) ∧
    (∀ (b en : Nat) (d : List (Option T)), E.memcmp_zero e = true →
      internal.memset E b (en - b) d = for_loop b en (fun i d => d.set i (some e)) d) := by
  refine ⟨?_, ?_, ?_, ?_⟩
  · intro n ptr d hptr hlen
    exact internal.AlignedVectorInitialize_ok P E initialize_memory n e ptr d hptr hlen
  · intro b en d
    constructor
    · simp [internal.AlignedVectorInitialize.apply_to_subrange, hE]
    · cases initialize_memory <;>
        simp [internal.AlignedVectorInitialize.apply_to_subrange]
  · rw [hE]
    cases E.is_long_double <;> simp
  · intro b en d hz
    rw [E.memcmp_zero_eq e hz]
    unfold internal.memset for_loop
    rw [Nat.add_sub_cancel_left]

/-- Witness for C32: three `int`s set to `0` and to `5` in a block of four. -/
theorem zero_fast_path_agrees_witness :
    int32.is_trivially_default_constructible = true ∧
    internal.AlignedVectorInitialize (serial_platform true) int32 true 3 0 4096
        [none, none, none, none] = Except.ok [some 0, some 0, some 0, none] ∧
    internal.AlignedVectorInitialize (serial_platform true) int32 true 3 5 4096
        [none, none, none, none] = Except.ok [some 5, some 5, some 5, none] :=
  ⟨rfl,
    (zero_fast_path_agrees (serial_platform true) int32 rfl true 0).1 3 4096
      [none, none, none, none] (Or.inr (by decide)) (by decide),
    (zero_fast_path_agrees (serial_platform true) int32 rfl true 5).1 3 4096
      [none, none, none, none] (Or.inr (by decide)) (by decide)⟩

/-- C33, the code at `B = B` with `B = [1, 2, 3]`: the assignment returns normally,
`size()` is 3 as before, and the three elements are indeterminate: `resize(0)`
released them, and the copy that follows reads the cleared object itself, so it
copies nothing. -/
theorem self_copy_assignment_loses_elements :
    example_buffer.live = [some 1, some 2, some 3] ∧
    (copy_assignment (serial_platform true) int32 Reference.self example_buffer).thrown
      = none ∧
    (copy_assignment (serial_platform true) int32 Reference.self example_buffer).vec.size
      = 3 ∧
    (copy_assignment (serial_platform true) int32 Reference.self example_buffer).vec.live
      = [none, none, none] ∧
    (copy_assignment (serial_platform true) int32 Reference.self example_buffer).events
      = [Event.free 4096] := by
  decide

/-- C34, the code at an empty `B` and `D = [1, 2, 3]`: `load` of what `save` wrote for
the empty vector returns normally and leaves the three elements of `D` in place,
so `D` does not compare equal to `B`. -/
theorem load_of_empty_archive_keeps_target :
    save (default_constructor 2000 : AlignedVector Int) [] = [ArchiveItem.size 0] ∧
    (load (serial_platform true) int32 (save (default_constructor 2000) [])
      example_buffer).1.thrown = none ∧
    (load (serial_platform true) int32 (save (default_constructor 2000) [])
      example_buffer).1.vec.live = [some 1, some 2, some 3] ∧
    operator_eq int32 (load (serial_platform true) int32 (save (default_constructor 2000) [])
      example_buffer).1.vec (default_constructor 2000) = false :=
  ⟨rfl, by decide⟩

/-- C35, the code at `A` the replicated example vector and `B = AlignedVector<int>(2, 9)`:
after `A.swap(B)`, `A` holds the block of `B` with the default deleter action and
still has `replicated_across_communicator == true`, and `B` holds the
shared-memory block with the flag `false`. The function, documented as swapping
the given vector with the calling vector, exchanges `elements`, then under the
comment "Now also swap the remaining members" `used_elements_end` and
`allocated_elements_end`: the remaining member `replicated_across_communicator`
is left out. -/
theorem swap_keeps_replicated_flags :
    replicated_buffer.replicated_across_communicator = true ∧
    two_nines.replicated_across_communicator = false ∧
    (swap two_nines replicated_buffer).1.live = two_nines.live ∧
    (swap two_nines replicated_buffer).1.deleter.deleter_action_object = none ∧
    (swap two_nines replicated_buffer).1.replicated_across_communicator = true ∧
    (swap two_nines replicated_buffer).2.deleter.deleter_action_object ≠ none ∧
    (swap two_nines replicated_buffer).2.replicated_across_communicator = false := by
  decide

/-- What `swap` does: `A.swap(B)` exchanges the elements, `size()`, `capacity()`, the
data pointer and the deleter action of the two vectors, and each deleter names the
vector that now holds it as owner; `replicated_across_communicator` is not
exchanged, each object keeps its own. When each deleter named its own vector
before, swapping twice restores both vectors. -/
theorem swap_contract (A B : AlignedVector T) :
    ((swap B A).1.live = B.live ∧ (swap B A).1.size = B.size ∧
      (swap B A).1.capacity = B.capacity ∧ (swap B A).1.data = B.data ∧
      (swap B A).1.deleter.deleter_action_object = B.deleter.deleter_action_object ∧
      (swap B A).1.deleter.owning_aligned_vector = A.this_ptr ∧
      (swap B A).1.this_ptr = A.this_ptr ∧
      (swap B A).1.replicated_across_communicator = A.replicated_across_communicator) ∧
    ((swap B A).2.live = A.live ∧ (swap B A).2.size = A.size ∧
      (swap B A).2.capacity = A.capacity ∧ (swap B A).2.data = A.data ∧
      (swap B A).2.deleter.deleter_action_object = A.deleter.deleter_action_object ∧
      (swap B A).2.deleter.owning_aligned_vector = B.this_ptr ∧
      (swap B A).2.this_ptr = B.this_ptr ∧
      (swap B A).2.replicated_across_communicator = B.replicated_across_communicator) ∧
    (A.deleter.owning_aligned_vector = A.this_ptr →
      B.deleter.owning_aligned_vector = B.this_ptr →
      swap (swap B A).2 (swap B A).1 = (A, B)) := by
  refine ⟨⟨rfl, rfl, rfl, rfl, rfl, rfl, rfl, rfl⟩, ⟨rfl, rfl, rfl, rfl, rfl, rfl, rfl, rfl⟩,
    ?_⟩
  intro hA hB
  cases A with
  | mk tA eA dA lA aA rA =>
    cases B with
    | mk tB eB dB lB aB rB =>
      cases dA
      cases dB
      simp only at hA hB
      subst hA
      subst hB
      rfl

/-- The replicated example vector and `AlignedVector<int>(2, 9)` swapped twice. -/
theorem swap_contract_witness :
    replicated_buffer.deleter.owning_aligned_vector = replicated_buffer.this_ptr ∧
    two_nines.deleter.owning_aligned_vector = two_nines.this_ptr ∧
    swap (swap two_nines replicated_buffer).2 (swap two_nines replicated_buffer).1 =
      (replicated_buffer, two_nines) :=
  ⟨by decide, by decide,
    (swap_contract replicated_buffer two_nines).2.2 (by decide) (by decide)⟩

/-- C36 (as stated, refuted): `insert_back` with an empty range on an empty vector
with room for four elements returns normally and leaves `capacity() == 0` and a
null data pointer. -/
theorem empty_insert_back_releases_storage :
    reserved_buffer.size = 0 ∧ reserved_buffer.capacity = 4 ∧
    (insert_back (serial_platform true) int32 [] reserved_buffer).thrown = none ∧
    (insert_back (serial_platform true) int32 [] reserved_buffer).vec.capacity = 0 ∧
    (insert_back (serial_platform true) int32 [] reserved_buffer).vec.data = 0 := by
  decide

/-- C36 (amended): on a vector with `size() <= capacity()`, `insert_back` with an empty
range returns normally and leaves the elements and `size()` as they were. When the
vector is not empty nothing changes at all, and no call is made; when it is empty
the call is `clear()`: storage it held is released and `capacity()` is 0
afterwards. -/
theorem insert_back_of_empty_range (P : Platform) (E : ElementType T)
    (v : AlignedVector T) (hinv : v.size ≤ v.capacity) :
    (insert_back P E [] v).thrown = none ∧
    (insert_back P E [] v).vec.live = v.live ∧
    (insert_back P E [] v).vec.size = v.size ∧
    (0 < v.size → insert_back P E [] v = Outcome.ok v []) ∧
    (v.size = 0 →
      (insert_back P E [] v).vec = (clear E v).vec ∧
      (insert_back P E [] v).events = release_events E v ∧
      (insert_back P E [] v).vec.capacity = 0 ∧
      (insert_back P E [] v).vec.data = 0) := by
  by_cases h0 : v.size = 0
  · have hl : v.live = [] := List.length_eq_zero.mp h0
    have key : insert_back P E [] v = Outcome.ok (clear E v).vec (release_events E v) := by
      unfold insert_back
      simp only [List.length_nil, Nat.add_zero, h0, reserve_zero, List.foldl_nil]
      simp [clear, Outcome.ok, Outcome.andThen]
    rw [key]
    refine ⟨rfl, ?_, ?_, fun h => absurd h0 (by omega), fun _ => ⟨rfl, rfl, rfl, rfl⟩⟩
    · simp [clear, Outcome.ok, hl]
    · simp [clear, Outcome.ok, size, hl]
  · have key : insert_back P E [] v = Outcome.ok v [] := by
      unfold insert_back
      simp only [List.length_nil, Nat.add_zero, List.foldl_nil]
      rw [reserve_noop P E _ v (by omega) hinv, Outcome.ok_andThen]
      simp [Outcome.ok]
    rw [key]
    exact ⟨rfl, rfl, rfl, fun _ => rfl, fun h => absurd h h0⟩

/-- Witness for C36: an empty range appended to `[1, 2, 3]` in a block of four. -/
theorem insert_back_of_empty_range_witness :
    example_buffer.size ≤ example_buffer.capacity ∧ 0 < example_buffer.size ∧
    insert_back (serial_platform true) int32 [] example_buffer =
      Outcome.ok example_buffer [] :=
  ⟨by decide, by decide,
    (insert_back_of_empty_range (serial_platform true) int32 example_buffer
      (by decide)).2.2.2.1 (by decide)⟩

end AlignedVector

namespace SparsityPattern

/-- C37 (as stated, refuted): in a debug build, `add_entries(0, begin, end, true)` with
the sorted range `{0, 1}` on the pattern of `SparsityPattern(2, 3, {1, 1})`, whose
row 0 is the one slot `colnums[0]` (`rowstart` is `{0, 1, 2}`), returns without an
exception after two stores: to `colnums[0]` and, when row 0 has no free slot left, to
`colnums[1] = colnums[rowstart[1]]`, the slot of row 1. The calls `add(0, 0)`,
`add(0, 1)` on the same pattern raise `ExcNotEnoughSpace(0, 1)` after the first
store. -/
theorem add_entries_stores_past_the_row :
    two_rows.rowstart = some [0, 1, 2] ∧
    two_rows.colnums = some [4294967295, 4294967295] ∧
    (add_entries (serial_platform true) standard_declarations 0 [0, 1] true
      two_rows).thrown = none ∧
    (add_entries (serial_platform true) standard_declarations 0 [0, 1] true
      two_rows).stored = [0, 1] ∧
    ¬ (1 < two_rows.rowstart_at (0 + 1)) ∧
    (add_entries (serial_platform true) standard_declarations 0 [0, 1] true
      two_rows).pattern.row_slots 1 = [1] ∧
    (add_each (serial_platform true) standard_declarations 0 [0, 1] two_rows).thrown =
      some (Exc.ExcNotEnoughSpace 0 1) ∧
    (add_each (serial_platform true) standard_declarations 0 [0, 1] two_rows).stored = [0] := by
  decide

/-- C38: on an uncompressed pattern as `reinit` leaves it and `add` keeps it (in each
row the column indices come before the free slots and are distinct, and a square
pattern has the diagonal entry first), `compress()` returns without an exception in
every build, so that each of its assertions holds, and leaves the pattern
compressed with the same rows and columns; each row holds the column indices it
held, and nothing else; no slot below `rowstart[rows]` holds `invalid_entry`; each
row is in strictly ascending order, after the diagonal entry, which stays first, in
a square pattern; `rowstart[rows]`, the size of `colnums` and `max_vec_len` are the
number of column indices the pattern held; and a second `compress()` changes
nothing. -/
theorem compress_contract (P : Platform) (H : Declarations) (sp : SparsityPattern)
    (hu : Uncompressed H sp) :
    (compress P H sp).thrown = none ∧
    (compress P H sp).pattern.compressed = true ∧
    (compress P H sp).pattern.rows = sp.rows ∧
    (compress P H sp).pattern.cols = sp.cols ∧
    (compress P H sp).pattern.store_diagonal_first_in_row = sp.store_diagonal_first_in_row ∧
    (∀ i, i < sp.rows →
      (row_slots (compress P H sp).pattern i).Perm (row_entries H sp i) ∧
      row_entries H (compress P H sp).pattern i = row_slots (compress P H sp).pattern i) ∧
    (∀ k, k < (compress P H sp).pattern.rowstart_at sp.rows →
      (compress P H sp).pattern.colnums_at k ≠ H.invalid_entry) ∧
    (∀ i, i < sp.rows →
      ((row_slots (compress P H sp).pattern i).drop
        (if sp.store_diagonal_first_in_row then 1 else 0)).Pairwise (fun x y => x < y)) ∧
    (sp.store_diagonal_first_in_row = true → ∀ i, i < sp.rows →
      (row_slots (compress P H sp).pattern i).head? = some i) ∧
    (compress P H sp).pattern.rowstart_at 0 = 0 ∧
    (compress P H sp).pattern.rowstart_at sp.rows = n_valid_entries H sp ∧
    (∃ colnums, (compress P H sp).pattern.colnums = some colnums ∧
      colnums.length = n_valid_entries H sp) ∧
    (compress P H sp).pattern.max_vec_len = n_valid_entries H sp ∧
    compress P H (compress P H sp).pattern =
      { thrown := none, pattern := (compress P H sp).pattern, stored := [] } := by
  obtain ⟨rs, hrs, _⟩ := hu.rowstart_size
  obtain ⟨cs, hcs, _⟩ := hu.colnums_size
  obtain ⟨h1, _, h3, h4, h5, h6, h7⟩ := hu.compress_fields P
  have hslots := hu.compress_row_slots P
  have hN := hu.n_valid_entries_eq rs cs hrs hcs
  refine ⟨h1, h3, h4, h5, h6, ?_, hu.compress_colnums_valid P, ?_, ?_, ?_, ?_, ?_, h7,
    compress_of_compressed P H _ h3⟩
  · intro i hi
    rw [hslots i hi]
    refine ⟨sorted_row_perm H _ _, ?_⟩
    have e : row_entries H (compress P H sp).pattern i =
        (row_slots (compress P H sp).pattern i).filter (fun col => col != H.invalid_entry) :=
      rfl
    rw [e, hslots i hi, List.filter_eq_self]
    intro x hx
    rw [(sorted_row_perm H _ _).mem_iff] at hx
    unfold row_entries at hx
    rw [List.mem_filter] at hx
    exact hx.2
  · intro i hi
    rw [hslots i hi]
    exact sorted_row_ascending H _ _ (hu.row_entries_nodup i hi)
  · intro hsd i hi
    rw [hslots i hi, hsd, sorted_row_head]
    exact hu.row_entries_head hsd i hi
  · rw [hu.compress_rowstart_at P rs cs hrs hcs 0 (Nat.zero_le _)]
    rfl
  · rw [hu.compress_rowstart_at P rs cs hrs hcs sp.rows (Nat.le_refl _), hN]
  · exact ⟨_, hu.compress_colnums P rs cs hrs hcs, hN.symm⟩

/-- Witness for C38: `compress()` on the square pattern with the rows `{0, 2, 1}`,
`{1, 2, 0}` and `{2, 1}` and one free slot. -/
theorem compress_contract_witness :
    Uncompressed standard_declarations square_pattern ∧
    (compress (serial_platform true) standard_declarations square_pattern).thrown = none ∧
    (compress (serial_platform true) standard_declarations
      square_pattern).pattern.compressed = true :=
  ⟨square_pattern_uncompressed,
    (compress_contract (serial_platform true) standard_declarations square_pattern
      square_pattern_uncompressed).1,
    (compress_contract (serial_platform true) standard_declarations square_pattern
      square_pattern_uncompressed).2.1⟩

/-- C39: on a compressed pattern whose global indices are all below `invalid_entry`,
and for `i < n_rows()` and `j < n_cols()`, `operator()(i, j)` and `exists(i, j)` both
return without an exception in every build, `operator()(i, j)` returns a value
other than `invalid_entry` exactly when `exists(i, j)` returns true, and that value
`k` then satisfies `rowstart[i] <= k < rowstart[i + 1]` and `colnums[k] == j`. -/
theorem operator_call_iff_exists (P : Platform) (H : Declarations) (sp : SparsityPattern)
    (i j : Nat) (hc : Compressed sp) (hinv : sp.rowstart_at sp.rows ≤ H.invalid_entry)
    (hi : i < sp.rows) (hj : j < sp.cols) :
    ∃ k b, operator_call P H i j sp = Except.ok k ∧
      SparsityPattern.exists P i j sp = Except.ok b ∧
      (k ≠ H.invalid_entry ↔ b = true) ∧
      (k ≠ H.invalid_entry →
        sp.rowstart_at i ≤ k ∧ k < sp.rowstart_at (i + 1) ∧ sp.colnums_at k = j) := by
  obtain ⟨rs, hrs, _⟩ := hc.rowstart_size
  obtain ⟨cs, hcs, _⟩ := hc.colnums_size
  obtain ⟨b, hb1, hb2⟩ := exists_member_eq P sp i j (by simp [hrs]) (by simp [hcs]) hi hj
  have hlast := mono_chain sp.rowstart_at sp.rows hc.rowstart_mono sp.rows (i + 1) (by omega)
    (Nat.le_refl _)
  rcases hc.operator_call_eq P H i j hi hj with ⟨k, hk1, hk2, hk3, hk4⟩ | ⟨hk1, hk2⟩
  · have hne : k ≠ H.invalid_entry := by omega
    exact ⟨k, b, hk1, hb1, ⟨fun _ => hb2.mpr ⟨k, hk2, hk3, hk4⟩, fun _ => hne⟩,
      fun _ => ⟨hk2, hk3, hk4⟩⟩
  · refine ⟨H.invalid_entry, b, hk1, hb1, ⟨fun h => absurd rfl h, fun h => ?_⟩,
      fun h => absurd rfl h⟩
    exact absurd (hb2.mp h) hk2

/-- Witness for C39: the entry `(2, 3)` of the compressed rectangular pattern, found at
the global index 3. -/
theorem operator_call_iff_exists_witness :
    Compressed compressed_rectangular ∧
    compressed_rectangular.rowstart_at compressed_rectangular.rows ≤
      standard_declarations.invalid_entry ∧
    ∃ k b, operator_call (serial_platform true) standard_declarations 2 3
        compressed_rectangular = Except.ok k ∧
      SparsityPattern.exists (serial_platform true) 2 3 compressed_rectangular = Except.ok b ∧
      (k ≠ standard_declarations.invalid_entry ↔ b = true) ∧
      (k ≠ standard_declarations.invalid_entry →
        compressed_rectangular.rowstart_at 2 ≤ k ∧
        k < compressed_rectangular.rowstart_at (2 + 1) ∧
        compressed_rectangular.colnums_at k = 3) :=
  ⟨compressed_rectangular_compressed, by decide,
    operator_call_iff_exists (serial_platform true) standard_declarations
      compressed_rectangular 2 3 compressed_rectangular_compressed (by decide) (by decide)
      (by decide)⟩

end SparsityPattern

end dealii
